import Mathlib

/-!
# Labeled numeric tables (dwtools/TableOfReal_extensions.cpp)

A shallow embedding of the label-aware table routines of
`dwtools/TableOfReal_extensions.cpp`.

* A `TableOfReal` owns a 1-based dense matrix and two 1-based vectors of
  nullable strings.  Arrays are embedded as total functions from indices,
  an assignment `a [i] = x` is a pointwise update, and the sizes live in
  the fields next to them, as in the C++ objects.
* A counted `for` loop is `forLoop lo hi body`; a loop whose body can throw
  is `forLoopM`.
* `Melder_require` failures are values of `MelderError`; a routine with a
  `try` block returns `Except MelderError _`.
* The cell type is a parameter `α`.  The routines below only move cells
  around or hand them to numeric kernels that are parameters of the
  development, so every statement holds for any cell type.
-/

namespace Praat

/-! ## Control structure -/

/-- Runs `body i` for `n` consecutive values of the counter, starting at `i`. -/
def forLoopAux {σ : Type} (body : Nat → σ → σ) : Nat → Nat → σ → σ
  | 0, _, s => s
  | n + 1, i, s => forLoopAux body n (i + 1) (body i s)

/-- The loop `for (integer i = lo; i <= hi; i ++) body`. -/
def forLoop {σ : Type} (lo hi : Nat) (body : Nat → σ → σ) (s : σ) : σ :=
  forLoopAux body (hi + 1 - lo) lo s

/-- Runs a throwing `body i` for `n` consecutive counter values; the first
exception ends the loop. -/
def forLoopMAux {ε σ : Type} (body : Nat → σ → Except ε σ) : Nat → Nat → σ → Except ε σ
  | 0, _, s => .ok s
  | n + 1, i, s =>
    match body i s with
    | .error e => .error e
    | .ok t => forLoopMAux body n (i + 1) t

/-- The loop `for (integer i = lo; i <= hi; i ++) body` with a body that can throw. -/
def forLoopM {ε σ : Type} (lo hi : Nat) (body : Nat → σ → Except ε σ) (s : σ) : Except ε σ :=
  forLoopMAux body (hi + 1 - lo) lo s

/-! ## Errors -/

/-- The `Melder_require` failures of the routines embedded here, one
constructor per message. -/
inductive MelderError
  /-- The message "No labels to sort" of TableOfReal_sortRowsByIndex. -/
  | noLabelsToSort
  /-- The message "One or more indices out of range". -/
  | indicesOutOfRange
  /-- The message "The dimensions do not fit." of TableOfReal_copyOneRowWithLabel. -/
  | dimensionsDoNotFit
  /-- The message "The numbers of rows should be equal." of TableOfReal_appendColumns. -/
  | rowsNotEqual
  /-- The message "No tables selected." of TableOfRealList_appendColumnsMany. -/
  | noTablesSelected
  /-- The message "Numbers of rows in item itab differs from previous." -/
  | rowsDiffer (itab : Nat)
  /-- The failure IndexOutOfRange of §4.1 of setting a label outside the table. -/
  | indexOutOfRange
  /-- The message "Dimensions or labels differ for table i." of TableOfRealList_sum. -/
  | tablesDiffer (i : Nat)
  /-- The message "Both tables should have the same number of columns." -/
  | columnCountsDiffer
  /-- The message "Both tables should have the same number of rows." -/
  | rowCountsDiffer
  /-- The message "The table should be a square symmetric table." -/
  | notSquare
  /-- The message "dpotf2 fails" of TableOfReal_choleskyDecomposition. -/
  | dpotf2Fails
  /-- The message "dtrtri fails" of TableOfReal_choleskyDecomposition. -/
  | dtrtriFails
  /-- The message "Invalid column number." of TableOfReal_getColumnExtrema. -/
  | invalidColumnNumber
  /-- The message "Row number not in valid range." of TableOfReal_getRowSum. -/
  | rowNumberNotInRange
  /-- The message "Column number not in valid range." of TableOfReal_getColumnSum. -/
  | columnNumberNotInRange
  /-- The message "There is no ... column label." of TableOfReal_getColumnSumByLabel. -/
  | noSuchColumnLabel
  /-- The message "There is no ... row label." of TableOfReal_getRowSumByLabel. -/
  | noSuchRowLabel
  /-- An exception thrown by a routine outside the sources at hand. -/
  | external (message : String)
  deriving DecidableEq, Repr

/-! ## Data model -/

/-- Assignment `v [i] = x` on a 1-based vector. -/
def setElem {β : Type} (v : Nat → β) (i : Nat) (x : β) : Nat → β :=
  fun k => if k = i then x else v k

/-- Assignment `a [i] [j] = x` on a 1-based matrix. -/
def setCell {β : Type} (a : Nat → Nat → β) (i j : Nat) (x : β) : Nat → Nat → β :=
  fun r c => if r = i ∧ c = j then x else a r c

/-- The owning vector of nullable strings (`autostring32vector`): `size`
elements at indices `1..size`, each a string or null (`none`).  The null
vector, which is also what a moved-from vector is, has size 0. -/
structure autostring32vector where
  size : Nat
  elems : Nat → Option String

/-- The statement `our [i] = Melder_dup (x)`; `Melder_dup` of a null string is null. -/
def autostring32vector.set (our : autostring32vector) (i : Nat) (x : Option String) :
    autostring32vector :=
  { our with elems := setElem our.elems i x }

/-- Modelled from the spec: the string-vector class is declared outside the
sources at hand; `copyElementsFrom` duplicates the elements of `source`
one by one into `our`, absent labels staying absent (§4.1 copy, §4.5). -/
def autostring32vector.copyElementsFrom (our source : autostring32vector) :
    autostring32vector :=
  forLoop 1 source.size (fun i v => v.set i (source.elems i)) our

/-- Modelled from the spec: `copyElementsFrom_upTo` duplicates the first
`upTo` elements of `source` into `our` (§4.5, column labels of an append). -/
def autostring32vector.copyElementsFrom_upTo (our source : autostring32vector) (upTo : Nat) :
    autostring32vector :=
  forLoop 1 upTo (fun i v => v.set i (source.elems i)) our

/-- The labeled numeric table: `data [1..numberOfRows] [1..numberOfColumns]`
with a row-label and a column-label vector. -/
structure TableOfReal (α : Type) where
  numberOfRows : Nat
  numberOfColumns : Nat
  data : Nat → Nat → α
  rowLabels : autostring32vector
  columnLabels : autostring32vector

variable {α : Type}

/-- The invariant of §3: the label vectors are sized to the dimensions. -/
def TableOfReal.WF (me : TableOfReal α) : Prop :=
  me.rowLabels.size = me.numberOfRows ∧ me.columnLabels.size = me.numberOfColumns

instance (me : TableOfReal α) : Decidable me.WF := by
  unfold TableOfReal.WF; infer_instance

/-- Two label vectors hold the same labels: same size, same element (a
string or absent) at every index. -/
def SameLabels (v w : autostring32vector) : Prop :=
  v.size = w.size ∧ ∀ i, 1 ≤ i → i ≤ v.size → v.elems i = w.elems i

/-- Two tables are the same table: same dimensions, same data in every
cell, same row labels and same column labels. -/
def SameTable (A B : TableOfReal α) : Prop :=
  A.numberOfRows = B.numberOfRows ∧ A.numberOfColumns = B.numberOfColumns ∧
  (∀ i j, 1 ≤ i → i ≤ A.numberOfRows → 1 ≤ j → j ≤ A.numberOfColumns →
    A.data i j = B.data i j) ∧
  SameLabels A.rowLabels B.rowLabels ∧ SameLabels A.columnLabels B.columnLabels

/-- Modelled from the spec: `TableOfReal_create` is defined outside the
sources at hand; §4.1 create(rows, cols) is a zero-filled table with absent
labels, both label vectors sized to the dimensions. -/
def TableOfReal_create [Zero α] (numberOfRows numberOfColumns : Nat) : TableOfReal α :=
  { numberOfRows := numberOfRows
    numberOfColumns := numberOfColumns
    data := fun _ _ => 0
    rowLabels := ⟨numberOfRows, fun _ => none⟩
    columnLabels := ⟨numberOfColumns, fun _ => none⟩ }

/-! ## Structural transforms -/

/-- The routine `TableOfReal_transpose`. -/
def TableOfReal_transpose [Zero α] (me : TableOfReal α) : TableOfReal α :=
  let thee : TableOfReal α := TableOfReal_create me.numberOfColumns me.numberOfRows
  let thee : TableOfReal α :=
    { thee with data := forLoop 1 me.numberOfRows (fun i d =>
        forLoop 1 me.numberOfColumns (fun j d => setCell d j i (me.data i j)) d) thee.data }
  let thee : TableOfReal α :=
    { thee with columnLabels := thee.columnLabels.copyElementsFrom me.rowLabels }
  let thee : TableOfReal α :=
    { thee with rowLabels := thee.rowLabels.copyElementsFrom me.columnLabels }
  thee

/-- Assignment of a whole row: after it row `i` of the matrix is `row`. -/
def setRow {β : Type} (a : Nat → Nat → β) (i : Nat) (row : Nat → β) : Nat → Nat → β :=
  fun r => if r = i then row else a r

/-- Modelled from the spec: `NUMvector_copyElements (v, to, lo, hi)` is
defined outside the sources at hand; it copies the elements `lo..hi` of `v`
to the same indices of `to`.  The destination may be a pointer into a row,
`& row [off]`, whose element `k` is `row [off + k]`; `off = 0` is the row
itself. -/
def NUMvector_copyElements {β : Type} (v : Nat → β) (row : Nat → β) (off lo hi : Nat) :
    Nat → β :=
  forLoop lo hi (fun k t => setElem t (off + k) (v k)) row

/-- Modelled from the spec: `NUMvector_extrema (v, lo, hi, & min, & max)` is
defined outside the sources at hand; a linear scan for the smallest and the
largest element of `v [lo..hi]`. -/
def NUMvector_extrema (v : Nat → Nat) (lo hi : Nat) : Nat × Nat :=
  forLoop (lo + 1) hi (fun i (m : Nat × Nat) =>
    (if v i < m.1 then v i else m.1, if v i > m.2 then v i else m.2)) (v lo, v lo)

/-- The text of a label slot: an absent label reads as the empty text. -/
def labelText (a : Option String) : String := a.getD ""

/-- Modelled from the spec: `Melder_equ` is defined outside the sources at
hand; equality of two labels as texts, an absent label being treated as
equivalent to the empty text (§3). -/
def Melder_equ (a b : Option String) : Bool := labelText a == labelText b

/-- Modelled from the spec: `Melder_cmp` is defined outside the sources at
hand; three-way lexicographic comparison of two labels as texts (§4.3
step 1), an absent label being treated as the empty text (§3). -/
def Melder_cmp (a b : Option String) : Int :=
  if labelText a = labelText b then 0
  else if (labelText a).toList < (labelText b).toList then -1 else 1

/-- The order in which labels are sorted: `Melder_cmp (a, b) <= 0`. -/
def labelLE (a b : Option String) : Prop := (labelText a).toList ≤ (labelText b).toList

instance (a b : Option String) : Decidable (labelLE a b) := by
  unfold labelLE; infer_instance

/-- Modelled from the spec: `TableOfReal_setRowLabel` is defined outside the
sources at hand; §4.1: replaces the label at index `i`, and fails with
IndexOutOfRange when `i` is outside `1..numberOfRows`. -/
def TableOfReal_setRowLabel (me : TableOfReal α) (i : Nat) (label : Option String) :
    Except MelderError (TableOfReal α) :=
  if i < 1 ∨ i > me.numberOfRows then .error .indexOutOfRange
  else .ok { me with rowLabels := me.rowLabels.set i label }

/-- Modelled from the spec: `TableOfReal_setColumnLabel` is defined outside
the sources at hand; §4.1: replaces the label at index `i`, and fails with
IndexOutOfRange when `i` is outside `1..numberOfColumns`. -/
def TableOfReal_setColumnLabel (me : TableOfReal α) (i : Nat) (label : Option String) :
    Except MelderError (TableOfReal α) :=
  if i < 1 ∨ i > me.numberOfColumns then .error .indexOutOfRange
  else .ok { me with columnLabels := me.columnLabels.set i label }

/-- The routine `TableOfReal_copyOneRowWithLabel (me, thee, myrow, thyrow)`;
the result is `thee` after the call.  `same` is the pointer test
`me == thee`; when it holds the caller passes the same table twice. -/
def TableOfReal_copyOneRowWithLabel (me thee : TableOfReal α) (same : Bool)
    (myrow thyrow : Nat) : Except MelderError (TableOfReal α) :=
  if same = true ∧ myrow = thyrow then .ok thee
  else if ¬ (myrow > 0 ∧ myrow ≤ me.numberOfRows ∧ thyrow > 0 ∧ thyrow ≤ thee.numberOfRows
      ∧ me.numberOfColumns = thee.numberOfColumns) then .error .dimensionsDoNotFit
  else
    let thee : TableOfReal α :=
      { thee with rowLabels := thee.rowLabels.set thyrow (me.rowLabels.elems myrow) }
    -- the row pointers my data [myrow] and thy data [thyrow] differ here: the
    -- same row of the same table has returned above
    let row := NUMvector_copyElements (me.data myrow) (thee.data thyrow) 0 1 me.numberOfColumns
    .ok { thee with data := setRow thee.data thyrow row }

/-- The routine `TableOfReal_sortRowsByIndex`.  The test `my rowLabels` is
the null test of the label vector. -/
def TableOfReal_sortRowsByIndex [Zero α] (me : TableOfReal α) (index : Nat → Nat)
    (reverse : Bool) : Except MelderError (TableOfReal α) :=
  if me.rowLabels.size = 0 then .error .noLabelsToSort
  else
    let mm := NUMvector_extrema index 1 me.numberOfRows
    if ¬ (mm.1 > 0 ∧ mm.1 ≤ me.numberOfRows ∧ mm.2 > 0 ∧ mm.2 ≤ me.numberOfRows) then
      .error .indicesOutOfRange
    else
      let thee : TableOfReal α := TableOfReal_create me.numberOfRows me.numberOfColumns
      let thee := forLoop 1 me.numberOfRows (fun i (thee : TableOfReal α) =>
        let myindex := if reverse then i else index i
        let thyindex := if reverse then index i else i
        let mylabel := me.rowLabels.elems myindex
        let thee : TableOfReal α := { thee with rowLabels := thee.rowLabels.set i mylabel }
        { thee with data := forLoop 1 me.numberOfColumns (fun j d =>
            setCell d thyindex j (me.data myindex j)) thee.data }) thee
      .ok { thee with columnLabels := thee.columnLabels.copyElementsFrom me.columnLabels }

/-! ## Grouping by row label -/

/-- The numeric and sorting kernels that the grouping routines call and that
are defined outside the sources at hand. -/
structure Numerics (α : Type) where
  /-- `NUMindexx_s (v)`: the index vector that sorts the strings of `v`. -/
  NUMindexx_s : autostring32vector → Nat → Nat
  /-- The mean of a column block, as `NUMaverageColumns` computes it. -/
  mean : List α → α
  /-- `VECsort_inplace`: the vector sorted in ascending order. -/
  VECsort_inplace : List α → List α
  /-- `NUMquantile (v, 0.5)` of an ascending vector. -/
  NUMquantile_half : List α → α

/-- The routine `TableOfReal_getSortedIndexFromRowLabels`. -/
def TableOfReal_getSortedIndexFromRowLabels (N : Numerics α) (me : TableOfReal α) : Nat → Nat :=
  N.NUMindexx_s me.rowLabels

/-- The cells `a [rb..re] [j]` of one column block, top to bottom. -/
def columnBlock (a : Nat → Nat → α) (rb re j : Nat) : List α :=
  (List.range' rb (re + 1 - rb)).map (fun i => a i j)

/-- Modelled from the spec: `NUMaverageColumns` is defined outside the
sources at hand; §4.3 step 3: for each column `cb..ce` the mean of the rows
`rb..re` is written into every row of the block. -/
def NUMaverageColumns (N : Numerics α) (a : Nat → Nat → α) (rb re cb ce : Nat) :
    Nat → Nat → α :=
  forLoop cb ce (fun j a =>
    let ave := N.mean (columnBlock a rb re j)
    forLoop rb re (fun i a => setCell a i j ave) a) a

/-- The routine `NUMmedianizeColumns`; `tmp` is the copy of the column block. -/
def NUMmedianizeColumns (N : Numerics α) (a : Nat → Nat → α) (rb re cb ce : Nat) :
    Nat → Nat → α :=
  if re + 1 - rb < 2 then a
  else
    forLoop cb ce (fun j a =>
      let tmp := columnBlock a rb re j
      let median := N.NUMquantile_half (N.VECsort_inplace tmp)
      forLoop rb re (fun i a => setCell a i j median) a) a

/-- The routine `NUMstatsColumns`. -/
def NUMstatsColumns (N : Numerics α) (a : Nat → Nat → α) (rb re cb ce : Nat)
    (useMedians : Bool) : Nat → Nat → α :=
  if useMedians then NUMmedianizeColumns N a rb re cb ce
  else NUMaverageColumns N a rb re cb ce

/-- The local variables of the scan of `TableOfReal_meansByRowLabels`. -/
structure MeansScan (α : Type) where
  sorted : TableOfReal α
  indexi : Nat
  indexr : Nat
  label : Option String

/-- The body of the scan loop of `TableOfReal_meansByRowLabels`. -/
def meansScanBody (N : Numerics α) (numberOfColumns : Nat) (expand useMedians : Bool)
    (i : Nat) (s : MeansScan α) : Except MelderError (MeansScan α) :=
  let li := s.sorted.rowLabels.elems i
  if Melder_cmp li s.label ≠ 0 then
    let sorted : TableOfReal α :=
      { s.sorted with
        data := NUMstatsColumns N s.sorted.data s.indexi (i - 1) 1 numberOfColumns useMedians }
    if ! expand then
      let indexr := s.indexr + 1
      match TableOfReal_copyOneRowWithLabel sorted sorted true s.indexi indexr with
      | .error e => .error e
      | .ok sorted => .ok { sorted := sorted, indexi := i, indexr := indexr, label := li }
    else
      .ok { sorted := sorted, indexi := i, indexr := s.indexr, label := li }
  else .ok s

/-- The moved-from label vector: the null vector. -/
def autostring32vector.null : autostring32vector := ⟨0, fun _ => none⟩

/-- The routine `TableOfReal_meansByRowLabels`.  The first component of the
result is the caller's table `me` as the call leaves it, the second is the
returned table or the exception. -/
def TableOfReal_meansByRowLabels [Zero α] (N : Numerics α) (me : TableOfReal α)
    (expand useMedians : Bool) : TableOfReal α × Except MelderError (TableOfReal α) :=
  let index := TableOfReal_getSortedIndexFromRowLabels N me
  match TableOfReal_sortRowsByIndex me index false with
  | .error e => (me, .error e)
  | .ok sorted =>
    match forLoopM 2 me.numberOfRows (meansScanBody N me.numberOfColumns expand useMedians)
        { sorted := sorted, indexi := 1, indexr := 0, label := sorted.rowLabels.elems 1 } with
    | .error e => (me, .error e)
    | .ok s =>
      let sorted : TableOfReal α :=
        { s.sorted with
          data := NUMstatsColumns N s.sorted.data s.indexi me.numberOfRows 1
            me.numberOfColumns useMedians }
      if expand then
        -- tmp = std::move (sorted -> rowLabels)
        let tmp := sorted.rowLabels
        -- sorted -> rowLabels = std::move (my rowLabels)
        let sorted1 : TableOfReal α := { sorted with rowLabels := me.rowLabels }
        let me1 : TableOfReal α := { me with rowLabels := autostring32vector.null }
        match TableOfReal_sortRowsByIndex sorted1 index true with
        | .error e => (me1, .error e)
        | .ok thee =>
          -- sorted -> rowLabels = std::move (tmp)
          let _sorted2 : TableOfReal α := { sorted1 with rowLabels := tmp }
          (me1, .ok thee)
      else
        let indexr := s.indexr + 1
        match TableOfReal_copyOneRowWithLabel sorted sorted true s.indexi indexr with
        | .error e => (me, .error e)
        | .ok sorted =>
          let thee : TableOfReal α := TableOfReal_create indexr me.numberOfColumns
          match forLoopM 1 indexr (fun i (thee : TableOfReal α) =>
              TableOfReal_copyOneRowWithLabel sorted thee false i i) thee with
          | .error e => (me, .error e)
          | .ok thee =>
            (me, .ok { thee with
              columnLabels := thee.columnLabels.copyElementsFrom sorted.columnLabels })

/-! ## Appending columns -/

/-- The routine `TableOfReal_appendColumns`.  The result is the new table
together with `labeldiffs`, the count that the warning reports when it is
positive. -/
def TableOfReal_appendColumns [Zero α] (me thee : TableOfReal α) :
    Except MelderError (TableOfReal α × Nat) :=
  let ncols := me.numberOfColumns + thee.numberOfColumns
  if me.numberOfRows ≠ thee.numberOfRows then .error .rowsNotEqual
  else
    let him : TableOfReal α := TableOfReal_create me.numberOfRows ncols
    let him : TableOfReal α :=
      { him with rowLabels := him.rowLabels.copyElementsFrom me.rowLabels }
    let him : TableOfReal α :=
      { him with columnLabels :=
          him.columnLabels.copyElementsFrom_upTo me.columnLabels me.numberOfColumns }
    let him : TableOfReal α :=
      { him with columnLabels := forLoop 1 thee.numberOfColumns (fun icol v =>
          v.set (me.numberOfColumns + icol) (thee.columnLabels.elems icol)) him.columnLabels }
    let r := forLoop 1 me.numberOfRows (fun i (r : TableOfReal α × Nat) =>
      let labeldiffs :=
        if ! Melder_equ (me.rowLabels.elems i) (thee.rowLabels.elems i) then r.2 + 1 else r.2
      let row := NUMvector_copyElements (me.data i) (r.1.data i) 0 1 me.numberOfColumns
      let him : TableOfReal α := { r.1 with data := setRow r.1.data i row }
      let row := NUMvector_copyElements (thee.data i) (him.data i) me.numberOfColumns 1
        thee.numberOfColumns
      let him : TableOfReal α := { him with data := setRow him.data i row }
      (him, labeldiffs)) (him, 0)
    .ok r

/-- The element `my at [i]` of a list of tables, 1-based. -/
def TableOfRealList_at [Zero α] (me : List (TableOfReal α)) (i : Nat) : TableOfReal α :=
  me.getD (i - 1) (TableOfReal_create 0 0)

/-- The routine `TableOfRealList_appendColumnsMany`. -/
def TableOfRealList_appendColumnsMany [Zero α] (me : List (TableOfReal α)) :
    Except MelderError (TableOfReal α) :=
  if ¬ (me.length > 0) then .error .noTablesSelected
  else
    let thee := TableOfRealList_at me 1
    let nrows := thee.numberOfRows
    let ncols := thee.numberOfColumns
    match forLoopM 2 me.length (fun itab (s : TableOfReal α × Nat) =>
        let thee := TableOfRealList_at me itab
        let ncols := s.2 + thee.numberOfColumns
        if ¬ (thee.numberOfRows = nrows) then .error (.rowsDiffer itab)
        else .ok (thee, ncols)) (thee, ncols) with
    | .error e => .error e
    | .ok s =>
      let thee := s.1
      let him : TableOfReal α := TableOfReal_create nrows s.2
      match forLoopM 1 nrows (fun irow (him : TableOfReal α) =>
          TableOfReal_setRowLabel him irow (thee.rowLabels.elems irow)) him with
      | .error e => .error e
      | .ok him =>
        match forLoopM 1 me.length (fun itab (r : TableOfReal α × Nat) =>
            let thee := TableOfRealList_at me itab
            forLoopM 1 thee.numberOfColumns (fun icol (r : TableOfReal α × Nat) =>
              let ncols := r.2 + 1
              match TableOfReal_setColumnLabel r.1 ncols (thee.columnLabels.elems icol) with
              | .error e => .error e
              | .ok him =>
                let him : TableOfReal α :=
                  { him with data := forLoop 1 nrows (fun irow d =>
                      setCell d irow ncols (thee.data irow icol)) him.data }
                .ok (him, ncols)) r) (him, 0) with
        | .error e => .error e
        -- Melder_assert (ncols == his numberOfColumns)
        | .ok r => .ok r.1

/-! ## Resampling -/

/-- The routine `TableOfReal_bootstrap`.  The random source is explicit:
`draws i` is the value that the call `NUMrandomInteger (1, my numberOfRows)`
returns in the iteration for row `i`.  The tests `my columnLabels [i]` and
`my rowLabels [p]` are the null tests of the label. -/
def TableOfReal_bootstrap [Zero α] (draws : Nat → Nat) (me : TableOfReal α) :
    Except MelderError (TableOfReal α) :=
  let thee : TableOfReal α := TableOfReal_create me.numberOfRows me.numberOfColumns
  match forLoopM 1 me.numberOfColumns (fun i (thee : TableOfReal α) =>
      if (me.columnLabels.elems i).isSome then
        TableOfReal_setColumnLabel thee i (me.columnLabels.elems i)
      else .ok thee) thee with
  | .error e => .error e
  | .ok thee =>
    forLoopM 1 me.numberOfRows (fun i (thee : TableOfReal α) =>
      let p := draws i
      let row := NUMvector_copyElements (me.data p) (thee.data i) 0 1 me.numberOfColumns
      let thee : TableOfReal α := { thee with data := setRow thee.data i row }
      if (me.rowLabels.elems p).isSome then
        TableOfReal_setRowLabel thee i (me.rowLabels.elems p)
      else .ok thee) thee

/-! ## Standardization -/

/-- The statistics kernel that the standardization routines call and that is
defined outside the sources at hand. -/
structure StatKernels (α : Type) where
  /-- `NUM_sum_mean_sumsq_variance_stdev (x, icol, nullptr, & mean, nullptr,
  nullptr, & stdev)` on a matrix with the given numbers of rows and columns:
  the mean and the standard deviation of column `icol`. -/
  columnMeanStdev : Nat → Nat → (Nat → Nat → α) → Nat → α × α
  /-- `NUM_sum_mean_sumsq_variance_stdev (x, nullptr, & mean, nullptr,
  nullptr, & stdev)` on a vector of the given size: its mean and its standard
  deviation. -/
  vectorMeanStdev : Nat → (Nat → α) → α × α

/-- The routine `TableOfReal_standardizeColumns`; the result is the table
after the call. -/
def TableOfReal_standardizeColumns [Zero α] [Sub α] [Div α] (K : StatKernels α)
    (me : TableOfReal α) : TableOfReal α :=
  if me.numberOfRows ≤ 1 then
    { me with data := forLoop 1 me.numberOfRows (fun irow d =>
        forLoop 1 me.numberOfColumns (fun icol d => setCell d irow icol 0) d) me.data }
  else
    { me with data := forLoop 1 me.numberOfColumns (fun icol d =>
        let ms := K.columnMeanStdev me.numberOfRows me.numberOfColumns d icol
        forLoop 1 me.numberOfRows (fun irow d =>
          setCell d irow icol ((d irow icol - ms.1) / ms.2)) d) me.data }

/-- The routine `TableOfReal_standardizeRows`; the result is the table after
the call. -/
def TableOfReal_standardizeRows [Zero α] [Sub α] [Div α] (K : StatKernels α)
    (me : TableOfReal α) : TableOfReal α :=
  if me.numberOfColumns ≤ 1 then
    { me with data := forLoop 1 me.numberOfRows (fun irow d =>
        forLoop 1 me.numberOfColumns (fun icol d => setCell d irow icol 0) d) me.data }
  else
    { me with data := forLoop 1 me.numberOfRows (fun irow d =>
        let ms := K.vectorMeanStdev me.numberOfColumns (d irow)
        forLoop 1 me.numberOfColumns (fun icol d =>
          setCell d irow icol ((d irow icol - ms.1) / ms.2)) d) me.data }

/-! ## Cholesky decomposition -/

/-- The LAPACK routines that TableOfReal_choleskyDecomposition calls and that
are defined outside the sources at hand.  Each takes the matrix and returns
the matrix as the call leaves it together with the status `info`. -/
structure LapackKernels (α : Type) where
  /-- `NUMlapack_dpotf2 (& uplo, & n, a, & lda, & info)`. -/
  NUMlapack_dpotf2 : Char → Nat → (Nat → Nat → α) → Nat → (Nat → Nat → α) × Int
  /-- `NUMlapack_dtrtri (& uplo, & diag, & n, a, & lda, & info)`. -/
  NUMlapack_dtrtri : Char → Char → Nat → (Nat → Nat → α) → Nat → (Nat → Nat → α) × Int

/-- Modelled from the spec: `Data_copy` is defined outside the sources at
hand; §4.1 copy(table): a deep copy including labels. -/
def Data_copy (me : TableOfReal α) : TableOfReal α := me

/-- The two loops of TableOfReal_choleskyDecomposition that zero the
triangle opposite to the requested one in an `n` x `n` matrix. -/
def zeroOppositeTriangle [Zero α] (upper : Bool) (n : Nat) (d : Nat → Nat → α) :
    Nat → Nat → α :=
  if upper then
    forLoop 2 n (fun i d => forLoop 1 (i - 1) (fun j d => setCell d i j 0) d) d
  else
    forLoop 1 (n - 1) (fun i d => forLoop (i + 1) n (fun j d => setCell d i j 0) d) d

/-- The routine `TableOfReal_choleskyDecomposition`. -/
def TableOfReal_choleskyDecomposition [Zero α] (K : LapackKernels α) (me : TableOfReal α)
    (upper inverse : Bool) : Except MelderError (TableOfReal α) :=
  let diag := 'N'
  let n := me.numberOfColumns
  let lda := me.numberOfRows
  if ¬ (n = lda) then .error .notSquare
  else
    let thee := Data_copy me
    let thee : TableOfReal α := { thee with data := zeroOppositeTriangle upper n thee.data }
    let uplo := if upper then 'L' else 'U'
    let r := K.NUMlapack_dpotf2 uplo n thee.data lda
    if ¬ (r.2 = 0) then .error .dpotf2Fails
    else
      let thee : TableOfReal α := { thee with data := r.1 }
      if inverse then
        let r := K.NUMlapack_dtrtri uplo diag n thee.data lda
        if ¬ (r.2 = 0) then .error .dtrtriFails
        else .ok { thee with data := r.1 }
      else .ok thee

/-! ## Summing a list of tables -/

/-- Modelled from the spec: `NUMequal` on two string vectors is defined
outside the sources at hand; §4.6 sum: element-wise label equality.  The
vectors have the same size and Melder_equ holds at every index. -/
def NUMequal (x y : autostring32vector) : Bool :=
  decide (x.size = y.size) &&
    (List.range' 1 x.size).all (fun i => Melder_equ (x.elems i) (y.elems i))

/-- The routine `TableOfRealList_sum`.  The empty list gives the null table
(`none`). -/
def TableOfRealList_sum [Zero α] [Add α] (me : List (TableOfReal α)) :
    Except MelderError (Option (TableOfReal α)) :=
  if me.length ≤ 0 then .ok none
  else
    let thee := Data_copy (TableOfRealList_at me 1)
    match forLoopM 2 me.length (fun i (thee : TableOfReal α) =>
        let him := TableOfRealList_at me i
        if ¬ (thee.numberOfRows = him.numberOfRows ∧ thee.numberOfColumns = him.numberOfColumns
            ∧ NUMequal thee.rowLabels him.rowLabels = true
            ∧ NUMequal thee.columnLabels him.columnLabels = true) then
          .error (.tablesDiffer i)
        else
          .ok { thee with data := forLoop 1 thee.numberOfRows (fun j d =>
            forLoop 1 thee.numberOfColumns (fun k d =>
              setCell d j k (d j k + him.data j k)) d) thee.data }) thee with
    | .error e => .error e
    | .ok thee => .ok (some thee)

/-! ## Correlations -/

/-- The matrix kernels that the correlation routines call and that are
defined outside the sources at hand.  Each takes the numbers of rows and
columns of the matrix and its cells, and returns the cells as the in-place
call leaves them. -/
structure MatrixKernels (α : Type) where
  /-- `MATcentreEachRow_inplace (x)`. -/
  MATcentreEachRow_inplace : Nat → Nat → (Nat → Nat → α) → (Nat → Nat → α)
  /-- `MATcentreEachColumn_inplace (x)`. -/
  MATcentreEachColumn_inplace : Nat → Nat → (Nat → Nat → α) → (Nat → Nat → α)
  /-- `MATnormalizeRows_inplace (x, 2.0, 1.0)`: power 2.0, norm 1.0. -/
  MATnormalizeRows_inplace : Nat → Nat → (Nat → Nat → α) → (Nat → Nat → α)
  /-- `MATnormalizeColumns_inplace (x, 2.0, 1.0)`: power 2.0, norm 1.0. -/
  MATnormalizeColumns_inplace : Nat → Nat → (Nat → Nat → α) → (Nat → Nat → α)

/-- The two conversions between the type `double` of the cells (`α`) and the
type `longdouble` of the accumulators `ctmp` and `sum` of the correlation
loops (`β`). -/
structure Accumulator (α β : Type) where
  /-- The implicit conversion of a `double` to `longdouble`, as in
  `ctmp += x`. -/
  toLongdouble : α → β
  /-- The cast `(double) ctmp`. -/
  toDouble : β → α

/-- Modelled from the spec: `MATcopy` is defined outside the sources at
hand; a fresh matrix with the cells of the given one (§4.4: the inputs are
transformed on copies).  A matrix has no cells outside its dimensions: the
copy reads as 0 there. -/
def MATcopy [Zero α] (numberOfRows numberOfColumns : Nat) (d : Nat → Nat → α) :
    Nat → Nat → α :=
  fun r c => if 1 ≤ r ∧ r ≤ numberOfRows ∧ 1 ≤ c ∧ c ≤ numberOfColumns then d r c else 0

/-- The routine `TableOfReal_TableOfReal_rowCorrelations`.  The product
`my_data [i] [j] * thy_data [k] [j]` is a product of two `double`s; it is
converted to `longdouble` and added to the accumulator `ctmp`, a
`longdouble` that starts at 0.0; the cell receives `(double) ctmp`. -/
def TableOfReal_TableOfReal_rowCorrelations {β : Type} [Zero α] [Mul α] [Zero β] [Add β]
    (L : Accumulator α β) (K : MatrixKernels α)
    (me thee : TableOfReal α) (centre normalize : Bool) : Except MelderError (TableOfReal α) :=
  if me.numberOfColumns ≠ thee.numberOfColumns then .error .columnCountsDiffer
  else
    let him : TableOfReal α := TableOfReal_create me.numberOfRows thee.numberOfRows
    let my_data := MATcopy me.numberOfRows me.numberOfColumns me.data
    let thy_data := MATcopy thee.numberOfRows thee.numberOfColumns thee.data
    let my_data := if centre then
      K.MATcentreEachRow_inplace me.numberOfRows me.numberOfColumns my_data else my_data
    let thy_data := if centre then
      K.MATcentreEachRow_inplace thee.numberOfRows thee.numberOfColumns thy_data else thy_data
    let my_data := if normalize then
      K.MATnormalizeRows_inplace me.numberOfRows me.numberOfColumns my_data else my_data
    let thy_data := if normalize then
      K.MATnormalizeRows_inplace thee.numberOfRows thee.numberOfColumns thy_data else thy_data
    let him : TableOfReal α :=
      { him with rowLabels := him.rowLabels.copyElementsFrom me.rowLabels }
    let him : TableOfReal α :=
      { him with columnLabels := him.columnLabels.copyElementsFrom thee.rowLabels }
    let him : TableOfReal α :=
      { him with data := forLoop 1 me.numberOfRows (fun i d =>
          forLoop 1 thee.numberOfRows (fun k d =>
            setCell d i k
              (L.toDouble (forLoop 1 me.numberOfColumns
                (fun j (ctmp : β) => ctmp + L.toLongdouble (my_data i j * thy_data k j))
                0))) d) him.data }
    .ok him

/-- The routine `TableOfReal_TableOfReal_columnCorrelations`.  The
accumulator `sum` is a `longdouble`, as `ctmp` is in the routine for the
rows. -/
def TableOfReal_TableOfReal_columnCorrelations {β : Type} [Zero α] [Mul α] [Zero β] [Add β]
    (L : Accumulator α β) (K : MatrixKernels α)
    (me thee : TableOfReal α) (center normalize : Bool) : Except MelderError (TableOfReal α) :=
  if me.numberOfRows ≠ thee.numberOfRows then .error .rowCountsDiffer
  else
    let him : TableOfReal α := TableOfReal_create me.numberOfColumns thee.numberOfColumns
    let my_data := MATcopy me.numberOfRows me.numberOfColumns me.data
    let thy_data := MATcopy thee.numberOfRows thee.numberOfColumns thee.data
    let my_data := if center then
      K.MATcentreEachColumn_inplace me.numberOfRows me.numberOfColumns my_data else my_data
    let thy_data := if center then
      K.MATcentreEachColumn_inplace thee.numberOfRows thee.numberOfColumns thy_data
      else thy_data
    let my_data := if normalize then
      K.MATnormalizeColumns_inplace me.numberOfRows me.numberOfColumns my_data else my_data
    let thy_data := if normalize then
      K.MATnormalizeColumns_inplace thee.numberOfRows thee.numberOfColumns thy_data
      else thy_data
    let him : TableOfReal α :=
      { him with rowLabels := him.rowLabels.copyElementsFrom me.columnLabels }
    let him : TableOfReal α :=
      { him with columnLabels := him.columnLabels.copyElementsFrom thee.columnLabels }
    let him : TableOfReal α :=
      { him with data := forLoop 1 me.numberOfColumns (fun j d =>
          forLoop 1 thee.numberOfColumns (fun k d =>
            setCell d j k
              (L.toDouble (forLoop 1 me.numberOfRows
                (fun i (sum : β) => sum + L.toLongdouble (my_data i j * thy_data i k))
                0))) d) him.data }
    .ok him

/-- The routine `TableOfReal_TableOfReal_crossCorrelations`. -/
def TableOfReal_TableOfReal_crossCorrelations {β : Type} [Zero α] [Mul α] [Zero β] [Add β]
    (L : Accumulator α β) (K : MatrixKernels α)
    (me thee : TableOfReal α) (by_columns center normalize : Bool) :
    Except MelderError (TableOfReal α) :=
  if by_columns then TableOfReal_TableOfReal_columnCorrelations L K me thee center normalize
  else TableOfReal_TableOfReal_rowCorrelations L K me thee center normalize

/-! ## The BHEP normality test -/

/-- The numeric routines that TableOfReal_normalityTest_BHEP calls and that
are defined outside the sources at hand; `Cov` is the class Covariance. -/
structure BhepKernels (α : Type) (Cov : Type) where
  /-- The value `undefined`. -/
  undefined : α
  /-- The constant `NUMsqrt1_2`. -/
  NUMsqrt1_2 : α
  /-- The function `pow (x, y)`. -/
  pow : α → α → α
  /-- The function `exp (x)`. -/
  exp : α → α
  /-- The function `log (x)`. -/
  log : α → α
  /-- The function `sqrt (x)`. -/
  sqrt : α → α
  /-- The function `NUMlogNormalQ (x, zeta, sigma)`. -/
  NUMlogNormalQ : α → α → α → α
  /-- The routine `TableOfReal_to_Covariance (me)`, which can throw. -/
  TableOfReal_to_Covariance : TableOfReal α → Except MelderError Cov
  /-- The routine `SSCP_expandLowerCholesky (thee)`: the object as the call
  leaves it, and whether the call threw. -/
  SSCP_expandLowerCholesky : Cov → Cov × Bool
  /-- The call `NUMmahalanobisDistance (thy lowerCholesky.get(), v, w)`. -/
  NUMmahalanobisDistance : Cov → (Nat → α) → (Nat → α) → α
  /-- The vector `thy centroid`. -/
  centroid : Cov → Nat → α

/-- What a call of TableOfReal_normalityTest_BHEP leaves behind: the value
it returns, the value of `*h`, and the values written through `p_tnb`,
`p_lnmu` and `p_lnvar` (`none` where the call writes nothing). -/
structure BhepResult (α : Type) where
  prob : α
  h : α
  tnb : Option α
  lnmu : Option α
  lnvar : Option α

/-- The assignment `x = v` to a variable that holds `old`: the variable
holds `v` afterwards. -/
def assign {β : Type} (_old v : β) : β := v

/-- The routine `TableOfReal_normalityTest_BHEP`; `h` is the value of `*h`
at the call. -/
def TableOfReal_normalityTest_BHEP [LinearOrderedField α] {Cov : Type} (K : BhepKernels α Cov)
    (me : TableOfReal α) (h : α) : Except MelderError (BhepResult α) :=
  let n := me.numberOfRows
  let p := me.numberOfColumns
  let beta : α := if h > 0 then K.NUMsqrt1_2 / h
    else K.NUMsqrt1_2 * K.pow ((1 + ((2 * p : Nat) : α)) / 4) (1 / ((p + 4 : Nat) : α))
      * K.pow (n : α) (1 / ((p + 4 : Nat) : α))
  let p2 : α := (p : α) / 2
  let beta2 := beta * beta
  let beta4 := beta2 * beta2
  let beta8 := beta4 * beta4
  let gamma := 1 + 2 * beta2
  let gamma2 := gamma * gamma
  let gamma4 := gamma2 * gamma2
  let delta := 1 + beta2 * (4 + 3 * beta2)
  let delta2 := delta * delta
  let prob := K.undefined
  let h := if h ≤ 0 then K.NUMsqrt1_2 / beta else h
  let tnb := K.undefined
  let lnmu := K.undefined
  let lnvar := K.undefined
  if n < 2 ∨ p < 1 then .ok { prob := K.undefined, h := h, tnb := none, lnmu := none, lnvar := none }
  else
    match K.TableOfReal_to_Covariance me with
    | .error e => .error e
    | .ok thee =>
      let r := K.SSCP_expandLowerCholesky thee
      let thee := r.1
      -- catch (MelderError): tnb = 4.0 * n
      let tnb := if r.2 then assign tnb (4 * (n : α)) else tnb
      let b1 := beta2 / 2
      let b2 := b1 / (1 + beta2)
      let sums := forLoop 1 n (fun j (s : α × α) =>
        let sumjk := forLoop 1 (j - 1) (fun k sumjk =>
          let djk := K.NUMmahalanobisDistance thee (me.data j) (me.data k)
          sumjk + 2 * K.exp (-b1 * djk)) s.1
        let sumjk := sumjk + 1
        let djj := K.NUMmahalanobisDistance thee (me.data j) (K.centroid thee)
        (sumjk, s.2 + K.exp (-b2 * djj))) ((0 : α), (0 : α))
      let tnb := assign tnb ((1 / (n : α)) * sums.1 - 2 * K.pow (1 + beta2) (-p2) * sums.2
        + (n : α) * K.pow gamma (-p2))
      let mu := 1 - K.pow gamma (-p2) * (1 + (p : α) * beta2 / gamma
        + ((p * (p + 2) : Nat) : α) * beta4 / (2 * gamma2))
      let var := 2 * K.pow (1 + 4 * beta2) (-p2)
        + 2 * K.pow gamma (-(p : α)) * (1 + ((2 * p : Nat) : α) * beta4 / gamma2
          + ((3 * p * (p + 2) : Nat) : α) * beta8 / (4 * gamma4))
        - 4 * K.pow delta (-p2) * (1 + ((3 * p : Nat) : α) * beta4 / (2 * delta)
          + ((p * (p + 2) : Nat) : α) * beta8 / (2 * delta2))
      let mu2 := mu * mu
      let lnmu := assign lnmu ((1 / 2) * K.log (mu2 * mu2 / (mu2 + var)))
      let lnvar := assign lnvar (K.sqrt (K.log ((mu2 + var) / mu2)))
      let prob := assign prob (K.NUMlogNormalQ tnb lnmu lnvar)
      .ok { prob := prob, h := h, tnb := some tnb, lnmu := some lnmu, lnvar := some lnvar }

/-! ## Cells of type double -/

/-- A cell of type `double` as the comparisons of the program see it: a
number of `α`, or NaN (the value `undefined` of the program).  The
comparisons `<`, `>`, `<=` and `>=` of the language hold of two numbers as
they do in `α`, and never hold when one side is NaN. -/
inductive Cell (α : Type) where
  | nan : Cell α
  | num (x : α) : Cell α
  deriving DecidableEq, Repr

/-- The comparison `a < b` of two cells. -/
def Cell.lt [LT α] : Cell α → Cell α → Prop
  | .num x, .num y => x < y
  | _, _ => False

/-- The comparison `a <= b` of two cells. -/
def Cell.le [LE α] : Cell α → Cell α → Prop
  | .num x, .num y => x ≤ y
  | _, _ => False

instance [LT α] : LT (Cell α) := ⟨Cell.lt⟩

instance [LE α] : LE (Cell α) := ⟨Cell.le⟩

instance [Zero α] : Zero (Cell α) := ⟨.num 0⟩

instance [LT α] [∀ a b : α, Decidable (a < b)] (a b : Cell α) : Decidable (a < b) :=
  match a, b with
  | .num x, .num y => inferInstanceAs (Decidable (x < y))
  | .nan, _ => isFalse (fun h => h)
  | .num _, .nan => isFalse (fun h => h)

instance [LE α] [∀ a b : α, Decidable (a ≤ b)] (a b : Cell α) : Decidable (a ≤ b) :=
  match a, b with
  | .num x, .num y => inferInstanceAs (Decidable (x ≤ y))
  | .nan, _ => isFalse (fun h => h)
  | .num _, .nan => isFalse (fun h => h)

/-! ## Label tests, extrema, sums and quantiles -/

/-- The macro `EMPTY_STRING (s)`: the string is null or its first character
is the terminator, that is, its text is empty. -/
def EMPTY_STRING (s : Option String) : Bool :=
  match s with
  | none => true
  | some t => decide (t = "")

/-- The routine `TableOfReal_hasRowLabels`.  A `return` inside the loop ends
the loop with the returned value. -/
def TableOfReal_hasRowLabels (me : TableOfReal α) : Bool :=
  if me.rowLabels.size = 0 then false
  else
    match forLoopM 1 me.numberOfRows (fun i (u : Unit) =>
        if EMPTY_STRING (me.rowLabels.elems i) then Except.error false else Except.ok u) () with
    | .error b => b
    | .ok _ => true

/-- The routine `TableOfReal_hasColumnLabels`. -/
def TableOfReal_hasColumnLabels (me : TableOfReal α) : Bool :=
  if me.columnLabels.size = 0 then false
  else
    match forLoopM 1 me.numberOfColumns (fun i (u : Unit) =>
        if EMPTY_STRING (me.columnLabels.elems i) then Except.error false
        else Except.ok u) () with
    | .error b => b
    | .ok _ => true

/-- The routine `TableOfRealList_haveIdenticalDimensions`. -/
def TableOfRealList_haveIdenticalDimensions [Zero α] (me : List (TableOfReal α)) : Bool :=
  if me.length < 2 then true
  else
    let t1 := TableOfRealList_at me 1
    match forLoopM 2 me.length (fun i (u : Unit) =>
        let t := TableOfRealList_at me i
        if t.numberOfColumns ≠ t1.numberOfColumns ∨ t.numberOfRows ≠ t1.numberOfRows then
          Except.error false
        else Except.ok u) () with
    | .error b => b
    | .ok _ => true

/-- The routine `TableOfReal_getColumnExtrema`; the result is the pair of the
values written through `p_min` and `p_max`. -/
def TableOfReal_getColumnExtrema [LT α] [∀ a b : α, Decidable (a < b)] (me : TableOfReal α)
    (col : Nat) :
    Except MelderError (α × α) :=
  if ¬ (col > 0 ∧ col ≤ me.numberOfColumns) then .error .invalidColumnNumber
  else
    let mm := forLoop 2 me.numberOfRows (fun i (mm : α × α) =>
      if me.data i col > mm.2 then (mm.1, me.data i col)
      else if me.data i col < mm.1 then (me.data i col, mm.2)
      else mm) (me.data 1 col, me.data 1 col)
    .ok mm

/-- Modelled from the spec: `NUMrowSum` is defined outside the sources at
hand; §4.2: a direct linear scan that sums the cells of the row. -/
def NUMrowSum [Zero α] [Add α] (numberOfColumns : Nat) (d : Nat → Nat → α) (rowNumber : Nat) :
    α :=
  forLoop 1 numberOfColumns (fun j sum => sum + d rowNumber j) 0

/-- Modelled from the spec: `NUMcolumnSum` is defined outside the sources at
hand; §4.2: a direct linear scan that sums the cells of the column. -/
def NUMcolumnSum [Zero α] [Add α] (numberOfRows : Nat) (d : Nat → Nat → α)
    (columnNumber : Nat) : α :=
  forLoop 1 numberOfRows (fun i sum => sum + d i columnNumber) 0

/-- Modelled from the spec: `TableOfReal_rowLabelToIndex` is defined outside
the sources at hand; §4.1 labelToIndex: the first index whose label matches,
or 0 when there is none.  Labels are matched with Melder_equ. -/
def TableOfReal_rowLabelToIndex (me : TableOfReal α) (label : Option String) : Nat :=
  match forLoopM 1 me.numberOfRows (fun irow (u : Unit) =>
      if Melder_equ (me.rowLabels.elems irow) label then Except.error irow
      else Except.ok u) () with
  | .error irow => irow
  | .ok _ => 0

/-- Modelled from the spec: `TableOfReal_columnLabelToIndex` is defined
outside the sources at hand; §4.1 labelToIndex: the first index whose label
matches, or 0 when there is none.  Labels are matched with Melder_equ. -/
def TableOfReal_columnLabelToIndex (me : TableOfReal α) (label : Option String) : Nat :=
  match forLoopM 1 me.numberOfColumns (fun icol (u : Unit) =>
      if Melder_equ (me.columnLabels.elems icol) label then Except.error icol
      else Except.ok u) () with
  | .error icol => icol
  | .ok _ => 0

/-- The routine `TableOfReal_getRowSum`. -/
def TableOfReal_getRowSum [Zero α] [Add α] (me : TableOfReal α) (rowNumber : Nat) :
    Except MelderError α :=
  if ¬ (rowNumber > 0 ∧ rowNumber ≤ me.numberOfRows) then .error .rowNumberNotInRange
  else .ok (NUMrowSum me.numberOfColumns me.data rowNumber)

/-- The routine `TableOfReal_getColumnSum`. -/
def TableOfReal_getColumnSum [Zero α] [Add α] (me : TableOfReal α) (columnNumber : Nat) :
    Except MelderError α :=
  if ¬ (columnNumber > 0 ∧ columnNumber ≤ me.numberOfColumns) then
    .error .columnNumberNotInRange
  else .ok (NUMcolumnSum me.numberOfRows me.data columnNumber)

/-- The routine `TableOfReal_getColumnSumByLabel`. -/
def TableOfReal_getColumnSumByLabel [Zero α] [Add α] (me : TableOfReal α)
    (columnLabel : Option String) : Except MelderError α :=
  let columnNumber := TableOfReal_columnLabelToIndex me columnLabel
  if ¬ (columnNumber > 0) then .error .noSuchColumnLabel
  else TableOfReal_getColumnSum me columnNumber

/-- The routine `TableOfReal_getRowSumByLabel`. -/
def TableOfReal_getRowSumByLabel [Zero α] [Add α] (me : TableOfReal α)
    (rowLabel : Option String) : Except MelderError α :=
  let rowNumber := TableOfReal_rowLabelToIndex me rowLabel
  if ¬ (rowNumber > 0) then .error .noSuchRowLabel
  else TableOfReal_getRowSum me rowNumber

/-- The routines that TableOfReal_getColumnQuantile calls and that are
defined outside the sources at hand. -/
structure QuantileKernels (α : Type) where
  /-- The value `undefined`. -/
  undefined : α
  /-- `VECcolumn (x, columnNumber)` on a matrix with the given numbers of rows
  and columns: a fresh vector with the cells of the column, or the exception
  of the allocation. -/
  VECcolumn : Nat → Nat → (Nat → Nat → α) → Nat → Except MelderError (List α)
  /-- `VECsort_inplace (v)`: the vector as the call leaves it. -/
  VECsort_inplace : List α → List α
  /-- `NUMquantile (v, quantile)`. -/
  NUMquantile : List α → α → α

/-- The routine `TableOfReal_getColumnQuantile`. -/
def TableOfReal_getColumnQuantile (K : QuantileKernels α) (me : TableOfReal α)
    (columnNumber : Nat) (quantile : α) : Except MelderError α :=
  if columnNumber < 1 ∨ columnNumber > me.numberOfColumns then .ok K.undefined
  else
    match K.VECcolumn me.numberOfRows me.numberOfColumns me.data columnNumber with
    -- catch (MelderError): return undefined
    | .error _ => .ok K.undefined
    | .ok values =>
      let values := K.VECsort_inplace values
      .ok (K.NUMquantile values quantile)

/-! ## Centring and ranking -/

/-- The routine `TableOfReal_centreColumns`; the result is the table after
the call. -/
def TableOfReal_centreColumns (K : MatrixKernels α) (me : TableOfReal α) : TableOfReal α :=
  { me with
    data := K.MATcentreEachColumn_inplace me.numberOfRows me.numberOfColumns me.data }

/-- The call `MATcentreEachColumn_inplace (x.horizontalBand (rb, re))` on a
matrix with `numberOfColumns` columns: the kernel runs on the rows `rb..re`,
which are the rows `1..re - rb + 1` of the band, and leaves the other rows
as they are. -/
def centreHorizontalBand (K : MatrixKernels α) (numberOfColumns : Nat) (d : Nat → Nat → α)
    (rb re : Nat) : Nat → Nat → α :=
  let band := K.MATcentreEachColumn_inplace (re + 1 - rb) numberOfColumns
    (fun r c => d (rb + r - 1) c)
  fun r c => if rb ≤ r ∧ r ≤ re ∧ 1 ≤ c ∧ c ≤ numberOfColumns then band (r + 1 - rb) c
    else d r c

/-- The local variables of the scan of TableOfReal_centreColumns_byRowLabel,
with the data of the table. -/
structure CentreScan (α : Type) where
  data : Nat → Nat → α
  label : Option String
  index : Nat

/-- The routine `TableOfReal_centreColumns_byRowLabel`; the result is the
table after the call. -/
def TableOfReal_centreColumns_byRowLabel (K : MatrixKernels α) (me : TableOfReal α) :
    TableOfReal α :=
  let s := forLoop 2 me.numberOfRows (fun i (s : CentreScan α) =>
    let li := me.rowLabels.elems i
    if ! Melder_equ li s.label then
      { data := centreHorizontalBand K me.numberOfColumns s.data s.index (i - 1)
        label := li
        index := i }
    else s) { data := me.data, label := me.rowLabels.elems 1, index := 1 }
  { me with data := centreHorizontalBand K me.numberOfColumns s.data s.index me.numberOfRows }

/-- The ranking kernel that TableOfReal_rankColumns calls and that is
defined outside the sources at hand. -/
structure RankKernels (α : Type) where
  /-- `NUMrankColumns (a, rb, re, cb, ce)`: the matrix as the call leaves
  it. -/
  NUMrankColumns : (Nat → Nat → α) → Nat → Nat → Nat → Nat → (Nat → Nat → α)

/-- The routine `TableOfReal_rankColumns`. -/
def TableOfReal_rankColumns (K : RankKernels α) (me : TableOfReal α) : TableOfReal α :=
  let thee := Data_copy me
  { thee with
    data := K.NUMrankColumns thee.data 1 thee.numberOfRows 1 thee.numberOfColumns }

/-! ## Cell scans -/

/-- The routine `TableOfReal_getColumnIndexAtMaximumInRow`. -/
def TableOfReal_getColumnIndexAtMaximumInRow [LT α] [∀ a b : α, Decidable (a < b)]
    (me : TableOfReal α) (rowNumber : Nat) : Nat :=
  let columnNumber := 0
  if rowNumber > 0 ∧ rowNumber ≤ me.numberOfRows then
    let s := forLoop 2 me.numberOfColumns (fun icol (s : α × Nat) =>
      if me.data rowNumber icol > s.1 then (me.data rowNumber icol, icol) else s)
      (me.data rowNumber 1, 1)
    s.2
  else columnNumber

/-- The routine `TableOfReal_checkNonNegativity`.  The `return false` inside
the loops ends both loops with that value. -/
def TableOfReal_checkNonNegativity [Zero α] [LT α] [∀ a b : α, Decidable (a < b)]
    (me : TableOfReal α) : Bool :=
  match forLoopM 1 me.numberOfRows (fun i (u : Unit) =>
      forLoopM 1 me.numberOfColumns (fun j (u : Unit) =>
        if me.data i j < 0 then Except.error false else Except.ok u) u) () with
  | .error b => b
  | .ok _ => true

/-! ## Resonators (Resonator.cpp) -/

/-- The mathematical functions and constants that the `v_setFB` methods
call and that are defined outside the sources at hand. -/
structure MathKernels (α : Type) where
  /-- The constant `NUMpi`. -/
  NUMpi : α
  /-- The function `exp (x)`. -/
  exp : α → α
  /-- The function `cos (x)`. -/
  cos : α → α
  /-- The function `sin (x)`. -/
  sin : α → α

/-- The class Filter: the fields that Resonator.cpp reads and writes (the
class is declared in Resonator.h, outside the sources at hand). -/
structure structFilter (α : Type) where
  a : α
  b : α
  c : α
  p1 : α
  p2 : α
  dT : α

/-- The class Resonator, a Filter with the flag `normaliseAtDC`. -/
structure structResonator (α : Type) extends structFilter α where
  normaliseAtDC : Bool

/-- The class AntiResonator, a Filter without further fields. -/
structure structAntiResonator (α : Type) extends structFilter α

/-- The class ConstantGainResonator, a Filter with the coefficient `d` and
the memory cells `p3` and `p4`. -/
structure structConstantGainResonator (α : Type) extends structFilter α where
  d : α
  p3 : α
  p4 : α

/-- The method `structFilter :: v_resetMemory`. -/
def structFilter.v_resetMemory [Zero α] (me : structFilter α) : structFilter α :=
  { me with p1 := 0, p2 := 0 }

/-- The method `structFilter :: v_setFB`. -/
def structFilter.v_setFB [Field α] (M : MathKernels α) (me : structFilter α) (f bw : α) :
    structFilter α :=
  let r := M.exp (-M.NUMpi * me.dT * bw)
  let c := -(r * r)
  let b := 2 * r * M.cos (2 * M.NUMpi * f * me.dT)
  let a := 1 - b - c
  { me with a := a, b := b, c := c }

/-- The method `structFilter :: v_getOutput`: the output and the filter
after the call. -/
def structFilter.v_getOutput [Add α] [Mul α] (me : structFilter α) (input : α) :
    α × structFilter α :=
  let output := me.a * input + me.b * me.p1 + me.c * me.p2
  (output, { me with p2 := me.p1, p1 := output })

/-- The method `structResonator :: v_setFB`. -/
def structResonator.v_setFB [Field α] (M : MathKernels α) (me : structResonator α) (f bw : α) :
    structResonator α :=
  let me : structResonator α :=
    { me with tostructFilter := me.tostructFilter.v_setFB M f bw }
  if ! me.normaliseAtDC then
    { me with a := (1 + me.c) * M.sin (2 * M.NUMpi * f * me.dT) }
  else me

/-- The method `structAntiResonator :: v_setFB`. -/
def structAntiResonator.v_setFB [LinearOrderedField α] (M : MathKernels α)
    (me : structAntiResonator α) (f bw : α) : structAntiResonator α :=
  if f ≤ 0 ∧ bw ≤ 0 then
    { me with a := 1, b := -2, c := 1 }
  else
    let me : structAntiResonator α :=
      { me with tostructFilter := me.tostructFilter.v_setFB M f bw }
    { me with a := 1 / (1 - me.b - me.c) }

/-- The method `structAntiResonator :: v_getOutput`. -/
def structAntiResonator.v_getOutput [Sub α] [Mul α] (me : structAntiResonator α) (input : α) :
    α × structAntiResonator α :=
  let output := me.a * (input - me.b * me.p1 - me.c * me.p2)
  (output, { me with p2 := me.p1, p1 := input })

/-- The method `structConstantGainResonator :: v_resetMemory`. -/
def structConstantGainResonator.v_resetMemory [Zero α] (me : structConstantGainResonator α) :
    structConstantGainResonator α :=
  { me with p1 := 0, p2 := 0, p3 := 0, p4 := 0 }

/-- The method `structConstantGainResonator :: v_setFB`. -/
def structConstantGainResonator.v_setFB [Field α] (M : MathKernels α)
    (me : structConstantGainResonator α) (f bw : α) : structConstantGainResonator α :=
  let me : structConstantGainResonator α :=
    { me with tostructFilter := me.tostructFilter.v_setFB M f bw }
  let r := M.exp (-M.NUMpi * me.dT * bw)
  { me with a := 1 - r, d := -r }

/-- The method `structConstantGainResonator :: v_getOutput`. -/
def structConstantGainResonator.v_getOutput [Add α] [Mul α]
    (me : structConstantGainResonator α) (input : α) : α × structConstantGainResonator α :=
  let output := me.a * (input + me.d * me.p4) + me.b * me.p1 + me.c * me.p2
  (output, { me with p2 := me.p1, p1 := output, p4 := me.p3, p3 := input })

/-- The routine `Resonator_create`; `Thing_new` gives an object whose fields
are all zero. -/
def Resonator_create [Zero α] [One α] (dT : α) (normaliseAtDC : Bool) : structResonator α :=
  { a := 1, b := 0, c := 0, p1 := 0, p2 := 0, dT := dT, normaliseAtDC := normaliseAtDC }

/-- The routine `ConstantGainResonator_create`. -/
def ConstantGainResonator_create [Zero α] [One α] (dT : α) : structConstantGainResonator α :=
  { a := 1, b := 0, c := 0, p1 := 0, p2 := 0, dT := dT, d := 0, p3 := 0, p4 := 0 }

/-- The routine `AntiResonator_create`. -/
def AntiResonator_create [Zero α] [One α] (dT : α) : structAntiResonator α :=
  { a := 1, b := 0, c := 0, p1 := 0, p2 := 0, dT := dT }

/-- A `Filter`: an object of one of the three classes, on which the `v_`
methods are dispatched. -/
inductive Filter (α : Type) where
  | resonator (me : structResonator α)
  | antiResonator (me : structAntiResonator α)
  | constantGainResonator (me : structConstantGainResonator α)

/-- The routine `Filter_setFB`. -/
def Filter_setFB [LinearOrderedField α] (M : MathKernels α) (me : Filter α) (f b : α) :
    Filter α :=
  match me with
  | .resonator me => .resonator (me.v_setFB M f b)
  | .antiResonator me => .antiResonator (me.v_setFB M f b)
  | .constantGainResonator me => .constantGainResonator (me.v_setFB M f b)

/-- The routine `Filter_getOutput`: the output and the filter after the
call.  A Resonator has the method of the class Filter. -/
def Filter_getOutput [Add α] [Sub α] [Mul α] (me : Filter α) (input : α) : α × Filter α :=
  match me with
  | .resonator me =>
    let r := me.tostructFilter.v_getOutput input
    (r.1, .resonator { me with tostructFilter := r.2 })
  | .antiResonator me =>
    let r := me.v_getOutput input
    (r.1, .antiResonator r.2)
  | .constantGainResonator me =>
    let r := me.v_getOutput input
    (r.1, .constantGainResonator r.2)

/-- The routine `Filter_resetMemory`.  A Resonator and an AntiResonator have
the method of the class Filter. -/
def Filter_resetMemory [Zero α] (me : Filter α) : Filter α :=
  match me with
  | .resonator me => .resonator { me with tostructFilter := me.tostructFilter.v_resetMemory }
  | .antiResonator me =>
    .antiResonator { me with tostructFilter := me.tostructFilter.v_resetMemory }
  | .constantGainResonator me => .constantGainResonator me.v_resetMemory

/-! ## Auxiliary notions for the statements -/

/-- The number of columns of the first `k` tables of a list together. -/
def columnsUpTo [Zero α] (me : List (TableOfReal α)) (k : Nat) : Nat :=
  ((List.range' 1 k).map (fun j => (TableOfRealList_at me j).numberOfColumns)).sum

/-- The number of row positions in `1..n` at which the label texts of two
label vectors differ. -/
def labelDiffs (v w : autostring32vector) (n : Nat) : Nat :=
  ((List.range' 1 n).filter (fun i => labelText (v.elems i) ≠ labelText (w.elems i))).length

/-- The data that the row loop of TableOfReal_appendColumns has written after
the rows below `k`. -/
def appendedData (me thee : TableOfReal α) (d0 : Nat → Nat → α) (k : Nat) : Nat → Nat → α :=
  fun r c =>
    if 1 ≤ r ∧ r < k then
      if me.numberOfColumns + 1 ≤ c ∧ c ≤ me.numberOfColumns + thee.numberOfColumns then
        thee.data r (c - me.numberOfColumns)
      else if 1 ≤ c ∧ c ≤ me.numberOfColumns then me.data r c
      else d0 r c
    else d0 r c

/-- The aggregate of a list of cells that `NUMstatsColumns` computes: the
median of the sorted cells when `useMedians`, the mean otherwise. -/
def Numerics.aggregate (N : Numerics α) (useMedians : Bool) (l : List α) : α :=
  if useMedians then N.NUMquantile_half (N.VECsort_inplace l) else N.mean l

/-- The index vector is a permutation of `1..n`: it maps `1..n` into
`1..n` and takes no value twice. -/
def IsPermutation (n : Nat) (index : Nat → Nat) : Prop :=
  (∀ i, 1 ≤ i → i ≤ n → 1 ≤ index i ∧ index i ≤ n) ∧
  (∀ i, 1 ≤ i → i ≤ n → ∀ j, 1 ≤ j → j ≤ n → index i = index j → i = j)

/-- The index vector sorts the first `n` labels of `v`: it is a permutation
of `1..n` and the labels `v [index [1]], v [index [2]], ...` ascend. -/
def SortsLabels (v : autostring32vector) (n : Nat) (index : Nat → Nat) : Prop :=
  IsPermutation n index ∧
  ∀ i, 1 ≤ i → i ≤ n → ∀ j, i ≤ j → j ≤ n → labelLE (v.elems (index i)) (v.elems (index j))

/-- The strict order of labels: `Melder_cmp (a, b) < 0`. -/
def labelLT (a b : Option String) : Prop := (labelText a).toList < (labelText b).toList

/-- Every row label of the table is present. -/
def AllRowLabelsPresent (T : TableOfReal α) : Prop :=
  ∀ i, 1 ≤ i → i ≤ T.numberOfRows → (T.rowLabels.elems i).isSome = true

/-- The cells of column `j` over all rows of `T` that carry the label `L`,
in the row order of `T`. -/
def cellsLabelled (T : TableOfReal α) (L : Option String) (j : Nat) : List α :=
  ((List.range' 1 T.numberOfRows).filter (fun i => T.rowLabels.elems i = L)).map
    (fun i => T.data i j)

/-- The table `sorted` that TableOfReal_meansByRowLabels starts from: the
rows of `me`, labels and data, in the order of the index vector. -/
def sortedTable [Zero α] (me : TableOfReal α) (index : Nat → Nat) : TableOfReal α :=
  { numberOfRows := me.numberOfRows
    numberOfColumns := me.numberOfColumns
    data := fun r c =>
      if 1 ≤ r ∧ r ≤ me.numberOfRows ∧ 1 ≤ c ∧ c ≤ me.numberOfColumns
      then me.data (index r) c else 0
    rowLabels := ⟨me.numberOfRows, fun i =>
      if 1 ≤ i ∧ i ≤ me.numberOfRows then me.rowLabels.elems (index i) else none⟩
    columnLabels := ⟨me.numberOfColumns, fun i =>
      if 1 ≤ i ∧ i ≤ me.columnLabels.size then me.columnLabels.elems i else none⟩ }

/-- The rows `s..e` are a maximal run of equal label texts in `L [1..n]`. -/
def IsRun (L : Nat → Option String) (n s e : Nat) : Prop :=
  1 ≤ s ∧ s ≤ e ∧ e ≤ n ∧
  (∀ r, s ≤ r → r ≤ e → labelText (L r) = labelText (L s)) ∧
  (s = 1 ∨ labelText (L (s - 1)) ≠ labelText (L s)) ∧
  (e = n ∨ labelText (L (e + 1)) ≠ labelText (L s))

/-- The state of the table `sorted` once the runs that end at or before row
`k` are closed.  `L` and `D0` are the labels and the data of `sorted` before
the scan.  With `expand` every closed row holds the aggregate of its run;
without it the rows `1..q` hold the closed runs, one row per run. -/
structure ClosedInv (N : Numerics α) (useMedians expand : Bool) (L : Nat → Option String)
    (D0 : Nat → Nat → α) (n nc : Nat) (cl : autostring32vector) (k : Nat)
    (t : TableOfReal α) (q : Nat) : Prop where
  nrows : t.numberOfRows = n
  ncols : t.numberOfColumns = nc
  collabels : t.columnLabels = cl
  rlsize : t.rowLabels.size = n
  hrest : ∀ r, k < r → t.rowLabels.elems r = L r ∧ ∀ c, t.data r c = D0 r c
  hexp : expand = true → ∀ r, 1 ≤ r → r ≤ k → t.rowLabels.elems r = L r ∧
    ∃ sg eg, IsRun L n sg eg ∧ sg ≤ r ∧ r ≤ eg ∧
      ∀ c, 1 ≤ c → c ≤ nc → t.data r c = N.aggregate useMedians (columnBlock D0 sg eg c)
  hred : expand = false → q ≤ k ∧ ∀ m, 1 ≤ m → m ≤ q →
    ∃ sg eg, IsRun L n sg eg ∧ eg ≤ k ∧ t.rowLabels.elems m = L sg ∧
      ∀ c, 1 ≤ c → c ≤ nc → t.data m c = N.aggregate useMedians (columnBlock D0 sg eg c)
  hord : expand = false → ∀ m, 1 ≤ m → ∀ m', m < m' → m' ≤ q →
    labelLT (t.rowLabels.elems m) (t.rowLabels.elems m')
  hcov : expand = false → ∀ r, 1 ≤ r → r ≤ k →
    ∃ m, 1 ≤ m ∧ m ≤ q ∧ labelText (t.rowLabels.elems m) = labelText (L r)

/-- The invariant of the scan of TableOfReal_meansByRowLabels after the rows
`1..k`: the rows `indexi..k` are the open run, whose label is `label`, and
the runs before `indexi` are closed. -/
structure ScanInv (N : Numerics α) (useMedians expand : Bool) (L : Nat → Option String)
    (D0 : Nat → Nat → α) (n nc : Nat) (cl : autostring32vector) (k : Nat)
    (s : MeansScan α) : Prop where
  hi1 : 1 ≤ s.indexi
  hik : s.indexi ≤ k
  hlabel : s.label = L s.indexi
  hrun : ∀ r, s.indexi ≤ r → r ≤ k → labelText (L r) = labelText (L s.indexi)
  hstart : s.indexi = 1 ∨ labelText (L (s.indexi - 1)) ≠ labelText (L s.indexi)
  closed : ClosedInv N useMedians expand L D0 n nc cl (s.indexi - 1) s.sorted s.indexr

/-- The sum `f 1 + f 2 + ... + f n`, accumulated from 0 in this order. -/
def sumRange [Zero α] [Add α] (n : Nat) (f : Nat → α) : α :=
  ((List.range' 1 n).map f).foldl (fun acc x => acc + x) 0

/-- The mean of column `j` of a matrix with `n` rows. -/
def columnMean [Zero α] [Add α] [Div α] [NatCast α] (n : Nat) (d : Nat → Nat → α) (j : Nat) : α :=
  sumRange n (fun i => d i j) / (n : α)

/-- The sample variance of column `j` of a matrix with `n` rows: the sum of
the squared deviations from the column mean, divided by `n - 1`.  The sample
standard deviation is its square root. -/
def columnVariance [Zero α] [Add α] [Sub α] [Mul α] [Div α] [NatCast α] [One α] (n : Nat)
    (d : Nat → Nat → α) (j : Nat) : α :=
  sumRange n (fun i => (d i j - columnMean n d j) * (d i j - columnMean n d j)) / ((n : α) - 1)

/-- The statistics kernel is exact on column `j` of the table: on every
matrix that holds column `j` of the table it returns the mean of that
column and a standard deviation whose square is its sample variance. -/
def StatKernels.ExactOnColumn [Zero α] [Add α] [Sub α] [Mul α] [Div α] [NatCast α] [One α]
    (K : StatKernels α) (T : TableOfReal α) (j : Nat) : Prop :=
  ∀ M : Nat → Nat → α, (∀ i, 1 ≤ i → i ≤ T.numberOfRows → M i j = T.data i j) →
    (K.columnMeanStdev T.numberOfRows T.numberOfColumns M j).1
      = columnMean T.numberOfRows T.data j ∧
    (K.columnMeanStdev T.numberOfRows T.numberOfColumns M j).2
        * (K.columnMeanStdev T.numberOfRows T.numberOfColumns M j).2
      = columnVariance T.numberOfRows T.data j

/-- Table `B` differs from table `A` in the number of rows, the number of
columns, some row label or some column label; labels are compared as texts,
an absent label reading as the empty text. -/
def TablesDiffer (A B : TableOfReal α) : Prop :=
  A.numberOfRows ≠ B.numberOfRows ∨ A.numberOfColumns ≠ B.numberOfColumns ∨
  (∃ j, 1 ≤ j ∧ j ≤ A.numberOfRows ∧
    labelText (A.rowLabels.elems j) ≠ labelText (B.rowLabels.elems j)) ∨
  (∃ k, 1 ≤ k ∧ k ≤ A.numberOfColumns ∧
    labelText (A.columnLabels.elems k) ≠ labelText (B.columnLabels.elems k))

/-- The working copy of the data of a table in
TableOfReal_TableOfReal_rowCorrelations: the copy of the data, with each row
centred if `centre`, then each row normalized if `normalize`. -/
def rowTransformed [Zero α] (K : MatrixKernels α) (centre normalize : Bool)
    (T : TableOfReal α) : Nat → Nat → α :=
  let d := MATcopy T.numberOfRows T.numberOfColumns T.data
  let d := if centre then K.MATcentreEachRow_inplace T.numberOfRows T.numberOfColumns d else d
  if normalize then K.MATnormalizeRows_inplace T.numberOfRows T.numberOfColumns d else d

/-- The column kernel for centring is the transpose-dual of the row kernel:
centring each column of a matrix is centring each row of its transpose. -/
def MatrixKernels.CentreDual (K : MatrixKernels α) : Prop :=
  ∀ (nr nc : Nat) (M : Nat → Nat → α),
    K.MATcentreEachColumn_inplace nr nc M =
      fun i j => K.MATcentreEachRow_inplace nc nr (fun r c => M c r) j i

/-- The column kernel for normalizing is the transpose-dual of the row
kernel. -/
def MatrixKernels.NormalizeDual (K : MatrixKernels α) : Prop :=
  ∀ (nr nc : Nat) (M : Nat → Nat → α),
    K.MATnormalizeColumns_inplace nr nc M =
      fun i j => K.MATnormalizeRows_inplace nc nr (fun r c => M c r) j i

/-- The working copy of the data of a table in
TableOfReal_TableOfReal_columnCorrelations: the copy of the data, with each
column centred if `center`, then each column normalized if `normalize`. -/
def columnTransformed [Zero α] (K : MatrixKernels α) (center normalize : Bool)
    (T : TableOfReal α) : Nat → Nat → α :=
  let d := MATcopy T.numberOfRows T.numberOfColumns T.data
  let d := if center then K.MATcentreEachColumn_inplace T.numberOfRows T.numberOfColumns d
    else d
  if normalize then K.MATnormalizeColumns_inplace T.numberOfRows T.numberOfColumns d else d

/-- The label at index `i` of the vector is present and non-empty. -/
def LabelPresent (v : autostring32vector) (i : Nat) : Prop :=
  i ≤ v.size ∧ ∃ t, v.elems i = some t ∧ t ≠ ""

/-- The linear-interpolation median of an ascending list: the middle element
when the length is odd, the mean of the two middle elements when it is
even. -/
def medianOfSorted [Zero α] [Add α] [Div α] [OfNat α 2] (l : List α) : α :=
  if l.length % 2 = 1 then l.getD (l.length / 2) 0
  else (l.getD (l.length / 2 - 1) 0 + l.getD (l.length / 2) 0) / 2

/-- The kernels of TableOfReal_getColumnQuantile do what §4.2 says of them:
the column copy holds the cells of the column from top to bottom and does
not throw, the sort returns the ascending arrangement of its argument, and
the quantile of a non-empty ascending vector at fraction 1/2 is its
linear-interpolation median. -/
def QuantileKernels.ExactMedian [LinearOrderedField α] (K : QuantileKernels α) : Prop :=
  (∀ (nr nc : Nat) (d : Nat → Nat → α) (j : Nat),
    K.VECcolumn nr nc d j = .ok (columnBlock d 1 nr j)) ∧
  (∀ l : List α, (K.VECsort_inplace l).Sorted (fun a b => a ≤ b) ∧
    (K.VECsort_inplace l).Perm l) ∧
  (∀ l : List α, l.Sorted (fun a b => a ≤ b) → l ≠ [] →
    K.NUMquantile l (1 / 2) = medianOfSorted l)

/-- The kernel MATcentreEachColumn_inplace does what §4.2 says of centring:
it subtracts from every cell of the matrix the mean of its column. -/
def MatrixKernels.CentresColumns [Zero α] [Add α] [Sub α] [Div α] [NatCast α]
    (K : MatrixKernels α) : Prop :=
  ∀ (nr nc : Nat) (M : Nat → Nat → α) (i j : Nat), 1 ≤ i → i ≤ nr → 1 ≤ j → j ≤ nc →
    K.MATcentreEachColumn_inplace nr nc M i j = M i j - columnMean nr M j

/-- The mean of column `j` over the rows `s..e` of a matrix. -/
def runMean [Zero α] [Add α] [Div α] [NatCast α] (d : Nat → Nat → α) (s e j : Nat) : α :=
  columnMean (e + 1 - s) (fun r c => d (s + r - 1) c) j

/-- The fractional rank of `x` among the elements of `l`: the number of
elements strictly smaller than `x`, plus half of the number of elements
equal to `x` plus 1. -/
def fractionalRank [LinearOrderedField α] (l : List α) (x : α) : α :=
  ((l.countP (fun y => decide (y < x)) : Nat) : α)
    + (((l.countP (fun y => decide (y = x)) : Nat) : α) + 1) / 2

/-- The positions, counted from `start`, at which `x` stands in the list. -/
def positionsOf [DecidableEq α] (l : List α) (start : Nat) (x : α) : List Nat :=
  ((l.enumFrom start).filter (fun p => decide (p.2 = x))).map (fun p => p.1)

/-- The rank of `x` by tied blocks (§4.2 rankColumns): the average of the
ranks 1, 2, ... that the elements equal to `x` occupy in the ascending
arrangement of `l`. -/
def tiedBlockRank [LinearOrderedField α] (l : List α) (x : α) : α :=
  let positions := positionsOf (l.insertionSort (fun a b => a ≤ b)) 1 x
  ((positions.sum : Nat) : α) / ((positions.length : Nat) : α)

/-- The kernel NUMrankColumns does what §4.2 says of ranking: it replaces
every cell of the rows `rb..re` and columns `cb..ce` by its rank by tied
blocks among the cells `rb..re` of its column. -/
def RankKernels.RanksByTiedBlocks [LinearOrderedField α] (K : RankKernels α) : Prop :=
  ∀ (a : Nat → Nat → α) (rb re cb ce i j : Nat), rb ≤ i → i ≤ re → cb ≤ j → j ≤ ce →
    K.NUMrankColumns a rb re cb ce i j = tiedBlockRank (columnBlock a rb re j) (a i j)

/-- The run of a filter over the input samples `x 1, ..., x n`: the method
`getOutput` is called on each sample in turn.  The result is the filter after
the run and the outputs `y 1, ..., y n` (0 elsewhere). -/
def processSamples [Zero α] {F : Type} (getOutput : F → α → α × F) (me : F) (x : Nat → α)
    (n : Nat) : F × (Nat → α) :=
  forLoop 1 n (fun i (s : F × (Nat → α)) =>
    let r := getOutput s.1 (x i)
    (r.2, setElem s.2 i r.1)) (me, fun _ => 0)

/-- The sample `f [n - k]` of a sequence that starts at index 1, with the
convention that the samples before the first one are 0. -/
def pastSample [Zero α] (f : Nat → α) (n k : Nat) : α :=
  if k < n then f (n - k) else 0

/-- The class of a Filter object: 0 for a Resonator, 1 for an AntiResonator,
2 for a ConstantGainResonator. -/
def Filter.kind (me : Filter α) : Nat :=
  match me with
  | .resonator _ => 0
  | .antiResonator _ => 1
  | .constantGainResonator _ => 2

/-- The coefficients of a Filter object: a, b, c, and d for a
ConstantGainResonator. -/
def Filter.coefficients (me : Filter α) : List α :=
  match me with
  | .resonator me => [me.a, me.b, me.c]
  | .antiResonator me => [me.a, me.b, me.c]
  | .constantGainResonator me => [me.a, me.b, me.c, me.d]

/-- The memory cells of a Filter object: p1, p2, and p3, p4 for a
ConstantGainResonator. -/
def Filter.memory (me : Filter α) : List α :=
  match me with
  | .resonator me => [me.p1, me.p2]
  | .antiResonator me => [me.p1, me.p2]
  | .constantGainResonator me => [me.p1, me.p2, me.p3, me.p4]

/-- The conversions of exact arithmetic: the accumulator has the type of the
cells and nothing is rounded. -/
def Accumulator.exact : Accumulator α α :=
  { toLongdouble := fun x => x
    toDouble := fun x => x }

/-- The kernel MATnormalizeRows_inplace does on the (centred) copy of the
table, in exact arithmetic, what §4.4 says of normalizing, the scaling of
each row to unit L2 norm: every row of the copy has an L2 norm, a number
`n >= 0` whose square is the sum of the squares of the cells of the row; the
kernel divides the cells of the row by `n`, and leaves a row of norm 0 as it
is. -/
def MatrixKernels.NormalizesRowsOf [LinearOrderedField α] (K : MatrixKernels α)
    (centre : Bool) (T : TableOfReal α) : Prop :=
  ∀ i, 1 ≤ i → i ≤ T.numberOfRows →
    ∃ n : α, 0 ≤ n ∧
      n * n = sumRange T.numberOfColumns (fun j =>
        rowTransformed K centre false T i j * rowTransformed K centre false T i j) ∧
      ∀ j, 1 ≤ j → j ≤ T.numberOfColumns →
        (n = 0 → rowTransformed K centre true T i j = rowTransformed K centre false T i j) ∧
        (n ≠ 0 → rowTransformed K centre true T i j = rowTransformed K centre false T i j / n)

/-! ## Binary floating-point arithmetic -/

/-- The position of the leading bit of `n`, counted from 0, found in at most
`fuel` halvings; 0 for `n = 0`. -/
def leadingBitAux : Nat → Nat → Nat
  | 0, _ => 0
  | fuel + 1, n => if n ≤ 1 then 0 else leadingBitAux fuel (n / 2) + 1

/-- The position of the leading bit of `n`, counted from 0: the integer part
of its binary logarithm. -/
def leadingBit (n : Nat) : Nat := leadingBitAux n n

/-- Rounding of a rational to the nearest binary floating-point number with
a significand of `p` bits, ties to even.  The range of the exponent is taken
as unbounded: no overflow and no subnormal numbers. -/
def roundToBits (p : Nat) (q : ℚ) : ℚ :=
  let n := q.num.natAbs
  let d := q.den
  if n = 0 then 0
  else
    -- 2 ^ (up - (leadingBit d + 1)) <= n / d < 2 ^ (up + 1 - (leadingBit d + 1))
    let up := leadingBit n + (if d * 2 ^ leadingBit n ≤ n * 2 ^ leadingBit d then 1 else 0)
    -- the last bit of the significand has the weight 2 ^ (up - down)
    let down := leadingBit d + p
    let N := n * 2 ^ (down - up)
    let D := d * 2 ^ (up - down)
    let k := N / D
    let r := N % D
    let k := if D < 2 * r ∨ (D = 2 * r ∧ k % 2 = 1) then k + 1 else k
    (if q.num < 0 then -1 else 1) * ((k * 2 ^ (up - down) : Nat) : ℚ)
      / ((2 ^ (down - up) : Nat) : ℚ)

/-- A binary floating-point number with a significand of `p` bits, given by
its value: `binary 53` stands for the type `double`, `binary 64` for the
type `longdouble` where it is the extended format of 80 bits.  Every
operation returns the exact result rounded to `p` bits. -/
structure binary (p : Nat) where
  val : ℚ
  deriving DecidableEq

instance (p : Nat) : Zero (binary p) := ⟨⟨0⟩⟩

instance (p : Nat) : Add (binary p) := ⟨fun a b => ⟨roundToBits p (a.val + b.val)⟩⟩

instance (p : Nat) : Sub (binary p) := ⟨fun a b => ⟨roundToBits p (a.val - b.val)⟩⟩

instance (p : Nat) : Mul (binary p) := ⟨fun a b => ⟨roundToBits p (a.val * b.val)⟩⟩

instance (p : Nat) : Div (binary p) := ⟨fun a b => ⟨roundToBits p (a.val / b.val)⟩⟩

/-- Newton's iteration for the integer square root of `n`, from a start
above the root, for at most `fuel` steps. -/
def integerSqrtAux (n : Nat) : Nat → Nat → Nat
  | 0, x => x
  | fuel + 1, x =>
    let y := (x + n / x) / 2
    if y < x then integerSqrtAux n fuel y else x

/-- The integer part of the square root of `n`. -/
def integerSqrt (n : Nat) : Nat :=
  if n = 0 then 0 else integerSqrtAux n (leadingBit n + 2) (2 ^ (leadingBit n / 2 + 1))

/-- The square root of a non-negative number, correctly rounded. -/
def binary.sqrt {p : Nat} (x : binary p) : binary p :=
  let n := x.val.num.natAbs
  let d := x.val.den
  -- the integer part m of the root of x * 4 ^ k has more than p bits
  let k := p + leadingBit d + 1
  let m := integerSqrt (n * 4 ^ k / d)
  let inexact := if m * m * d = n * 4 ^ k then 0 else 1
  ⟨roundToBits p (((2 * m + inexact : Nat) : ℚ) / ((2 ^ (k + 1) : Nat) : ℚ))⟩

/-- The conversions between `double` and `longdouble`: widening is exact,
the cast `(double)` rounds to 53 bits. -/
def ieeeAccumulator : Accumulator (binary 53) (binary 64) :=
  { toLongdouble := fun x => ⟨x.val⟩
    toDouble := fun x => ⟨roundToBits 53 x.val⟩ }

/-! ## Concrete tables -/

/-- The table with the given rows, row labels and column labels. -/
def tableOfLists [Zero α] (rows : List (List α)) (rowLabels columnLabels : List (Option String)) :
    TableOfReal α :=
  { numberOfRows := rows.length
    numberOfColumns := columnLabels.length
    data := fun i j => (rows.getD (i - 1) []).getD (j - 1) 0
    rowLabels := ⟨rowLabels.length, fun i => rowLabels.getD (i - 1) none⟩
    columnLabels := ⟨columnLabels.length, fun i => columnLabels.getD (i - 1) none⟩ }

/-- The 1-based index vector with the given elements. -/
def indexOfList (l : List Nat) : Nat → Nat := fun i => l.getD (i - 1) 0

/-- The rows of a table as pairs of row label and cells. -/
def tableRows (T : TableOfReal α) : List (Option String × List α) :=
  (List.range' 1 T.numberOfRows).map fun i =>
    (T.rowLabels.elems i, (List.range' 1 T.numberOfColumns).map fun j => T.data i j)

/-- The labels of a label vector as a list. -/
def labelList (v : autostring32vector) : List (Option String) :=
  (List.range' 1 v.size).map v.elems

/-- A 3 x 2 table of integers with a repeated row label and an absent column label. -/
def tableA : TableOfReal Int :=
  tableOfLists [[1, 2], [3, 4], [10, 20]] [some "b", some "a", some "a"] [some "x", none]

/-- A 3 x 1 table of integers whose row labels differ from those of tableA. -/
def tableB : TableOfReal Int :=
  tableOfLists [[7], [8], [9]] [some "b", none, some "c"] [some "y"]

/-- A 2 x 1 table of integers. -/
def tableC : TableOfReal Int :=
  tableOfLists [[5], [6]] [some "p", some "q"] [some "z"]

instance (n : Nat) (index : Nat → Nat) : Decidable (IsPermutation n index) := by
  unfold IsPermutation; infer_instance

instance (v : autostring32vector) (n : Nat) (index : Nat → Nat) :
    Decidable (SortsLabels v n index) := by
  unfold SortsLabels; infer_instance

instance (T : TableOfReal α) : Decidable (AllRowLabelsPresent T) := by
  unfold AllRowLabelsPresent; infer_instance

/-- Modelled from the spec: `NUMindexx_s` is defined outside the sources at
hand; §4.3 step 1: the sort permutation of the rows by row-label
lexicographic order, stable (ties broken by original row order). -/
def stableIndex (v : autostring32vector) : Nat → Nat :=
  indexOfList ((List.range' 1 v.size).insertionSort
    (fun a b => labelLE (v.elems a) (v.elems b)))

/-- Modelled from the spec: the numeric kernels in exact rational
arithmetic, for the concrete examples: the arithmetic mean, the ascending
sort, and the median of an ascending vector by linear interpolation (§4.2,
§8: the middle cell, or the mean of the two middle cells). -/
def exactNumerics : Numerics ℚ :=
  { NUMindexx_s := stableIndex
    mean := fun l => l.sum / l.length
    VECsort_inplace := fun l => l.insertionSort (fun a b => a ≤ b)
    NUMquantile_half := fun l =>
      (l.getD ((l.length - 1) / 2) 0 + l.getD (l.length / 2) 0) / 2 }

/-- The table of §8: row labels a, a, b and rows [1,1], [3,3], [10,10]. -/
def groupTable : TableOfReal ℚ :=
  tableOfLists [[1, 1], [3, 3], [10, 10]] [some "a", some "a", some "b"] [some "x", some "y"]

/-- Modelled from the spec: the statistics kernel in exact rational
arithmetic, for the concrete examples (§4.2: mean and standard deviation per
column or row).  The standard deviation is the rational square root of the
sample variance, exact whenever the variance is the square of a rational. -/
def exactStats : StatKernels ℚ :=
  { columnMeanStdev := fun n _ d j => (columnMean n d j, Rat.sqrt (columnVariance n d j))
    vectorMeanStdev := fun n v =>
      (columnMean n (fun i _ => v i) 1, Rat.sqrt (columnVariance n (fun i _ => v i) 1)) }

/-- A 2 x 1 table with a constant column. -/
def constantTable : TableOfReal ℚ :=
  tableOfLists [[5], [5]] [some "r", some "s"] [some "c"]

/-- A 4 x 1 table whose column 0, 0, 0, 4 has mean 1 and sample variance 4. -/
def spreadTable : TableOfReal ℚ :=
  tableOfLists [[0], [0], [0], [4]] [none, none, none, none] [some "c"]

/-- A 1 x 2 table. -/
def oneRowTable : TableOfReal ℚ :=
  tableOfLists [[3, 4]] [some "r"] [some "c", none]

/-- A stand-in for the LAPACK kernels, for the concrete examples: the
factorization reports the first index whose diagonal entry is not positive
(0 if there is none), the inversion the first index whose diagonal entry is
zero; both leave the matrix as it is. -/
def diagonalLapack : LapackKernels ℚ :=
  { NUMlapack_dpotf2 := fun _ n a _ =>
      (a, (((List.range' 1 n).find? (fun i => decide (a i i ≤ 0))).getD 0 : Nat))
    NUMlapack_dtrtri := fun _ _ n a _ =>
      (a, (((List.range' 1 n).find? (fun i => decide (a i i = 0))).getD 0 : Nat)) }

/-- A square 2 x 2 table with a negative diagonal entry. -/
def indefiniteTable : TableOfReal ℚ :=
  tableOfLists [[1, 0], [0, -1]] [some "r1", some "r2"] [some "c1", some "c2"]

/-- A 2 x 3 table: not square. -/
def wideTable : TableOfReal ℚ :=
  tableOfLists [[1, 0, 0], [0, 1, 0]] [none, none] [none, none, none]

/-- A 1 x 2 table of integers. -/
def tableD : TableOfReal Int :=
  tableOfLists [[1, 2]] [some "r"] [some "x", some "y"]

/-- A 1 x 2 table of integers with the labels of tableD. -/
def tableE : TableOfReal Int :=
  tableOfLists [[10, 20]] [some "r"] [some "x", some "y"]

/-- A 1 x 2 table of integers whose second column label differs from that of
tableD. -/
def tableF : TableOfReal Int :=
  tableOfLists [[100, 200]] [some "r"] [some "x", some "z"]

/-- Modelled from the spec: the matrix kernels in exact rational arithmetic,
for the concrete examples (§4.4: centring subtracts the mean of the row or
column, normalizing scales the row or column to unit L2 norm).  The norm is
the rational square root of the sum of squares, exact whenever that sum is
the square of a rational. -/
def exactMatrix : MatrixKernels ℚ :=
  { MATcentreEachRow_inplace := fun _ nc M i j =>
      M i j - sumRange nc (fun c => M i c) / (nc : ℚ)
    MATcentreEachColumn_inplace := fun nr _ M i j =>
      M i j - sumRange nr (fun r => M r j) / (nr : ℚ)
    MATnormalizeRows_inplace := fun _ nc M i j =>
      M i j / Rat.sqrt (sumRange nc (fun c => M i c * M i c))
    MATnormalizeColumns_inplace := fun nr _ M i j =>
      M i j / Rat.sqrt (sumRange nr (fun r => M r j * M r j)) }

/-- A 2 x 2 table whose rows have the norms 5 and 10 and, centred, the norms
of a multiple of (1, -1). -/
def corrTableA : TableOfReal ℚ :=
  tableOfLists [[3, 4], [6, 8]] [some "a1", some "a2"] [some "u", some "v"]

/-- A 1 x 2 table. -/
def corrTableB : TableOfReal ℚ :=
  tableOfLists [[4, 3]] [some "b1"] [some "p", none]

/-- A 1 x 3 table. -/
def corrTableC : TableOfReal ℚ :=
  tableOfLists [[1, 2, 3]] [none] [none, none, none]

/-- A stand-in for the class Covariance, for the concrete examples: the
centroid and the variances of the columns. -/
structure CovarianceStandIn where
  numberOfColumns : Nat
  centroid : Nat → ℚ
  variances : Nat → ℚ

/-- A stand-in for the numeric kernels of the BHEP test in rational
arithmetic, for the concrete examples.  It is exact where the examples
evaluate it: `exp (0) = 1`, powers with an integer exponent, the centroid and
the column variances; the factorization throws when a column has variance 0,
and the distance of a vector to itself is 0.  Elsewhere it is a rational
placeholder (`undefined` is -1, `NUMsqrt1_2` is 7071/10000). -/
def bhepStandIn : BhepKernels ℚ CovarianceStandIn :=
  { undefined := -1
    NUMsqrt1_2 := 7071 / 10000
    pow := fun x y => if y.den = 1 then x ^ y.num else 1
    exp := fun x => if x = 0 then 1 else 1 / (1 - x)
    log := fun x => x - 1
    sqrt := fun x => Rat.sqrt x
    NUMlogNormalQ := fun _ _ _ => 1 / 2
    TableOfReal_to_Covariance := fun me => .ok
      { numberOfColumns := me.numberOfColumns
        centroid := fun j => columnMean me.numberOfRows me.data j
        variances := fun j => columnVariance me.numberOfRows me.data j }
    SSCP_expandLowerCholesky := fun c =>
      (c, (List.range' 1 c.numberOfColumns).any (fun j => decide (c.variances j ≤ 0)))
    NUMmahalanobisDistance := fun c v w =>
      sumRange c.numberOfColumns (fun j => (v j - w j) * (v j - w j))
    centroid := fun c => c.centroid }

/-- A 2 x 2 table with two identical rows: both columns have variance 0. -/
def twinTable : TableOfReal ℚ :=
  tableOfLists [[1, 2], [1, 2]] [none, none] [none, none]

/-- Modelled from the spec: the kernels of TableOfReal_getColumnQuantile in
exact rational arithmetic, for the concrete examples (§4.2: copy the column,
sort ascending, linear-interpolated quantile at fraction q).  The quantile
interpolates between the two elements around the position q * n + 1/2 and is
clamped to the first and the last element; `undefined` is -1. -/
def exactQuantile : QuantileKernels ℚ :=
  { undefined := -1
    VECcolumn := fun nr _ d j => .ok (columnBlock d 1 nr j)
    VECsort_inplace := fun l => l.insertionSort (fun a b => a ≤ b)
    NUMquantile := fun l q =>
      let place : ℚ := q * (l.length : ℚ) + 1 / 2
      let left : Nat := (Int.floor place).toNat
      if l.length < 1 then 0
      else if place ≤ 1 then l.getD 0 0
      else if place ≥ (l.length : ℚ) then l.getD (l.length - 1) 0
      else l.getD (left - 1) 0 + (place - (left : ℚ)) * (l.getD left 0 - l.getD (left - 1) 0) }

/-- A 4 x 1 table with the column 1, 2, 3, 4. -/
def quartetTable : TableOfReal ℚ :=
  tableOfLists [[1], [2], [3], [4]] [none, none, none, none] [some "c"]

/-- The rows of quartetTable in another order: the column 3, 1, 4, 2. -/
def shuffledQuartet : TableOfReal ℚ :=
  tableOfLists [[3], [1], [4], [2]] [none, none, none, none] [some "c"]

/-- The table groupTable without its row-label vector (the null vector). -/
def unlabelledTable : TableOfReal ℚ :=
  { groupTable with rowLabels := autostring32vector.null }

/-- Modelled from the spec: the ranking kernel in exact rational arithmetic,
for the concrete examples (§4.2 rankColumns: ties receive the average rank
of the tied block). -/
def exactRank : RankKernels ℚ :=
  { NUMrankColumns := fun a rb re cb ce i j =>
      if rb ≤ i ∧ i ≤ re ∧ cb ≤ j ∧ j ≤ ce then tiedBlockRank (columnBlock a rb re j) (a i j)
      else a i j }

/-- A 4 x 1 table with the column 3, 1, 3, 2, which has a tied pair. -/
def tiedTable : TableOfReal ℚ :=
  tableOfLists [[3], [1], [3], [2]] [some "p", some "q", some "r", some "s"] [some "c"]

/-- A square 2 x 2 table with positive diagonal and different cells above
and below the diagonal. -/
def squareTable : TableOfReal ℚ :=
  tableOfLists [[4, 1], [2, 3]] [some "r1", some "r2"] [some "c1", some "c2"]

/-- The input sequence 1, 10, 100, 1000 (0 elsewhere). -/
def sampleInput : Nat → Int := fun i => ([1, 10, 100, 1000] : List Int).getD (i - 1) 0

/-- An AntiResonator with the coefficients a = 2, b = 3, c = 5 and memory
cells that hold 7. -/
def usedAntiResonator : structAntiResonator Int :=
  { a := 2, b := 3, c := 5, p1 := 7, p2 := 7, dT := 1 }

/-- A ConstantGainResonator with the coefficients a = 2, b = 3, c = 5,
d = 7 and memory cells that hold 9. -/
def usedConstantGainResonator : structConstantGainResonator Int :=
  { a := 2, b := 3, c := 5, p1 := 9, p2 := 9, dT := 1, d := 7, p3 := 9, p4 := 9 }

/-- A Resonator with the coefficients a = 2, b = 3, c = 5 and empty
memory. -/
def freshResonator : structResonator Int :=
  { a := 2, b := 3, c := 5, p1 := 0, p2 := 0, dT := 1, normaliseAtDC := true }

/-- A 1 x 3 table whose row is NaN, 5, 3. -/
def nanRowTable : TableOfReal (Cell Int) :=
  tableOfLists [[.nan, .num 5, .num 3]] [none] [none, none, none]

/-- A 3 x 1 table whose column is NaN, 5, 3. -/
def nanColumnTable : TableOfReal (Cell Int) :=
  tableOfLists [[.nan], [.num 5], [.num 3]] [none, none, none] [none]

/-- A 1 x 4 table of numbers whose row is 5, 9, 9, 2. -/
def numberRowTable : TableOfReal (Cell Int) :=
  tableOfLists [[.num 5, .num 9, .num 9, .num 2]] [none] [none, none, none, none]

/-- A 3 x 2 table of numbers with the columns 1, 3, 10 and 2, 4, 20. -/
def numberTable : TableOfReal (Cell Int) :=
  tableOfLists [[.num 1, .num 2], [.num 3, .num 4], [.num 10, .num 20]]
    [some "b", some "a", some "a"] [some "x", some "y"]

/-- Modelled from the spec: the mean of `f 1 .. f n` in the arithmetic of the
type `double`, the sum being accumulated in `longdouble` (§4.4:
extended-precision intermediate sums). -/
def doubleMean (n : Nat) (f : Nat → binary 53) : binary 53 :=
  ieeeAccumulator.toDouble
    (sumRange n (fun i => ieeeAccumulator.toLongdouble (f i)) / (⟨(n : ℚ)⟩ : binary 64))

/-- Modelled from the spec: the L2 norm of `f 1 .. f n` in the arithmetic of
the type `double`: the rounded square root of the sum of the squares, which
is accumulated in `longdouble`. -/
def doubleNorm (n : Nat) (f : Nat → binary 53) : binary 53 :=
  ieeeAccumulator.toDouble (binary.sqrt
    (sumRange n (fun i => ieeeAccumulator.toLongdouble (f i) * ieeeAccumulator.toLongdouble (f i))))

/-- Modelled from the spec: the scaling of a cell to the norm 1.0: a vector
whose norm is positive is multiplied by the quotient of 1.0 and its norm; a
vector of norm 0 is left as it is. -/
def doubleScale (x norm : binary 53) : binary 53 :=
  if 0 < norm.val then x * ((⟨1⟩ : binary 53) / norm) else x

/-- Modelled from the spec: the matrix kernels, which are defined outside
the sources at hand, in the arithmetic of the type `double`, for the
concrete examples (§4.4: centring subtracts the mean of the row or column,
normalizing scales the row or column to unit L2 norm). -/
def doubleMatrix : MatrixKernels (binary 53) :=
  { MATcentreEachRow_inplace := fun _ nc M i j => M i j - doubleMean nc (fun c => M i c)
    MATcentreEachColumn_inplace := fun nr _ M i j => M i j - doubleMean nr (fun r => M r j)
    MATnormalizeRows_inplace := fun _ nc M i j =>
      doubleScale (M i j) (doubleNorm nc (fun c => M i c))
    MATnormalizeColumns_inplace := fun nr _ M i j =>
      doubleScale (M i j) (doubleNorm nr (fun r => M r j)) }

/-- The table corrTableA in the type `double`: the rows 3, 4 and 6, 8. -/
def doubleTableA : TableOfReal (binary 53) :=
  tableOfLists [[⟨3⟩, ⟨4⟩], [⟨6⟩, ⟨8⟩]] [some "a1", some "a2"] [some "u", some "v"]

/-- A 1 x 2 table in the type `double` with the row 2^53, 1. -/
def doubleTableB : TableOfReal (binary 53) :=
  tableOfLists [[⟨2 ^ 53⟩, ⟨1⟩]] [some "b1"] [none, none]

/-- A 1 x 2 table in the type `double` with the row 1, 1. -/
def doubleTableC : TableOfReal (binary 53) :=
  tableOfLists [[⟨1⟩, ⟨1⟩]] [some "c1"] [none, none]

/-- A 1 x 3 table in the type `double` with the row 2^53, 1, 1. -/
def doubleTableD : TableOfReal (binary 53) :=
  tableOfLists [[⟨2 ^ 53⟩, ⟨1⟩, ⟨1⟩]] [some "d1"] [none, none, none]

/-- A 1 x 3 table in the type `double` with the row 1, 1, 1. -/
def doubleTableE : TableOfReal (binary 53) :=
  tableOfLists [[⟨1⟩, ⟨1⟩, ⟨1⟩]] [some "e1"] [none, none, none]

/-- The table groupTable with its row labels all absent, as TableOfReal_create
leaves them: the row-label vector has one element per row. -/
def absentLabelsTable : TableOfReal ℚ :=
  tableOfLists [[1, 1], [3, 3], [10, 10]] [none, none, none] [some "x", some "y"]

/-! ## Loop lemmas -/

theorem forLoopAux_induct {σ : Type} (P : Nat → σ → Prop) (body : Nat → σ → σ) :
    ∀ (n i : Nat) (s : σ), P i s →
      (∀ k t, i ≤ k → k < i + n → P k t → P (k + 1) (body k t)) →
      P (i + n) (forLoopAux body n i s) := by
  intro n
  induction n with
  | zero => intro i s h _; simpa [forLoopAux] using h
  | succ n ih =>
    intro i s h hs
    have h1 : P (i + 1) (body i s) := hs i s (le_refl _) (by omega) h
    have := ih (i + 1) (body i s) h1 (fun k t hk hlt hp => hs k t (by omega) (by omega) hp)
    have e : i + (n + 1) = i + 1 + n := by omega
    rw [e]
    simpa [forLoopAux] using this

/-- Invariant rule for the counted loop: `P i s` reads "`s` is the state
just before the iteration with counter `i`". -/
theorem forLoop_induct {σ : Type} (P : Nat → σ → Prop) (lo hi : Nat) (body : Nat → σ → σ)
    (s : σ) (hle : lo ≤ hi + 1) (h0 : P lo s)
    (hs : ∀ k t, lo ≤ k → k ≤ hi → P k t → P (k + 1) (body k t)) :
    P (hi + 1) (forLoop lo hi body s) := by
  have := forLoopAux_induct P body (hi + 1 - lo) lo s h0
    (fun k t hk hlt hp => hs k t hk (by omega) hp)
  have e : lo + (hi + 1 - lo) = hi + 1 := by omega
  rw [e] at this
  exact this

theorem forLoop_empty {σ : Type} (lo hi : Nat) (body : Nat → σ → σ) (s : σ) (h : hi < lo) :
    forLoop lo hi body s = s := by
  have e : hi + 1 - lo = 0 := by omega
  simp [forLoop, e, forLoopAux]

theorem forLoop_closed {σ : Type} (F : Nat → σ) (lo hi : Nat) (body : Nat → σ → σ) (s : σ)
    (hle : lo ≤ hi + 1) (h0 : s = F lo)
    (hs : ∀ k, lo ≤ k → k ≤ hi → body k (F k) = F (k + 1)) :
    forLoop lo hi body s = F (hi + 1) := by
  refine forLoop_induct (fun k t => t = F k) lo hi body s hle h0 ?_
  intro k t h1 h2 ht
  rw [ht]
  exact hs k h1 h2

theorem forLoop_setElem {β : Type} (v : Nat → β) (f : Nat → β) (off lo hi : Nat) :
    forLoop lo hi (fun k t => setElem t (off + k) (f k)) v =
      fun m => if off + lo ≤ m ∧ m ≤ off + hi then f (m - off) else v m := by
  by_cases hle : lo ≤ hi + 1
  · have := forLoop_closed
      (fun k m => if off + lo ≤ m ∧ m < off + k then f (m - off) else v m) lo hi
      (fun k t => setElem t (off + k) (f k)) v hle
      (by funext m; show _ = ite _ _ _; rw [if_neg (by omega)])
      (by
        intro k h1 h2
        funext m
        show setElem _ _ _ _ = ite _ _ _
        simp only [setElem]
        by_cases hm : m = off + k
        · subst hm; rw [if_pos rfl, if_pos (by omega)]; simp
        · simp only [hm, if_false]
          have : (off + lo ≤ m ∧ m < off + k) ↔ (off + lo ≤ m ∧ m < off + (k + 1)) := by omega
          simp only [this])
    rw [this]
    funext m
    have : (off + lo ≤ m ∧ m < off + (hi + 1)) ↔ (off + lo ≤ m ∧ m ≤ off + hi) := by omega
    simp only [this]
  · rw [forLoop_empty _ _ _ _ (by omega)]
    funext m
    have : ¬ (off + lo ≤ m ∧ m ≤ off + hi) := by omega
    simp [this]

theorem forLoop_setCell_row {β : Type} (d : Nat → Nat → β) (r : Nat) (f : Nat → β)
    (lo hi : Nat) :
    forLoop lo hi (fun j d => setCell d r j (f j)) d =
      fun r1 c => if r1 = r ∧ lo ≤ c ∧ c ≤ hi then f c else d r1 c := by
  by_cases hle : lo ≤ hi + 1
  · have := forLoop_closed
      (fun k r1 c => if r1 = r ∧ lo ≤ c ∧ c < k then f c else d r1 c) lo hi
      (fun j d => setCell d r j (f j)) d hle
      (by funext r1 c; show _ = ite _ _ _; rw [if_neg (by omega)])
      (by
        intro k h1 h2
        funext r1 c
        show setCell _ _ _ _ _ _ = ite _ _ _
        simp only [setCell]
        by_cases hm : r1 = r ∧ c = k
        · obtain ⟨rfl, rfl⟩ := hm; rw [if_pos ⟨rfl, rfl⟩, if_pos (by omega)]
        · simp only [hm, if_false]
          have : (r1 = r ∧ lo ≤ c ∧ c < k) ↔ (r1 = r ∧ lo ≤ c ∧ c < k + 1) := by omega
          simp only [this])
    rw [this]
    funext r1 c
    have : (r1 = r ∧ lo ≤ c ∧ c < hi + 1) ↔ (r1 = r ∧ lo ≤ c ∧ c ≤ hi) := by omega
    simp only [this]
  · rw [forLoop_empty _ _ _ _ (by omega)]
    funext r1 c
    have : ¬ (r1 = r ∧ lo ≤ c ∧ c ≤ hi) := by omega
    simp [this]

theorem forLoop_setCell_col {β : Type} (d : Nat → Nat → β) (c : Nat) (f : Nat → β)
    (lo hi : Nat) :
    forLoop lo hi (fun i d => setCell d i c (f i)) d =
      fun r c1 => if c1 = c ∧ lo ≤ r ∧ r ≤ hi then f r else d r c1 := by
  by_cases hle : lo ≤ hi + 1
  · have := forLoop_closed
      (fun k r c1 => if c1 = c ∧ lo ≤ r ∧ r < k then f r else d r c1) lo hi
      (fun i d => setCell d i c (f i)) d hle
      (by funext r c1; show _ = ite _ _ _; rw [if_neg (by omega)])
      (by
        intro k h1 h2
        funext r c1
        show setCell _ _ _ _ _ _ = ite _ _ _
        simp only [setCell]
        by_cases hm : r = k ∧ c1 = c
        · obtain ⟨rfl, rfl⟩ := hm; rw [if_pos ⟨rfl, rfl⟩, if_pos (by omega)]
        · simp only [hm, if_false]
          have : (c1 = c ∧ lo ≤ r ∧ r < k) ↔ (c1 = c ∧ lo ≤ r ∧ r < k + 1) := by omega
          simp only [this])
    rw [this]
    funext r c1
    have : (c1 = c ∧ lo ≤ r ∧ r < hi + 1) ↔ (c1 = c ∧ lo ≤ r ∧ r ≤ hi) := by omega
    simp only [this]
  · rw [forLoop_empty _ _ _ _ (by omega)]
    funext r c1
    have : ¬ (c1 = c ∧ lo ≤ r ∧ r ≤ hi) := by omega
    simp [this]

theorem copyElementsFrom_upTo_eq (our source : autostring32vector) (upTo : Nat) :
    our.copyElementsFrom_upTo source upTo =
      ⟨our.size, fun i => if 1 ≤ i ∧ i ≤ upTo then source.elems i else our.elems i⟩ := by
  unfold autostring32vector.copyElementsFrom_upTo
  have := forLoop_closed
    (fun k => (⟨our.size, fun i => if 1 ≤ i ∧ i < k then source.elems i else our.elems i⟩ :
      autostring32vector)) 1 upTo (fun i v => v.set i (source.elems i)) our (by omega)
    (by
      show our = ⟨our.size, fun i => ite _ _ _⟩
      cases our with
      | mk sz el =>
        congr 1
        funext i
        rw [if_neg (by omega)])
    (by
      intro k h1 h2
      show autostring32vector.set _ _ _ = _
      simp only [autostring32vector.set]
      congr 1
      funext i
      simp only [setElem]
      by_cases hi : i = k
      · subst hi; rw [if_pos rfl, if_pos (by omega)]
      · simp only [hi, if_false]
        have : (1 ≤ i ∧ i < k) ↔ (1 ≤ i ∧ i < k + 1) := by omega
        simp only [this])
  rw [this]
  show autostring32vector.mk _ _ = autostring32vector.mk _ _
  congr 1
  funext i
  have : (1 ≤ i ∧ i < upTo + 1) ↔ (1 ≤ i ∧ i ≤ upTo) := by omega
  simp only [this]

theorem copyElementsFrom_eq (our source : autostring32vector) :
    our.copyElementsFrom source =
      ⟨our.size, fun i => if 1 ≤ i ∧ i ≤ source.size then source.elems i else our.elems i⟩ :=
  copyElementsFrom_upTo_eq our source source.size

theorem transpose_data [Zero α] (me : TableOfReal α) (d0 : Nat → Nat → α) :
    forLoop 1 me.numberOfRows (fun i d =>
        forLoop 1 me.numberOfColumns (fun j d => setCell d j i (me.data i j)) d) d0 =
      fun r c => if 1 ≤ c ∧ c ≤ me.numberOfRows ∧ 1 ≤ r ∧ r ≤ me.numberOfColumns
        then me.data c r else d0 r c := by
  have := forLoop_closed
    (fun k r c => if 1 ≤ c ∧ c < k ∧ 1 ≤ r ∧ r ≤ me.numberOfColumns
        then me.data c r else d0 r c) 1 me.numberOfRows
    (fun i d => forLoop 1 me.numberOfColumns (fun j d => setCell d j i (me.data i j)) d) d0
    (by omega)
    (by funext r c; show _ = ite _ _ _; rw [if_neg (by omega)])
    (by
      intro k h1 h2
      show forLoop _ _ _ _ = _
      rw [forLoop_setCell_col]
      funext r c
      by_cases hc : c = k ∧ 1 ≤ r ∧ r ≤ me.numberOfColumns
      · obtain ⟨rfl, h3, h4⟩ := hc
        rw [if_pos ⟨rfl, h3, h4⟩]
        show _ = ite _ _ _
        rw [if_pos (by omega)]
      · rw [if_neg hc]
        show ite _ _ _ = ite _ _ _
        have : (1 ≤ c ∧ c < k ∧ 1 ≤ r ∧ r ≤ me.numberOfColumns) ↔
            (1 ≤ c ∧ c < k + 1 ∧ 1 ≤ r ∧ r ≤ me.numberOfColumns) := by omega
        simp only [this])
  rw [this]
  funext r c
  have : (1 ≤ c ∧ c < me.numberOfRows + 1 ∧ 1 ≤ r ∧ r ≤ me.numberOfColumns) ↔
      (1 ≤ c ∧ c ≤ me.numberOfRows ∧ 1 ≤ r ∧ r ≤ me.numberOfColumns) := by omega
  simp only [this]

theorem TableOfReal_transpose_eq [Zero α] (me : TableOfReal α) :
    TableOfReal_transpose me =
      { numberOfRows := me.numberOfColumns
        numberOfColumns := me.numberOfRows
        data := fun r c => if 1 ≤ c ∧ c ≤ me.numberOfRows ∧ 1 ≤ r ∧ r ≤ me.numberOfColumns
          then me.data c r else 0
        rowLabels := ⟨me.numberOfColumns, fun i =>
          if 1 ≤ i ∧ i ≤ me.columnLabels.size then me.columnLabels.elems i else none⟩
        columnLabels := ⟨me.numberOfRows, fun i =>
          if 1 ≤ i ∧ i ≤ me.rowLabels.size then me.rowLabels.elems i else none⟩ } := by
  simp only [TableOfReal_transpose, TableOfReal_create, transpose_data, copyElementsFrom_eq]

/-- C6: the transpose of a table with r rows and c columns has c rows and r
columns, its cell (j,i) is the cell (i,j) of the table, its row labels are
the column labels of the table and its column labels are the row labels. -/
theorem TableOfReal_transpose_spec [Zero α] (T : TableOfReal α) (hwf : T.WF) :
    (TableOfReal_transpose T).numberOfRows = T.numberOfColumns ∧
    (TableOfReal_transpose T).numberOfColumns = T.numberOfRows ∧
    (∀ i j, 1 ≤ i → i ≤ T.numberOfRows → 1 ≤ j → j ≤ T.numberOfColumns →
      (TableOfReal_transpose T).data j i = T.data i j) ∧
    SameLabels (TableOfReal_transpose T).rowLabels T.columnLabels ∧
    SameLabels (TableOfReal_transpose T).columnLabels T.rowLabels := by
  obtain ⟨hr, hc⟩ := hwf
  rw [TableOfReal_transpose_eq]
  refine ⟨rfl, rfl, ?_, ⟨hc.symm, ?_⟩, ⟨hr.symm, ?_⟩⟩
  · intro i j h1 h2 h3 h4
    show ite _ _ _ = _
    rw [if_pos ⟨h1, h2, h3, h4⟩]
  · intro i h1 h2
    show ite _ _ _ = _
    rw [if_pos ⟨h1, by simpa [hc] using h2⟩]
  · intro i h1 h2
    show ite _ _ _ = _
    rw [if_pos ⟨h1, by simpa [hr] using h2⟩]

theorem TableOfReal_transpose_spec_witness :
    tableA.WF ∧
    (TableOfReal_transpose tableA).numberOfRows = tableA.numberOfColumns ∧
    (TableOfReal_transpose tableA).numberOfColumns = tableA.numberOfRows ∧
    (∀ i j, 1 ≤ i → i ≤ tableA.numberOfRows → 1 ≤ j → j ≤ tableA.numberOfColumns →
      (TableOfReal_transpose tableA).data j i = tableA.data i j) ∧
    SameLabels (TableOfReal_transpose tableA).rowLabels tableA.columnLabels ∧
    SameLabels (TableOfReal_transpose tableA).columnLabels tableA.rowLabels :=
  ⟨by decide, TableOfReal_transpose_spec tableA (by decide)⟩

/-- C5: transposing twice gives the table back: same dimensions, same data
in every cell, same row labels and same column labels, absent labels
included. -/
theorem TableOfReal_transpose_transpose [Zero α] (T : TableOfReal α) (hwf : T.WF) :
    SameTable (TableOfReal_transpose (TableOfReal_transpose T)) T := by
  obtain ⟨hr, hc⟩ := hwf
  rw [TableOfReal_transpose_eq, TableOfReal_transpose_eq]
  refine ⟨rfl, rfl, ?_, ⟨hr.symm, ?_⟩, ⟨hc.symm, ?_⟩⟩
  · intro i j h1 h2 h3 h4
    simp only at h2 h4 ⊢
    rw [if_pos ⟨h3, h4, h1, h2⟩, if_pos ⟨h1, h2, h3, h4⟩]
  · intro i h1 h2
    simp only at h2 ⊢
    rw [if_pos ⟨h1, h2⟩, if_pos ⟨h1, by omega⟩]
  · intro i h1 h2
    simp only at h2 ⊢
    rw [if_pos ⟨h1, h2⟩, if_pos ⟨h1, by omega⟩]

theorem TableOfReal_transpose_transpose_witness :
    tableA.WF ∧ SameTable (TableOfReal_transpose (TableOfReal_transpose tableA)) tableA :=
  ⟨by decide, TableOfReal_transpose_transpose tableA (by decide)⟩

theorem forLoop_vecSet (v : autostring32vector) (f : Nat → Option String) (off lo hi : Nat) :
    forLoop lo hi (fun k (w : autostring32vector) => w.set (off + k) (f k)) v =
      ⟨v.size, fun m => if off + lo ≤ m ∧ m ≤ off + hi then f (m - off) else v.elems m⟩ := by
  by_cases hle : lo ≤ hi + 1
  · have := forLoop_closed
      (fun k => (⟨v.size, fun m => if off + lo ≤ m ∧ m < off + k then f (m - off)
        else v.elems m⟩ : autostring32vector)) lo hi
      (fun k (w : autostring32vector) => w.set (off + k) (f k)) v hle
      (by
        show v = ⟨v.size, fun m => ite _ _ _⟩
        cases v with
        | mk sz el =>
          congr 1
          funext m
          rw [if_neg (by omega)])
      (by
        intro k h1 h2
        show autostring32vector.set _ _ _ = autostring32vector.mk _ _
        simp only [autostring32vector.set]
        congr 1
        funext m
        simp only [setElem]
        by_cases hm : m = off + k
        · subst hm; rw [if_pos rfl, if_pos (by omega)]; simp
        · simp only [hm, if_false]
          have : (off + lo ≤ m ∧ m < off + k) ↔ (off + lo ≤ m ∧ m < off + (k + 1)) := by omega
          simp only [this])
    rw [this]
    show autostring32vector.mk _ _ = autostring32vector.mk _ _
    congr 1
    funext m
    have : (off + lo ≤ m ∧ m < off + (hi + 1)) ↔ (off + lo ≤ m ∧ m ≤ off + hi) := by omega
    simp only [this]
  · rw [forLoop_empty _ _ _ _ (by omega)]
    cases v with
    | mk sz el =>
      congr 1
      funext m
      have : ¬ (off + lo ≤ m ∧ m ≤ off + hi) := by omega
      simp [this]

theorem NUMvector_copyElements_eq {β : Type} (v row : Nat → β) (off lo hi : Nat) :
    NUMvector_copyElements v row off lo hi =
      fun m => if off + lo ≤ m ∧ m ≤ off + hi then v (m - off) else row m :=
  forLoop_setElem row v off lo hi

theorem setRow_apply {β : Type} (a : Nat → Nat → β) (i : Nat) (row : Nat → β) (r c : Nat) :
    setRow a i row r c = if r = i then row c else a r c := by
  unfold setRow
  by_cases h : r = i <;> simp [h]

theorem labelDiffs_succ (v w : autostring32vector) (n : Nat) :
    labelDiffs v w (n + 1) =
      if ! Melder_equ (v.elems (n + 1)) (w.elems (n + 1)) then labelDiffs v w n + 1
      else labelDiffs v w n := by
  unfold labelDiffs Melder_equ
  rw [List.range'_concat, List.filter_append]
  by_cases h : labelText (v.elems (n + 1)) = labelText (w.elems (n + 1))
  · simp [h, Nat.add_comm]
  · simp [h, Nat.add_comm]

theorem appendColumns_rowLoop (me thee him : TableOfReal α) (n : Nat) :
    forLoop 1 n (fun i (r : TableOfReal α × Nat) =>
      let labeldiffs :=
        if ! Melder_equ (me.rowLabels.elems i) (thee.rowLabels.elems i) then r.2 + 1 else r.2
      let row := NUMvector_copyElements (me.data i) (r.1.data i) 0 1 me.numberOfColumns
      let him : TableOfReal α := { r.1 with data := setRow r.1.data i row }
      let row := NUMvector_copyElements (thee.data i) (him.data i) me.numberOfColumns 1
        thee.numberOfColumns
      let him : TableOfReal α := { him with data := setRow him.data i row }
      (him, labeldiffs)) (him, 0) =
    ({ him with data := appendedData me thee him.data (n + 1) },
      labelDiffs me.rowLabels thee.rowLabels n) := by
  refine forLoop_closed
    (fun k => (({ him with data := appendedData me thee him.data k } : TableOfReal α),
      labelDiffs me.rowLabels thee.rowLabels (k - 1))) 1 n _ _ (by omega) ?_ ?_
  · show (him, 0) = (_, _)
    congr 1
    cases him with
    | mk a b d e f =>
      congr 1
      funext r c
      simp only [appendedData]
      rw [if_neg (by omega)]
  · intro k h1 h2
    obtain ⟨m, rfl⟩ : ∃ m, k = m + 1 := ⟨k - 1, by omega⟩
    simp only [Nat.add_sub_cancel, NUMvector_copyElements_eq]
    rw [labelDiffs_succ]
    congr 1
    congr 1
    funext r c
    simp only [setRow_apply, appendedData, if_true]
    by_cases hr : r = m + 1
    · subst hr
      have e1 : ¬ (1 ≤ m + 1 ∧ m + 1 < m + 1) := by omega
      have e2 : (1 ≤ m + 1 ∧ m + 1 < m + 1 + 1) := by omega
      have e3 : (0 + 1 ≤ c ∧ c ≤ 0 + me.numberOfColumns) ↔ (1 ≤ c ∧ c ≤ me.numberOfColumns) := by
        omega
      simp only [e1, e2, e3, if_true, if_false, Nat.sub_zero, true_and, and_self, lt_self_iff_false]
    · simp only [hr, if_false]
      have : (1 ≤ r ∧ r < m + 1) ↔ (1 ≤ r ∧ r < m + 1 + 1) := by omega
      simp only [this]

theorem TableOfReal_appendColumns_eq [Zero α] (me thee : TableOfReal α)
    (h : me.numberOfRows = thee.numberOfRows) :
    TableOfReal_appendColumns me thee = .ok
      ({ numberOfRows := me.numberOfRows
         numberOfColumns := me.numberOfColumns + thee.numberOfColumns
         data := appendedData me thee (fun _ _ => 0) (me.numberOfRows + 1)
         rowLabels := ⟨me.numberOfRows, fun i =>
           if 1 ≤ i ∧ i ≤ me.rowLabels.size then me.rowLabels.elems i else none⟩
         columnLabels := ⟨me.numberOfColumns + thee.numberOfColumns, fun m =>
           if me.numberOfColumns + 1 ≤ m ∧ m ≤ me.numberOfColumns + thee.numberOfColumns then
             thee.columnLabels.elems (m - me.numberOfColumns)
           else if 1 ≤ m ∧ m ≤ me.numberOfColumns then me.columnLabels.elems m else none⟩ },
       labelDiffs me.rowLabels thee.rowLabels me.numberOfRows) := by
  unfold TableOfReal_appendColumns
  simp only [ne_eq, h, not_true_eq_false, if_false, TableOfReal_create, copyElementsFrom_eq,
    copyElementsFrom_upTo_eq, forLoop_vecSet]
  rw [← h]
  rw [appendColumns_rowLoop]

/-- C7: for tables A and B with equal row counts appendColumns returns a
table with the row count of A and the columns of A followed by the columns
of B: data and column labels of A in the first columns, data and column
labels of B, in order, in the remaining ones, and the row labels of A. -/
theorem TableOfReal_appendColumns_spec [Zero α] (A B : TableOfReal α) (hA : A.WF)
    (_hB : B.WF) (h : A.numberOfRows = B.numberOfRows) :
    ∃ R k, TableOfReal_appendColumns A B = .ok (R, k) ∧
      R.numberOfRows = A.numberOfRows ∧
      R.numberOfColumns = A.numberOfColumns + B.numberOfColumns ∧
      R.columnLabels.size = A.numberOfColumns + B.numberOfColumns ∧
      (∀ i j, 1 ≤ i → i ≤ A.numberOfRows → 1 ≤ j → j ≤ A.numberOfColumns →
        R.data i j = A.data i j) ∧
      (∀ j, 1 ≤ j → j ≤ A.numberOfColumns →
        R.columnLabels.elems j = A.columnLabels.elems j) ∧
      (∀ i j, 1 ≤ i → i ≤ A.numberOfRows → 1 ≤ j → j ≤ B.numberOfColumns →
        R.data i (A.numberOfColumns + j) = B.data i j) ∧
      (∀ j, 1 ≤ j → j ≤ B.numberOfColumns →
        R.columnLabels.elems (A.numberOfColumns + j) = B.columnLabels.elems j) ∧
      SameLabels R.rowLabels A.rowLabels := by
  refine ⟨_, _, TableOfReal_appendColumns_eq A B h, rfl, rfl, rfl, ?_, ?_, ?_, ?_, ?_⟩
  · intro i j h1 h2 h3 h4
    simp only [appendedData]
    rw [if_pos (by omega), if_neg (by omega), if_pos ⟨h3, h4⟩]
  · intro j h1 h2
    simp only
    rw [if_neg (by omega), if_pos ⟨h1, h2⟩]
  · intro i j h1 h2 h3 h4
    simp only [appendedData]
    rw [if_pos (by omega), if_pos (by omega), Nat.add_sub_cancel_left]
  · intro j h1 h2
    simp only
    rw [if_pos (by omega), Nat.add_sub_cancel_left]
  · refine ⟨hA.1.symm, ?_⟩
    intro i h1 h2
    simp only at h2 ⊢
    rw [if_pos ⟨h1, by rw [hA.1]; exact h2⟩]

theorem TableOfReal_appendColumns_spec_witness :
    tableA.WF ∧ tableB.WF ∧ tableA.numberOfRows = tableB.numberOfRows ∧
    ∃ R k, TableOfReal_appendColumns tableA tableB = .ok (R, k) ∧
      R.numberOfRows = tableA.numberOfRows ∧
      R.numberOfColumns = tableA.numberOfColumns + tableB.numberOfColumns ∧
      R.columnLabels.size = tableA.numberOfColumns + tableB.numberOfColumns ∧
      (∀ i j, 1 ≤ i → i ≤ tableA.numberOfRows → 1 ≤ j → j ≤ tableA.numberOfColumns →
        R.data i j = tableA.data i j) ∧
      (∀ j, 1 ≤ j → j ≤ tableA.numberOfColumns →
        R.columnLabels.elems j = tableA.columnLabels.elems j) ∧
      (∀ i j, 1 ≤ i → i ≤ tableA.numberOfRows → 1 ≤ j → j ≤ tableB.numberOfColumns →
        R.data i (tableA.numberOfColumns + j) = tableB.data i j) ∧
      (∀ j, 1 ≤ j → j ≤ tableB.numberOfColumns →
        R.columnLabels.elems (tableA.numberOfColumns + j) = tableB.columnLabels.elems j) ∧
      SameLabels R.rowLabels tableA.rowLabels :=
  ⟨by decide, by decide, by decide,
    TableOfReal_appendColumns_spec tableA tableB (by decide) (by decide) (by decide)⟩

/-- C8: appendColumns fails, with the message that the numbers of rows
should be equal and without a table, exactly when the row counts of A and B
differ; in every other case it returns a table. -/
theorem TableOfReal_appendColumns_fails_iff [Zero α] (A B : TableOfReal α) :
    (TableOfReal_appendColumns A B = .error .rowsNotEqual ↔
      A.numberOfRows ≠ B.numberOfRows) ∧
    ((∃ e, TableOfReal_appendColumns A B = .error e) ↔ A.numberOfRows ≠ B.numberOfRows) ∧
    ((∃ R k, TableOfReal_appendColumns A B = .ok (R, k)) ↔
      A.numberOfRows = B.numberOfRows) := by
  by_cases h : A.numberOfRows = B.numberOfRows
  · have e := TableOfReal_appendColumns_eq A B h
    refine ⟨?_, ?_, ?_⟩
    · rw [e]; simp [h]
    · rw [e]; simp [h]
    · exact ⟨fun _ => h, fun _ => ⟨_, _, e⟩⟩
  · have e : TableOfReal_appendColumns A B = .error .rowsNotEqual := by
      unfold TableOfReal_appendColumns
      simp [h]
    refine ⟨?_, ?_, ?_⟩
    · rw [e]; simp [h]
    · rw [e]; simp [h]
    · rw [e]; simp [h]

theorem labelDiffs_self (v : autostring32vector) (n : Nat) : labelDiffs v v n = 0 := by
  simp [labelDiffs]

/-- C9: row-label mismatches neither stop appendColumns nor change its
result: for tables A and B with equal row counts the call returns a table,
the reported count is the number of row positions at which the label of A
differs from the label of B as a text (an absent
label reading as the empty text), and the table is the one returned when the row
labels of B are replaced by those of A (where the count is 0). -/
theorem TableOfReal_appendColumns_labeldiffs [Zero α] (A B : TableOfReal α)
    (h : A.numberOfRows = B.numberOfRows) :
    ∃ R, TableOfReal_appendColumns A B =
        .ok (R, labelDiffs A.rowLabels B.rowLabels A.numberOfRows) ∧
      TableOfReal_appendColumns A { B with rowLabels := A.rowLabels } = .ok (R, 0) := by
  refine ⟨_, TableOfReal_appendColumns_eq A B h, ?_⟩
  rw [TableOfReal_appendColumns_eq A { B with rowLabels := A.rowLabels } h, labelDiffs_self]
  rfl

theorem TableOfReal_appendColumns_labeldiffs_witness :
    tableA.numberOfRows = tableB.numberOfRows ∧
    labelDiffs tableA.rowLabels tableB.rowLabels tableA.numberOfRows = 2 ∧
    ∃ R, TableOfReal_appendColumns tableA tableB =
        .ok (R, labelDiffs tableA.rowLabels tableB.rowLabels tableA.numberOfRows) ∧
      TableOfReal_appendColumns tableA { tableB with rowLabels := tableA.rowLabels } =
        .ok (R, 0) :=
  ⟨by decide, by decide, TableOfReal_appendColumns_labeldiffs tableA tableB (by decide)⟩

theorem NUMvector_extrema_inRange (index : Nat → Nat) (n : Nat) (hn : 1 ≤ n)
    (h : ∀ i, 1 ≤ i → i ≤ n → 1 ≤ index i ∧ index i ≤ n) :
    (NUMvector_extrema index 1 n).1 > 0 ∧ (NUMvector_extrema index 1 n).1 ≤ n ∧
    (NUMvector_extrema index 1 n).2 > 0 ∧ (NUMvector_extrema index 1 n).2 ≤ n := by
  unfold NUMvector_extrema
  have := forLoop_induct (fun (_ : Nat) (m : Nat × Nat) => m.1 > 0 ∧ m.1 ≤ n ∧ m.2 > 0 ∧ m.2 ≤ n)
    (1 + 1) n (fun i (m : Nat × Nat) =>
      (if index i < m.1 then index i else m.1, if index i > m.2 then index i else m.2))
    (index 1, index 1) (by omega)
    (by have := h 1 (le_refl _) hn; simp only; omega)
    (by
      intro k t h1 h2 ht
      have hk := h k (by omega) h2
      simp only
      split_ifs <;> omega)
  exact this

theorem TableOfReal_sortRowsByIndex_forward [Zero α] (me : TableOfReal α) (index : Nat → Nat)
    (hn : 1 ≤ me.numberOfRows) (hsize : me.rowLabels.size ≠ 0)
    (h : ∀ i, 1 ≤ i → i ≤ me.numberOfRows → 1 ≤ index i ∧ index i ≤ me.numberOfRows) :
    TableOfReal_sortRowsByIndex me index false = .ok (sortedTable me index) := by
  unfold sortedTable
  have hx := NUMvector_extrema_inRange index me.numberOfRows hn h
  unfold TableOfReal_sortRowsByIndex
  rw [if_neg hsize, if_neg (not_not.mpr hx)]
  simp only [Bool.false_eq_true, if_false, forLoop_setCell_row, copyElementsFrom_eq]
  congr 1
  have := forLoop_closed
    (fun k => ({ numberOfRows := me.numberOfRows
                 numberOfColumns := me.numberOfColumns
                 data := fun r c =>
                   if 1 ≤ r ∧ r < k ∧ 1 ≤ c ∧ c ≤ me.numberOfColumns
                   then me.data (index r) c else 0
                 rowLabels := ⟨me.numberOfRows, fun i =>
                   if 1 ≤ i ∧ i < k then me.rowLabels.elems (index i) else none⟩
                 columnLabels := ⟨me.numberOfColumns, fun _ => none⟩ } : TableOfReal α))
    1 me.numberOfRows
    (fun i (thee : TableOfReal α) =>
      ({ numberOfRows := thee.numberOfRows
         numberOfColumns := thee.numberOfColumns
         data := fun r1 c =>
           if r1 = i ∧ 1 ≤ c ∧ c ≤ me.numberOfColumns then me.data (index i) c
           else thee.data r1 c
         rowLabels := thee.rowLabels.set i (me.rowLabels.elems (index i))
         columnLabels := thee.columnLabels } : TableOfReal α))
    (TableOfReal_create me.numberOfRows me.numberOfColumns) (by omega)
    (by
      simp only [TableOfReal_create]
      congr 1
      · funext r c; rw [if_neg (by omega)]
      · congr 1; funext i; rw [if_neg (by omega)])
    (by
      intro k h1 h2
      simp only [autostring32vector.set]
      congr 1
      · funext r c
        by_cases hr : r = k
        · subst hr
          by_cases hc : 1 ≤ c ∧ c ≤ me.numberOfColumns
          · rw [if_pos ⟨rfl, hc⟩, if_pos (by omega)]
          · rw [if_neg (by omega), if_neg (by omega), if_neg (by omega)]
        · rw [if_neg (by omega)]
          have : (1 ≤ r ∧ r < k ∧ 1 ≤ c ∧ c ≤ me.numberOfColumns) ↔
              (1 ≤ r ∧ r < k + 1 ∧ 1 ≤ c ∧ c ≤ me.numberOfColumns) := by omega
          simp only [this]
      · congr 1
        funext i
        simp only [setElem]
        by_cases hi : i = k
        · subst hi; rw [if_pos rfl, if_pos (by omega)]
        · rw [if_neg hi]
          have : (1 ≤ i ∧ i < k) ↔ (1 ≤ i ∧ i < k + 1) := by omega
          simp only [this])
  rw [this]
  simp only
  congr 1
  · funext r c
    have : (1 ≤ r ∧ r < me.numberOfRows + 1 ∧ 1 ≤ c ∧ c ≤ me.numberOfColumns) ↔
        (1 ≤ r ∧ r ≤ me.numberOfRows ∧ 1 ≤ c ∧ c ≤ me.numberOfColumns) := by omega
    simp only [this]
  · congr 1
    funext i
    have : (1 ≤ i ∧ i < me.numberOfRows + 1) ↔ (1 ≤ i ∧ i ≤ me.numberOfRows) := by omega
    simp only [this]

theorem TableOfReal_sortRowsByIndex_backward [Zero α] (me : TableOfReal α) (index : Nat → Nat)
    (hn : 1 ≤ me.numberOfRows) (hsize : me.rowLabels.size ≠ 0)
    (h : ∀ i, 1 ≤ i → i ≤ me.numberOfRows → 1 ≤ index i ∧ index i ≤ me.numberOfRows)
    (hinj : ∀ i j, 1 ≤ i → i ≤ me.numberOfRows → 1 ≤ j → j ≤ me.numberOfRows →
      index i = index j → i = j) :
    ∃ R, TableOfReal_sortRowsByIndex me index true = .ok R ∧
      R.numberOfRows = me.numberOfRows ∧ R.numberOfColumns = me.numberOfColumns ∧
      R.rowLabels = ⟨me.numberOfRows, fun i =>
        if 1 ≤ i ∧ i ≤ me.numberOfRows then me.rowLabels.elems i else none⟩ ∧
      R.columnLabels = ⟨me.numberOfColumns, fun i =>
        if 1 ≤ i ∧ i ≤ me.columnLabels.size then me.columnLabels.elems i else none⟩ ∧
      ∀ i c, 1 ≤ i → i ≤ me.numberOfRows → 1 ≤ c → c ≤ me.numberOfColumns →
        R.data (index i) c = me.data i c := by
  have hx := NUMvector_extrema_inRange index me.numberOfRows hn h
  unfold TableOfReal_sortRowsByIndex
  rw [if_neg hsize, if_neg (not_not.mpr hx)]
  simp only [if_true, forLoop_setCell_row, copyElementsFrom_eq]
  have := forLoop_induct
    (fun k (t : TableOfReal α) =>
      t.numberOfRows = me.numberOfRows ∧ t.numberOfColumns = me.numberOfColumns ∧
      t.rowLabels = ⟨me.numberOfRows, fun i =>
        if 1 ≤ i ∧ i < k then me.rowLabels.elems i else none⟩ ∧
      t.columnLabels = ⟨me.numberOfColumns, fun _ => none⟩ ∧
      ∀ i c, 1 ≤ i → i < k → 1 ≤ c → c ≤ me.numberOfColumns →
        t.data (index i) c = me.data i c)
    1 me.numberOfRows
    (fun i (thee : TableOfReal α) =>
      ({ numberOfRows := thee.numberOfRows
         numberOfColumns := thee.numberOfColumns
         data := fun r1 c =>
           if r1 = index i ∧ 1 ≤ c ∧ c ≤ me.numberOfColumns then me.data i c
           else thee.data r1 c
         rowLabels := thee.rowLabels.set i (me.rowLabels.elems i)
         columnLabels := thee.columnLabels } : TableOfReal α))
    (TableOfReal_create me.numberOfRows me.numberOfColumns) (by omega)
    (by
      refine ⟨rfl, rfl, ?_, rfl, ?_⟩
      · simp only [TableOfReal_create]
        congr 1; funext i; rw [if_neg (by omega)]
      · intro i c h1 h2; omega)
    (by
      intro k t h1 h2 ⟨e1, e2, e3, e4, e5⟩
      refine ⟨e1, e2, ?_, e4, ?_⟩
      · simp only [e3, autostring32vector.set]
        congr 1
        funext i
        simp only [setElem]
        by_cases hi : i = k
        · subst hi; rw [if_pos rfl, if_pos (by omega)]
        · rw [if_neg hi]
          have : (1 ≤ i ∧ i < k) ↔ (1 ≤ i ∧ i < k + 1) := by omega
          simp only [this]
      · intro i c g1 g2 g3 g4
        simp only
        by_cases hi : i = k
        · subst hi; rw [if_pos ⟨rfl, g3, g4⟩]
        · have : index i ≠ index k := fun hh => hi (hinj i k g1 (by omega) h1 h2 hh)
          rw [if_neg (by intro hh; exact this hh.1)]
          exact e5 i c g1 (by omega) g3 g4)
  obtain ⟨e1, e2, e3, e4, e5⟩ := this
  refine ⟨_, rfl, e1, e2, ?_, ?_, ?_⟩
  · simp only [e3]
    congr 1
    funext i
    have : (1 ≤ i ∧ i < me.numberOfRows + 1) ↔ (1 ≤ i ∧ i ≤ me.numberOfRows) := by omega
    simp only [this]
  · simp only [e4]
  · intro i c g1 g2 g3 g4
    exact e5 i c g1 (by omega) g3 g4

/-- C4 at a concrete input: with reverse = true the data of a row moves and
its label stays.  The table has the rows b -> [1,2], a -> [3,4],
a -> [10,20] and the index vector is the permutation [2,3,1]; row 1 of the
result has the data [10,20] of row 3 and the label b of row 1, which is no
row of the table, so the result is not a row permutation of the table. -/
theorem TableOfReal_sortRowsByIndex_reverse_splits_rows :
    IsPermutation tableA.numberOfRows (indexOfList [2, 3, 1]) ∧
    ∃ R, TableOfReal_sortRowsByIndex tableA (indexOfList [2, 3, 1]) true = .ok R ∧
      tableRows R = [(some "b", [10, 20]), (some "a", [1, 2]), (some "a", [3, 4])] ∧
      tableRows tableA = [(some "b", [1, 2]), (some "a", [3, 4]), (some "a", [10, 20])] ∧
      (∀ k, 1 ≤ k → k ≤ tableA.numberOfRows →
        ¬ (R.rowLabels.elems 1 = tableA.rowLabels.elems k ∧
          ∀ j, 1 ≤ j → j ≤ tableA.numberOfColumns → R.data 1 j = tableA.data k j)) :=
  ⟨by decide, _, rfl, by decide, by decide, by decide⟩

theorem Melder_cmp_ne_zero_iff (a b : Option String) :
    Melder_cmp a b ≠ 0 ↔ labelText a ≠ labelText b := by
  unfold Melder_cmp
  by_cases h : labelText a = labelText b
  · simp [h]
  · rw [if_neg h]
    constructor
    · intro _; exact h
    · intro _
      split_ifs <;> decide

theorem columnBlock_congr (a b : Nat → Nat → α) (rb re j : Nat)
    (h : ∀ r, rb ≤ r → r ≤ re → a r j = b r j) :
    columnBlock a rb re j = columnBlock b rb re j := by
  unfold columnBlock
  apply List.map_congr_left
  intro r hr
  rw [List.mem_range'_1] at hr
  exact h r hr.1 (by omega)

theorem columnBlock_single (a : Nat → Nat → α) (rb j : Nat) :
    columnBlock a rb rb j = [a rb j] := by
  unfold columnBlock
  have : rb + 1 - rb = 1 := by omega
  rw [this]
  rfl

/-- The column-wise smear loop shared by NUMaverageColumns and
NUMmedianizeColumns: every cell of the block receives the value of `f` on
its column block. -/
theorem smearColumns_eq (f : List α → α) (a : Nat → Nat → α) (rb re cb ce : Nat) :
    forLoop cb ce (fun j a =>
        forLoop rb re (fun i b => setCell b i j (f (columnBlock a rb re j))) a) a =
      fun r c => if rb ≤ r ∧ r ≤ re ∧ cb ≤ c ∧ c ≤ ce then f (columnBlock a rb re c)
        else a r c := by
  by_cases hle : cb ≤ ce + 1
  · have := forLoop_closed
      (fun k r c => if rb ≤ r ∧ r ≤ re ∧ cb ≤ c ∧ c < k then f (columnBlock a rb re c)
        else a r c) cb ce
      (fun j a => forLoop rb re (fun i b => setCell b i j (f (columnBlock a rb re j))) a) a hle
      (by funext r c; show _ = ite _ _ _; rw [if_neg (by omega)])
      (by
        intro k h1 h2
        show forLoop _ _ _ _ = _
        rw [forLoop_setCell_col]
        funext r c
        have hcb : columnBlock (fun r c => if rb ≤ r ∧ r ≤ re ∧ cb ≤ c ∧ c < k
            then f (columnBlock a rb re c) else a r c) rb re k = columnBlock a rb re k := by
          apply columnBlock_congr
          intro r _ _
          show ite _ _ _ = _
          rw [if_neg (by omega)]
        by_cases hc : c = k ∧ rb ≤ r ∧ r ≤ re
        · obtain ⟨rfl, h3, h4⟩ := hc
          rw [if_pos ⟨rfl, h3, h4⟩, hcb]
          show _ = ite _ _ _
          rw [if_pos (by omega)]
        · rw [if_neg hc]
          show ite _ _ _ = ite _ _ _
          have : (rb ≤ r ∧ r ≤ re ∧ cb ≤ c ∧ c < k) ↔
              (rb ≤ r ∧ r ≤ re ∧ cb ≤ c ∧ c < k + 1) := by omega
          simp only [this])
    rw [this]
    funext r c
    have : (rb ≤ r ∧ r ≤ re ∧ cb ≤ c ∧ c < ce + 1) ↔
        (rb ≤ r ∧ r ≤ re ∧ cb ≤ c ∧ c ≤ ce) := by omega
    simp only [this]
  · rw [forLoop_empty _ _ _ _ (by omega)]
    funext r c
    rw [if_neg (by omega)]

theorem NUMstatsColumns_eq (N : Numerics α) (useMedians : Bool)
    (hsingle : useMedians = true → ∀ x, N.aggregate true [x] = x)
    (a : Nat → Nat → α) (rb re cb ce : Nat) (hrb : rb ≤ re) :
    NUMstatsColumns N a rb re cb ce useMedians =
      fun r c => if rb ≤ r ∧ r ≤ re ∧ cb ≤ c ∧ c ≤ ce
        then N.aggregate useMedians (columnBlock a rb re c) else a r c := by
  unfold NUMstatsColumns
  cases useMedians with
  | false =>
    simp only [Bool.false_eq_true, if_false, NUMaverageColumns, Numerics.aggregate]
    exact smearColumns_eq N.mean a rb re cb ce
  | true =>
    simp only [if_true, NUMmedianizeColumns]
    by_cases hlt : re + 1 - rb < 2
    · rw [if_pos hlt]
      have hre : re = rb := by omega
      subst hre
      funext r c
      by_cases hin : re ≤ r ∧ r ≤ re ∧ cb ≤ c ∧ c ≤ ce
      · rw [if_pos hin, columnBlock_single, hsingle rfl]
        have : r = re := by omega
        rw [this]
      · rw [if_neg hin]
    · rw [if_neg hlt]
      simp only [Numerics.aggregate, if_true]
      exact smearColumns_eq (fun l => N.NUMquantile_half (N.VECsort_inplace l)) a rb re cb ce

theorem forLoopMAux_induct {ε σ : Type} (P : Nat → σ → Prop) (body : Nat → σ → Except ε σ) :
    ∀ (n i : Nat) (s : σ), P i s →
      (∀ k t, i ≤ k → k < i + n → P k t → ∃ u, body k t = .ok u ∧ P (k + 1) u) →
      ∃ u, forLoopMAux body n i s = .ok u ∧ P (i + n) u := by
  intro n
  induction n with
  | zero => intro i s h _; exact ⟨s, rfl, by simpa using h⟩
  | succ n ih =>
    intro i s h hs
    obtain ⟨u, hu, hp⟩ := hs i s (le_refl _) (by omega) h
    obtain ⟨w, hw, hq⟩ := ih (i + 1) u hp (fun k t hk hlt hp => hs k t (by omega) (by omega) hp)
    refine ⟨w, ?_, ?_⟩
    · simp only [forLoopMAux, hu]
      exact hw
    · have e : i + (n + 1) = i + 1 + n := by omega
      rw [e]
      exact hq

/-- Invariant rule for the counted loop with a throwing body: when every
iteration preserves the invariant without throwing, the loop returns a state
that satisfies it. -/
theorem forLoopM_induct {ε σ : Type} (P : Nat → σ → Prop) (lo hi : Nat)
    (body : Nat → σ → Except ε σ) (s : σ) (hle : lo ≤ hi + 1) (h0 : P lo s)
    (hs : ∀ k t, lo ≤ k → k ≤ hi → P k t → ∃ u, body k t = .ok u ∧ P (k + 1) u) :
    ∃ u, forLoopM lo hi body s = .ok u ∧ P (hi + 1) u := by
  have := forLoopMAux_induct P body (hi + 1 - lo) lo s h0
    (fun k t hk hlt hp => hs k t hk (by omega) hp)
  have e : lo + (hi + 1 - lo) = hi + 1 := by omega
  rw [e] at this
  exact this

/-- The effect of TableOfReal_copyOneRowWithLabel within one table. -/
theorem TableOfReal_copyOneRowWithLabel_same (me : TableOfReal α) (a b : Nat)
    (ha : 1 ≤ a ∧ a ≤ me.numberOfRows) (hb : 1 ≤ b ∧ b ≤ me.numberOfRows) :
    ∃ t, TableOfReal_copyOneRowWithLabel me me true a b = .ok t ∧
      t.numberOfRows = me.numberOfRows ∧ t.numberOfColumns = me.numberOfColumns ∧
      t.columnLabels = me.columnLabels ∧ t.rowLabels.size = me.rowLabels.size ∧
      (∀ r, t.rowLabels.elems r =
        if r = b then me.rowLabels.elems a else me.rowLabels.elems r) ∧
      (∀ r c, t.data r c =
        if r = b ∧ 1 ≤ c ∧ c ≤ me.numberOfColumns then me.data a c else me.data r c) := by
  unfold TableOfReal_copyOneRowWithLabel
  by_cases hab : a = b
  · subst hab
    refine ⟨me, by simp, rfl, rfl, rfl, rfl, ?_, ?_⟩
    · intro r
      by_cases hr : r = a
      · rw [if_pos hr, hr]
      · rw [if_neg hr]
    · intro r c
      by_cases hr : r = a ∧ 1 ≤ c ∧ c ≤ me.numberOfColumns
      · rw [if_pos hr, hr.1]
      · rw [if_neg hr]
  · rw [if_neg (by simp [hab]), if_neg (by simp; omega)]
    refine ⟨_, rfl, rfl, rfl, rfl, rfl, ?_, ?_⟩
    · intro r
      simp only [autostring32vector.set, setElem]
    · intro r c
      simp only [setRow_apply, NUMvector_copyElements_eq]
      by_cases hr : r = b
      · subst hr
        simp only [if_true, true_and, Nat.sub_zero]
        have : (0 + 1 ≤ c ∧ c ≤ 0 + me.numberOfColumns) ↔ (1 ≤ c ∧ c ≤ me.numberOfColumns) := by
          omega
        simp only [this]
      · simp only [hr, if_false, false_and]

/-- The effect of TableOfReal_copyOneRowWithLabel between two tables. -/
theorem TableOfReal_copyOneRowWithLabel_other (me thee : TableOfReal α) (a b : Nat)
    (ha : 1 ≤ a ∧ a ≤ me.numberOfRows) (hb : 1 ≤ b ∧ b ≤ thee.numberOfRows)
    (hc : me.numberOfColumns = thee.numberOfColumns) :
    TableOfReal_copyOneRowWithLabel me thee false a b = .ok
      { thee with
        rowLabels := ⟨thee.rowLabels.size, fun r =>
          if r = b then me.rowLabels.elems a else thee.rowLabels.elems r⟩
        data := fun r c =>
          if r = b ∧ 1 ≤ c ∧ c ≤ me.numberOfColumns then me.data a c else thee.data r c } := by
  unfold TableOfReal_copyOneRowWithLabel
  rw [if_neg (by simp), if_neg (by simp; omega)]
  simp only [autostring32vector.set, setElem]
  congr 2
  funext r c
  simp only [setRow_apply, NUMvector_copyElements_eq]
  by_cases hr : r = b
  · subst hr
    simp only [if_true, true_and, Nat.sub_zero]
    have : (0 + 1 ≤ c ∧ c ≤ 0 + me.numberOfColumns) ↔ (1 ≤ c ∧ c ≤ me.numberOfColumns) := by
      omega
    simp only [this]
  · simp only [hr, if_false, false_and]

theorem closeRun_expand (N : Numerics α) (useMedians : Bool)
    (hsingle : useMedians = true → ∀ x, N.aggregate true [x] = x)
    (L : Nat → Option String) (D0 : Nat → Nat → α) (n nc : Nat) (cl : autostring32vector)
    (k : Nat) (s : MeansScan α) (h : ScanInv N useMedians true L D0 n nc cl k s) (hk : k ≤ n)
    (hend : k = n ∨ labelText (L (k + 1)) ≠ labelText (L s.indexi)) :
    ClosedInv N useMedians true L D0 n nc cl k
      { s.sorted with
        data := NUMstatsColumns N s.sorted.data s.indexi k 1 nc useMedians } s.indexr := by
  have hi1 := h.hi1
  have hik := h.hik
  rw [NUMstatsColumns_eq N useMedians hsingle _ _ _ _ _ hik]
  have hblock : ∀ c, columnBlock s.sorted.data s.indexi k c = columnBlock D0 s.indexi k c := by
    intro c
    apply columnBlock_congr
    intro r h1 _
    exact (h.closed.hrest r (by omega)).2 c
  refine
    { nrows := h.closed.nrows, ncols := h.closed.ncols, collabels := h.closed.collabels,
      rlsize := h.closed.rlsize, hrest := ?_, hexp := ?_,
      hred := fun e => Bool.noConfusion e, hord := fun e => Bool.noConfusion e, hcov := fun e => Bool.noConfusion e }
  · intro r hr
    refine ⟨(h.closed.hrest r (by omega)).1, ?_⟩
    intro c
    show ite _ _ _ = _
    rw [if_neg (by omega)]
    exact (h.closed.hrest r (by omega)).2 c
  · intro _ r h1 h2
    by_cases hr : r < s.indexi
    · obtain ⟨e1, sg, eg, e2, e3, e4, e5⟩ := h.closed.hexp rfl r h1 (by omega)
      refine ⟨e1, sg, eg, e2, e3, e4, ?_⟩
      intro c g1 g2
      show ite _ _ _ = _
      rw [if_neg (by omega)]
      exact e5 c g1 g2
    · refine ⟨(h.closed.hrest r (by omega)).1, s.indexi, k,
        ⟨hi1, hik, hk, h.hrun, h.hstart, hend⟩, by omega, h2, ?_⟩
      intro c g1 g2
      show ite _ _ _ = _
      rw [if_pos ⟨by omega, h2, g1, g2⟩, hblock]

theorem labelLT_of_run (L : Nat → Option String) (n sg eg j : Nat)
    (hsorted : ∀ i j, 1 ≤ i → i ≤ j → j ≤ n → labelLE (L i) (L j))
    (hrun : IsRun L n sg eg) (hj : eg < j) (hjn : j ≤ n) : labelLT (L sg) (L j) := by
  obtain ⟨h1, h2, h3, _, _, h6⟩ := hrun
  have hne : labelText (L (eg + 1)) ≠ labelText (L sg) := by
    rcases h6 with h6 | h6
    · omega
    · exact h6
  have a1 : labelLE (L sg) (L (eg + 1)) := hsorted sg (eg + 1) h1 (by omega) (by omega)
  have a2 : labelLE (L (eg + 1)) (L j) := hsorted (eg + 1) j (by omega) (by omega) hjn
  unfold labelLE at a1 a2
  unfold labelLT
  have a3 : (labelText (L sg)).toList ≠ (labelText (L (eg + 1))).toList := by
    intro hh
    exact hne (String.toList_inj.mp hh).symm
  exact lt_of_lt_of_le (lt_of_le_of_ne a1 a3) a2

theorem closeRun_reduce (N : Numerics α) (useMedians : Bool)
    (hsingle : useMedians = true → ∀ x, N.aggregate true [x] = x)
    (L : Nat → Option String) (D0 : Nat → Nat → α) (n nc : Nat) (cl : autostring32vector)
    (hsorted : ∀ i j, 1 ≤ i → i ≤ j → j ≤ n → labelLE (L i) (L j))
    (k : Nat) (s : MeansScan α) (h : ScanInv N useMedians false L D0 n nc cl k s) (hk : k ≤ n)
    (hend : k = n ∨ labelText (L (k + 1)) ≠ labelText (L s.indexi)) :
    ∃ t, TableOfReal_copyOneRowWithLabel
        { s.sorted with
          data := NUMstatsColumns N s.sorted.data s.indexi k 1 nc useMedians }
        { s.sorted with
          data := NUMstatsColumns N s.sorted.data s.indexi k 1 nc useMedians }
        true s.indexi (s.indexr + 1) = .ok t ∧
      ClosedInv N useMedians false L D0 n nc cl k t (s.indexr + 1) := by
  have hi1 := h.hi1
  have hik := h.hik
  have hc := h.closed
  obtain ⟨hq, hruns⟩ := hc.hred rfl
  rw [NUMstatsColumns_eq N useMedians hsingle _ _ _ _ _ hik]
  have hblock : ∀ c, columnBlock s.sorted.data s.indexi k c = columnBlock D0 s.indexi k c := by
    intro c
    apply columnBlock_congr
    intro r h1 _
    exact (hc.hrest r (by omega)).2 c
  obtain ⟨t, ht, t1, t2, t3, t4, t5, t6⟩ := TableOfReal_copyOneRowWithLabel_same
    ({ s.sorted with
        data := fun r c => if s.indexi ≤ r ∧ r ≤ k ∧ 1 ≤ c ∧ c ≤ nc
          then N.aggregate useMedians (columnBlock s.sorted.data s.indexi k c)
          else s.sorted.data r c } : TableOfReal α) s.indexi (s.indexr + 1)
    ⟨hi1, by show _ ≤ s.sorted.numberOfRows; rw [hc.nrows]; omega⟩
    ⟨by omega, by show _ ≤ s.sorted.numberOfRows; rw [hc.nrows]; omega⟩
  simp only at t1 t2 t3 t4 t5 t6
  have hrun : IsRun L n s.indexi k := ⟨hi1, hik, hk, h.hrun, h.hstart, hend⟩
  have hnew : t.rowLabels.elems (s.indexr + 1) = L s.indexi := by
    rw [t5, if_pos rfl]
    exact (hc.hrest s.indexi (by omega)).1
  have hold : ∀ m, m ≤ s.indexr → t.rowLabels.elems m = s.sorted.rowLabels.elems m := by
    intro m hm
    rw [t5, if_neg (by omega)]
  refine ⟨t, ht,
    { nrows := by rw [t1]; exact hc.nrows, ncols := by rw [t2]; exact hc.ncols,
      collabels := by rw [t3]; exact hc.collabels, rlsize := by rw [t4]; exact hc.rlsize,
      hrest := ?_, hexp := fun e => Bool.noConfusion e, hred := ?_, hord := ?_, hcov := ?_ }⟩
  · intro r hr
    constructor
    · rw [t5, if_neg (by omega)]
      exact (hc.hrest r (by omega)).1
    · intro c
      rw [t6, if_neg (by omega), if_neg (by omega)]
      exact (hc.hrest r (by omega)).2 c
  · intro _
    refine ⟨by omega, ?_⟩
    intro m h1 h2
    by_cases hm : m = s.indexr + 1
    · subst hm
      refine ⟨s.indexi, k, hrun, le_refl _, hnew, ?_⟩
      intro c g1 g2
      rw [t6, hc.ncols, if_pos ⟨rfl, g1, g2⟩, if_pos ⟨le_refl _, hik, g1, g2⟩, hblock]
    · obtain ⟨sg, eg, e1, e2, e3, e4⟩ := hruns m h1 (by omega)
      refine ⟨sg, eg, e1, by omega, by rw [hold m (by omega)]; exact e3, ?_⟩
      intro c g1 g2
      rw [t6, if_neg (by omega), if_neg (by omega)]
      exact e4 c g1 g2
  · intro _ m h1 m' h2 h3
    by_cases hm : m' = s.indexr + 1
    · subst hm
      obtain ⟨sg, eg, e1, e2, e3, _⟩ := hruns m h1 (by omega)
      rw [hnew, hold m (by omega), e3]
      exact labelLT_of_run L n sg eg s.indexi hsorted e1 (by omega) (by omega)
    · rw [hold m (by omega), hold m' (by omega)]
      exact hc.hord rfl m h1 m' h2 (by omega)
  · intro _ r h1 h2
    by_cases hr : r < s.indexi
    · obtain ⟨m, e1, e2, e3⟩ := hc.hcov rfl r h1 (by omega)
      exact ⟨m, e1, by omega, by rw [hold m e2]; exact e3⟩
    · exact ⟨s.indexr + 1, by omega, le_refl _, by rw [hnew]; exact (h.hrun r (by omega) h2).symm⟩

theorem openRun (N : Numerics α) (useMedians expand : Bool)
    (L : Nat → Option String) (D0 : Nat → Nat → α) (n nc : Nat) (cl : autostring32vector)
    (k : Nat) (t : TableOfReal α) (q : Nat)
    (h : ClosedInv N useMedians expand L D0 n nc cl k t q)
    (hne : labelText (L k) ≠ labelText (L (k + 1))) :
    ScanInv N useMedians expand L D0 n nc cl (k + 1)
      { sorted := t, indexi := k + 1, indexr := q, label := L (k + 1) } :=
  { hi1 := by show 1 ≤ k + 1; omega
    hik := le_refl _
    hlabel := rfl
    hrun := by
      intro r h1 h2
      have : r = k + 1 := le_antisymm h2 h1
      rw [this]
    hstart := Or.inr (by show labelText (L (k + 1 - 1)) ≠ _; rw [Nat.add_sub_cancel]; exact hne)
    closed := by
      show ClosedInv N useMedians expand L D0 n nc cl (k + 1 - 1) t q
      rw [Nat.add_sub_cancel]
      exact h }

theorem meansScanBody_step [Zero α] (N : Numerics α) (useMedians expand : Bool)
    (hsingle : useMedians = true → ∀ x, N.aggregate true [x] = x)
    (L : Nat → Option String) (D0 : Nat → Nat → α) (n nc : Nat) (cl : autostring32vector)
    (hsorted : ∀ i j, 1 ≤ i → i ≤ j → j ≤ n → labelLE (L i) (L j))
    (k : Nat) (s : MeansScan α) (h : ScanInv N useMedians expand L D0 n nc cl k s)
    (hk : k + 1 ≤ n) :
    ∃ u, meansScanBody N nc expand useMedians (k + 1) s = .ok u ∧
      ScanInv N useMedians expand L D0 n nc cl (k + 1) u := by
  have hli : s.sorted.rowLabels.elems (k + 1) = L (k + 1) :=
    (h.closed.hrest (k + 1) (by have := h.hik; omega)).1
  unfold meansScanBody
  simp only [hli, h.hlabel, Nat.add_sub_cancel]
  by_cases hcmp : Melder_cmp (L (k + 1)) (L s.indexi) ≠ 0
  · rw [if_pos hcmp]
    rw [Melder_cmp_ne_zero_iff] at hcmp
    have hne : labelText (L k) ≠ labelText (L (k + 1)) := by
      rw [h.hrun k h.hik (le_refl _)]
      exact fun e => hcmp e.symm
    cases expand with
    | true =>
      simp only [Bool.not_true, Bool.false_eq_true, if_false]
      exact ⟨_, rfl, openRun N useMedians true L D0 n nc cl k _ _
        (closeRun_expand N useMedians hsingle L D0 n nc cl k s h (by omega) (Or.inr hcmp)) hne⟩
    | false =>
      simp only [Bool.not_false, if_true]
      obtain ⟨t, ht, hcl⟩ := closeRun_reduce N useMedians hsingle L D0 n nc cl hsorted k s h
        (by omega) (Or.inr hcmp)
      rw [ht]
      exact ⟨_, rfl, openRun N useMedians false L D0 n nc cl k t _ hcl hne⟩
  · rw [if_neg hcmp]
    rw [Melder_cmp_ne_zero_iff, not_not] at hcmp
    refine ⟨s, rfl,
      { hi1 := h.hi1, hik := by have := h.hik; omega, hlabel := h.hlabel, hrun := ?_,
        hstart := h.hstart, closed := h.closed }⟩
    intro r h1 h2
    by_cases hr : r = k + 1
    · rw [hr]; exact hcmp
    · exact h.hrun r h1 (by omega)

theorem meansScan_loop [Zero α] (N : Numerics α) (useMedians expand : Bool)
    (hsingle : useMedians = true → ∀ x, N.aggregate true [x] = x)
    (S0 : TableOfReal α) (hn : 1 ≤ S0.numberOfRows)
    (hsize : S0.rowLabels.size = S0.numberOfRows)
    (hsorted : ∀ i j, 1 ≤ i → i ≤ j → j ≤ S0.numberOfRows →
      labelLE (S0.rowLabels.elems i) (S0.rowLabels.elems j)) :
    ∃ s, forLoopM 2 S0.numberOfRows
        (meansScanBody N S0.numberOfColumns expand useMedians)
        { sorted := S0, indexi := 1, indexr := 0, label := S0.rowLabels.elems 1 } = .ok s ∧
      ScanInv N useMedians expand S0.rowLabels.elems S0.data S0.numberOfRows
        S0.numberOfColumns S0.columnLabels S0.numberOfRows s := by
  have := forLoopM_induct
    (fun j (t : MeansScan α) => ScanInv N useMedians expand S0.rowLabels.elems S0.data
      S0.numberOfRows S0.numberOfColumns S0.columnLabels (j - 1) t)
    2 S0.numberOfRows (meansScanBody N S0.numberOfColumns expand useMedians)
    { sorted := S0, indexi := 1, indexr := 0, label := S0.rowLabels.elems 1 } (by omega)
    { hi1 := le_refl _
      hik := le_refl _
      hlabel := rfl
      hrun := by
        intro r h1 h2
        have : r = 1 := by simp only at h1 h2; omega
        rw [this]
      hstart := Or.inl rfl
      closed :=
        { nrows := rfl, ncols := rfl, collabels := rfl, rlsize := hsize
          hrest := fun r _ => ⟨rfl, fun _ => rfl⟩
          hexp := by intro _ r h1 h2; simp only at h2; omega
          hred := by
            intro _
            refine ⟨Nat.zero_le _, ?_⟩
            intro m h1 h2
            simp only at h2
            omega
          hord := by intro _ m h1 m' h2 h3; simp only at h3; omega
          hcov := by intro _ r h1 h2; simp only at h2; omega } }
    (by
      intro k t h1 h2 ht
      obtain ⟨m, rfl⟩ : ∃ m, k = m + 1 := ⟨k - 1, by omega⟩
      simp only [Nat.add_sub_cancel] at ht ⊢
      exact meansScanBody_step N useMedians expand hsingle _ _ _ _ _ hsorted m t ht h2)
  simpa using this

theorem IsPermutation.surj {n : Nat} {index : Nat → Nat} (h : IsPermutation n index) :
    ∀ k, 1 ≤ k → k ≤ n → ∃ i, 1 ≤ i ∧ i ≤ n ∧ index i = k := by
  intro k h1 h2
  have := Finset.surj_on_of_inj_on_of_card_le (s := Finset.Icc 1 n) (t := Finset.Icc 1 n)
    (fun a _ => index a)
    (by
      intro a ha
      rw [Finset.mem_Icc] at ha ⊢
      exact h.1 a ha.1 ha.2)
    (by
      intro a b ha hb hab
      rw [Finset.mem_Icc] at ha hb
      exact h.2 a ha.1 ha.2 b hb.1 hb.2 hab)
    (le_refl _) k (by rw [Finset.mem_Icc]; exact ⟨h1, h2⟩)
  obtain ⟨a, ha, hk⟩ := this
  rw [Finset.mem_Icc] at ha
  exact ⟨a, ha.1, ha.2, hk.symm⟩

theorem label_eq_of_text_eq (a b : Option String) (ha : a.isSome = true) (hb : b.isSome = true)
    (h : labelText a = labelText b) : a = b := by
  cases a with
  | none => cases ha
  | some x =>
    cases b with
    | none => cases hb
    | some y =>
      simp only [labelText, Option.getD_some] at h
      rw [h]

theorem labelText_eq_of_le_of_le (a b c : Option String) (h1 : labelLE a b) (h2 : labelLE b c)
    (h : labelText a = labelText c) : labelText b = labelText a := by
  unfold labelLE at h1 h2
  rw [← h] at h2
  exact String.toList_inj.mp (le_antisymm h2 h1)

/-- The cells of a maximal run of the sorted table are, up to their order,
the cells of the rows of the table that carry the label of the run. -/
theorem run_cells_perm [Zero α] (T : TableOfReal α) (index : Nat → Nat)
    (hpresent : AllRowLabelsPresent T)
    (hindex : SortsLabels T.rowLabels T.numberOfRows index)
    (sg eg : Nat)
    (hrun : IsRun (sortedTable T index).rowLabels.elems T.numberOfRows sg eg)
    (c : Nat) (hc : 1 ≤ c ∧ c ≤ T.numberOfColumns) :
    (columnBlock (sortedTable T index).data sg eg c).Perm
      (cellsLabelled T ((sortedTable T index).rowLabels.elems sg) c) := by
  obtain ⟨hperm, hasc⟩ := hindex
  obtain ⟨r1, r2, r3, r4, r5, r6⟩ := hrun
  have hL : ∀ r, 1 ≤ r → r ≤ T.numberOfRows →
      (sortedTable T index).rowLabels.elems r = T.rowLabels.elems (index r) := by
    intro r h1 h2
    show ite _ _ _ = _
    rw [if_pos ⟨h1, h2⟩]
  have hsortedL : ∀ i j, 1 ≤ i → i ≤ j → j ≤ T.numberOfRows →
      labelLE ((sortedTable T index).rowLabels.elems i)
        ((sortedTable T index).rowLabels.elems j) := by
    intro i j h1 h2 h3
    rw [hL i h1 (by omega), hL j (by omega) h3]
    exact hasc i h1 (by omega) j h2 h3
  have hsome : ∀ r, 1 ≤ r → r ≤ T.numberOfRows →
      ((sortedTable T index).rowLabels.elems r).isSome = true := by
    intro r h1 h2
    rw [hL r h1 h2]
    exact hpresent _ (hperm.1 r h1 h2).1 (hperm.1 r h1 h2).2
  have e1 : columnBlock (sortedTable T index).data sg eg c =
      ((List.range' sg (eg + 1 - sg)).map index).map (fun i => T.data i c) := by
    unfold columnBlock
    rw [List.map_map]
    apply List.map_congr_left
    intro r hr
    rw [List.mem_range'_1] at hr
    show ite _ _ _ = _
    rw [if_pos ⟨by omega, by omega, hc.1, hc.2⟩]
    rfl
  rw [e1]
  unfold cellsLabelled
  apply List.Perm.map
  rw [List.perm_ext_iff_of_nodup]
  · intro a
    rw [List.mem_map, List.mem_filter, List.mem_range'_1]
    constructor
    · rintro ⟨r, hr, rfl⟩
      rw [List.mem_range'_1] at hr
      have hr1 : 1 ≤ r := by omega
      have hr2 : r ≤ T.numberOfRows := by omega
      refine ⟨by have := hperm.1 r hr1 hr2; omega, ?_⟩
      rw [decide_eq_true_eq, ← hL r hr1 hr2]
      exact label_eq_of_text_eq _ _ (hsome r hr1 hr2) (hsome sg r1 (by omega))
        (r4 r hr.1 (by omega))
    · rintro ⟨ha, hlab⟩
      rw [decide_eq_true_eq] at hlab
      obtain ⟨r, hr1, hr2, rfl⟩ := hperm.surj a ha.1 (by omega)
      rw [← hL r hr1 hr2] at hlab
      refine ⟨r, ?_, rfl⟩
      rw [List.mem_range'_1]
      have hlow : sg ≤ r := by
        by_contra hlt
        have hs1 : sg ≠ 1 := by omega
        have hne := r5.resolve_left hs1
        apply hne
        have := labelText_eq_of_le_of_le _ _ _
          (hsortedL r (sg - 1) hr1 (by omega) (by omega))
          (hsortedL (sg - 1) sg (by omega) (by omega) (by omega)) (by rw [hlab])
        rw [this, hlab]
      have hhigh : r ≤ eg := by
        by_contra hlt
        have hs1 : eg ≠ T.numberOfRows := by omega
        have hne := r6.resolve_left hs1
        apply hne
        have := labelText_eq_of_le_of_le _ _ _
          (hsortedL sg (eg + 1) r1 (by omega) (by omega))
          (hsortedL (eg + 1) r (by omega) (by omega) hr2) (by rw [hlab])
        exact this
      omega
  · apply List.Nodup.map_on _ (List.nodup_range' _ _)
    intro x hx y hy hxy
    rw [List.mem_range'_1] at hx hy
    exact hperm.2 x (by omega) (by omega) y (by omega) (by omega) hxy
  · exact List.Nodup.filter _ (List.nodup_range' _ _)

theorem sortedTable_sorted [Zero α] (T : TableOfReal α) (index : Nat → Nat)
    (hindex : SortsLabels T.rowLabels T.numberOfRows index) :
    ∀ i j, 1 ≤ i → i ≤ j → j ≤ (sortedTable T index).numberOfRows →
      labelLE ((sortedTable T index).rowLabels.elems i)
        ((sortedTable T index).rowLabels.elems j) := by
  intro i j h1 h2 h3
  have h3' : j ≤ T.numberOfRows := h3
  show labelLE (ite _ _ _) (ite _ _ _)
  rw [if_pos ⟨h1, by omega⟩, if_pos ⟨by omega, h3'⟩]
  exact hindex.2 i h1 (by omega) j h2 h3'

/-- C2: for a table whose row labels are all present, meansByRowLabels with
expand = true returns a table with the dimensions and the column labels of
the table, whose row labels are those of the table in the original row
order and whose row i holds, in each column, the aggregate (mean, or median
when useMedians) of the cells of that column over all rows of the table
that carry the label of row i.  The index vector that NUMindexx_s returns is
assumed to sort the row labels; the aggregate of one cell is assumed to be
that cell and the aggregate not to depend on the order of the cells. -/
theorem TableOfReal_meansByRowLabels_expand [Zero α] (N : Numerics α) (T : TableOfReal α)
    (useMedians : Bool) (hn : 1 ≤ T.numberOfRows) (hwf : T.WF)
    (hpresent : AllRowLabelsPresent T)
    (hindex : SortsLabels T.rowLabels T.numberOfRows (N.NUMindexx_s T.rowLabels))
    (hone : ∀ x, N.aggregate useMedians [x] = x)
    (horder : ∀ l l1 : List α, l.Perm l1 → N.aggregate useMedians l = N.aggregate useMedians l1) :
    ∃ R, (TableOfReal_meansByRowLabels N T true useMedians).2 = .ok R ∧
      R.numberOfRows = T.numberOfRows ∧ R.numberOfColumns = T.numberOfColumns ∧
      SameLabels R.columnLabels T.columnLabels ∧ SameLabels R.rowLabels T.rowLabels ∧
      ∀ i j, 1 ≤ i → i ≤ T.numberOfRows → 1 ≤ j → j ≤ T.numberOfColumns →
        R.data i j = N.aggregate useMedians (cellsLabelled T (T.rowLabels.elems i) j) := by
  obtain ⟨hr, hcsz⟩ := hwf
  have hperm := hindex.1
  have hsize0 : T.rowLabels.size ≠ 0 := by rw [hr]; omega
  have hsingle : useMedians = true → ∀ x, N.aggregate true [x] = x := by
    intro e x
    have := hone x
    rw [e] at this
    exact this
  have hfwd := TableOfReal_sortRowsByIndex_forward T (N.NUMindexx_s T.rowLabels) hn hsize0
    hperm.1
  obtain ⟨s, hs, hinv⟩ := meansScan_loop N useMedians true hsingle
    (sortedTable T (N.NUMindexx_s T.rowLabels)) hn rfl
    (sortedTable_sorted T _ hindex)
  have hcl := closeRun_expand N useMedians hsingle _ _ _ _ _ _ s hinv (le_refl _) (Or.inl rfl)
  have hnr : s.sorted.numberOfRows = T.numberOfRows := hinv.closed.nrows
  have hnc : s.sorted.numberOfColumns = T.numberOfColumns := hinv.closed.ncols
  obtain ⟨R, hR, b1, b2, b3, b4, b5⟩ := TableOfReal_sortRowsByIndex_backward
    ({ s.sorted with
        data := NUMstatsColumns N s.sorted.data s.indexi T.numberOfRows 1 T.numberOfColumns
          useMedians
        rowLabels := T.rowLabels } : TableOfReal α) (N.NUMindexx_s T.rowLabels)
    (by show 1 ≤ s.sorted.numberOfRows; rw [hnr]; exact hn) hsize0
    (by
      intro i h1 h2
      have h2' : i ≤ s.sorted.numberOfRows := h2
      rw [hnr] at h2'
      show _ ∧ _ ≤ s.sorted.numberOfRows
      rw [hnr]
      exact hperm.1 i h1 h2')
    (by
      intro i j h1 h2 h3 h4
      have h2' : i ≤ s.sorted.numberOfRows := h2
      have h4' : j ≤ s.sorted.numberOfRows := h4
      rw [hnr] at h2' h4'
      exact hperm.2 i h1 h2' j h3 h4')
  simp only at b1 b2 b3 b4 b5
  rw [hnr] at b1 b3 b5
  rw [hnc] at b2 b4 b5
  refine ⟨R, ?_, b1, b2, ?_, ?_, ?_⟩
  · unfold TableOfReal_meansByRowLabels
    simp only [TableOfReal_getSortedIndexFromRowLabels, hfwd]
    have hs' : forLoopM 2 T.numberOfRows
        (meansScanBody N T.numberOfColumns true useMedians)
        { sorted := sortedTable T (N.NUMindexx_s T.rowLabels), indexi := 1, indexr := 0,
          label := (sortedTable T (N.NUMindexx_s T.rowLabels)).rowLabels.elems 1 } = .ok s := hs
    rw [hs']
    simp only [if_true]
    rw [hR]
  · rw [b4, hinv.closed.collabels]
    refine ⟨hcsz.symm, ?_⟩
    intro i h1 h2
    simp only at h2
    have h3 : i ≤ T.columnLabels.size := by rw [hcsz]; exact h2
    show ite _ _ _ = _
    rw [if_pos ⟨h1, h2⟩]
    show ite _ _ _ = _
    rw [if_pos ⟨h1, h3⟩]
  · rw [b3]
    refine ⟨hr.symm, ?_⟩
    intro i h1 h2
    simp only at h2 ⊢
    rw [if_pos ⟨h1, h2⟩]
  · intro i j h1 h2 h3 h4
    obtain ⟨r, hr1, hr2, rfl⟩ := hperm.surj i h1 h2
    rw [b5 r j hr1 hr2 h3 h4]
    obtain ⟨e1, sg, eg, e2, e3, e4, e5⟩ := hcl.hexp rfl r hr1 hr2
    have e6 : NUMstatsColumns N s.sorted.data s.indexi T.numberOfRows 1 T.numberOfColumns
        useMedians r j = N.aggregate useMedians
          (columnBlock (sortedTable T (N.NUMindexx_s T.rowLabels)).data sg eg j) := e5 j h3 h4
    rw [e6]
    have hp := run_cells_perm T (N.NUMindexx_s T.rowLabels) hpresent hindex sg eg e2 j ⟨h3, h4⟩
    rw [horder _ _ hp]
    have hL : ∀ q, 1 ≤ q → q ≤ T.numberOfRows →
        (sortedTable T (N.NUMindexx_s T.rowLabels)).rowLabels.elems q =
          T.rowLabels.elems (N.NUMindexx_s T.rowLabels q) := by
      intro q g1 g2
      show ite _ _ _ = _
      rw [if_pos ⟨g1, g2⟩]
    have hsome : ∀ q, 1 ≤ q → q ≤ T.numberOfRows →
        ((sortedTable T (N.NUMindexx_s T.rowLabels)).rowLabels.elems q).isSome = true := by
      intro q g1 g2
      rw [hL q g1 g2]
      exact hpresent _ (hperm.1 q g1 g2).1 (hperm.1 q g1 g2).2
    obtain ⟨r1, r2, r3, r4, _, _⟩ := e2
    have : (sortedTable T (N.NUMindexx_s T.rowLabels)).rowLabels.elems sg =
        T.rowLabels.elems (N.NUMindexx_s T.rowLabels r) := by
      rw [← hL r hr1 hr2]
      exact (label_eq_of_text_eq _ _ (hsome r hr1 hr2) (hsome sg r1 (by omega))
        (r4 r e3 e4)).symm
    rw [this]

theorem copyRows_loop [Zero α] (t : TableOfReal α) (q nc : Nat) (hq : q ≤ t.numberOfRows)
    (hnc : t.numberOfColumns = nc) :
    forLoopM 1 q (fun i (thee : TableOfReal α) =>
        TableOfReal_copyOneRowWithLabel t thee false i i) (TableOfReal_create q nc) = .ok
      { numberOfRows := q
        numberOfColumns := nc
        data := fun r c => if 1 ≤ r ∧ r ≤ q ∧ 1 ≤ c ∧ c ≤ nc then t.data r c else 0
        rowLabels := ⟨q, fun r => if 1 ≤ r ∧ r ≤ q then t.rowLabels.elems r else none⟩
        columnLabels := ⟨nc, fun _ => none⟩ } := by
  obtain ⟨u, hu, hp⟩ := forLoopM_induct
    (fun j (th : TableOfReal α) => th =
      { numberOfRows := q
        numberOfColumns := nc
        data := fun r c => if 1 ≤ r ∧ r < j ∧ 1 ≤ c ∧ c ≤ nc then t.data r c else 0
        rowLabels := ⟨q, fun r => if 1 ≤ r ∧ r < j then t.rowLabels.elems r else none⟩
        columnLabels := ⟨nc, fun _ => none⟩ })
    1 q (fun i (thee : TableOfReal α) => TableOfReal_copyOneRowWithLabel t thee false i i)
    (TableOfReal_create q nc) (by omega)
    (by
      simp only [TableOfReal_create]
      congr 1
      · funext r c; rw [if_neg (by omega)]
      · congr 1; funext r; rw [if_neg (by omega)])
    (by
      intro k th h1 h2 hth
      subst hth
      refine ⟨_, TableOfReal_copyOneRowWithLabel_other t _ k k ⟨h1, by omega⟩ ⟨h1, h2⟩ hnc, ?_⟩
      simp only
      congr 1
      · funext r c
        by_cases hr : r = k
        · subst hr
          by_cases hc : 1 ≤ c ∧ c ≤ nc
          · rw [if_pos ⟨rfl, by rw [hnc]; exact hc⟩, if_pos (by omega)]
          · rw [if_neg (by rw [hnc]; omega), if_neg (by omega), if_neg (by omega)]
        · rw [if_neg (by omega)]
          have : (1 ≤ r ∧ r < k ∧ 1 ≤ c ∧ c ≤ nc) ↔ (1 ≤ r ∧ r < k + 1 ∧ 1 ≤ c ∧ c ≤ nc) := by
            omega
          simp only [this]
      · congr 1
        funext r
        by_cases hr : r = k
        · subst hr; rw [if_pos rfl, if_pos (by omega)]
        · rw [if_neg hr]
          have : (1 ≤ r ∧ r < k) ↔ (1 ≤ r ∧ r < k + 1) := by omega
          simp only [this])
  rw [hu, hp]
  congr 2
  · funext r c
    have : (1 ≤ r ∧ r < q + 1 ∧ 1 ≤ c ∧ c ≤ nc) ↔ (1 ≤ r ∧ r ≤ q ∧ 1 ≤ c ∧ c ≤ nc) := by omega
    simp only [this]
  · congr 1
    funext r
    have : (1 ≤ r ∧ r < q + 1) ↔ (1 ≤ r ∧ r ≤ q) := by omega
    simp only [this]

theorem meansByRowLabels_reduce_rows [Zero α] (N : Numerics α) (T : TableOfReal α)
    (useMedians : Bool) (hn : 1 ≤ T.numberOfRows) (hwf : T.WF)
    (hpresent : AllRowLabelsPresent T)
    (hindex : SortsLabels T.rowLabels T.numberOfRows (N.NUMindexx_s T.rowLabels))
    (hone : ∀ x, N.aggregate useMedians [x] = x)
    (horder : ∀ l l1 : List α, l.Perm l1 → N.aggregate useMedians l = N.aggregate useMedians l1) :
    ∃ R, (TableOfReal_meansByRowLabels N T false useMedians).2 = .ok R ∧
      R.numberOfColumns = T.numberOfColumns ∧ SameLabels R.columnLabels T.columnLabels ∧
      R.rowLabels.size = R.numberOfRows ∧
      (∀ m, 1 ≤ m → ∀ m1, m < m1 → m1 ≤ R.numberOfRows →
        labelLT (R.rowLabels.elems m) (R.rowLabels.elems m1)) ∧
      (∀ i, 1 ≤ i → i ≤ T.numberOfRows →
        ∃ m, 1 ≤ m ∧ m ≤ R.numberOfRows ∧ R.rowLabels.elems m = T.rowLabels.elems i) ∧
      (∀ m, 1 ≤ m → m ≤ R.numberOfRows →
        (∃ i, 1 ≤ i ∧ i ≤ T.numberOfRows ∧ T.rowLabels.elems i = R.rowLabels.elems m) ∧
        ∀ j, 1 ≤ j → j ≤ T.numberOfColumns →
          R.data m j = N.aggregate useMedians (cellsLabelled T (R.rowLabels.elems m) j)) := by
  obtain ⟨hr, hcsz⟩ := hwf
  have hperm := hindex.1
  have hsize0 : T.rowLabels.size ≠ 0 := by rw [hr]; omega
  have hsingle : useMedians = true → ∀ x, N.aggregate true [x] = x := by
    intro e x
    have := hone x
    rw [e] at this
    exact this
  have hfwd := TableOfReal_sortRowsByIndex_forward T (N.NUMindexx_s T.rowLabels) hn hsize0
    hperm.1
  obtain ⟨s, hs, hinv⟩ := meansScan_loop N useMedians false hsingle
    (sortedTable T (N.NUMindexx_s T.rowLabels)) hn rfl
    (sortedTable_sorted T _ hindex)
  obtain ⟨t, ht, hcl⟩ := closeRun_reduce N useMedians hsingle _ _ _ _ _
    (sortedTable_sorted T _ hindex) _ s hinv (le_refl _) (Or.inl rfl)
  have hL : ∀ q, 1 ≤ q → q ≤ T.numberOfRows →
      (sortedTable T (N.NUMindexx_s T.rowLabels)).rowLabels.elems q =
        T.rowLabels.elems (N.NUMindexx_s T.rowLabels q) := by
    intro q g1 g2
    show ite _ _ _ = _
    rw [if_pos ⟨g1, g2⟩]
  have hsome : ∀ q, 1 ≤ q → q ≤ T.numberOfRows →
      ((sortedTable T (N.NUMindexx_s T.rowLabels)).rowLabels.elems q).isSome = true := by
    intro q g1 g2
    rw [hL q g1 g2]
    exact hpresent _ (hperm.1 q g1 g2).1 (hperm.1 q g1 g2).2
  obtain ⟨hq, hruns⟩ := hcl.hred rfl
  have hq' : s.indexr + 1 ≤ T.numberOfRows := hq
  have hloop := copyRows_loop t (s.indexr + 1) T.numberOfColumns
    (by rw [hcl.nrows]; exact hq) hcl.ncols
  have hres : (TableOfReal_meansByRowLabels N T false useMedians).2 = .ok
      { numberOfRows := s.indexr + 1
        numberOfColumns := T.numberOfColumns
        data := fun r c =>
          if 1 ≤ r ∧ r ≤ s.indexr + 1 ∧ 1 ≤ c ∧ c ≤ T.numberOfColumns then t.data r c else 0
        rowLabels := ⟨s.indexr + 1, fun r =>
          if 1 ≤ r ∧ r ≤ s.indexr + 1 then t.rowLabels.elems r else none⟩
        columnLabels := ⟨T.numberOfColumns, fun i =>
          if 1 ≤ i ∧ i ≤ t.columnLabels.size then t.columnLabels.elems i else none⟩ } := by
    unfold TableOfReal_meansByRowLabels
    simp only [TableOfReal_getSortedIndexFromRowLabels, hfwd]
    have hs' : forLoopM 2 T.numberOfRows
        (meansScanBody N T.numberOfColumns false useMedians)
        { sorted := sortedTable T (N.NUMindexx_s T.rowLabels), indexi := 1, indexr := 0,
          label := (sortedTable T (N.NUMindexx_s T.rowLabels)).rowLabels.elems 1 } = .ok s := hs
    rw [hs']
    simp only [Bool.false_eq_true, if_false]
    have ht' : TableOfReal_copyOneRowWithLabel
        { s.sorted with
          data := NUMstatsColumns N s.sorted.data s.indexi T.numberOfRows 1 T.numberOfColumns
            useMedians }
        { s.sorted with
          data := NUMstatsColumns N s.sorted.data s.indexi T.numberOfRows 1 T.numberOfColumns
            useMedians }
        true s.indexi (s.indexr + 1) = .ok t := ht
    rw [ht']
    simp only
    rw [hloop]
    simp only [copyElementsFrom_eq]
  refine ⟨_, hres, rfl, ?_, rfl, ?_, ?_, ?_⟩
  · rw [hcl.collabels]
    refine ⟨hcsz.symm, ?_⟩
    intro i h1 h2
    simp only at h2
    have h3 : i ≤ T.columnLabels.size := by rw [hcsz]; exact h2
    show ite _ _ _ = _
    rw [if_pos ⟨h1, h2⟩]
    show ite _ _ _ = _
    rw [if_pos ⟨h1, h3⟩]
  · intro m h1 m1 h2 h3
    simp only at h3 ⊢
    rw [if_pos ⟨h1, by omega⟩, if_pos ⟨by omega, h3⟩]
    exact hcl.hord rfl m h1 m1 h2 h3
  · intro i h1 h2
    obtain ⟨r, hr1, hr2, rfl⟩ := hperm.surj i h1 h2
    obtain ⟨m, e1, e2, e3⟩ := hcl.hcov rfl r hr1 hr2
    obtain ⟨sg, eg, ⟨r1, r2, r3, _⟩, _, g3, _⟩ := hruns m e1 e2
    refine ⟨m, e1, e2, ?_⟩
    simp only
    rw [if_pos ⟨e1, e2⟩, ← hL r hr1 hr2]
    apply label_eq_of_text_eq _ _ _ (hsome r hr1 hr2) e3
    rw [g3]
    have r3' : eg ≤ T.numberOfRows := r3
    exact hsome sg r1 (by omega)
  · intro m h1 h2
    simp only at h2 ⊢
    obtain ⟨sg, eg, hrun, _, g3, g4⟩ := hruns m h1 h2
    have hsg1 : 1 ≤ sg := hrun.1
    have hsg2 : sg ≤ T.numberOfRows := by
      obtain ⟨_, r2, r3, _⟩ := hrun
      have r3' : eg ≤ T.numberOfRows := r3
      omega
    rw [if_pos ⟨h1, h2⟩, g3]
    constructor
    · exact ⟨_, (hperm.1 sg hsg1 hsg2).1, (hperm.1 sg hsg1 hsg2).2, (hL sg hsg1 hsg2).symm⟩
    · intro j j1 j2
      rw [if_pos ⟨h1, h2, j1, j2⟩, g4 j j1 j2]
      exact horder _ _
        (run_cells_perm T (N.NUMindexx_s T.rowLabels) hpresent hindex sg eg hrun j ⟨j1, j2⟩)

theorem exactNumerics_mean_single (x : ℚ) : exactNumerics.aggregate false [x] = x := by
  simp [Numerics.aggregate, exactNumerics]

theorem exactNumerics_mean_perm (l l1 : List ℚ) (h : l.Perm l1) :
    exactNumerics.aggregate false l = exactNumerics.aggregate false l1 := by
  simp only [Numerics.aggregate, exactNumerics, Bool.false_eq_true, if_false]
  rw [h.sum_eq, h.length_eq]

theorem TableOfReal_meansByRowLabels_expand_witness :
    (1 ≤ groupTable.numberOfRows ∧ groupTable.WF ∧ AllRowLabelsPresent groupTable ∧
      SortsLabels groupTable.rowLabels groupTable.numberOfRows
        (exactNumerics.NUMindexx_s groupTable.rowLabels)) ∧
    (∃ R, (TableOfReal_meansByRowLabels exactNumerics groupTable true false).2 = .ok R ∧
      R.numberOfRows = groupTable.numberOfRows ∧
      R.numberOfColumns = groupTable.numberOfColumns ∧
      SameLabels R.columnLabels groupTable.columnLabels ∧
      SameLabels R.rowLabels groupTable.rowLabels ∧
      ∀ i j, 1 ≤ i → i ≤ groupTable.numberOfRows → 1 ≤ j → j ≤ groupTable.numberOfColumns →
        R.data i j =
          exactNumerics.aggregate false
            (cellsLabelled groupTable (groupTable.rowLabels.elems i) j)) ∧
    (∃ R, (TableOfReal_meansByRowLabels exactNumerics groupTable true false).2 = .ok R ∧
      tableRows R = [(some "a", [2, 2]), (some "a", [2, 2]), (some "b", [10, 10])]) :=
  ⟨⟨by decide, by decide, by decide, by decide⟩,
    TableOfReal_meansByRowLabels_expand exactNumerics groupTable false (by decide) (by decide)
      (by decide) (by decide) exactNumerics_mean_single exactNumerics_mean_perm,
    ⟨_, rfl, by decide!⟩⟩

/-- C3 at a concrete input: the call with expand = true on the table with the
row labels a, a, b returns a table and leaves the caller's table with the
null row-label vector: the labels are moved into the working copy and are
not moved back.  With expand = false the caller's table keeps its labels. -/
theorem TableOfReal_meansByRowLabels_expand_empties_rowLabels :
    labelList groupTable.rowLabels = [some "a", some "a", some "b"] ∧
    (∃ R, (TableOfReal_meansByRowLabels exactNumerics groupTable true false).2 = .ok R) ∧
    (TableOfReal_meansByRowLabels exactNumerics groupTable true false).1.rowLabels.size = 0 ∧
    labelList (TableOfReal_meansByRowLabels exactNumerics groupTable true false).1.rowLabels
      = [] ∧
    labelList (TableOfReal_meansByRowLabels exactNumerics groupTable false false).1.rowLabels
      = [some "a", some "a", some "b"] :=
  ⟨by decide, ⟨_, rfl⟩, by decide, by decide, by decide⟩

theorem forLoopMAux_ok {ε σ : Type} (bad : Nat → Prop) [DecidablePred bad] (e : Nat → ε)
    (g : Nat → σ → σ) :
    ∀ (n i : Nat) (s : σ), (∀ k, i ≤ k → k < i + n → ¬ bad k) →
      forLoopMAux (fun k s => if bad k then .error (e k) else .ok (g k s)) n i s =
        .ok (forLoopAux g n i s) := by
  intro n
  induction n with
  | zero => intro i s _; rfl
  | succ n ih =>
    intro i s h
    have h1 : ¬ bad i := h i (le_refl _) (by omega)
    simp only [forLoopMAux, forLoopAux, h1, if_false]
    exact ih (i + 1) (g i s) (fun k hk hlt => h k (by omega) (by omega))

theorem forLoopMAux_error {ε σ : Type} (bad : Nat → Prop) [DecidablePred bad] (e : Nat → ε)
    (g : Nat → σ → σ) :
    ∀ (n i : Nat) (s : σ) (k0 : Nat), i ≤ k0 → k0 < i + n → bad k0 →
      (∀ k, i ≤ k → k < k0 → ¬ bad k) →
      forLoopMAux (fun k s => if bad k then .error (e k) else .ok (g k s)) n i s =
        .error (e k0) := by
  intro n
  induction n with
  | zero => intro i s k0 h1 h2; omega
  | succ n ih =>
    intro i s k0 h1 h2 hb hmin
    by_cases hk : k0 = i
    · subst hk
      simp only [forLoopMAux, hb, if_true]
    · have h3 : ¬ bad i := hmin i (le_refl _) (by omega)
      simp only [forLoopMAux, h3, if_false]
      exact ih (i + 1) (g i s) k0 (by omega) (by omega) hb
        (fun k hk1 hk2 => hmin k (by omega) hk2)

theorem columnsUpTo_succ [Zero α] (me : List (TableOfReal α)) (k : Nat) :
    columnsUpTo me (k + 1) = columnsUpTo me k + (TableOfRealList_at me (k + 1)).numberOfColumns := by
  unfold columnsUpTo
  rw [List.range'_concat, List.map_append, List.sum_append]
  simp [Nat.add_comm]

theorem columnsUpTo_mono [Zero α] (me : List (TableOfReal α)) (k d : Nat) :
    columnsUpTo me k ≤ columnsUpTo me (k + d) := by
  induction d with
  | zero => exact le_refl _
  | succ d ih =>
    have := columnsUpTo_succ me (k + d)
    have e : k + (d + 1) = k + d + 1 := by omega
    rw [e, this]
    omega

/-- The outcome of the row-count check of TableOfRealList_appendColumnsMany. -/
theorem appendColumnsMany_check [Zero α] (me : List (TableOfReal α)) (hlen : 1 ≤ me.length) :
    let nrows := (TableOfRealList_at me 1).numberOfRows
    let check := forLoopM 2 me.length (fun itab (s : TableOfReal α × Nat) =>
        let thee := TableOfRealList_at me itab
        let ncols := s.2 + thee.numberOfColumns
        if ¬ (thee.numberOfRows = nrows) then Except.error (MelderError.rowsDiffer itab)
        else Except.ok (thee, ncols))
      (TableOfRealList_at me 1, (TableOfRealList_at me 1).numberOfColumns)
    ((∀ k, 2 ≤ k → k ≤ me.length → (TableOfRealList_at me k).numberOfRows = nrows) →
      ∃ s, check = .ok s ∧ s.2 = columnsUpTo me me.length) ∧
    (∀ k0, 2 ≤ k0 → k0 ≤ me.length → (TableOfRealList_at me k0).numberOfRows ≠ nrows →
      (∀ k, 2 ≤ k → k < k0 → (TableOfRealList_at me k).numberOfRows = nrows) →
      check = .error (.rowsDiffer k0)) := by
  intro nrows check
  constructor
  · intro h
    refine ⟨_, forLoopMAux_ok
      (fun k => ¬ ((TableOfRealList_at me k).numberOfRows = nrows)) MelderError.rowsDiffer
      (fun k (s : TableOfReal α × Nat) =>
        (TableOfRealList_at me k, s.2 + (TableOfRealList_at me k).numberOfColumns))
      (me.length + 1 - 2) 2 _ ?_, ?_⟩
    · intro k h1 h2
      simp only [not_not]
      exact h k h1 (by omega)
    · have := forLoop_induct
        (fun k (s : TableOfReal α × Nat) => s.2 = columnsUpTo me (k - 1)) 2 me.length
        (fun k (s : TableOfReal α × Nat) =>
          (TableOfRealList_at me k, s.2 + (TableOfRealList_at me k).numberOfColumns))
        (TableOfRealList_at me 1, (TableOfRealList_at me 1).numberOfColumns) (by omega)
        (by simp [columnsUpTo])
        (by
          intro k t h1 h2 ht
          obtain ⟨m, rfl⟩ : ∃ m, k = m + 1 := ⟨k - 1, by omega⟩
          simp only [Nat.add_sub_cancel] at ht ⊢
          rw [ht, columnsUpTo_succ])
      simpa [forLoop] using this
  · intro k0 h1 h2 hb hmin
    exact forLoopMAux_error
      (fun k => ¬ ((TableOfRealList_at me k).numberOfRows = nrows)) MelderError.rowsDiffer
      (fun k (s : TableOfReal α × Nat) =>
        (TableOfRealList_at me k, s.2 + (TableOfRealList_at me k).numberOfColumns))
      (me.length + 1 - 2) 2 _ k0 h1 (by omega) hb
      (fun k hk1 hk2 => by simp only [not_not]; exact hmin k hk1 hk2)

/-- Once the row counts agree, the label and data loops of
TableOfRealList_appendColumnsMany stay inside the new table and return. -/
theorem appendColumnsMany_fill [Zero α] (me : List (TableOfReal α)) (thee : TableOfReal α)
    (nrows : Nat) :
    ∃ R, (match forLoopM 1 nrows (fun irow (him : TableOfReal α) =>
          TableOfReal_setRowLabel him irow (thee.rowLabels.elems irow))
          (TableOfReal_create nrows (columnsUpTo me me.length)) with
      | .error e => Except.error e
      | .ok him =>
        match forLoopM 1 me.length (fun itab (r : TableOfReal α × Nat) =>
            let thee := TableOfRealList_at me itab
            forLoopM 1 thee.numberOfColumns (fun icol (r : TableOfReal α × Nat) =>
              let ncols := r.2 + 1
              match TableOfReal_setColumnLabel r.1 ncols (thee.columnLabels.elems icol) with
              | .error e => .error e
              | .ok him =>
                let him : TableOfReal α :=
                  { him with data := forLoop 1 nrows (fun irow d =>
                      setCell d irow ncols (thee.data irow icol)) him.data }
                .ok (him, ncols)) r) (him, 0) with
        | .error e => .error e
        | .ok r => .ok r.1) = Except.ok R := by
  obtain ⟨him, h1, h2, h3⟩ := forLoopM_induct
    (fun (_ : Nat) (h : TableOfReal α) =>
      h.numberOfRows = nrows ∧ h.numberOfColumns = columnsUpTo me me.length)
    1 nrows (fun irow (him : TableOfReal α) =>
      TableOfReal_setRowLabel him irow (thee.rowLabels.elems irow))
    (TableOfReal_create nrows (columnsUpTo me me.length)) (by omega) ⟨rfl, rfl⟩
    (by
      intro k t g1 g2 ⟨e1, e2⟩
      have hin : ¬ (k < 1 ∨ k > t.numberOfRows) := by rw [e1]; omega
      refine ⟨{ t with rowLabels := t.rowLabels.set k (thee.rowLabels.elems k) }, ?_, e1, e2⟩
      simp only [TableOfReal_setRowLabel, if_neg hin])
  obtain ⟨r, g1, g2, g3⟩ := forLoopM_induct
    (fun itab (r : TableOfReal α × Nat) =>
      r.1.numberOfColumns = columnsUpTo me me.length ∧ r.2 = columnsUpTo me (itab - 1))
    1 me.length (fun itab (r : TableOfReal α × Nat) =>
      let thee := TableOfRealList_at me itab
      forLoopM 1 thee.numberOfColumns (fun icol (r : TableOfReal α × Nat) =>
        let ncols := r.2 + 1
        match TableOfReal_setColumnLabel r.1 ncols (thee.columnLabels.elems icol) with
        | .error e => .error e
        | .ok him =>
          let him : TableOfReal α :=
            { him with data := forLoop 1 nrows (fun irow d =>
                setCell d irow ncols (thee.data irow icol)) him.data }
          .ok (him, ncols)) r) (him, 0) (by omega)
    ⟨h3, by simp [columnsUpTo]⟩
    (by
      intro k t k1 k2 ⟨e1, e2⟩
      obtain ⟨m, rfl⟩ : ∃ m, k = m + 1 := ⟨k - 1, by omega⟩
      simp only [Nat.add_sub_cancel] at e2 ⊢
      have hmono : columnsUpTo me (m + 1) ≤ columnsUpTo me me.length := by
        have := columnsUpTo_mono me (m + 1) (me.length - (m + 1))
        have e : m + 1 + (me.length - (m + 1)) = me.length := by omega
        rw [e] at this
        exact this
      have hsucc := columnsUpTo_succ me m
      obtain ⟨u, u1, u2, u3⟩ := forLoopM_induct
        (fun icol (r : TableOfReal α × Nat) =>
          r.1.numberOfColumns = columnsUpTo me me.length ∧
          r.2 = columnsUpTo me m + (icol - 1))
        1 (TableOfRealList_at me (m + 1)).numberOfColumns
        (fun icol (r : TableOfReal α × Nat) =>
          let ncols := r.2 + 1
          match TableOfReal_setColumnLabel r.1 ncols
              ((TableOfRealList_at me (m + 1)).columnLabels.elems icol) with
          | .error e => .error e
          | .ok him =>
            let col := fun irow => (TableOfRealList_at me (m + 1)).data irow icol
            let him : TableOfReal α :=
              { him with data := forLoop 1 nrows (fun irow d =>
                  setCell d irow ncols (col irow)) him.data }
            .ok (him, ncols)) t (by omega) ⟨e1, by simpa using e2⟩
        (by
          intro c w c1 c2 ⟨f1, f2⟩
          have hin : ¬ (w.2 + 1 < 1 ∨ w.2 + 1 > w.1.numberOfColumns) := by
            rw [f1, f2]; omega
          simp only [TableOfReal_setColumnLabel, if_neg hin]
          exact ⟨_, rfl, f1, by simp only; rw [f2]; omega⟩)
      refine ⟨u, u1, u2, ?_⟩
      rw [u3, hsucc]
      omega)
  simp only [h1, g1]
  exact ⟨_, rfl⟩

/-- C10: appendColumnsMany fails exactly when the list is empty or some
table has a row count different from that of the first table; when it fails
for a row-count difference the table it names is the one with the smallest
index whose row count differs from the first; a failing call returns no
table. -/
theorem TableOfRealList_appendColumnsMany_fails_iff [Zero α] (me : List (TableOfReal α)) :
    ((∃ e, TableOfRealList_appendColumnsMany me = .error e) ↔
      (me = [] ∨ ∃ k, 2 ≤ k ∧ k ≤ me.length ∧
        (TableOfRealList_at me k).numberOfRows ≠ (TableOfRealList_at me 1).numberOfRows)) ∧
    (TableOfRealList_appendColumnsMany me = .error .noTablesSelected ↔ me = []) ∧
    (∀ itab, TableOfRealList_appendColumnsMany me = .error (.rowsDiffer itab) ↔
      (2 ≤ itab ∧ itab ≤ me.length ∧
        (TableOfRealList_at me itab).numberOfRows ≠ (TableOfRealList_at me 1).numberOfRows ∧
        ∀ k, 2 ≤ k → k < itab →
          (TableOfRealList_at me k).numberOfRows = (TableOfRealList_at me 1).numberOfRows)) := by
  by_cases hnil : me = []
  · subst hnil
    have e : TableOfRealList_appendColumnsMany ([] : List (TableOfReal α)) =
        .error .noTablesSelected := by
      simp [TableOfRealList_appendColumnsMany]
    refine ⟨?_, ?_, ?_⟩
    · simp [e]
    · simp [e]
    · intro itab
      rw [e]
      simp only [List.length_nil]
      constructor
      · intro h; cases h
      · intro h; omega
  · have hlen : me.length > 0 := List.length_pos.mpr hnil
    obtain ⟨hok, herr⟩ := appendColumnsMany_check me hlen
    by_cases hall : ∀ k, 2 ≤ k → k ≤ me.length →
        (TableOfRealList_at me k).numberOfRows = (TableOfRealList_at me 1).numberOfRows
    · obtain ⟨s, hs, hs2⟩ := hok hall
      have e : ∃ R, TableOfRealList_appendColumnsMany me = .ok R := by
        unfold TableOfRealList_appendColumnsMany
        simp only [hlen, not_true_eq_false, if_false]
        rw [hs]
        simp only [hs2]
        exact appendColumnsMany_fill me s.1 _
      obtain ⟨R, e⟩ := e
      refine ⟨?_, ?_, ?_⟩
      · rw [e]
        constructor
        · rintro ⟨e1, he1⟩; cases he1
        · rintro (h0 | ⟨k, h1, h2, h3⟩)
          · exact absurd h0 hnil
          · exact absurd (hall k h1 h2) h3
      · rw [e]; simp [hnil]
      · intro itab
        rw [e]
        constructor
        · intro h; cases h
        · rintro ⟨h1, h2, h3, _⟩
          exact absurd (hall itab h1 h2) h3
    · have hex : ∃ k, 2 ≤ k ∧ k ≤ me.length ∧
          (TableOfRealList_at me k).numberOfRows ≠ (TableOfRealList_at me 1).numberOfRows := by
        by_contra hcon
        apply hall
        intro k h1 h2
        by_contra h3
        exact hcon ⟨k, h1, h2, h3⟩
      obtain ⟨h1, h2, h3⟩ := Nat.find_spec hex
      have hfirst : ∀ k, 2 ≤ k → k < Nat.find hex →
          (TableOfRealList_at me k).numberOfRows = (TableOfRealList_at me 1).numberOfRows := by
        intro k hk1 hk2
        by_contra hk3
        exact Nat.find_min hex hk2 ⟨hk1, by omega, hk3⟩
      have e : TableOfRealList_appendColumnsMany me = .error (.rowsDiffer (Nat.find hex)) := by
        unfold TableOfRealList_appendColumnsMany
        simp only [hlen, not_true_eq_false, if_false]
        rw [herr (Nat.find hex) h1 h2 h3 hfirst]
      refine ⟨?_, ?_, ?_⟩
      · rw [e]
        exact ⟨fun _ => Or.inr hex, fun _ => ⟨_, rfl⟩⟩
      · rw [e]; simp [hnil]
      · intro itab
        rw [e]
        constructor
        · intro h
          have : Nat.find hex = itab := by injection h with h; injection h
          subst this
          exact ⟨h1, h2, h3, hfirst⟩
        · rintro ⟨g1, g2, g3, g4⟩
          have : Nat.find hex = itab := by
            apply le_antisymm
            · exact Nat.find_min' hex ⟨g1, g2, g3⟩
            · by_contra hlt
              exact h3 (g4 _ h1 (by omega))
          rw [this]


theorem labelLT_irrefl (a : Option String) : ¬ labelLT a a := by
  unfold labelLT
  exact lt_irrefl _

/-- Rows whose labels ascend strictly and are exactly the labels of the
table are as many as the table has distinct labels. -/
theorem rows_count_distinct (f g : Nat → Option String) (q n : Nat)
    (hord : ∀ m, 1 ≤ m → ∀ m1, m < m1 → m1 ≤ q → labelLT (f m) (f m1))
    (hcov : ∀ i, 1 ≤ i → i ≤ n → ∃ m, 1 ≤ m ∧ m ≤ q ∧ f m = g i)
    (hsub : ∀ m, 1 ≤ m → m ≤ q → ∃ i, 1 ≤ i ∧ i ≤ n ∧ g i = f m) :
    q = (((List.range' 1 n).map g).dedup).length := by
  have hnodup : ((List.range' 1 q).map f).Nodup := by
    apply List.Nodup.map_on _ (List.nodup_range' _ _)
    intro x hx y hy hxy
    rw [List.mem_range'_1] at hx hy
    by_contra hne
    rcases Nat.lt_or_gt_of_ne hne with h | h
    · have := hord x hx.1 y h (by omega)
      rw [hxy] at this
      exact labelLT_irrefl _ this
    · have := hord y hy.1 x h (by omega)
      rw [hxy] at this
      exact labelLT_irrefl _ this
  have hset : ((List.range' 1 q).map f).toFinset = ((List.range' 1 n).map g).toFinset := by
    ext a
    simp only [List.mem_toFinset, List.mem_map, List.mem_range'_1]
    constructor
    · rintro ⟨m, hm, rfl⟩
      obtain ⟨i, i1, i2, i3⟩ := hsub m hm.1 (by omega)
      exact ⟨i, ⟨i1, by omega⟩, i3⟩
    · rintro ⟨i, hi, rfl⟩
      obtain ⟨m, m1, m2, m3⟩ := hcov i hi.1 (by omega)
      exact ⟨m, ⟨m1, by omega⟩, m3⟩
  have h1 := List.toFinset_card_of_nodup hnodup
  rw [hset, List.card_toFinset] at h1
  rw [h1]
  simp

/-- C1: for a table whose row labels are all present, meansByRowLabels with
expand = false returns a table with the column labels of the table and
exactly one row per distinct row label, the rows ordered by increasing
label: the result has as many rows as the table has distinct row labels,
its row labels ascend strictly, every one of them is a row label of the
table and every row label of the table is one of them.  The row labelled L
holds, in each column, the aggregate (mean, or median when useMedians) of
the cells of that column over all rows of the table labelled L.  The index
vector that NUMindexx_s returns is assumed to sort the row labels; the
aggregate of one cell is assumed to be that cell and the aggregate not to
depend on the order of the cells. -/
theorem TableOfReal_meansByRowLabels_reduce [Zero α] (N : Numerics α) (T : TableOfReal α)
    (useMedians : Bool) (hn : 1 ≤ T.numberOfRows) (hwf : T.WF)
    (hpresent : AllRowLabelsPresent T)
    (hindex : SortsLabels T.rowLabels T.numberOfRows (N.NUMindexx_s T.rowLabels))
    (hone : ∀ x, N.aggregate useMedians [x] = x)
    (horder : ∀ l l1 : List α, l.Perm l1 → N.aggregate useMedians l = N.aggregate useMedians l1) :
    ∃ R, (TableOfReal_meansByRowLabels N T false useMedians).2 = .ok R ∧
      R.numberOfColumns = T.numberOfColumns ∧ SameLabels R.columnLabels T.columnLabels ∧
      R.rowLabels.size = R.numberOfRows ∧
      R.numberOfRows = (labelList T.rowLabels).dedup.length ∧
      (∀ m, 1 ≤ m → ∀ m1, m < m1 → m1 ≤ R.numberOfRows →
        labelLT (R.rowLabels.elems m) (R.rowLabels.elems m1)) ∧
      (∀ i, 1 ≤ i → i ≤ T.numberOfRows →
        ∃ m, 1 ≤ m ∧ m ≤ R.numberOfRows ∧ R.rowLabels.elems m = T.rowLabels.elems i) ∧
      (∀ m, 1 ≤ m → m ≤ R.numberOfRows →
        (∃ i, 1 ≤ i ∧ i ≤ T.numberOfRows ∧ T.rowLabels.elems i = R.rowLabels.elems m) ∧
        ∀ j, 1 ≤ j → j ≤ T.numberOfColumns →
          R.data m j = N.aggregate useMedians (cellsLabelled T (R.rowLabels.elems m) j)) := by
  obtain ⟨R, h1, h2, h3, h4, h5, h6, h7⟩ :=
    meansByRowLabels_reduce_rows N T useMedians hn hwf hpresent hindex hone horder
  refine ⟨R, h1, h2, h3, h4, ?_, h5, h6, h7⟩
  unfold labelList
  rw [hwf.1]
  exact rows_count_distinct R.rowLabels.elems T.rowLabels.elems R.numberOfRows T.numberOfRows
    h5 h6 (fun m m1 m2 => (h7 m m1 m2).1)

theorem TableOfReal_meansByRowLabels_reduce_witness :
    (1 ≤ groupTable.numberOfRows ∧ groupTable.WF ∧ AllRowLabelsPresent groupTable ∧
      SortsLabels groupTable.rowLabels groupTable.numberOfRows
        (exactNumerics.NUMindexx_s groupTable.rowLabels)) ∧
    (∃ R, (TableOfReal_meansByRowLabels exactNumerics groupTable false false).2 = .ok R ∧
      R.numberOfColumns = groupTable.numberOfColumns ∧
      SameLabels R.columnLabels groupTable.columnLabels ∧
      R.rowLabels.size = R.numberOfRows ∧
      R.numberOfRows = (labelList groupTable.rowLabels).dedup.length ∧
      (∀ m, 1 ≤ m → ∀ m1, m < m1 → m1 ≤ R.numberOfRows →
        labelLT (R.rowLabels.elems m) (R.rowLabels.elems m1)) ∧
      (∀ i, 1 ≤ i → i ≤ groupTable.numberOfRows →
        ∃ m, 1 ≤ m ∧ m ≤ R.numberOfRows ∧
          R.rowLabels.elems m = groupTable.rowLabels.elems i) ∧
      (∀ m, 1 ≤ m → m ≤ R.numberOfRows →
        (∃ i, 1 ≤ i ∧ i ≤ groupTable.numberOfRows ∧
          groupTable.rowLabels.elems i = R.rowLabels.elems m) ∧
        ∀ j, 1 ≤ j → j ≤ groupTable.numberOfColumns →
          R.data m j =
            exactNumerics.aggregate false (cellsLabelled groupTable (R.rowLabels.elems m) j))) ∧
    (∃ R, (TableOfReal_meansByRowLabels exactNumerics groupTable false false).2 = .ok R ∧
      tableRows R = [(some "a", [2, 2]), (some "b", [10, 10])]) :=
  ⟨⟨by decide, by decide, by decide, by decide⟩,
    TableOfReal_meansByRowLabels_reduce exactNumerics groupTable false (by decide) (by decide)
      (by decide) (by decide) exactNumerics_mean_single exactNumerics_mean_perm,
    ⟨_, rfl, by decide!⟩⟩

/-- Closed-form rule for the counted loop with a throwing body: when every
iteration takes `F k` to `F (k + 1)` without throwing, the loop returns
`F (hi + 1)`. -/
theorem forLoopM_closed {ε σ : Type} (F : Nat → σ) (lo hi : Nat)
    (body : Nat → σ → Except ε σ) (s : σ) (hle : lo ≤ hi + 1) (h0 : s = F lo)
    (hs : ∀ k, lo ≤ k → k ≤ hi → body k (F k) = .ok (F (k + 1))) :
    forLoopM lo hi body s = .ok (F (hi + 1)) := by
  obtain ⟨u, hu, hp⟩ := forLoopM_induct (fun k t => t = F k) lo hi body s hle h0
    (by
      intro k t h1 h2 ht
      subst ht
      exact ⟨_, hs k h1 h2, rfl⟩)
  rw [hu, hp]

theorem TableOfReal_bootstrap_eq [Zero α] (draws : Nat → Nat) (me : TableOfReal α) :
    TableOfReal_bootstrap draws me = .ok
      { numberOfRows := me.numberOfRows
        numberOfColumns := me.numberOfColumns
        data := fun r c =>
          if 1 ≤ r ∧ r ≤ me.numberOfRows ∧ 1 ≤ c ∧ c ≤ me.numberOfColumns
          then me.data (draws r) c else 0
        rowLabels := ⟨me.numberOfRows, fun i =>
          if 1 ≤ i ∧ i ≤ me.numberOfRows then me.rowLabels.elems (draws i) else none⟩
        columnLabels := ⟨me.numberOfColumns, fun i =>
          if 1 ≤ i ∧ i ≤ me.numberOfColumns then me.columnLabels.elems i else none⟩ } := by
  unfold TableOfReal_bootstrap
  have h1 := forLoopM_closed
    (fun k => ({ numberOfRows := me.numberOfRows
                 numberOfColumns := me.numberOfColumns
                 data := fun _ _ => 0
                 rowLabels := ⟨me.numberOfRows, fun _ => none⟩
                 columnLabels := ⟨me.numberOfColumns, fun i =>
                   if 1 ≤ i ∧ i < k then me.columnLabels.elems i else none⟩ } : TableOfReal α))
    1 me.numberOfColumns
    (fun i (thee : TableOfReal α) =>
      if (me.columnLabels.elems i).isSome then
        TableOfReal_setColumnLabel thee i (me.columnLabels.elems i)
      else Except.ok (ε := MelderError) thee)
    (TableOfReal_create me.numberOfRows me.numberOfColumns) (by omega)
    (by
      simp only [TableOfReal_create]
      congr 2
      funext i
      rw [if_neg (by omega)])
    (by
      intro k g1 g2
      have hin : ¬ (k < 1 ∨ k > me.numberOfColumns) := by omega
      by_cases hl : (me.columnLabels.elems k).isSome = true
      · simp only [hl, if_true, TableOfReal_setColumnLabel, if_neg hin, autostring32vector.set]
        congr 3
        funext i
        simp only [setElem]
        by_cases hi : i = k
        · subst hi; rw [if_pos rfl, if_pos (by omega)]
        · rw [if_neg hi]
          have : (1 ≤ i ∧ i < k) ↔ (1 ≤ i ∧ i < k + 1) := by omega
          simp only [this]
      · simp only [hl, Bool.false_eq_true, if_false]
        congr 3
        funext i
        by_cases hi : i = k
        · subst hi
          rw [if_neg (by omega), if_pos (by omega)]
          cases hk : me.columnLabels.elems i with
          | none => rfl
          | some x => rw [hk] at hl; simp at hl
        · have : (1 ≤ i ∧ i < k) ↔ (1 ≤ i ∧ i < k + 1) := by omega
          simp only [this])
  simp only [h1]
  have h2 := forLoopM_closed
    (fun k => ({ numberOfRows := me.numberOfRows
                 numberOfColumns := me.numberOfColumns
                 data := fun r c =>
                   if 1 ≤ r ∧ r < k ∧ 1 ≤ c ∧ c ≤ me.numberOfColumns
                   then me.data (draws r) c else 0
                 rowLabels := ⟨me.numberOfRows, fun i =>
                   if 1 ≤ i ∧ i < k then me.rowLabels.elems (draws i) else none⟩
                 columnLabels := ⟨me.numberOfColumns, fun i =>
                   if 1 ≤ i ∧ i < me.numberOfColumns + 1 then me.columnLabels.elems i
                   else none⟩ } : TableOfReal α))
    1 me.numberOfRows
    (fun i (thee : TableOfReal α) =>
      let p := draws i
      let row := NUMvector_copyElements (me.data p) (thee.data i) 0 1 me.numberOfColumns
      let thee : TableOfReal α := { thee with data := setRow thee.data i row }
      if (me.rowLabels.elems p).isSome then
        TableOfReal_setRowLabel thee i (me.rowLabels.elems p)
      else Except.ok (ε := MelderError) thee)
    ({ numberOfRows := me.numberOfRows
       numberOfColumns := me.numberOfColumns
       data := fun _ _ => 0
       rowLabels := ⟨me.numberOfRows, fun _ => none⟩
       columnLabels := ⟨me.numberOfColumns, fun i =>
         if 1 ≤ i ∧ i < me.numberOfColumns + 1 then me.columnLabels.elems i
         else none⟩ } : TableOfReal α) (by omega)
    (by
      congr 1
      · funext r c; rw [if_neg (by omega)]
      · congr 1; funext i; rw [if_neg (by omega)])
    (by
      intro k g1 g2
      have hin : ¬ (k < 1 ∨ k > me.numberOfRows) := by omega
      have hdata : (setRow (fun r c =>
            if 1 ≤ r ∧ r < k ∧ 1 ≤ c ∧ c ≤ me.numberOfColumns then me.data (draws r) c else 0) k
          (NUMvector_copyElements (me.data (draws k)) (fun c =>
            if 1 ≤ k ∧ k < k ∧ 1 ≤ c ∧ c ≤ me.numberOfColumns then me.data (draws k) c else 0)
            0 1 me.numberOfColumns)) =
          fun r c => if 1 ≤ r ∧ r < k + 1 ∧ 1 ≤ c ∧ c ≤ me.numberOfColumns
            then me.data (draws r) c else 0 := by
        funext r c
        rw [setRow_apply, NUMvector_copyElements_eq]
        by_cases hr : r = k
        · subst hr
          simp only [if_true, Nat.sub_zero]
          by_cases hc : 1 ≤ c ∧ c ≤ me.numberOfColumns
          · rw [if_pos (by omega), if_pos (by omega)]
          · rw [if_neg (by omega), if_neg (by omega), if_neg (by omega)]
        · rw [if_neg hr]
          have : (1 ≤ r ∧ r < k ∧ 1 ≤ c ∧ c ≤ me.numberOfColumns) ↔
              (1 ≤ r ∧ r < k + 1 ∧ 1 ≤ c ∧ c ≤ me.numberOfColumns) := by omega
          simp only [this]
      simp only [hdata]
      by_cases hl : (me.rowLabels.elems (draws k)).isSome = true
      · simp only [hl, if_true, TableOfReal_setRowLabel, if_neg hin, autostring32vector.set]
        congr 3
        funext i
        simp only [setElem]
        by_cases hi : i = k
        · subst hi; rw [if_pos rfl, if_pos (by omega)]
        · rw [if_neg hi]
          have : (1 ≤ i ∧ i < k) ↔ (1 ≤ i ∧ i < k + 1) := by omega
          simp only [this]
      · simp only [hl, Bool.false_eq_true, if_false]
        congr 3
        funext i
        by_cases hi : i = k
        · subst hi
          rw [if_neg (by omega), if_pos (by omega)]
          cases hk : me.rowLabels.elems (draws i) with
          | none => rfl
          | some x => rw [hk] at hl; simp at hl
        · have : (1 ≤ i ∧ i < k) ↔ (1 ≤ i ∧ i < k + 1) := by omega
          simp only [this])
  simp only at h2
  simp only [h2]
  congr 2
  · funext r c
    have : (1 ≤ r ∧ r < me.numberOfRows + 1 ∧ 1 ≤ c ∧ c ≤ me.numberOfColumns) ↔
        (1 ≤ r ∧ r ≤ me.numberOfRows ∧ 1 ≤ c ∧ c ≤ me.numberOfColumns) := by omega
    simp only [this]
  · congr 1
    funext i
    have : (1 ≤ i ∧ i < me.numberOfRows + 1) ↔ (1 ≤ i ∧ i ≤ me.numberOfRows) := by omega
    simp only [this]
  · congr 1
    funext i
    have : (1 ≤ i ∧ i < me.numberOfColumns + 1) ↔ (1 ≤ i ∧ i ≤ me.numberOfColumns) := by omega
    simp only [this]

/-- C20: with the draws of the random source made explicit, each in 1..N,
bootstrap of a table with N >= 1 rows returns a table with N rows and the
column count and column labels of the table, in which row i has the data and
the row label of the drawn row p_i of the table; hence the data of every
returned row is the data of some row of the table. -/
theorem TableOfReal_bootstrap_spec [Zero α] (draws : Nat → Nat) (T : TableOfReal α)
    (_hn : 1 ≤ T.numberOfRows) (hwf : T.WF)
    (hdraws : ∀ i, 1 ≤ i → i ≤ T.numberOfRows → 1 ≤ draws i ∧ draws i ≤ T.numberOfRows) :
    ∃ R, TableOfReal_bootstrap draws T = .ok R ∧
      R.numberOfRows = T.numberOfRows ∧ R.numberOfColumns = T.numberOfColumns ∧
      SameLabels R.columnLabels T.columnLabels ∧ R.rowLabels.size = T.numberOfRows ∧
      (∀ i, 1 ≤ i → i ≤ T.numberOfRows →
        R.rowLabels.elems i = T.rowLabels.elems (draws i) ∧
        ∀ j, 1 ≤ j → j ≤ T.numberOfColumns → R.data i j = T.data (draws i) j) ∧
      (∀ i, 1 ≤ i → i ≤ T.numberOfRows →
        ∃ k, 1 ≤ k ∧ k ≤ T.numberOfRows ∧
          ∀ j, 1 ≤ j → j ≤ T.numberOfColumns → R.data i j = T.data k j) := by
  refine ⟨_, TableOfReal_bootstrap_eq draws T, rfl, rfl, ⟨hwf.2.symm, ?_⟩, rfl, ?_, ?_⟩
  · intro i h1 h2
    simp only at h2 ⊢
    rw [if_pos ⟨h1, h2⟩]
  · intro i h1 h2
    constructor
    · simp only
      rw [if_pos ⟨h1, h2⟩]
    · intro j j1 j2
      simp only
      rw [if_pos ⟨h1, h2, j1, j2⟩]
  · intro i h1 h2
    refine ⟨draws i, (hdraws i h1 h2).1, (hdraws i h1 h2).2, ?_⟩
    intro j j1 j2
    simp only
    rw [if_pos ⟨h1, h2, j1, j2⟩]

theorem TableOfReal_bootstrap_spec_witness :
    (1 ≤ tableA.numberOfRows ∧ tableA.WF ∧
      ∀ i, 1 ≤ i → i ≤ tableA.numberOfRows →
        1 ≤ indexOfList [3, 1, 3] i ∧ indexOfList [3, 1, 3] i ≤ tableA.numberOfRows) ∧
    (∃ R, TableOfReal_bootstrap (indexOfList [3, 1, 3]) tableA = .ok R ∧
      R.numberOfRows = tableA.numberOfRows ∧ R.numberOfColumns = tableA.numberOfColumns ∧
      SameLabels R.columnLabels tableA.columnLabels ∧
      R.rowLabels.size = tableA.numberOfRows ∧
      (∀ i, 1 ≤ i → i ≤ tableA.numberOfRows →
        R.rowLabels.elems i = tableA.rowLabels.elems (indexOfList [3, 1, 3] i) ∧
        ∀ j, 1 ≤ j → j ≤ tableA.numberOfColumns →
          R.data i j = tableA.data (indexOfList [3, 1, 3] i) j) ∧
      (∀ i, 1 ≤ i → i ≤ tableA.numberOfRows →
        ∃ k, 1 ≤ k ∧ k ≤ tableA.numberOfRows ∧
          ∀ j, 1 ≤ j → j ≤ tableA.numberOfColumns → R.data i j = tableA.data k j)) ∧
    (∃ R, TableOfReal_bootstrap (indexOfList [3, 1, 3]) tableA = .ok R ∧
      tableRows R = [(some "a", [10, 20]), (some "b", [1, 2]), (some "a", [10, 20])]) :=
  ⟨⟨by decide, by decide, by decide⟩,
    TableOfReal_bootstrap_spec (indexOfList [3, 1, 3]) tableA (by decide) (by decide)
      (by decide),
    ⟨_, rfl, by decide⟩⟩

/-- The nested loop that assigns `f i j` to every cell `(i, j)` with `i` in
`lo..hi` and `j` in `l i..h i`. -/
theorem forLoop_fillCells {β : Type} (d0 : Nat → Nat → β) (f : Nat → Nat → β)
    (lo hi : Nat) (l h : Nat → Nat) :
    forLoop lo hi (fun i d => forLoop (l i) (h i) (fun j d => setCell d i j (f i j)) d) d0 =
      fun r c => if lo ≤ r ∧ r ≤ hi ∧ l r ≤ c ∧ c ≤ h r then f r c else d0 r c := by
  by_cases hle : lo ≤ hi + 1
  · have := forLoop_closed
      (fun k r c => if lo ≤ r ∧ r < k ∧ l r ≤ c ∧ c ≤ h r then f r c else d0 r c) lo hi
      (fun i d => forLoop (l i) (h i) (fun j d => setCell d i j (f i j)) d) d0 hle
      (by funext r c; show _ = ite _ _ _; rw [if_neg (by omega)])
      (by
        intro k h1 h2
        show forLoop _ _ _ _ = _
        rw [forLoop_setCell_row]
        funext r c
        by_cases hr : r = k
        · subst hr
          by_cases hc : l r ≤ c ∧ c ≤ h r
          · rw [if_pos ⟨rfl, hc⟩]
            show _ = ite _ _ _
            rw [if_pos (by omega)]
          · rw [if_neg (by omega)]
            show ite _ _ _ = ite _ _ _
            rw [if_neg (by omega), if_neg (by omega)]
        · rw [if_neg (by omega)]
          show ite _ _ _ = ite _ _ _
          have : (lo ≤ r ∧ r < k ∧ l r ≤ c ∧ c ≤ h r) ↔
              (lo ≤ r ∧ r < k + 1 ∧ l r ≤ c ∧ c ≤ h r) := by omega
          simp only [this])
    rw [this]
    funext r c
    have : (lo ≤ r ∧ r < hi + 1 ∧ l r ≤ c ∧ c ≤ h r) ↔
        (lo ≤ r ∧ r ≤ hi ∧ l r ≤ c ∧ c ≤ h r) := by omega
    simp only [this]
  · rw [forLoop_empty _ _ _ _ (by omega)]
    funext r c
    rw [if_neg (by omega)]

/-- C15: standardizeColumns of a table with at most 1 row, and
standardizeRows of a table with at most 1 column, set every cell to exactly
0 and leave the dimensions and the row and column labels as they were; the
routines are total, so no error is raised. -/
theorem TableOfReal_standardize_degenerate [Zero α] [Sub α] [Div α] (K : StatKernels α)
    (T U : TableOfReal α) (hT : T.numberOfRows ≤ 1) (hU : U.numberOfColumns ≤ 1) :
    ((TableOfReal_standardizeColumns K T).numberOfRows = T.numberOfRows ∧
      (TableOfReal_standardizeColumns K T).numberOfColumns = T.numberOfColumns ∧
      (TableOfReal_standardizeColumns K T).rowLabels = T.rowLabels ∧
      (TableOfReal_standardizeColumns K T).columnLabels = T.columnLabels ∧
      ∀ i j, 1 ≤ i → i ≤ T.numberOfRows → 1 ≤ j → j ≤ T.numberOfColumns →
        (TableOfReal_standardizeColumns K T).data i j = 0) ∧
    ((TableOfReal_standardizeRows K U).numberOfRows = U.numberOfRows ∧
      (TableOfReal_standardizeRows K U).numberOfColumns = U.numberOfColumns ∧
      (TableOfReal_standardizeRows K U).rowLabels = U.rowLabels ∧
      (TableOfReal_standardizeRows K U).columnLabels = U.columnLabels ∧
      ∀ i j, 1 ≤ i → i ≤ U.numberOfRows → 1 ≤ j → j ≤ U.numberOfColumns →
        (TableOfReal_standardizeRows K U).data i j = 0) := by
  constructor
  · unfold TableOfReal_standardizeColumns
    rw [if_pos hT]
    refine ⟨rfl, rfl, rfl, rfl, ?_⟩
    intro i j h1 h2 h3 h4
    simp only
    rw [forLoop_fillCells T.data (fun _ _ => 0) 1 T.numberOfRows (fun _ => 1)
      (fun _ => T.numberOfColumns)]
    simp only
    rw [if_pos ⟨h1, h2, h3, h4⟩]
  · unfold TableOfReal_standardizeRows
    rw [if_pos hU]
    refine ⟨rfl, rfl, rfl, rfl, ?_⟩
    intro i j h1 h2 h3 h4
    simp only
    rw [forLoop_fillCells U.data (fun _ _ => 0) 1 U.numberOfRows (fun _ => 1)
      (fun _ => U.numberOfColumns)]
    simp only
    rw [if_pos ⟨h1, h2, h3, h4⟩]

theorem TableOfReal_standardize_degenerate_witness :
    (oneRowTable.numberOfRows ≤ 1 ∧ constantTable.numberOfColumns ≤ 1) ∧
    ((TableOfReal_standardizeColumns exactStats oneRowTable).numberOfRows
        = oneRowTable.numberOfRows ∧
      (TableOfReal_standardizeColumns exactStats oneRowTable).numberOfColumns
        = oneRowTable.numberOfColumns ∧
      (TableOfReal_standardizeColumns exactStats oneRowTable).rowLabels
        = oneRowTable.rowLabels ∧
      (TableOfReal_standardizeColumns exactStats oneRowTable).columnLabels
        = oneRowTable.columnLabels ∧
      ∀ i j, 1 ≤ i → i ≤ oneRowTable.numberOfRows → 1 ≤ j → j ≤ oneRowTable.numberOfColumns →
        (TableOfReal_standardizeColumns exactStats oneRowTable).data i j = 0) ∧
    ((TableOfReal_standardizeRows exactStats constantTable).numberOfRows
        = constantTable.numberOfRows ∧
      (TableOfReal_standardizeRows exactStats constantTable).numberOfColumns
        = constantTable.numberOfColumns ∧
      (TableOfReal_standardizeRows exactStats constantTable).rowLabels
        = constantTable.rowLabels ∧
      (TableOfReal_standardizeRows exactStats constantTable).columnLabels
        = constantTable.columnLabels ∧
      ∀ i j, 1 ≤ i → i ≤ constantTable.numberOfRows → 1 ≤ j →
        j ≤ constantTable.numberOfColumns →
        (TableOfReal_standardizeRows exactStats constantTable).data i j = 0) :=
  ⟨⟨by decide, by decide⟩,
    TableOfReal_standardize_degenerate exactStats oneRowTable constantTable (by decide)
      (by decide)⟩

theorem sumRange_succ [Zero α] [Add α] (n : Nat) (f : Nat → α) :
    sumRange (n + 1) f = sumRange n f + f (n + 1) := by
  unfold sumRange
  rw [List.range'_concat, List.map_append, List.foldl_append]
  simp [Nat.add_comm]

theorem sumRange_zero [Zero α] [Add α] (f : Nat → α) : sumRange 0 f = 0 := rfl

theorem sumRange_congr [Zero α] [Add α] (n : Nat) (f g : Nat → α)
    (h : ∀ i, 1 ≤ i → i ≤ n → f i = g i) : sumRange n f = sumRange n g := by
  induction n with
  | zero => rfl
  | succ n ih =>
    rw [sumRange_succ, sumRange_succ, ih (fun i h1 h2 => h i h1 (by omega)),
      h (n + 1) (by omega) (le_refl _)]

theorem sumRange_div [Field α] (n : Nat) (f : Nat → α) (c : α) :
    sumRange n (fun i => f i / c) = sumRange n f / c := by
  induction n with
  | zero => simp [sumRange_zero]
  | succ n ih => rw [sumRange_succ, sumRange_succ, ih, add_div]

theorem sumRange_sub_const [Field α] (n : Nat) (f : Nat → α) (m : α) :
    sumRange n (fun i => f i - m) = sumRange n f - (n : α) * m := by
  induction n with
  | zero => simp [sumRange_zero]
  | succ n ih =>
    rw [sumRange_succ, sumRange_succ, ih]
    push_cast
    ring

/-- The loop that replaces every cell of rows `lo..hi` of column `c` by a
function of its old value. -/
theorem forLoop_mapColumn {β : Type} (d0 : Nat → Nat → β) (c : Nat) (g : β → β)
    (lo hi : Nat) :
    forLoop lo hi (fun i d => setCell d i c (g (d i c))) d0 =
      fun r c1 => if c1 = c ∧ lo ≤ r ∧ r ≤ hi then g (d0 r c) else d0 r c1 := by
  by_cases hle : lo ≤ hi + 1
  · have := forLoop_closed
      (fun k r c1 => if c1 = c ∧ lo ≤ r ∧ r < k then g (d0 r c) else d0 r c1) lo hi
      (fun i d => setCell d i c (g (d i c))) d0 hle
      (by funext r c1; show _ = ite _ _ _; rw [if_neg (by omega)])
      (by
        intro k h1 h2
        funext r c1
        show setCell _ _ _ _ _ _ = ite _ _ _
        simp only [setCell]
        by_cases hm : r = k ∧ c1 = c
        · obtain ⟨rfl, rfl⟩ := hm
          rw [if_pos ⟨rfl, rfl⟩]
          show g (ite _ _ _) = ite _ _ _
          rw [if_neg (by omega), if_pos (by omega)]
        · rw [if_neg hm]
          show ite _ _ _ = ite _ _ _
          have : (c1 = c ∧ lo ≤ r ∧ r < k) ↔ (c1 = c ∧ lo ≤ r ∧ r < k + 1) := by omega
          simp only [this])
    rw [this]
    funext r c1
    have : (c1 = c ∧ lo ≤ r ∧ r < hi + 1) ↔ (c1 = c ∧ lo ≤ r ∧ r ≤ hi) := by omega
    simp only [this]
  · rw [forLoop_empty _ _ _ _ (by omega)]
    funext r c1
    rw [if_neg (by omega)]

/-- The cells of a column after TableOfReal_standardizeColumns on a table
with at least 2 rows: the old cell minus the mean, divided by the standard
deviation, both as the kernel returns them on a matrix that still holds the
column. -/
theorem standardizeColumns_column [Zero α] [Sub α] [Div α] (K : StatKernels α)
    (T : TableOfReal α) (hn : ¬ T.numberOfRows ≤ 1) (j : Nat)
    (hj : 1 ≤ j ∧ j ≤ T.numberOfColumns) :
    ∃ M : Nat → Nat → α, (∀ i, M i j = T.data i j) ∧
      ∀ r, 1 ≤ r → r ≤ T.numberOfRows →
        (TableOfReal_standardizeColumns K T).data r j =
          (T.data r j - (K.columnMeanStdev T.numberOfRows T.numberOfColumns M j).1)
            / (K.columnMeanStdev T.numberOfRows T.numberOfColumns M j).2 := by
  unfold TableOfReal_standardizeColumns
  rw [if_neg hn]
  simp only
  have := forLoop_induct
    (fun k (d : Nat → Nat → α) =>
      (∀ r c, k ≤ c → d r c = T.data r c) ∧
      (∀ c, 1 ≤ c → c < k → ∃ M : Nat → Nat → α, (∀ i, M i c = T.data i c) ∧
        ∀ r, 1 ≤ r → r ≤ T.numberOfRows →
          d r c = (T.data r c - (K.columnMeanStdev T.numberOfRows T.numberOfColumns M c).1)
            / (K.columnMeanStdev T.numberOfRows T.numberOfColumns M c).2))
    1 T.numberOfColumns
    (fun icol d =>
      forLoop 1 T.numberOfRows (fun irow d1 =>
        setCell d1 irow icol ((d1 irow icol
          - (K.columnMeanStdev T.numberOfRows T.numberOfColumns d icol).1)
          / (K.columnMeanStdev T.numberOfRows T.numberOfColumns d icol).2)) d)
    T.data (by omega)
    ⟨fun _ _ _ => rfl, fun c h1 h2 => by omega⟩
    (by
      intro k d h1 h2 ⟨e1, e2⟩
      have hloop := forLoop_mapColumn d k
        (fun x => (x - (K.columnMeanStdev T.numberOfRows T.numberOfColumns d k).1)
          / (K.columnMeanStdev T.numberOfRows T.numberOfColumns d k).2) 1 T.numberOfRows
      simp only at hloop
      constructor
      · intro r c hc
        simp only [hloop]
        rw [if_neg (by omega)]
        exact e1 r c (by omega)
      · intro c c1 c2
        by_cases hck : c = k
        · subst hck
          refine ⟨d, fun i => e1 i c (le_refl _), ?_⟩
          intro r r1 r2
          simp only [hloop]
          rw [if_pos ⟨trivial, r1, r2⟩, e1 r c (le_refl _)]
        · obtain ⟨M, m1, m2⟩ := e2 c c1 (by omega)
          refine ⟨M, m1, ?_⟩
          intro r r1 r2
          simp only [hloop]
          rw [if_neg (by omega)]
          exact m2 r r1 r2)
  exact this.2 j hj.1 (by omega)
/-- Standardizing a column with the exact mean and a non-zero exact standard
deviation: the new column has mean 0 and sample variance 1. -/
theorem standardized_column_stats [Field α] [CharZero α] (n : Nat) (hn : 2 ≤ n)
    (x y : Nat → Nat → α) (j : Nat) (m s : α)
    (hm : m = columnMean n x j) (hs : s * s = columnVariance n x j)
    (hv : columnVariance n x j ≠ 0)
    (hy : ∀ r, 1 ≤ r → r ≤ n → y r j = (x r j - m) / s) :
    columnMean n y j = 0 ∧ columnVariance n y j = 1 := by
  have hn0 : (n : α) ≠ 0 := by
    have : n ≠ 0 := by omega
    exact_mod_cast this
  have hmean : columnMean n y j = 0 := by
    unfold columnMean
    rw [sumRange_congr n (fun i => y i j) (fun i => (x i j - m) / s) hy,
      sumRange_div n (fun i => x i j - m) s, sumRange_sub_const n (fun i => x i j) m, hm]
    unfold columnMean
    rw [mul_div_cancel₀ _ hn0, sub_self, zero_div, zero_div]
  refine ⟨hmean, ?_⟩
  have hss : s * s ≠ 0 := by rw [hs]; exact hv
  unfold columnVariance
  rw [hmean]
  rw [sumRange_congr n (fun i => (y i j - 0) * (y i j - 0))
    (fun i => ((x i j - m) * (x i j - m)) / (s * s))
    (fun r r1 r2 => by
      show (y r j - 0) * (y r j - 0) = _
      rw [hy r r1 r2, sub_zero, div_mul_div_comm]),
    sumRange_div n (fun i => (x i j - m) * (x i j - m)) (s * s)]
  rw [div_right_comm]
  have : sumRange n (fun i => (x i j - m) * (x i j - m)) / ((n : α) - 1) = s * s := by
    rw [hs, hm]; rfl
  rw [this, div_self hss]

/-- Claim C16, amended: for every table with at least 2 rows, in exact
arithmetic, every column whose sample variance is not zero has mean 0 and
sample variance 1 (hence sample standard deviation 1) after
TableOfReal_standardizeColumns, the statistics kernel being exact on that
column. -/
theorem TableOfReal_standardizeColumns_spec [Field α] [CharZero α] (K : StatKernels α)
    (T : TableOfReal α) (hn : 2 ≤ T.numberOfRows) (j : Nat)
    (hj : 1 ≤ j ∧ j ≤ T.numberOfColumns) (hK : K.ExactOnColumn T j)
    (hv : columnVariance T.numberOfRows T.data j ≠ 0) :
    columnMean T.numberOfRows (TableOfReal_standardizeColumns K T).data j = 0 ∧
      columnVariance T.numberOfRows (TableOfReal_standardizeColumns K T).data j = 1 := by
  obtain ⟨M, hM, hcells⟩ := standardizeColumns_column K T (by omega) j hj
  obtain ⟨k1, k2⟩ := hK M (fun i _ _ => hM i)
  exact standardized_column_stats T.numberOfRows hn T.data _ j _ _ k1 k2 hv hcells

/-- The exact rational kernel is exact on the column of spreadTable. -/
theorem exactStats_exactOn_spreadTable : exactStats.ExactOnColumn spreadTable 1 := by
  intro M hM
  have h1 : columnMean 4 M 1 = columnMean 4 spreadTable.data 1 := by
    unfold columnMean
    rw [sumRange_congr 4 (fun i => M i 1) (fun i => spreadTable.data i 1) hM]
  have h2 : columnVariance 4 M 1 = columnVariance 4 spreadTable.data 1 := by
    unfold columnVariance
    rw [h1]
    rw [sumRange_congr 4 _ (fun i => (spreadTable.data i 1 - columnMean 4 spreadTable.data 1)
      * (spreadTable.data i 1 - columnMean 4 spreadTable.data 1))
      (fun i i1 i2 => by
        show (M i 1 - _) * (M i 1 - _) = _
        rw [hM i i1 i2])]
  show columnMean 4 M 1 = columnMean 4 spreadTable.data 1 ∧
    Rat.sqrt (columnVariance 4 M 1) * Rat.sqrt (columnVariance 4 M 1)
      = columnVariance 4 spreadTable.data 1
  rw [h1, h2]
  exact ⟨rfl, by decide!⟩

/-- Witness of the amended claim C16: the column 0, 0, 0, 4 becomes
-1/2, -1/2, -1/2, 3/2. -/
theorem TableOfReal_standardizeColumns_spec_witness :
    (columnMean 4 (TableOfReal_standardizeColumns exactStats spreadTable).data 1 = 0 ∧
      columnVariance 4 (TableOfReal_standardizeColumns exactStats spreadTable).data 1 = 1) ∧
    tableRows (TableOfReal_standardizeColumns exactStats spreadTable)
      = [(none, [-1/2]), (none, [-1/2]), (none, [-1/2]), (none, [3/2])] :=
  ⟨TableOfReal_standardizeColumns_spec exactStats spreadTable (by decide) 1
      ⟨by decide, by decide⟩ exactStats_exactOn_spreadTable (by decide!),
    by decide!⟩

/-- Claim C16, counterexample: the 2 x 1 table with the constant column 5, 5
has at least 2 rows; the standard deviation of its column is 0, the routine
divides by it, and the column after TableOfReal_standardizeColumns does not
have mean 0 and sample variance 1 (in exact arithmetic, where x / 0 = 0, the
column becomes 0, 0 with variance 0; in floating point it becomes NaN, NaN). -/
theorem TableOfReal_standardizeColumns_constant_column :
    2 ≤ constantTable.numberOfRows ∧
    (exactStats.columnMeanStdev 2 1 constantTable.data 1).2 = 0 ∧
    tableRows (TableOfReal_standardizeColumns exactStats constantTable) = [(some "r", [0]), (some "s", [0])] ∧
    ¬ (columnMean 2 (TableOfReal_standardizeColumns exactStats constantTable).data 1 = 0 ∧
      columnVariance 2 (TableOfReal_standardizeColumns exactStats constantTable).data 1 = 1) := by
  decide!

/-- The matrix after the zeroing loops of TableOfReal_choleskyDecomposition:
with `upper` the cells below the diagonal are 0, otherwise the cells above
it; all other cells are as before. -/
theorem zeroOppositeTriangle_eq [Zero α] (upper : Bool) (n : Nat) (d : Nat → Nat → α) :
    zeroOppositeTriangle upper n d = fun r c =>
      if upper then (if 2 ≤ r ∧ r ≤ n ∧ 1 ≤ c ∧ c ≤ r - 1 then 0 else d r c)
      else (if 1 ≤ r ∧ r ≤ n - 1 ∧ r + 1 ≤ c ∧ c ≤ n then 0 else d r c) := by
  unfold zeroOppositeTriangle
  cases upper
  · rw [if_neg (by decide)]
    rw [forLoop_fillCells d (fun _ _ => 0) 1 (n - 1) (fun i => i + 1) (fun _ => n)]
    funext r c
    simp
  · rw [if_pos rfl]
    rw [forLoop_fillCells d (fun _ _ => 0) 2 n (fun _ => 1) (fun i => i - 1)]
    funext r c
    simp

/-- The zeroing loops of TableOfReal_choleskyDecomposition leave the diagonal
as it is. -/
theorem zeroOppositeTriangle_diag [Zero α] (upper : Bool) (n : Nat) (d : Nat → Nat → α)
    (i : Nat) : zeroOppositeTriangle upper n d i i = d i i := by
  rw [zeroOppositeTriangle_eq]
  cases upper
  · show ite _ _ _ = _
    rw [if_neg (by decide)]
    rw [if_neg (by omega)]
  · show ite _ _ _ = _
    rw [if_pos rfl]
    rw [if_neg (by omega)]

/-- Claim C19: TableOfReal_choleskyDecomposition fails if and only if the
table is not square, or the factorization kernel dpotf2 reports a nonzero
status on the copy with the opposite triangle zeroed, or the inverse is
requested and the inversion kernel dtrtri reports a nonzero status on the
factor; each failure is the error of its cause, and a failure carries no
table (the routine writes only to its copy, the table itself is not an
output).  With a factorization kernel that reports a nonzero status on every
matrix with a negative diagonal entry, a square table with a negative
diagonal entry is rejected. -/
theorem TableOfReal_choleskyDecomposition_fails_iff [Zero α] [LT α] (K : LapackKernels α)
    (T : TableOfReal α) (upper inverse : Bool) :
    (TableOfReal_choleskyDecomposition K T upper inverse = .error .notSquare ↔
      T.numberOfColumns ≠ T.numberOfRows) ∧
    (TableOfReal_choleskyDecomposition K T upper inverse = .error .dpotf2Fails ↔
      T.numberOfColumns = T.numberOfRows ∧
      (K.NUMlapack_dpotf2 (if upper then 'L' else 'U') T.numberOfColumns
        (zeroOppositeTriangle upper T.numberOfColumns T.data) T.numberOfRows).2 ≠ 0) ∧
    (TableOfReal_choleskyDecomposition K T upper inverse = .error .dtrtriFails ↔
      T.numberOfColumns = T.numberOfRows ∧
      (K.NUMlapack_dpotf2 (if upper then 'L' else 'U') T.numberOfColumns
        (zeroOppositeTriangle upper T.numberOfColumns T.data) T.numberOfRows).2 = 0 ∧
      inverse = true ∧
      (K.NUMlapack_dtrtri (if upper then 'L' else 'U') 'N' T.numberOfColumns
        (K.NUMlapack_dpotf2 (if upper then 'L' else 'U') T.numberOfColumns
          (zeroOppositeTriangle upper T.numberOfColumns T.data) T.numberOfRows).1
        T.numberOfRows).2 ≠ 0) ∧
    ((∃ e, TableOfReal_choleskyDecomposition K T upper inverse = .error e) ↔
      T.numberOfColumns ≠ T.numberOfRows ∨
      (K.NUMlapack_dpotf2 (if upper then 'L' else 'U') T.numberOfColumns
        (zeroOppositeTriangle upper T.numberOfColumns T.data) T.numberOfRows).2 ≠ 0 ∨
      (inverse = true ∧
        (K.NUMlapack_dtrtri (if upper then 'L' else 'U') 'N' T.numberOfColumns
          (K.NUMlapack_dpotf2 (if upper then 'L' else 'U') T.numberOfColumns
            (zeroOppositeTriangle upper T.numberOfColumns T.data) T.numberOfRows).1
          T.numberOfRows).2 ≠ 0)) ∧
    ((∀ (uplo : Char) (M : Nat → Nat → α),
        (∃ i, 1 ≤ i ∧ i ≤ T.numberOfColumns ∧ M i i < 0) →
        (K.NUMlapack_dpotf2 uplo T.numberOfColumns M T.numberOfRows).2 ≠ 0) →
      T.numberOfColumns = T.numberOfRows →
      (∃ i, 1 ≤ i ∧ i ≤ T.numberOfColumns ∧ T.data i i < 0) →
      TableOfReal_choleskyDecomposition K T upper inverse = .error .dpotf2Fails) := by
  have hgo : TableOfReal_choleskyDecomposition K T upper inverse =
      if ¬ (T.numberOfColumns = T.numberOfRows) then .error .notSquare
      else if ¬ ((K.NUMlapack_dpotf2 (if upper then 'L' else 'U') T.numberOfColumns
          (zeroOppositeTriangle upper T.numberOfColumns T.data) T.numberOfRows).2 = 0) then
        .error .dpotf2Fails
      else if inverse = true then
        (if ¬ ((K.NUMlapack_dtrtri (if upper then 'L' else 'U') 'N' T.numberOfColumns
            (K.NUMlapack_dpotf2 (if upper then 'L' else 'U') T.numberOfColumns
              (zeroOppositeTriangle upper T.numberOfColumns T.data) T.numberOfRows).1
            T.numberOfRows).2 = 0) then .error .dtrtriFails
          else .ok { T with data := (K.NUMlapack_dtrtri (if upper then 'L' else 'U') 'N'
            T.numberOfColumns
            (K.NUMlapack_dpotf2 (if upper then 'L' else 'U') T.numberOfColumns
              (zeroOppositeTriangle upper T.numberOfColumns T.data) T.numberOfRows).1
            T.numberOfRows).1 })
      else .ok { T with data := (K.NUMlapack_dpotf2 (if upper then 'L' else 'U')
        T.numberOfColumns
        (zeroOppositeTriangle upper T.numberOfColumns T.data) T.numberOfRows).1 } := rfl
  have hlast : (∀ (uplo : Char) (M : Nat → Nat → α),
        (∃ i, 1 ≤ i ∧ i ≤ T.numberOfColumns ∧ M i i < 0) →
        (K.NUMlapack_dpotf2 uplo T.numberOfColumns M T.numberOfRows).2 ≠ 0) →
      T.numberOfColumns = T.numberOfRows →
      (∃ i, 1 ≤ i ∧ i ≤ T.numberOfColumns ∧ T.data i i < 0) →
      TableOfReal_choleskyDecomposition K T upper inverse = .error .dpotf2Fails := by
    intro hs hsq hneg
    have h1 := hs (if upper then 'L' else 'U')
      (zeroOppositeTriangle upper T.numberOfColumns T.data) (by
        obtain ⟨i, i1, i2, i3⟩ := hneg
        exact ⟨i, i1, i2, by rw [zeroOppositeTriangle_diag]; exact i3⟩)
    rw [hgo, if_neg (not_not.mpr hsq), if_pos h1]
  refine ⟨?_, ?_, ?_, ?_, hlast⟩
  all_goals
    rw [hgo]
    generalize (K.NUMlapack_dtrtri (if upper then 'L' else 'U') 'N' T.numberOfColumns
      (K.NUMlapack_dpotf2 (if upper then 'L' else 'U') T.numberOfColumns
        (zeroOppositeTriangle upper T.numberOfColumns T.data) T.numberOfRows).1
      T.numberOfRows).2 = b
    generalize (K.NUMlapack_dpotf2 (if upper then 'L' else 'U') T.numberOfColumns
      (zeroOppositeTriangle upper T.numberOfColumns T.data) T.numberOfRows).2 = a
    by_cases hsq : T.numberOfColumns = T.numberOfRows <;> by_cases ha : a = 0 <;>
      cases inverse <;> by_cases hb : b = 0 <;> simp [hsq, ha, hb]

/-- Witness of claim C19: with the stand-in kernels the square table with
rows [1, 0], [0, -1] is rejected by the factorization, and the 2 x 3 table
is rejected as not square. -/
theorem TableOfReal_choleskyDecomposition_fails_iff_witness :
    TableOfReal_choleskyDecomposition diagonalLapack indefiniteTable true false
      = .error .dpotf2Fails ∧
    TableOfReal_choleskyDecomposition diagonalLapack wideTable true false
      = .error .notSquare :=
  ⟨(TableOfReal_choleskyDecomposition_fails_iff diagonalLapack indefiniteTable true false).2.2.2.2
      (by
        intro uplo M ⟨i, i1, i2, i3⟩
        have hi : i = 1 ∨ i = 2 := by
          have : i ≤ 2 := i2
          omega
        show ((((List.range' 1 2).find? (fun i => decide (M i i ≤ 0))).getD 0 : Nat) : Int) ≠ 0
        simp only [List.range', List.find?]
        rcases hi with rfl | rfl
        · simp [le_of_lt i3]
        · by_cases h : M 1 1 ≤ 0
          · simp [h]
          · simp [h, le_of_lt i3])
      rfl ⟨2, by decide, by decide, by decide!⟩,
    ((TableOfReal_choleskyDecomposition_fails_iff diagonalLapack wideTable true false).1).2
      (by decide)⟩

/-- The loop that replaces every cell of columns `lo..hi` of row `i` by a
function of its column and its old value. -/
theorem forLoop_mapRow {β : Type} (d0 : Nat → Nat → β) (i : Nat) (g : Nat → β → β)
    (lo hi : Nat) :
    forLoop lo hi (fun j d => setCell d i j (g j (d i j))) d0 =
      fun r c => if r = i ∧ lo ≤ c ∧ c ≤ hi then g c (d0 r c) else d0 r c := by
  by_cases hle : lo ≤ hi + 1
  · have := forLoop_closed
      (fun k r c => if r = i ∧ lo ≤ c ∧ c < k then g c (d0 r c) else d0 r c) lo hi
      (fun j d => setCell d i j (g j (d i j))) d0 hle
      (by funext r c; show _ = ite _ _ _; rw [if_neg (by omega)])
      (by
        intro k h1 h2
        funext r c
        show setCell _ _ _ _ _ _ = ite _ _ _
        simp only [setCell]
        by_cases hm : r = i ∧ c = k
        · obtain ⟨rfl, rfl⟩ := hm
          rw [if_pos ⟨rfl, rfl⟩]
          show g c (ite _ _ _) = ite _ _ _
          rw [if_neg (by omega), if_pos (by omega)]
        · rw [if_neg hm]
          show ite _ _ _ = ite _ _ _
          have : (r = i ∧ lo ≤ c ∧ c < k) ↔ (r = i ∧ lo ≤ c ∧ c < k + 1) := by omega
          simp only [this])
    rw [this]
    funext r c
    have : (r = i ∧ lo ≤ c ∧ c < hi + 1) ↔ (r = i ∧ lo ≤ c ∧ c ≤ hi) := by omega
    simp only [this]
  · rw [forLoop_empty _ _ _ _ (by omega)]
    funext r c
    rw [if_neg (by omega)]

/-- The nested loop that replaces every cell of rows `lo..hi` and columns
`cl..ch` by a function of its position and its old value. -/
theorem forLoop_mapCells {β : Type} (d0 : Nat → Nat → β) (g : Nat → Nat → β → β)
    (lo hi cl ch : Nat) :
    forLoop lo hi (fun i d => forLoop cl ch (fun j d => setCell d i j (g i j (d i j))) d) d0 =
      fun r c => if lo ≤ r ∧ r ≤ hi ∧ cl ≤ c ∧ c ≤ ch then g r c (d0 r c) else d0 r c := by
  by_cases hle : lo ≤ hi + 1
  · have := forLoop_closed
      (fun k r c => if lo ≤ r ∧ r < k ∧ cl ≤ c ∧ c ≤ ch then g r c (d0 r c) else d0 r c) lo hi
      (fun i d => forLoop cl ch (fun j d => setCell d i j (g i j (d i j))) d) d0 hle
      (by funext r c; show _ = ite _ _ _; rw [if_neg (by omega)])
      (by
        intro k h1 h2
        show forLoop _ _ _ _ = _
        rw [forLoop_mapRow _ k (g k) cl ch]
        funext r c
        by_cases hm : r = k ∧ cl ≤ c ∧ c ≤ ch
        · rw [if_pos hm]
          obtain ⟨rfl, hc⟩ := hm
          show g r c (ite _ _ _) = ite _ _ _
          rw [if_neg (by omega), if_pos (by omega)]
        · rw [if_neg hm]
          show ite _ _ _ = ite _ _ _
          have : (lo ≤ r ∧ r < k ∧ cl ≤ c ∧ c ≤ ch) ↔
              (lo ≤ r ∧ r < k + 1 ∧ cl ≤ c ∧ c ≤ ch) := by omega
          simp only [this])
    rw [this]
    funext r c
    have : (lo ≤ r ∧ r < hi + 1 ∧ cl ≤ c ∧ c ≤ ch) ↔ (lo ≤ r ∧ r ≤ hi ∧ cl ≤ c ∧ c ≤ ch) := by
      omega
    simp only [this]
  · rw [forLoop_empty _ _ _ _ (by omega)]
    funext r c
    rw [if_neg (by omega)]

/-- The throwing loop fails with the error of iteration `k0` when the
iterations before it preserve an invariant without throwing and iteration
`k0` throws on every state that satisfies the invariant. -/
theorem forLoopMAux_first_error {ε σ : Type} (P : Nat → σ → Prop)
    (body : Nat → σ → Except ε σ) (k0 : Nat) (e : ε) :
    ∀ (n i : Nat) (s : σ), P i s → i ≤ k0 → k0 < i + n →
      (∀ k t, i ≤ k → k < k0 → P k t → ∃ u, body k t = .ok u ∧ P (k + 1) u) →
      (∀ t, P k0 t → body k0 t = .error e) →
      forLoopMAux body n i s = .error e := by
  intro n
  induction n with
  | zero => intro i s _ h1 h2; omega
  | succ n ih =>
    intro i s hp h1 h2 hs he
    by_cases hk : k0 = i
    · subst hk
      simp only [forLoopMAux, he s hp]
    · obtain ⟨u, hu, hq⟩ := hs i s (le_refl _) (by omega) hp
      simp only [forLoopMAux, hu]
      exact ih (i + 1) u hq (by omega) (by omega)
        (fun k t a b c => hs k t (by omega) b c) he

theorem forLoopM_first_error {ε σ : Type} (P : Nat → σ → Prop) (lo hi : Nat)
    (body : Nat → σ → Except ε σ) (s : σ) (k0 : Nat) (e : ε) (h0 : P lo s)
    (hk : lo ≤ k0 ∧ k0 ≤ hi)
    (hs : ∀ k t, lo ≤ k → k < k0 → P k t → ∃ u, body k t = .ok u ∧ P (k + 1) u)
    (he : ∀ t, P k0 t → body k0 t = .error e) :
    forLoopM lo hi body s = .error e :=
  forLoopMAux_first_error P body k0 e (hi + 1 - lo) lo s h0 hk.1 (by omega) hs he

/-- The vector comparison NUMequal holds exactly when the sizes are equal
and the label texts are equal at every index. -/
theorem NUMequal_iff (x y : autostring32vector) :
    NUMequal x y = true ↔
      x.size = y.size ∧
      ∀ i, 1 ≤ i → i ≤ x.size → labelText (x.elems i) = labelText (y.elems i) := by
  unfold NUMequal Melder_equ
  simp only [Bool.and_eq_true, decide_eq_true_eq, List.all_eq_true, List.mem_range'_1,
    beq_iff_eq]
  constructor
  · intro ⟨h1, h2⟩
    exact ⟨h1, fun i i1 i2 => h2 i ⟨i1, by omega⟩⟩
  · intro ⟨h1, h2⟩
    exact ⟨h1, fun i hi => h2 i hi.1 (by omega)⟩

theorem NUMequal_of_SameLabels (x y : autostring32vector) (h : SameLabels x y) :
    NUMequal x y = true :=
  (NUMequal_iff x y).mpr ⟨h.1, fun i i1 i2 => by rw [h.2 i i1 i2]⟩

/-- The test of TableOfRealList_sum on two tables whose label vectors are
sized to the dimensions passes exactly when the second does not differ from
the first. -/
theorem sum_check_iff (A B : TableOfReal α) (hA : A.WF) :
    (A.numberOfRows = B.numberOfRows ∧ A.numberOfColumns = B.numberOfColumns
      ∧ NUMequal A.rowLabels B.rowLabels = true
      ∧ NUMequal A.columnLabels B.columnLabels = true) ↔
    (¬ TablesDiffer A B ∧ B.rowLabels.size = A.rowLabels.size ∧
      B.columnLabels.size = A.columnLabels.size) := by
  rw [NUMequal_iff, NUMequal_iff]
  unfold TablesDiffer
  obtain ⟨a1, a2⟩ := hA
  rw [a1, a2]
  constructor
  · intro ⟨h1, h2, ⟨h3, h4⟩, h5, h6⟩
    refine ⟨?_, h3.symm, h5.symm⟩
    intro hd
    rcases hd with hd | hd | ⟨j, j1, j2, j3⟩ | ⟨k, k1, k2, k3⟩
    · exact hd h1
    · exact hd h2
    · exact j3 (h4 j j1 j2)
    · exact k3 (h6 k k1 k2)
  · intro ⟨h, s1, s2⟩
    have h1 : A.numberOfRows = B.numberOfRows := by
      by_contra hc; exact h (Or.inl hc)
    have h2 : A.numberOfColumns = B.numberOfColumns := by
      by_contra hc; exact h (Or.inr (Or.inl hc))
    refine ⟨h1, h2, ⟨s1.symm, ?_⟩, s2.symm, ?_⟩
    · intro j j1 j2
      by_contra hc
      exact h (Or.inr (Or.inr (Or.inl ⟨j, j1, j2, hc⟩)))
    · intro k k1 k2
      by_contra hc
      exact h (Or.inr (Or.inr (Or.inr ⟨k, k1, k2, hc⟩)))
theorem sum_check_iff_wf (A B : TableOfReal α) (hA : A.WF) (hB : B.WF) :
    (A.numberOfRows = B.numberOfRows ∧ A.numberOfColumns = B.numberOfColumns
      ∧ NUMequal A.rowLabels B.rowLabels = true
      ∧ NUMequal A.columnLabels B.columnLabels = true) ↔ ¬ TablesDiffer A B := by
  rw [sum_check_iff A B hA]
  constructor
  · intro h; exact h.1
  · intro h
    have h1 : A.numberOfRows = B.numberOfRows := by
      by_contra hc; exact h (Or.inl hc)
    have h2 : A.numberOfColumns = B.numberOfColumns := by
      by_contra hc; exact h (Or.inr (Or.inl hc))
    exact ⟨h, by rw [hA.1, hB.1, h1], by rw [hA.2, hB.2, h2]⟩

/-- Claim C11: for every non-empty list of tables that all have the
dimensions, the row labels and the column labels of the first table,
TableOfRealList_sum returns a table of those dimensions whose cell (j,k) is
the sum over the list, in list order, of the cells (j,k), and whose row and
column labels are those of the first table.  The routine writes only to its
copy of the first table; the list is not an output. -/
theorem TableOfRealList_sum_spec [AddZeroClass α] (me : List (TableOfReal α))
    (hne : me ≠ [])
    (hsame : ∀ i, 2 ≤ i → i ≤ me.length →
      (TableOfRealList_at me i).numberOfRows = (TableOfRealList_at me 1).numberOfRows ∧
      (TableOfRealList_at me i).numberOfColumns = (TableOfRealList_at me 1).numberOfColumns ∧
      SameLabels (TableOfRealList_at me 1).rowLabels (TableOfRealList_at me i).rowLabels ∧
      SameLabels (TableOfRealList_at me 1).columnLabels
        (TableOfRealList_at me i).columnLabels) :
    ∃ R, TableOfRealList_sum me = .ok (some R) ∧
      R.numberOfRows = (TableOfRealList_at me 1).numberOfRows ∧
      R.numberOfColumns = (TableOfRealList_at me 1).numberOfColumns ∧
      (∀ j k, 1 ≤ j → j ≤ R.numberOfRows → 1 ≤ k → k ≤ R.numberOfColumns →
        R.data j k = sumRange me.length (fun i => (TableOfRealList_at me i).data j k)) ∧
      R.rowLabels = (TableOfRealList_at me 1).rowLabels ∧
      R.columnLabels = (TableOfRealList_at me 1).columnLabels := by
  have hlen : 0 < me.length := List.length_pos.mpr hne
  unfold TableOfRealList_sum Data_copy
  rw [if_neg (by omega)]
  simp only
  obtain ⟨u, hu, h1, h2, h3, h4, h5⟩ := forLoopM_induct
    (fun k (t : TableOfReal α) =>
      t.numberOfRows = (TableOfRealList_at me 1).numberOfRows ∧
      t.numberOfColumns = (TableOfRealList_at me 1).numberOfColumns ∧
      t.rowLabels = (TableOfRealList_at me 1).rowLabels ∧
      t.columnLabels = (TableOfRealList_at me 1).columnLabels ∧
      ∀ j c, 1 ≤ j → j ≤ t.numberOfRows → 1 ≤ c → c ≤ t.numberOfColumns →
        t.data j c = sumRange (k - 1) (fun i => (TableOfRealList_at me i).data j c))
    2 me.length
    (fun i (thee : TableOfReal α) =>
        if ¬ (thee.numberOfRows = (TableOfRealList_at me i).numberOfRows
            ∧ thee.numberOfColumns = (TableOfRealList_at me i).numberOfColumns
            ∧ NUMequal thee.rowLabels (TableOfRealList_at me i).rowLabels = true
            ∧ NUMequal thee.columnLabels (TableOfRealList_at me i).columnLabels = true) then
          (.error (.tablesDiffer i) : Except MelderError (TableOfReal α))
        else
          .ok { thee with data := forLoop 1 thee.numberOfRows (fun j d =>
            forLoop 1 thee.numberOfColumns (fun k d =>
              setCell d j k (d j k + (TableOfRealList_at me i).data j k)) d) thee.data })
    (TableOfRealList_at me 1) (by omega)
    ⟨rfl, rfl, rfl, rfl, fun j c _ _ _ _ => by
      show _ = sumRange (0 + 1) _
      rw [sumRange_succ, sumRange_zero, zero_add]⟩
    (by
      intro k t k1 k2 ⟨a1, a2, a3, a4, a5⟩
      obtain ⟨b1, b2, b3, b4⟩ := hsame k k1 k2
      have hchk : t.numberOfRows = (TableOfRealList_at me k).numberOfRows
          ∧ t.numberOfColumns = (TableOfRealList_at me k).numberOfColumns
          ∧ NUMequal t.rowLabels (TableOfRealList_at me k).rowLabels = true
          ∧ NUMequal t.columnLabels (TableOfRealList_at me k).columnLabels = true :=
        ⟨by rw [a1, b1], by rw [a2, b2], by rw [a3]; exact NUMequal_of_SameLabels _ _ b3,
          by rw [a4]; exact NUMequal_of_SameLabels _ _ b4⟩
      refine ⟨_, if_neg (not_not.mpr hchk), a1, a2, a3, a4, ?_⟩
      intro j c j1 j2 c1 c2
      replace j2 : j ≤ t.numberOfRows := j2
      replace c2 : c ≤ t.numberOfColumns := c2
      show (forLoop 1 t.numberOfRows (fun j d =>
        forLoop 1 t.numberOfColumns (fun k1 d =>
          setCell d j k1 (d j k1 + (TableOfRealList_at me k).data j k1)) d) t.data) j c = _
      rw [forLoop_mapCells t.data (fun r c x => x + (TableOfRealList_at me k).data r c)
        1 t.numberOfRows 1 t.numberOfColumns]
      show ite _ _ _ = _
      rw [if_pos ⟨j1, j2, c1, c2⟩, a5 j c j1 j2 c1 c2]
      have e : k + 1 - 1 = (k - 1) + 1 := by omega
      rw [e, sumRange_succ]
      have e2 : k - 1 + 1 = k := by omega
      rw [e2])
  rw [hu]
  refine ⟨u, rfl, h1, h2, ?_, h3, h4⟩
  intro j k j1 j2 k1 k2
  rw [h5 j k j1 j2 k1 k2]
  rfl

/-- Witness of claim C11: the sum of three 1 x 2 tables with the same
labels has the row [12, 24]. -/
theorem TableOfRealList_sum_spec_witness :
    (∃ R, TableOfRealList_sum [tableD, tableE, tableD] = .ok (some R) ∧
      R.numberOfRows = (TableOfRealList_at [tableD, tableE, tableD] 1).numberOfRows ∧
      R.numberOfColumns = (TableOfRealList_at [tableD, tableE, tableD] 1).numberOfColumns ∧
      (∀ j k, 1 ≤ j → j ≤ R.numberOfRows → 1 ≤ k → k ≤ R.numberOfColumns →
        R.data j k = sumRange [tableD, tableE, tableD].length
          (fun i => (TableOfRealList_at [tableD, tableE, tableD] i).data j k)) ∧
      R.rowLabels = (TableOfRealList_at [tableD, tableE, tableD] 1).rowLabels ∧
      R.columnLabels = (TableOfRealList_at [tableD, tableE, tableD] 1).columnLabels) ∧
    (∃ R, TableOfRealList_sum [tableD, tableE, tableD] = .ok (some R) ∧
      tableRows R = [(some "r", [12, 24])] ∧
      labelList R.columnLabels = [some "x", some "y"]) :=
  ⟨TableOfRealList_sum_spec [tableD, tableE, tableD] (List.cons_ne_nil _ _)
    (by
      intro i i1 i2
      have hi : i = 2 ∨ i = 3 := by
        have : i ≤ 3 := i2
        omega
      rcases hi with rfl | rfl
      · exact ⟨rfl, rfl, ⟨rfl, fun _ _ _ => rfl⟩, ⟨rfl, fun _ _ _ => rfl⟩⟩
      · exact ⟨rfl, rfl, ⟨rfl, fun _ _ _ => rfl⟩, ⟨rfl, fun _ _ _ => rfl⟩⟩),
    ⟨_, rfl, by decide, by decide⟩⟩
/-- One iteration of the loop of TableOfRealList_sum on a state that has the
dimensions and labels of the first table: it throws exactly when table `i`
differs from the first table, and otherwise keeps dimensions and labels. -/
theorem sum_body_step [Zero α] [Add α] (me : List (TableOfReal α)) (i : Nat)
    (t : TableOfReal α) (hwf1 : (TableOfRealList_at me 1).WF)
    (hwfi : (TableOfRealList_at me i).WF)
    (h1 : t.numberOfRows = (TableOfRealList_at me 1).numberOfRows)
    (h2 : t.numberOfColumns = (TableOfRealList_at me 1).numberOfColumns)
    (h3 : t.rowLabels = (TableOfRealList_at me 1).rowLabels)
    (h4 : t.columnLabels = (TableOfRealList_at me 1).columnLabels)
    (r : Except MelderError (TableOfReal α))
    (hr : r = if ¬ (t.numberOfRows = (TableOfRealList_at me i).numberOfRows
          ∧ t.numberOfColumns = (TableOfRealList_at me i).numberOfColumns
          ∧ NUMequal t.rowLabels (TableOfRealList_at me i).rowLabels = true
          ∧ NUMequal t.columnLabels (TableOfRealList_at me i).columnLabels = true) then
        (.error (.tablesDiffer i) : Except MelderError (TableOfReal α))
      else
        .ok { t with data := forLoop 1 t.numberOfRows (fun j d =>
          forLoop 1 t.numberOfColumns (fun k d =>
            setCell d j k (d j k + (TableOfRealList_at me i).data j k)) d) t.data }) :
    (TablesDiffer (TableOfRealList_at me 1) (TableOfRealList_at me i) →
      r = .error (.tablesDiffer i)) ∧
    (¬ TablesDiffer (TableOfRealList_at me 1) (TableOfRealList_at me i) →
      r = .ok { t with data := forLoop 1 t.numberOfRows (fun j d =>
        forLoop 1 t.numberOfColumns (fun k d =>
          setCell d j k (d j k + (TableOfRealList_at me i).data j k)) d) t.data }) := by
  have := sum_check_iff_wf (TableOfRealList_at me 1) (TableOfRealList_at me i) hwf1 hwfi
  rw [← h1, ← h2, ← h3, ← h4] at this
  constructor
  · intro hd
    rw [hr, if_pos (fun hc => (this.mp hc) hd)]
  · intro hd
    rw [hr, if_neg (not_not.mpr (this.mpr hd))]

/-- Claim C12: for every list of tables whose label vectors are sized to the
dimensions, TableOfRealList_sum fails if and only if some table at an index
i >= 2 differs from the first table in the number of rows, the number of
columns, some row label or some column label (labels compared as texts); the
error names the smallest such index, and an error carries no table. -/
theorem TableOfRealList_sum_fails_iff [Zero α] [Add α] (me : List (TableOfReal α))
    (hwf : ∀ i, 1 ≤ i → i ≤ me.length → (TableOfRealList_at me i).WF) :
    ((∃ e, TableOfRealList_sum me = .error e) ↔
      ∃ i, 2 ≤ i ∧ i ≤ me.length ∧
        TablesDiffer (TableOfRealList_at me 1) (TableOfRealList_at me i)) ∧
    (∀ i, 2 ≤ i → i ≤ me.length →
      TablesDiffer (TableOfRealList_at me 1) (TableOfRealList_at me i) →
      (∀ k, 2 ≤ k → k < i →
        ¬ TablesDiffer (TableOfRealList_at me 1) (TableOfRealList_at me k)) →
      TableOfRealList_sum me = .error (.tablesDiffer i)) := by
  have hmin : ∀ i, 2 ≤ i → i ≤ me.length →
      TablesDiffer (TableOfRealList_at me 1) (TableOfRealList_at me i) →
      (∀ k, 2 ≤ k → k < i →
        ¬ TablesDiffer (TableOfRealList_at me 1) (TableOfRealList_at me k)) →
      TableOfRealList_sum me = .error (.tablesDiffer i) := by
    intro i i1 i2 hd hbefore
    unfold TableOfRealList_sum Data_copy
    rw [if_neg (by omega)]
    simp only
    rw [forLoopM_first_error
      (fun _ (t : TableOfReal α) =>
        t.numberOfRows = (TableOfRealList_at me 1).numberOfRows ∧
        t.numberOfColumns = (TableOfRealList_at me 1).numberOfColumns ∧
        t.rowLabels = (TableOfRealList_at me 1).rowLabels ∧
        t.columnLabels = (TableOfRealList_at me 1).columnLabels)
      2 me.length _ (TableOfRealList_at me 1) i (.tablesDiffer i) ⟨rfl, rfl, rfl, rfl⟩ ⟨i1, i2⟩
      (by
        intro k t k1 k2 ⟨a1, a2, a3, a4⟩
        exact ⟨_, (sum_body_step me k t (hwf 1 (by omega) (by omega))
          (hwf k (by omega) (by omega)) a1 a2 a3 a4 _ rfl).2 (hbefore k k1 k2), a1, a2, a3, a4⟩)
      (by
        intro t ⟨a1, a2, a3, a4⟩
        exact (sum_body_step me i t (hwf 1 (by omega) (by omega)) (hwf i (by omega) i2)
          a1 a2 a3 a4 _ rfl).1 hd)]
  refine ⟨⟨?_, ?_⟩, hmin⟩
  · intro ⟨e, he⟩
    by_contra hno
    have hnone : ∀ i, 2 ≤ i → i ≤ me.length →
        ¬ TablesDiffer (TableOfRealList_at me 1) (TableOfRealList_at me i) :=
      fun i i1 i2 hd => hno ⟨i, i1, i2, hd⟩
    unfold TableOfRealList_sum Data_copy at he
    by_cases hlen : me.length ≤ 0
    · rw [if_pos hlen] at he
      cases he
    · rw [if_neg hlen] at he
      simp only at he
      obtain ⟨u, hu, -⟩ := forLoopM_induct
        (fun _ (t : TableOfReal α) =>
          t.numberOfRows = (TableOfRealList_at me 1).numberOfRows ∧
          t.numberOfColumns = (TableOfRealList_at me 1).numberOfColumns ∧
          t.rowLabels = (TableOfRealList_at me 1).rowLabels ∧
          t.columnLabels = (TableOfRealList_at me 1).columnLabels)
        2 me.length
        (fun i (thee : TableOfReal α) =>
          if ¬ (thee.numberOfRows = (TableOfRealList_at me i).numberOfRows
              ∧ thee.numberOfColumns = (TableOfRealList_at me i).numberOfColumns
              ∧ NUMequal thee.rowLabels (TableOfRealList_at me i).rowLabels = true
              ∧ NUMequal thee.columnLabels (TableOfRealList_at me i).columnLabels = true) then
            (.error (.tablesDiffer i) : Except MelderError (TableOfReal α))
          else
            .ok { thee with data := forLoop 1 thee.numberOfRows (fun j d =>
              forLoop 1 thee.numberOfColumns (fun k d =>
                setCell d j k (d j k + (TableOfRealList_at me i).data j k)) d) thee.data })
        (TableOfRealList_at me 1) (by omega) ⟨rfl, rfl, rfl, rfl⟩
        (by
          intro k t k1 k2 ⟨a1, a2, a3, a4⟩
          exact ⟨_, (sum_body_step me k t (hwf 1 (by omega) (by omega)) (hwf k (by omega) k2)
            a1 a2 a3 a4 _ rfl).2 (hnone k k1 k2), a1, a2, a3, a4⟩)
      rw [hu] at he
      cases he
  · intro hex
    classical
    have hex2 : ∃ i, 2 ≤ i ∧ i ≤ me.length ∧
        TablesDiffer (TableOfRealList_at me 1) (TableOfRealList_at me i) := hex
    have hspec := Nat.find_spec hex2
    exact ⟨_, hmin (Nat.find hex2) hspec.1 hspec.2.1 hspec.2.2
      (fun k k1 k2 hd => Nat.find_min hex2 k2 ⟨k1, by omega, hd⟩)⟩

/-- Witness of claim C12: two 1 x 2 tables with equal dimensions whose
second column labels are y and z are rejected, and the error names table
2. -/
theorem TableOfRealList_sum_fails_iff_witness :
    TableOfRealList_sum [tableD, tableF] = .error (.tablesDiffer 2) :=
  (TableOfRealList_sum_fails_iff [tableD, tableF]
    (by
      intro i i1 i2
      have hi : i = 1 ∨ i = 2 := by
        have : i ≤ 2 := i2
        omega
      rcases hi with rfl | rfl
      · exact ⟨rfl, rfl⟩
      · exact ⟨rfl, rfl⟩)).2 2 (le_refl _) (le_refl _)
    (Or.inr (Or.inr (Or.inr ⟨2, by decide, by decide, by decide⟩)))
    (fun k k1 k2 => by omega)

/-- The accumulation loop `for j: acc += f j` from 0 is the sum
`f 1 + ... + f n` in this order. -/
theorem forLoop_sum [Zero α] [Add α] (n : Nat) (f : Nat → α) :
    forLoop 1 n (fun j acc => acc + f j) 0 = sumRange n f := by
  have := forLoop_closed (fun k => sumRange (k - 1) f) 1 n (fun j acc => acc + f j) 0
    (by omega) rfl
    (by
      intro k k1 _
      show sumRange (k - 1) f + f k = sumRange (k + 1 - 1) f
      have e : k + 1 - 1 = (k - 1) + 1 := by omega
      rw [e, sumRange_succ]
      have e2 : k - 1 + 1 = k := by omega
      rw [e2])
  rw [this]
  rfl

/-- The result of TableOfReal_TableOfReal_rowCorrelations on two tables with
the same number of columns, in closed form. -/
theorem rowCorrelations_eq {β : Type} [Zero α] [Mul α] [Zero β] [Add β]
    (L : Accumulator α β) (K : MatrixKernels α)
    (A B : TableOfReal α) (centre normalize : Bool)
    (h : A.numberOfColumns = B.numberOfColumns) :
    TableOfReal_TableOfReal_rowCorrelations L K A B centre normalize = .ok
      { numberOfRows := A.numberOfRows
        numberOfColumns := B.numberOfRows
        data := fun r c =>
          if 1 ≤ r ∧ r ≤ A.numberOfRows ∧ 1 ≤ c ∧ c ≤ B.numberOfRows then
            L.toDouble (sumRange A.numberOfColumns (fun j => L.toLongdouble
              (rowTransformed K centre normalize A r j * rowTransformed K centre normalize B c j)))
          else 0
        rowLabels := ⟨A.numberOfRows, fun i =>
          if 1 ≤ i ∧ i ≤ A.rowLabels.size then A.rowLabels.elems i else none⟩
        columnLabels := ⟨B.numberOfRows, fun i =>
          if 1 ≤ i ∧ i ≤ B.rowLabels.size then B.rowLabels.elems i else none⟩ } := by
  unfold TableOfReal_TableOfReal_rowCorrelations
  rw [if_neg (not_not.mpr h)]
  simp only [TableOfReal_create, copyElementsFrom_eq, forLoop_sum]
  rw [forLoop_fillCells (fun _ _ => (0 : α)) _ 1 A.numberOfRows (fun _ => 1)
    (fun _ => B.numberOfRows)]
  rfl

/-- The result of TableOfReal_TableOfReal_columnCorrelations on two tables
with the same number of rows, in closed form. -/
theorem columnCorrelations_eq {β : Type} [Zero α] [Mul α] [Zero β] [Add β]
    (L : Accumulator α β) (K : MatrixKernels α)
    (A B : TableOfReal α) (center normalize : Bool)
    (h : A.numberOfRows = B.numberOfRows) :
    TableOfReal_TableOfReal_columnCorrelations L K A B center normalize = .ok
      { numberOfRows := A.numberOfColumns
        numberOfColumns := B.numberOfColumns
        data := fun r c =>
          if 1 ≤ r ∧ r ≤ A.numberOfColumns ∧ 1 ≤ c ∧ c ≤ B.numberOfColumns then
            L.toDouble (sumRange A.numberOfRows (fun i => L.toLongdouble
              (columnTransformed K center normalize A i r
                * columnTransformed K center normalize B i c)))
          else 0
        rowLabels := ⟨A.numberOfColumns, fun i =>
          if 1 ≤ i ∧ i ≤ A.columnLabels.size then A.columnLabels.elems i else none⟩
        columnLabels := ⟨B.numberOfColumns, fun i =>
          if 1 ≤ i ∧ i ≤ B.columnLabels.size then B.columnLabels.elems i else none⟩ } := by
  unfold TableOfReal_TableOfReal_columnCorrelations
  rw [if_neg (not_not.mpr h)]
  simp only [TableOfReal_create, copyElementsFrom_eq, forLoop_sum]
  rw [forLoop_fillCells (fun _ _ => (0 : α)) _ 1 A.numberOfColumns (fun _ => 1)
    (fun _ => B.numberOfColumns)]
  rfl

/-- Claim C13: TableOfReal_TableOfReal_rowCorrelations fails, with the error
that the numbers of columns differ, exactly when A and B have different
numbers of columns; otherwise it returns a table with the rows of A as rows
and the rows of B as columns whose cell (i,k) is the dot product of row i of
the transformed copy of A and row k of the transformed copy of B (rows
centred if `centre`, then normalized if `normalize`), computed as the
routine computes it: the products of the cells, taken in the order of the
columns, are added to a `longdouble` that starts at 0, and the sum is
narrowed to `double`.  The row labels of the result are the row labels of A
and its column labels are the row labels of B.  The routine writes only to
its copies and to the result. -/
theorem TableOfReal_TableOfReal_rowCorrelations_spec {β : Type} [Zero α] [Mul α] [Zero β]
    [Add β] (L : Accumulator α β) (K : MatrixKernels α) (A B : TableOfReal α)
    (centre normalize : Bool) (hA : A.WF) (hB : B.WF) :
    ((∃ e, TableOfReal_TableOfReal_rowCorrelations L K A B centre normalize = .error e) ↔
      A.numberOfColumns ≠ B.numberOfColumns) ∧
    (A.numberOfColumns ≠ B.numberOfColumns →
      TableOfReal_TableOfReal_rowCorrelations L K A B centre normalize
        = .error .columnCountsDiffer) ∧
    (A.numberOfColumns = B.numberOfColumns →
      ∃ R, TableOfReal_TableOfReal_rowCorrelations L K A B centre normalize = .ok R ∧
        R.numberOfRows = A.numberOfRows ∧ R.numberOfColumns = B.numberOfRows ∧
        (∀ i k, 1 ≤ i → i ≤ A.numberOfRows → 1 ≤ k → k ≤ B.numberOfRows →
          R.data i k = L.toDouble (sumRange A.numberOfColumns (fun j => L.toLongdouble
            (rowTransformed K centre normalize A i j
              * rowTransformed K centre normalize B k j)))) ∧
        SameLabels R.rowLabels A.rowLabels ∧ SameLabels R.columnLabels B.rowLabels) := by
  have herr : A.numberOfColumns ≠ B.numberOfColumns →
      TableOfReal_TableOfReal_rowCorrelations L K A B centre normalize
        = .error .columnCountsDiffer := by
    intro h
    unfold TableOfReal_TableOfReal_rowCorrelations
    rw [if_pos h]
  refine ⟨⟨?_, fun h => ⟨_, herr h⟩⟩, herr, ?_⟩
  · intro ⟨e, he⟩ heq
    rw [rowCorrelations_eq L K A B centre normalize heq] at he
    cases he
  · intro heq
    refine ⟨_, rowCorrelations_eq L K A B centre normalize heq, rfl, rfl, ?_, ?_, ?_⟩
    · intro i k i1 i2 k1 k2
      show ite _ _ _ = _
      rw [if_pos ⟨i1, i2, k1, k2⟩]
    · refine ⟨hA.1.symm, ?_⟩
      intro i i1 i2
      show ite _ _ _ = _
      rw [if_pos ⟨i1, by rw [hA.1]; exact i2⟩]
    · refine ⟨hB.1.symm, ?_⟩
      intro i i1 i2
      show ite _ _ _ = _
      rw [if_pos ⟨i1, by rw [hB.1]; exact i2⟩]

/-- Witness of claim C13.  In exact arithmetic, centring and normalizing off
and on: the rows [3, 4], [6, 8] against the row [4, 3] give the dot products
24 and 48, and 24/25 and 24/25 after normalizing; a table with 3 columns is
rejected.  In the arithmetic of the types `double` and `longdouble`: the row
[2^53, 1] against the row [1, 1] gives 2^53, the sum 2^53 + 1 of the
accumulator narrowed to `double`, and the row [2^53, 1, 1] against the row
[1, 1, 1] gives 2^53 + 2. -/
theorem TableOfReal_TableOfReal_rowCorrelations_spec_witness :
    (∃ R, TableOfReal_TableOfReal_rowCorrelations Accumulator.exact exactMatrix
        corrTableA corrTableB false false = .ok R ∧
      tableRows R = [(some "a1", [24]), (some "a2", [48])] ∧
      labelList R.columnLabels = [some "b1"]) ∧
    (∃ R, TableOfReal_TableOfReal_rowCorrelations Accumulator.exact exactMatrix
        corrTableA corrTableB false true = .ok R ∧
      tableRows R = [(some "a1", [24/25]), (some "a2", [24/25])]) ∧
    TableOfReal_TableOfReal_rowCorrelations Accumulator.exact exactMatrix
      corrTableA corrTableC true true = .error .columnCountsDiffer ∧
    (∃ R, TableOfReal_TableOfReal_rowCorrelations ieeeAccumulator doubleMatrix
        doubleTableB doubleTableC false false = .ok R ∧
      tableRows R = [(some "b1", [⟨2 ^ 53⟩])]) ∧
    (∃ R, TableOfReal_TableOfReal_rowCorrelations ieeeAccumulator doubleMatrix
        doubleTableD doubleTableE false false = .ok R ∧
      tableRows R = [(some "d1", [⟨2 ^ 53 + 2⟩])]) :=
  ⟨⟨_, rfl, by decide!, by decide⟩, ⟨_, rfl, by decide!⟩,
    (TableOfReal_TableOfReal_rowCorrelations_spec Accumulator.exact exactMatrix
      corrTableA corrTableC true true (by decide) (by decide)).2.1 (by decide),
    ⟨_, rfl, by decide!⟩, ⟨_, rfl, by decide!⟩⟩

theorem MATcopy_transpose [Zero α] (T : TableOfReal α) :
    MATcopy (TableOfReal_transpose T).numberOfRows (TableOfReal_transpose T).numberOfColumns
        (TableOfReal_transpose T).data =
      fun r c => MATcopy T.numberOfRows T.numberOfColumns T.data c r := by
  rw [TableOfReal_transpose_eq]
  funext r c
  unfold MATcopy
  by_cases h : 1 ≤ c ∧ c ≤ T.numberOfRows ∧ 1 ≤ r ∧ r ≤ T.numberOfColumns
  · rw [if_pos h]
    show ite _ (ite _ _ _) _ = _
    rw [if_pos ⟨h.2.2.1, h.2.2.2, h.1, h.2.1⟩, if_pos h]
  · rw [if_neg h]
    show ite _ (ite _ _ _) _ = _
    rw [if_neg (fun hc => h ⟨hc.2.2.1, hc.2.2.2, hc.1, hc.2.1⟩)]

/-- With kernels that are transpose-duals, the working copy of
TableOfReal_TableOfReal_columnCorrelations is the transpose of the working
copy of TableOfReal_TableOfReal_rowCorrelations on the transposed table. -/
theorem columnTransformed_dual [Zero α] (K : MatrixKernels α) (center normalize : Bool)
    (T : TableOfReal α) (hc : center = true → K.CentreDual)
    (hn : normalize = true → K.NormalizeDual) :
    columnTransformed K center normalize T =
      fun i j => rowTransformed K center normalize (TableOfReal_transpose T) j i := by
  unfold columnTransformed rowTransformed
  simp only [MATcopy_transpose]
  have e1 : (TableOfReal_transpose T).numberOfRows = T.numberOfColumns := rfl
  have e2 : (TableOfReal_transpose T).numberOfColumns = T.numberOfRows := rfl
  rw [e1, e2]
  cases center <;> cases normalize
  · rfl
  · simp only [if_true, Bool.false_eq_true, if_false]
    rw [hn rfl]
  · simp only [if_true, Bool.false_eq_true, if_false]
    rw [hc rfl]
  · simp only [if_true]
    rw [hn rfl, hc rfl]

/-- Claim C14: with matrix kernels that are transpose-duals and tables whose
label vectors are sized to the dimensions,
TableOfReal_TableOfReal_crossCorrelations by columns fails exactly when the
two tables have different numbers of rows, and otherwise returns the very
table that TableOfReal_TableOfReal_crossCorrelations by rows returns on the
two transposed tables: same dimensions, data, row labels and column
labels. -/
theorem TableOfReal_TableOfReal_crossCorrelations_dual {β : Type} [Zero α] [Mul α] [Zero β]
    [Add β] (L : Accumulator α β)
    (K : MatrixKernels α) (A B : TableOfReal α) (center normalize : Bool)
    (hA : A.WF) (hB : B.WF) (hc : center = true → K.CentreDual)
    (hn : normalize = true → K.NormalizeDual) :
    ((∃ e, TableOfReal_TableOfReal_crossCorrelations L K A B true center normalize = .error e) ↔
      A.numberOfRows ≠ B.numberOfRows) ∧
    (A.numberOfRows ≠ B.numberOfRows →
      TableOfReal_TableOfReal_crossCorrelations L K A B true center normalize
        = .error .rowCountsDiffer) ∧
    (A.numberOfRows = B.numberOfRows →
      ∃ R, TableOfReal_TableOfReal_crossCorrelations L K A B true center normalize = .ok R ∧
        TableOfReal_TableOfReal_crossCorrelations L K (TableOfReal_transpose A)
          (TableOfReal_transpose B) false center normalize = .ok R) := by
  have herr : A.numberOfRows ≠ B.numberOfRows →
      TableOfReal_TableOfReal_crossCorrelations L K A B true center normalize
        = .error .rowCountsDiffer := by
    intro h
    unfold TableOfReal_TableOfReal_crossCorrelations
      TableOfReal_TableOfReal_columnCorrelations
    rw [if_pos rfl, if_pos h]
  have hok : A.numberOfRows = B.numberOfRows →
      ∃ R, TableOfReal_TableOfReal_crossCorrelations L K A B true center normalize = .ok R ∧
        TableOfReal_TableOfReal_crossCorrelations L K (TableOfReal_transpose A)
          (TableOfReal_transpose B) false center normalize = .ok R := by
    intro heq
    have h1 : TableOfReal_TableOfReal_crossCorrelations L K A B true center normalize = _ :=
      columnCorrelations_eq L K A B center normalize heq
    refine ⟨_, h1, ?_⟩
    · unfold TableOfReal_TableOfReal_crossCorrelations
      rw [if_neg (by decide)]
      rw [rowCorrelations_eq L K (TableOfReal_transpose A) (TableOfReal_transpose B) center
        normalize heq]
      rw [columnTransformed_dual K center normalize A hc hn,
        columnTransformed_dual K center normalize B hc hn]
      have e1 : (TableOfReal_transpose A).numberOfRows = A.numberOfColumns := rfl
      have e2 : (TableOfReal_transpose A).numberOfColumns = A.numberOfRows := rfl
      have e3 : (TableOfReal_transpose B).numberOfRows = B.numberOfColumns := rfl
      have e4 : (TableOfReal_transpose A).rowLabels = ⟨A.numberOfColumns, fun i =>
          if 1 ≤ i ∧ i ≤ A.columnLabels.size then A.columnLabels.elems i else none⟩ := by
        rw [TableOfReal_transpose_eq]
      have e5 : (TableOfReal_transpose B).rowLabels = ⟨B.numberOfColumns, fun i =>
          if 1 ≤ i ∧ i ≤ B.columnLabels.size then B.columnLabels.elems i else none⟩ := by
        rw [TableOfReal_transpose_eq]
      rw [e1, e2, e3, e4, e5]
      have l1 : (fun i => if 1 ≤ i ∧ i ≤ A.numberOfColumns then
            (if 1 ≤ i ∧ i ≤ A.columnLabels.size then A.columnLabels.elems i else none)
            else none) =
          fun i => if 1 ≤ i ∧ i ≤ A.columnLabels.size then A.columnLabels.elems i else none := by
        funext i
        rw [hA.2]
        by_cases h : 1 ≤ i ∧ i ≤ A.numberOfColumns
        · rw [if_pos h]
        · rw [if_neg h, if_neg h]
      have l2 : (fun i => if 1 ≤ i ∧ i ≤ B.numberOfColumns then
            (if 1 ≤ i ∧ i ≤ B.columnLabels.size then B.columnLabels.elems i else none)
            else none) =
          fun i => if 1 ≤ i ∧ i ≤ B.columnLabels.size then B.columnLabels.elems i else none := by
        funext i
        rw [hB.2]
        by_cases h : 1 ≤ i ∧ i ≤ B.numberOfColumns
        · rw [if_pos h]
        · rw [if_neg h, if_neg h]
      simp only [l1, l2]
  refine ⟨⟨?_, fun h => ⟨_, herr h⟩⟩, herr, hok⟩
  intro ⟨e, he⟩ heq
  obtain ⟨R, hR, -⟩ := hok heq
  rw [hR] at he
  cases he

/-- Witness of claim C14: with the exact kernels, which are transpose-duals,
centring and normalizing, the column correlations of two tables with 2 and 1
rows are refused, and those of a 2 x 2 table with itself are the row
correlations of its transpose with itself. -/
theorem TableOfReal_TableOfReal_crossCorrelations_dual_witness :
    TableOfReal_TableOfReal_crossCorrelations Accumulator.exact exactMatrix
      corrTableA corrTableB true true true = .error .rowCountsDiffer ∧
    (∃ R, TableOfReal_TableOfReal_crossCorrelations Accumulator.exact exactMatrix
        corrTableA corrTableA true true false = .ok R ∧
      TableOfReal_TableOfReal_crossCorrelations Accumulator.exact exactMatrix
        (TableOfReal_transpose corrTableA) (TableOfReal_transpose corrTableA)
        false true false = .ok R) ∧
    (∃ R, TableOfReal_TableOfReal_crossCorrelations Accumulator.exact exactMatrix
        corrTableA corrTableA true true false = .ok R ∧
      tableRows R = [(some "u", [9/2, 6]), (some "v", [6, 8])]) :=
  ⟨(TableOfReal_TableOfReal_crossCorrelations_dual Accumulator.exact exactMatrix
      corrTableA corrTableB true true (by decide) (by decide)
      (fun _ _ _ _ => rfl) (fun _ _ _ _ => rfl)).2.1 (by decide),
    (TableOfReal_TableOfReal_crossCorrelations_dual Accumulator.exact exactMatrix
      corrTableA corrTableA true false (by decide) (by decide)
      (fun _ _ _ _ => rfl) (fun _ _ _ _ => rfl)).2.2 rfl,
    ⟨_, rfl, by decide!⟩⟩

/-- Claim C18: for every table with fewer than 2 rows or fewer than 1
column, and for every smoothing parameter h, TableOfReal_normalityTest_BHEP
returns the value `undefined` and throws no error; it writes nothing through
`p_tnb`, `p_lnmu` and `p_lnvar`. -/
theorem TableOfReal_normalityTest_BHEP_undefined [LinearOrderedField α] {Cov : Type}
    (K : BhepKernels α Cov) (me : TableOfReal α) (h : α)
    (hsmall : me.numberOfRows < 2 ∨ me.numberOfColumns < 1) :
    ∃ r, TableOfReal_normalityTest_BHEP K me h = .ok r ∧ r.prob = K.undefined ∧
      r.tnb = none ∧ r.lnmu = none ∧ r.lnvar = none := by
  unfold TableOfReal_normalityTest_BHEP
  simp only
  rw [if_pos hsmall]
  exact ⟨_, rfl, rfl, rfl, rfl, rfl⟩

/-- Witness of claim C18: a table with 1 row, and a table with 0 columns. -/
theorem TableOfReal_normalityTest_BHEP_undefined_witness :
    (∃ r, TableOfReal_normalityTest_BHEP bhepStandIn oneRowTable 1 = .ok r ∧
      r.prob = bhepStandIn.undefined ∧ r.tnb = none ∧ r.lnmu = none ∧ r.lnvar = none) ∧
    (∃ r, TableOfReal_normalityTest_BHEP bhepStandIn (TableOfReal_create 3 0) 0 = .ok r ∧
      r.prob = bhepStandIn.undefined) :=
  ⟨TableOfReal_normalityTest_BHEP_undefined bhepStandIn oneRowTable 1 (Or.inl (by decide)),
    ⟨_, rfl, rfl⟩⟩

/-- Whether the factorization throws makes no difference to what
TableOfReal_normalityTest_BHEP returns and writes: the value 4n that the
catch block stores is overwritten by the statistic computed in the block
that follows. -/
theorem TableOfReal_normalityTest_BHEP_ignores_throw [LinearOrderedField α] {Cov : Type}
    (K : BhepKernels α Cov) (me : TableOfReal α) (h : α) :
    TableOfReal_normalityTest_BHEP K me h =
      TableOfReal_normalityTest_BHEP
        { K with SSCP_expandLowerCholesky := fun c => ((K.SSCP_expandLowerCholesky c).1, false) }
        me h := by
  unfold TableOfReal_normalityTest_BHEP
  simp only [assign]

/-- C17 at a concrete input: on the table with the two identical rows
[1, 2], [1, 2] (n = 2, p = 2) and h = NUMsqrt1_2 the factorization throws,
TableOfReal_normalityTest_BHEP returns normally, and the statistic written
through `p_tnb` is 2/3, not 4n = 8: the value stored in the catch block is
overwritten by the block that follows. -/
theorem TableOfReal_normalityTest_BHEP_fallback_overwritten :
    twinTable.numberOfRows = 2 ∧ twinTable.numberOfColumns = 2 ∧
    (∃ c, bhepStandIn.TableOfReal_to_Covariance twinTable = .ok c ∧
      (bhepStandIn.SSCP_expandLowerCholesky c).2 = true) ∧
    (∃ r, TableOfReal_normalityTest_BHEP bhepStandIn twinTable bhepStandIn.NUMsqrt1_2 = .ok r ∧
      r.tnb = some (2 / 3) ∧ r.tnb ≠ some (4 * 2)) :=
  ⟨rfl, rfl, ⟨_, rfl, by decide!⟩, ⟨_, rfl, by decide!, by decide!⟩⟩

/-- A search loop, whose body only tests the counter and throws on a hit,
runs to its end when no counter value in `lo..hi` is a hit. -/
theorem forLoopM_search_none {ε : Type} (bad : Nat → Prop) [DecidablePred bad] (e : Nat → ε)
    (lo hi : Nat) (h : ∀ k, lo ≤ k → k ≤ hi → ¬ bad k) :
    forLoopM lo hi (fun k (u : Unit) => if bad k then Except.error (e k) else Except.ok u) ()
      = .ok () :=
  forLoopMAux_ok bad e (fun _ (u : Unit) => u) (hi + 1 - lo) lo ()
    (fun k h1 h2 => h k h1 (by omega))

/-- A search loop throws at the first hit. -/
theorem forLoopM_search_first {ε : Type} (bad : Nat → Prop) [DecidablePred bad] (e : Nat → ε)
    (lo hi k0 : Nat) (h1 : lo ≤ k0) (h2 : k0 ≤ hi) (hb : bad k0)
    (hmin : ∀ k, lo ≤ k → k < k0 → ¬ bad k) :
    forLoopM lo hi (fun k (u : Unit) => if bad k then Except.error (e k) else Except.ok u) ()
      = .error (e k0) :=
  forLoopMAux_error bad e (fun _ (u : Unit) => u) (hi + 1 - lo) lo () k0 h1 (by omega) hb hmin

/-- The two outcomes of a search loop: no hit in `lo..hi` and a normal end,
or the exception of the first hit. -/
theorem forLoopM_search_cases {ε : Type} (bad : Nat → Prop) [DecidablePred bad] (e : Nat → ε)
    (lo hi : Nat) :
    ((∀ k, lo ≤ k → k ≤ hi → ¬ bad k) ∧
      forLoopM lo hi (fun k (u : Unit) => if bad k then Except.error (e k) else Except.ok u) ()
        = .ok ()) ∨
    (∃ k0, lo ≤ k0 ∧ k0 ≤ hi ∧ bad k0 ∧ (∀ k, lo ≤ k → k < k0 → ¬ bad k) ∧
      forLoopM lo hi (fun k (u : Unit) => if bad k then Except.error (e k) else Except.ok u) ()
        = .error (e k0)) := by
  by_cases h : ∀ k, lo ≤ k → k ≤ hi → ¬ bad k
  · exact Or.inl ⟨h, forLoopM_search_none bad e lo hi h⟩
  · right
    have hex : ∃ k, lo ≤ k ∧ k ≤ hi ∧ bad k := by
      by_contra hc
      exact h (fun k k1 k2 hb => hc ⟨k, k1, k2, hb⟩)
    classical
    have hs := Nat.find_spec hex
    have hmin : ∀ k, lo ≤ k → k < Nat.find hex → ¬ bad k :=
      fun k k1 k2 hb => Nat.find_min hex k2 ⟨k1, by omega, hb⟩
    exact ⟨Nat.find hex, hs.1, hs.2.1, hs.2.2, hmin,
      forLoopM_search_first bad e lo hi _ hs.1 hs.2.1 hs.2.2 hmin⟩

/-- Claim C27: TableOfRealList_haveIdenticalDimensions is true if and only if
every table of the list has the number of rows and the number of columns of
the first table; it is true for lists of fewer than two tables; and it is
the same on two lists of the same length whose tables have the same
dimensions, whatever their labels and cells.  The routine is a function of
the list and writes nothing. -/
theorem TableOfRealList_haveIdenticalDimensions_iff [Zero α] (me : List (TableOfReal α)) :
    (TableOfRealList_haveIdenticalDimensions me = true ↔
      ∀ i, 1 ≤ i → i ≤ me.length →
        (TableOfRealList_at me i).numberOfRows = (TableOfRealList_at me 1).numberOfRows ∧
        (TableOfRealList_at me i).numberOfColumns
          = (TableOfRealList_at me 1).numberOfColumns) ∧
    (me.length < 2 → TableOfRealList_haveIdenticalDimensions me = true) ∧
    (∀ other : List (TableOfReal α), other.length = me.length →
      (∀ i, 1 ≤ i → i ≤ me.length →
        (TableOfRealList_at other i).numberOfRows = (TableOfRealList_at me i).numberOfRows ∧
        (TableOfRealList_at other i).numberOfColumns
          = (TableOfRealList_at me i).numberOfColumns) →
      TableOfRealList_haveIdenticalDimensions other
        = TableOfRealList_haveIdenticalDimensions me) := by
  have key : ∀ l : List (TableOfReal α),
      (TableOfRealList_haveIdenticalDimensions l = true ↔
        ∀ i, 1 ≤ i → i ≤ l.length →
          (TableOfRealList_at l i).numberOfRows = (TableOfRealList_at l 1).numberOfRows ∧
          (TableOfRealList_at l i).numberOfColumns
            = (TableOfRealList_at l 1).numberOfColumns) := by
    intro l
    unfold TableOfRealList_haveIdenticalDimensions
    by_cases hlen : l.length < 2
    · rw [if_pos hlen]
      refine ⟨fun _ i i1 i2 => ?_, fun _ => rfl⟩
      have : i = 1 := by omega
      subst this
      exact ⟨rfl, rfl⟩
    · rw [if_neg hlen]
      simp only
      rcases forLoopM_search_cases
        (fun i => (TableOfRealList_at l i).numberOfColumns
            ≠ (TableOfRealList_at l 1).numberOfColumns
          ∨ (TableOfRealList_at l i).numberOfRows ≠ (TableOfRealList_at l 1).numberOfRows)
        (fun _ => false) 2 l.length with ⟨hnone, hrun⟩ | ⟨k0, k1, k2, hb, -, hrun⟩
      · rw [hrun]
        refine ⟨fun _ i i1 i2 => ?_, fun _ => rfl⟩
        by_cases hi : i = 1
        · subst hi
          exact ⟨rfl, rfl⟩
        · have := hnone i (by omega) i2
          simp only [not_or, not_not] at this
          exact ⟨this.2, this.1⟩
      · rw [hrun]
        refine ⟨fun h => (by cases h), fun h => ?_⟩
        have := h k0 (by omega) k2
        rcases hb with hb | hb
        · exact absurd this.2 hb
        · exact absurd this.1 hb
  refine ⟨key me, ?_, ?_⟩
  · intro hlen
    unfold TableOfRealList_haveIdenticalDimensions
    rw [if_pos hlen]
  · intro other hlen hdim
    have h1 := key me
    have h2 := key other
    have hiff : TableOfRealList_haveIdenticalDimensions other = true ↔
        TableOfRealList_haveIdenticalDimensions me = true := by
      rw [h1, h2, hlen]
      constructor
      · intro h i i1 i2
        have a := h i i1 i2
        have b := hdim i i1 i2
        have c := hdim 1 (le_refl _) (by omega)
        rw [b.1, b.2, c.1, c.2] at a
        exact a
      · intro h i i1 i2
        have a := h i i1 i2
        have b := hdim i i1 i2
        have c := hdim 1 (le_refl _) (by omega)
        rw [b.1, b.2, c.1, c.2]
        exact a
    cases ha : TableOfRealList_haveIdenticalDimensions other <;>
      cases hb : TableOfRealList_haveIdenticalDimensions me <;> simp_all

theorem EMPTY_STRING_eq_false_iff (s : Option String) :
    EMPTY_STRING s = false ↔ ∃ t, s = some t ∧ t ≠ "" := by
  cases s with
  | none => simp [EMPTY_STRING]
  | some t => simp [EMPTY_STRING]

/-- The scan of TableOfReal_hasRowLabels and TableOfReal_hasColumnLabels runs
to its end when no label at `1..n` is empty, and otherwise returns false. -/
theorem hasLabels_scan (v : autostring32vector) (n : Nat) :
    (forLoopM 1 n (fun i (u : Unit) =>
        if EMPTY_STRING (v.elems i) then Except.error false else Except.ok u) () = .ok () ∧
      ∀ i, 1 ≤ i → i ≤ n → EMPTY_STRING (v.elems i) = false) ∨
    (forLoopM 1 n (fun i (u : Unit) =>
        if EMPTY_STRING (v.elems i) then Except.error false else Except.ok u) ()
        = .error false ∧
      ∃ i, 1 ≤ i ∧ i ≤ n ∧ EMPTY_STRING (v.elems i) = true) := by
  rcases forLoopM_search_cases (fun i => EMPTY_STRING (v.elems i) = true) (fun _ => false) 1 n
    with ⟨hnone, hrun⟩ | ⟨k0, k1, k2, hb, -, hrun⟩
  · left
    refine ⟨hrun, fun i i1 i2 => ?_⟩
    have := hnone i i1 i2
    simpa using this
  · exact Or.inr ⟨hrun, k0, k1, k2, hb⟩

/-- Claim C26: for a table with at least one row and one column whose label
vectors are sized to the dimensions or null, TableOfReal_hasRowLabels is
true if and only if every one of the numberOfRows row labels is present and
non-empty, and TableOfReal_hasColumnLabels is true if and only if every one
of the numberOfColumns column labels is present and non-empty. -/
theorem TableOfReal_hasLabels_iff (T : TableOfReal α)
    (hr : 1 ≤ T.numberOfRows) (hc : 1 ≤ T.numberOfColumns)
    (hrl : T.rowLabels.size = T.numberOfRows ∨ T.rowLabels.size = 0)
    (hcl : T.columnLabels.size = T.numberOfColumns ∨ T.columnLabels.size = 0) :
    (TableOfReal_hasRowLabels T = true ↔
      ∀ i, 1 ≤ i → i ≤ T.numberOfRows → LabelPresent T.rowLabels i) ∧
    (TableOfReal_hasColumnLabels T = true ↔
      ∀ i, 1 ≤ i → i ≤ T.numberOfColumns → LabelPresent T.columnLabels i) := by
  constructor
  · unfold TableOfReal_hasRowLabels
    by_cases h0 : T.rowLabels.size = 0
    · rw [if_pos h0]
      refine ⟨fun h => (by cases h), fun h => ?_⟩
      have := (h 1 (le_refl _) hr).1
      omega
    · rw [if_neg h0]
      have hs : T.rowLabels.size = T.numberOfRows := by
        rcases hrl with h | h
        · exact h
        · exact absurd h h0
      rcases hasLabels_scan T.rowLabels T.numberOfRows with ⟨hrun, h⟩ | ⟨hrun, i, i1, i2, hb⟩
      · rw [hrun]
        refine ⟨fun _ i i1 i2 => ?_, fun _ => rfl⟩
        exact ⟨by omega, (EMPTY_STRING_eq_false_iff _).mp (h i i1 i2)⟩
      · rw [hrun]
        refine ⟨fun h => (by cases h), fun h => ?_⟩
        have := (EMPTY_STRING_eq_false_iff _).mpr (h i i1 i2).2
        rw [hb] at this
        cases this
  · unfold TableOfReal_hasColumnLabels
    by_cases h0 : T.columnLabels.size = 0
    · rw [if_pos h0]
      refine ⟨fun h => (by cases h), fun h => ?_⟩
      have := (h 1 (le_refl _) hc).1
      omega
    · rw [if_neg h0]
      have hs : T.columnLabels.size = T.numberOfColumns := by
        rcases hcl with h | h
        · exact h
        · exact absurd h h0
      rcases hasLabels_scan T.columnLabels T.numberOfColumns with ⟨hrun, h⟩ | ⟨hrun, i, i1, i2, hb⟩
      · rw [hrun]
        refine ⟨fun _ i i1 i2 => ?_, fun _ => rfl⟩
        exact ⟨by omega, (EMPTY_STRING_eq_false_iff _).mp (h i i1 i2)⟩
      · rw [hrun]
        refine ⟨fun h => (by cases h), fun h => ?_⟩
        have := (EMPTY_STRING_eq_false_iff _).mpr (h i i1 i2).2
        rw [hb] at this
        cases this

/-- Witness of claim C26: the table with the row labels b, a, a and the
column labels x and absent has row labels and does not have column labels;
one empty row label makes the row test false. -/
theorem TableOfReal_hasLabels_iff_witness :
    ((TableOfReal_hasRowLabels tableA = true ↔
        ∀ i, 1 ≤ i → i ≤ tableA.numberOfRows → LabelPresent tableA.rowLabels i) ∧
      (TableOfReal_hasColumnLabels tableA = true ↔
        ∀ i, 1 ≤ i → i ≤ tableA.numberOfColumns → LabelPresent tableA.columnLabels i)) ∧
    TableOfReal_hasRowLabels tableA = true ∧
    TableOfReal_hasColumnLabels tableA = false ∧
    TableOfReal_hasRowLabels
      (tableOfLists [[1], [2]] [some "a", some ""] [some "x"] : TableOfReal Int) = false :=
  ⟨TableOfReal_hasLabels_iff tableA (by decide) (by decide) (Or.inl rfl) (Or.inl rfl),
    by decide, by decide, by decide⟩

/-- The scan of TableOfReal_getColumnExtrema over the rows `2..n` of a column
`v`, started at `v 1`: both results occur in `v [1..n]` and bound it. -/
theorem extrema_scan [LinearOrder α] (v : Nat → α) (n : Nat) (hn : 1 ≤ n) :
    let mm := forLoop 2 n (fun i (mm : α × α) =>
      if v i > mm.2 then (mm.1, v i)
      else if v i < mm.1 then (v i, mm.2)
      else mm) (v 1, v 1)
    (∃ i, 1 ≤ i ∧ i ≤ n ∧ v i = mm.1) ∧ (∃ i, 1 ≤ i ∧ i ≤ n ∧ v i = mm.2) ∧
      ∀ i, 1 ≤ i → i ≤ n → mm.1 ≤ v i ∧ v i ≤ mm.2 := by
  intro mm
  have := forLoop_induct
    (fun k (mm : α × α) =>
      (∃ i, 1 ≤ i ∧ i < k ∧ v i = mm.1) ∧ (∃ i, 1 ≤ i ∧ i < k ∧ v i = mm.2) ∧
        ∀ i, 1 ≤ i → i < k → mm.1 ≤ v i ∧ v i ≤ mm.2)
    2 n
    (fun i (mm : α × α) =>
      if v i > mm.2 then (mm.1, v i)
      else if v i < mm.1 then (v i, mm.2)
      else mm) (v 1, v 1) (by omega)
    ⟨⟨1, le_refl _, by omega, rfl⟩, ⟨1, le_refl _, by omega, rfl⟩,
      fun i i1 i2 => by
        have : i = 1 := by omega
        subst this
        exact ⟨le_refl _, le_refl _⟩⟩
    (by
      intro k t k1 k2 ⟨⟨a, a1, a2, a3⟩, ⟨b, b1, b2, b3⟩, hb⟩
      have hle : t.1 ≤ t.2 := le_trans (hb a a1 a2).1 (by rw [a3]; exact (hb b b1 b2).1 |>.trans (by rw [b3]))
      show (∃ i, _ ∧ _ ∧ v i = (ite _ _ _ : α × α).1) ∧ (∃ i, _ ∧ _ ∧ v i = (ite _ _ _ : α × α).2) ∧
        ∀ i, _ → _ → (ite _ _ _ : α × α).1 ≤ v i ∧ v i ≤ (ite _ _ _ : α × α).2
      by_cases h1 : v k > t.2
      · rw [if_pos h1]
        refine ⟨⟨a, a1, by omega, a3⟩, ⟨k, by omega, by omega, rfl⟩, ?_⟩
        intro i i1 i2
        by_cases hik : i = k
        · subst hik
          exact ⟨le_trans hle (le_of_lt h1), le_refl _⟩
        · have := hb i i1 (by omega)
          exact ⟨this.1, le_trans this.2 (le_of_lt h1)⟩
      · rw [if_neg h1]
        by_cases h2 : v k < t.1
        · rw [if_pos h2]
          refine ⟨⟨k, by omega, by omega, rfl⟩, ⟨b, b1, by omega, b3⟩, ?_⟩
          intro i i1 i2
          by_cases hik : i = k
          · subst hik
            exact ⟨le_refl _, le_of_not_lt h1⟩
          · have := hb i i1 (by omega)
            exact ⟨le_trans (le_of_lt h2) this.1, this.2⟩
        · rw [if_neg h2]
          refine ⟨⟨a, a1, by omega, a3⟩, ⟨b, b1, by omega, b3⟩, ?_⟩
          intro i i1 i2
          by_cases hik : i = k
          · subst hik
            exact ⟨le_of_not_lt h2, le_of_not_lt h1⟩
          · exact hb i i1 (by omega))
  obtain ⟨⟨a, a1, a2, a3⟩, ⟨b, b1, b2, b3⟩, hb⟩ := this
  exact ⟨⟨a, a1, by omega, a3⟩, ⟨b, b1, by omega, b3⟩, fun i i1 i2 => hb i i1 (by omega)⟩

/-- The search of a label vector for the first index in `1..n` whose label
matches: 0 when no label matches, and the first matching index otherwise. -/
theorem labelToIndex_scan (v : autostring32vector) (n : Nat) (label : Option String) :
    (forLoopM 1 n (fun i (u : Unit) =>
        if Melder_equ (v.elems i) label then Except.error i else Except.ok u) () = .ok () ∧
      ∀ i, 1 ≤ i → i ≤ n → labelText (v.elems i) ≠ labelText label) ∨
    (∃ k0, forLoopM 1 n (fun i (u : Unit) =>
        if Melder_equ (v.elems i) label then Except.error i else Except.ok u) ()
        = .error k0 ∧
      1 ≤ k0 ∧ k0 ≤ n ∧ labelText (v.elems k0) = labelText label ∧
      ∀ i, 1 ≤ i → i < k0 → labelText (v.elems i) ≠ labelText label) := by
  have hm : ∀ i, Melder_equ (v.elems i) label = true ↔
      labelText (v.elems i) = labelText label := by
    intro i
    unfold Melder_equ
    exact beq_iff_eq
  rcases forLoopM_search_cases (fun i => Melder_equ (v.elems i) label = true) (fun i => i) 1 n
    with ⟨hnone, hrun⟩ | ⟨k0, k1, k2, hb, hmin, hrun⟩
  · exact Or.inl ⟨hrun, fun i i1 i2 h => hnone i i1 i2 ((hm i).mpr h)⟩
  · exact Or.inr ⟨k0, hrun, k1, k2, (hm k0).mp hb,
      fun i i1 i2 h => hmin i i1 i2 ((hm i).mpr h)⟩

/-- The sum of a column by label: the failure when no column bears the
label, and the column sum of the first column that bears it otherwise. -/
theorem getColumnSumByLabel_cases [Zero α] [Add α] (T : TableOfReal α)
    (label : Option String) :
    (TableOfReal_getColumnSumByLabel T label = .error .noSuchColumnLabel ∧
      ∀ j, 1 ≤ j → j ≤ T.numberOfColumns →
        labelText (T.columnLabels.elems j) ≠ labelText label) ∨
    (∃ k0, TableOfReal_getColumnSumByLabel T label = TableOfReal_getColumnSum T k0 ∧
      TableOfReal_getColumnSumByLabel T label
        = .ok (sumRange T.numberOfRows (fun i => T.data i k0)) ∧
      1 ≤ k0 ∧ k0 ≤ T.numberOfColumns ∧
      labelText (T.columnLabels.elems k0) = labelText label ∧
      ∀ j, 1 ≤ j → j < k0 → labelText (T.columnLabels.elems j) ≠ labelText label) := by
  unfold TableOfReal_getColumnSumByLabel TableOfReal_columnLabelToIndex
  rcases labelToIndex_scan T.columnLabels T.numberOfColumns label with
    ⟨hrun, hnone⟩ | ⟨k0, hrun, k1, k2, hm, hmin⟩
  · left
    rw [hrun]
    exact ⟨rfl, hnone⟩
  · right
    rw [hrun]
    refine ⟨k0, ?_, ?_, k1, k2, hm, hmin⟩
    · simp only
      rw [if_neg (not_not.mpr (by omega))]
    · simp only
      rw [if_neg (not_not.mpr (by omega))]
      unfold TableOfReal_getColumnSum NUMcolumnSum
      rw [if_neg (not_not.mpr ⟨by omega, k2⟩), forLoop_sum]

/-- The sum of a row by label: the failure when no row bears the label, and
the row sum of the first row that bears it otherwise. -/
theorem getRowSumByLabel_cases [Zero α] [Add α] (T : TableOfReal α)
    (label : Option String) :
    (TableOfReal_getRowSumByLabel T label = .error .noSuchRowLabel ∧
      ∀ i, 1 ≤ i → i ≤ T.numberOfRows →
        labelText (T.rowLabels.elems i) ≠ labelText label) ∨
    (∃ k0, TableOfReal_getRowSumByLabel T label = TableOfReal_getRowSum T k0 ∧
      TableOfReal_getRowSumByLabel T label
        = .ok (sumRange T.numberOfColumns (fun j => T.data k0 j)) ∧
      1 ≤ k0 ∧ k0 ≤ T.numberOfRows ∧
      labelText (T.rowLabels.elems k0) = labelText label ∧
      ∀ i, 1 ≤ i → i < k0 → labelText (T.rowLabels.elems i) ≠ labelText label) := by
  unfold TableOfReal_getRowSumByLabel TableOfReal_rowLabelToIndex
  rcases labelToIndex_scan T.rowLabels T.numberOfRows label with
    ⟨hrun, hnone⟩ | ⟨k0, hrun, k1, k2, hm, hmin⟩
  · left
    rw [hrun]
    exact ⟨rfl, hnone⟩
  · right
    rw [hrun]
    refine ⟨k0, ?_, ?_, k1, k2, hm, hmin⟩
    · simp only
      rw [if_neg (not_not.mpr (by omega))]
    · simp only
      rw [if_neg (not_not.mpr (by omega))]
      unfold TableOfReal_getRowSum NUMrowSum
      rw [if_neg (not_not.mpr ⟨by omega, k2⟩), forLoop_sum]

/-- Claim C25: TableOfReal_getColumnSumByLabel fails, with the error that
there is no such column label, if and only if no column bears the label
(labels compared as texts), and otherwise returns the sum of the cells of the
first column that bears it, which is what TableOfReal_getColumnSum returns at
that index; TableOfReal_getRowSumByLabel does the same for rows;
TableOfReal_getRowSum and TableOfReal_getColumnSum fail exactly when their
index is outside 1..numberOfRows and 1..numberOfColumns. -/
theorem TableOfReal_getSumByLabel_spec [Zero α] [Add α] (T : TableOfReal α)
    (label : Option String) (n : Nat) :
    ((∃ e, TableOfReal_getColumnSumByLabel T label = .error e) ↔
      ¬ ∃ j, 1 ≤ j ∧ j ≤ T.numberOfColumns ∧
        labelText (T.columnLabels.elems j) = labelText label) ∧
    (∀ j, 1 ≤ j → j ≤ T.numberOfColumns →
      labelText (T.columnLabels.elems j) = labelText label →
      (∀ k, 1 ≤ k → k < j → labelText (T.columnLabels.elems k) ≠ labelText label) →
      TableOfReal_getColumnSumByLabel T label
        = .ok (sumRange T.numberOfRows (fun i => T.data i j)) ∧
      TableOfReal_getColumnSumByLabel T label = TableOfReal_getColumnSum T j) ∧
    ((∃ e, TableOfReal_getRowSumByLabel T label = .error e) ↔
      ¬ ∃ i, 1 ≤ i ∧ i ≤ T.numberOfRows ∧
        labelText (T.rowLabels.elems i) = labelText label) ∧
    (∀ i, 1 ≤ i → i ≤ T.numberOfRows →
      labelText (T.rowLabels.elems i) = labelText label →
      (∀ k, 1 ≤ k → k < i → labelText (T.rowLabels.elems k) ≠ labelText label) →
      TableOfReal_getRowSumByLabel T label
        = .ok (sumRange T.numberOfColumns (fun j => T.data i j)) ∧
      TableOfReal_getRowSumByLabel T label = TableOfReal_getRowSum T i) ∧
    ((∃ e, TableOfReal_getRowSum T n = .error e) ↔ ¬ (1 ≤ n ∧ n ≤ T.numberOfRows)) ∧
    ((∃ e, TableOfReal_getColumnSum T n = .error e) ↔ ¬ (1 ≤ n ∧ n ≤ T.numberOfColumns)) := by
  refine ⟨?_, ?_, ?_, ?_, ?_, ?_⟩
  · rcases getColumnSumByLabel_cases T label with ⟨he, hnone⟩ | ⟨k0, -, hv, k1, k2, hm, -⟩
    · rw [he]
      exact ⟨fun _ ⟨j, j1, j2, hj⟩ => hnone j j1 j2 hj, fun _ => ⟨_, rfl⟩⟩
    · rw [hv]
      exact ⟨fun ⟨e, he⟩ => (by cases he), fun h => absurd ⟨k0, k1, k2, hm⟩ h⟩
  · intro j j1 j2 hj hfirst
    rcases getColumnSumByLabel_cases T label with ⟨-, hnone⟩ | ⟨k0, hs, hv, k1, k2, hm, hmin⟩
    · exact absurd hj (hnone j j1 j2)
    · have : k0 = j := by
        rcases Nat.lt_trichotomy k0 j with h | h | h
        · exact absurd hm (hfirst k0 k1 h)
        · exact h
        · exact absurd hj (hmin j j1 h)
      subst this
      exact ⟨hv, hs⟩
  · rcases getRowSumByLabel_cases T label with ⟨he, hnone⟩ | ⟨k0, -, hv, k1, k2, hm, -⟩
    · rw [he]
      exact ⟨fun _ ⟨j, j1, j2, hj⟩ => hnone j j1 j2 hj, fun _ => ⟨_, rfl⟩⟩
    · rw [hv]
      exact ⟨fun ⟨e, he⟩ => (by cases he), fun h => absurd ⟨k0, k1, k2, hm⟩ h⟩
  · intro j j1 j2 hj hfirst
    rcases getRowSumByLabel_cases T label with ⟨-, hnone⟩ | ⟨k0, hs, hv, k1, k2, hm, hmin⟩
    · exact absurd hj (hnone j j1 j2)
    · have : k0 = j := by
        rcases Nat.lt_trichotomy k0 j with h | h | h
        · exact absurd hm (hfirst k0 k1 h)
        · exact h
        · exact absurd hj (hmin j j1 h)
      subst this
      exact ⟨hv, hs⟩
  · unfold TableOfReal_getRowSum
    by_cases h : 1 ≤ n ∧ n ≤ T.numberOfRows
    · rw [if_neg (not_not.mpr ⟨h.1, h.2⟩)]
      exact ⟨fun ⟨e, he⟩ => (by cases he), fun hc => absurd h hc⟩
    · rw [if_pos (fun hc => h ⟨hc.1, hc.2⟩)]
      exact ⟨fun _ => h, fun _ => ⟨_, rfl⟩⟩
  · unfold TableOfReal_getColumnSum
    by_cases h : 1 ≤ n ∧ n ≤ T.numberOfColumns
    · rw [if_neg (not_not.mpr ⟨h.1, h.2⟩)]
      exact ⟨fun ⟨e, he⟩ => (by cases he), fun hc => absurd h hc⟩
    · rw [if_pos (fun hc => h ⟨hc.1, hc.2⟩)]
      exact ⟨fun _ => h, fun _ => ⟨_, rfl⟩⟩

/-- Witness of claim C25 on the table with the rows b -> [1, 2], a -> [3, 4],
a -> [10, 20] and the column labels x and absent: the row label a resolves
to the first row that bears it, and a label that no column bears fails. -/
theorem TableOfReal_getSumByLabel_spec_witness :
    TableOfReal_getRowSumByLabel tableA (some "a") = .ok 7 ∧
    TableOfReal_getRowSumByLabel tableA (some "a") = TableOfReal_getRowSum tableA 2 ∧
    TableOfReal_getColumnSumByLabel tableA (some "x") = .ok 14 ∧
    (∃ e, TableOfReal_getColumnSumByLabel tableA (some "y") = .error e) ∧
    (∃ e, TableOfReal_getRowSum tableA 4 = .error e) :=
  ⟨rfl,
    ((TableOfReal_getSumByLabel_spec tableA (some "a") 4).2.2.2.1 2 (by decide) (by decide)
      (by decide) (by
        intro k k1 k2
        have : k = 1 := by omega
        subst this
        decide)).2,
    rfl,
    (TableOfReal_getSumByLabel_spec tableA (some "y") 4).1.mpr (by
      intro ⟨j, j1, j2, hj⟩
      have h2 : j ≤ 2 := j2
      have : j = 1 ∨ j = 2 := by omega
      rcases this with rfl | rfl
      · revert hj; decide
      · revert hj; decide),
    (TableOfReal_getSumByLabel_spec tableA (some "a") 4).2.2.2.2.1.mpr (by decide)⟩

/-- Claim C23: TableOfReal_getColumnQuantile never raises: for every table,
every quantile and every column index it returns a value, and for a column
index outside 1..numberOfColumns that value is `undefined`. -/
theorem TableOfReal_getColumnQuantile_never_raises (K : QuantileKernels α)
    (T : TableOfReal α) (columnNumber : Nat) (quantile : α) :
    (∃ v, TableOfReal_getColumnQuantile K T columnNumber quantile = .ok v) ∧
    (¬ (1 ≤ columnNumber ∧ columnNumber ≤ T.numberOfColumns) →
      TableOfReal_getColumnQuantile K T columnNumber quantile = .ok K.undefined) := by
  unfold TableOfReal_getColumnQuantile
  by_cases h : columnNumber < 1 ∨ columnNumber > T.numberOfColumns
  · rw [if_pos h]
    exact ⟨⟨_, rfl⟩, fun _ => rfl⟩
  · rw [if_neg h]
    refine ⟨?_, fun hc => absurd (by omega) hc⟩
    cases K.VECcolumn T.numberOfRows T.numberOfColumns T.data columnNumber with
    | error e => exact ⟨_, rfl⟩
    | ok values => exact ⟨_, rfl⟩

/-- The exact kernels do what §4.2 says of them. -/
theorem exactQuantile_exactMedian : exactQuantile.ExactMedian := by
  refine ⟨fun _ _ _ _ => rfl, fun l => ⟨List.sorted_insertionSort _ l,
    List.perm_insertionSort _ l⟩, ?_⟩
  intro l _ hne
  have hn : 1 ≤ l.length := List.length_pos.mpr hne
  show (if l.length < 1 then (0 : ℚ)
    else if (1 / 2 : ℚ) * (l.length : ℚ) + 1 / 2 ≤ 1 then l.getD 0 0
    else if (1 / 2 : ℚ) * (l.length : ℚ) + 1 / 2 ≥ (l.length : ℚ) then l.getD (l.length - 1) 0
    else l.getD ((Int.floor ((1 / 2 : ℚ) * (l.length : ℚ) + 1 / 2)).toNat - 1) 0
      + ((1 / 2 : ℚ) * (l.length : ℚ) + 1 / 2
          - (((Int.floor ((1 / 2 : ℚ) * (l.length : ℚ) + 1 / 2)).toNat : Nat) : ℚ))
        * (l.getD (Int.floor ((1 / 2 : ℚ) * (l.length : ℚ) + 1 / 2)).toNat 0
          - l.getD ((Int.floor ((1 / 2 : ℚ) * (l.length : ℚ) + 1 / 2)).toNat - 1) 0))
    = medianOfSorted l
  rw [if_neg (by omega)]
  unfold medianOfSorted
  generalize l.length = n at hn
  by_cases h1 : n = 1
  · subst h1
    rw [if_pos (by norm_num), if_pos (by decide)]
  · have hq : (2 : ℚ) ≤ (n : ℚ) := by
      have : 2 ≤ n := by omega
      exact_mod_cast this
    rw [if_neg (by linarith), if_neg (by linarith)]
    rcases Nat.even_or_odd' n with ⟨m, hm | hm⟩
    · subst hm
      have hfl : Int.floor ((1 / 2 : ℚ) * ((2 * m : Nat) : ℚ) + 1 / 2) = (m : Int) := by
        rw [Int.floor_eq_iff]
        push_cast
        constructor <;> linarith
      rw [hfl, Int.toNat_ofNat, if_neg (by omega)]
      have e : 2 * m / 2 = m := by omega
      rw [e]
      push_cast
      ring
    · subst hm
      have hfl : Int.floor ((1 / 2 : ℚ) * ((2 * m + 1 : Nat) : ℚ) + 1 / 2) = ((m + 1 : Nat) : Int) := by
        rw [Int.floor_eq_iff]
        push_cast
        constructor <;> linarith
      rw [hfl, Int.toNat_ofNat, if_pos (by omega)]
      have e : (2 * m + 1) / 2 = m := by omega
      have e2 : m + 1 - 1 = m := by omega
      rw [e, e2]
      push_cast
      ring

/-- The value that TableOfReal_getColumnQuantile returns at 1/2 with exact
kernels, as a function of the cells of the column. -/
theorem getColumnQuantile_half [LinearOrderedField α] (K : QuantileKernels α)
    (hK : K.ExactMedian) (T : TableOfReal α) (col : Nat)
    (hrows : 1 ≤ T.numberOfRows) (hcol : 1 ≤ col ∧ col ≤ T.numberOfColumns) :
    TableOfReal_getColumnQuantile K T col (1 / 2) = .ok (medianOfSorted
      ((columnBlock T.data 1 T.numberOfRows col).insertionSort (fun a b => a ≤ b))) := by
  obtain ⟨h1, h2, h3⟩ := hK
  unfold TableOfReal_getColumnQuantile
  rw [if_neg (by omega), h1]
  simp only
  have hs := h2 (columnBlock T.data 1 T.numberOfRows col)
  have heq : K.VECsort_inplace (columnBlock T.data 1 T.numberOfRows col) =
      (columnBlock T.data 1 T.numberOfRows col).insertionSort (fun a b => a ≤ b) :=
    List.eq_of_perm_of_sorted
      (hs.2.trans (List.perm_insertionSort _ _).symm) hs.1 (List.sorted_insertionSort _ _)
  have hne : K.VECsort_inplace (columnBlock T.data 1 T.numberOfRows col) ≠ [] := by
    intro hc
    have := hs.2.length_eq
    rw [hc] at this
    simp [columnBlock] at this
    omega
  rw [h3 _ hs.1 hne, heq]

/-- Claim C22: with kernels that copy the column, sort it ascending and
interpolate linearly, on a table with at least one row and a valid column
index, TableOfReal_getColumnQuantile at 1/2 returns the linear-interpolation
median of the column: the middle value of the ascending column when the
number of rows is odd, the mean of the two middle values when it is even;
and it returns the same on every table whose column holds the same values in
another order.  The routine works on a copy of the column; the table is not
an output. -/
theorem TableOfReal_getColumnQuantile_median [LinearOrderedField α] (K : QuantileKernels α)
    (hK : K.ExactMedian) (T : TableOfReal α) (col : Nat)
    (hrows : 1 ≤ T.numberOfRows) (hcol : 1 ≤ col ∧ col ≤ T.numberOfColumns) :
    TableOfReal_getColumnQuantile K T col (1 / 2) = .ok (medianOfSorted
      ((columnBlock T.data 1 T.numberOfRows col).insertionSort (fun a b => a ≤ b))) ∧
    (∀ U : TableOfReal α, U.numberOfRows = T.numberOfRows →
      col ≤ U.numberOfColumns →
      (columnBlock U.data 1 U.numberOfRows col).Perm
        (columnBlock T.data 1 T.numberOfRows col) →
      TableOfReal_getColumnQuantile K U col (1 / 2)
        = TableOfReal_getColumnQuantile K T col (1 / 2)) := by
  refine ⟨getColumnQuantile_half K hK T col hrows hcol, ?_⟩
  intro U hn hc hperm
  rw [getColumnQuantile_half K hK T col hrows hcol,
    getColumnQuantile_half K hK U col (by omega) ⟨hcol.1, hc⟩]
  have : (columnBlock U.data 1 U.numberOfRows col).insertionSort (fun a b => a ≤ b) =
      (columnBlock T.data 1 T.numberOfRows col).insertionSort (fun a b => a ≤ b) :=
    List.eq_of_perm_of_sorted
      (((List.perm_insertionSort _ _).trans hperm).trans (List.perm_insertionSort _ _).symm)
      (List.sorted_insertionSort _ _) (List.sorted_insertionSort _ _)
  rw [this]

/-- Witness of claim C22: the column 1, 2, 3, 4 has the median 5/2, and so
has the column 3, 1, 4, 2. -/
theorem TableOfReal_getColumnQuantile_median_witness :
    (∃ v, TableOfReal_getColumnQuantile exactQuantile quartetTable 1 (1 / 2) = .ok v ∧
      v = 5 / 2) ∧
    TableOfReal_getColumnQuantile exactQuantile shuffledQuartet 1 (1 / 2)
      = TableOfReal_getColumnQuantile exactQuantile quartetTable 1 (1 / 2) :=
  ⟨⟨_, (TableOfReal_getColumnQuantile_median exactQuantile exactQuantile_exactMedian
      quartetTable 1 (by decide) (by decide)).1, by decide!⟩,
    (TableOfReal_getColumnQuantile_median exactQuantile exactQuantile_exactMedian quartetTable 1
      (by decide) (by decide)).2 shuffledQuartet rfl (by decide) (by decide!)⟩

/-- Subtracting its mean from a column leaves a column with mean 0. -/
theorem columnMean_centred [Field α] [CharZero α] (n : Nat) (x y : Nat → Nat → α) (j : Nat)
    (hy : ∀ i, 1 ≤ i → i ≤ n → y i j = x i j - columnMean n x j) :
    columnMean n y j = 0 := by
  unfold columnMean
  rw [sumRange_congr n (fun i => y i j) (fun i => x i j - columnMean n x j) hy,
    sumRange_sub_const n (fun i => x i j) (columnMean n x j)]
  unfold columnMean
  by_cases hn : n = 0
  · subst hn
    simp [sumRange_zero]
  · have hn0 : (n : α) ≠ 0 := by exact_mod_cast hn
    rw [mul_div_cancel₀ _ hn0, sub_self, zero_div]

/-- Claim C30: with a kernel that subtracts the column means, in exact
arithmetic, after TableOfReal_centreColumns each cell is its old value minus
the old mean of its column, the mean of every column is 0, and the
dimensions and the row and column labels are as before. -/
theorem TableOfReal_centreColumns_spec [Field α] [CharZero α] (K : MatrixKernels α)
    (hK : K.CentresColumns) (T : TableOfReal α) :
    (∀ i j, 1 ≤ i → i ≤ T.numberOfRows → 1 ≤ j → j ≤ T.numberOfColumns →
      (TableOfReal_centreColumns K T).data i j
        = T.data i j - columnMean T.numberOfRows T.data j) ∧
    (∀ j, 1 ≤ j → j ≤ T.numberOfColumns →
      columnMean T.numberOfRows (TableOfReal_centreColumns K T).data j = 0) ∧
    (TableOfReal_centreColumns K T).numberOfRows = T.numberOfRows ∧
    (TableOfReal_centreColumns K T).numberOfColumns = T.numberOfColumns ∧
    (TableOfReal_centreColumns K T).rowLabels = T.rowLabels ∧
    (TableOfReal_centreColumns K T).columnLabels = T.columnLabels := by
  have hcells : ∀ i j, 1 ≤ i → i ≤ T.numberOfRows → 1 ≤ j → j ≤ T.numberOfColumns →
      (TableOfReal_centreColumns K T).data i j
        = T.data i j - columnMean T.numberOfRows T.data j :=
    fun i j i1 i2 j1 j2 => hK T.numberOfRows T.numberOfColumns T.data i j i1 i2 j1 j2
  exact ⟨hcells, fun j j1 j2 => columnMean_centred T.numberOfRows T.data _ j
    (fun i i1 i2 => hcells i j i1 i2 j1 j2), rfl, rfl, rfl, rfl⟩

/-- The exact kernel subtracts the column means. -/
theorem exactMatrix_centresColumns : exactMatrix.CentresColumns :=
  fun _ _ _ _ _ _ _ _ _ => rfl

/-- Witness of claim C30: the columns 3, 6 and 4, 8 become -3/2, 3/2 and
-2, 2. -/
theorem TableOfReal_centreColumns_spec_witness :
    ((∀ i j, 1 ≤ i → i ≤ corrTableA.numberOfRows → 1 ≤ j → j ≤ corrTableA.numberOfColumns →
      (TableOfReal_centreColumns exactMatrix corrTableA).data i j
        = corrTableA.data i j - columnMean corrTableA.numberOfRows corrTableA.data j) ∧
    (∀ j, 1 ≤ j → j ≤ corrTableA.numberOfColumns →
      columnMean corrTableA.numberOfRows
        (TableOfReal_centreColumns exactMatrix corrTableA).data j = 0) ∧
    (TableOfReal_centreColumns exactMatrix corrTableA).numberOfRows
      = corrTableA.numberOfRows ∧
    (TableOfReal_centreColumns exactMatrix corrTableA).numberOfColumns
      = corrTableA.numberOfColumns ∧
    (TableOfReal_centreColumns exactMatrix corrTableA).rowLabels = corrTableA.rowLabels ∧
    (TableOfReal_centreColumns exactMatrix corrTableA).columnLabels
      = corrTableA.columnLabels) ∧
    tableRows (TableOfReal_centreColumns exactMatrix corrTableA)
      = [(some "a1", [-3/2, -2]), (some "a2", [3/2, 2])] :=
  ⟨TableOfReal_centreColumns_spec exactMatrix exactMatrix_centresColumns corrTableA,
    by decide!⟩

/-- In an ascending list the positions of `x`, doubled and summed, are
determined by the number of elements smaller than `x` and the number of
elements equal to `x`. -/
theorem positionsOf_sum_sorted [LinearOrder α] (x : α) :
    ∀ (l : List α) (off : Nat), l.Sorted (fun a b => a ≤ b) →
      (positionsOf l (off + 1) x).length = l.countP (fun y => decide (y = x)) ∧
      2 * (positionsOf l (off + 1) x).sum =
        l.countP (fun y => decide (y = x))
          * (2 * (off + l.countP (fun y => decide (y < x)))
            + l.countP (fun y => decide (y = x)) + 1) := by
  intro l
  induction l with
  | nil => intro off _; simp [positionsOf]
  | cons a l ih =>
    intro off hs
    have hs2 := List.sorted_cons.mp hs
    obtain ⟨ihlen, ihsum⟩ := ih (off + 1) hs2.2
    have hpos : positionsOf (a :: l) (off + 1) x =
        if a = x then (off + 1) :: positionsOf l (off + 1 + 1) x
        else positionsOf l (off + 1 + 1) x := by
      unfold positionsOf
      by_cases h : a = x
      · simp [List.enumFrom, List.filter, h]
      · simp [List.enumFrom, List.filter, h]
    have ce : List.countP (fun y => decide (y = x)) (a :: l) =
        List.countP (fun y => decide (y = x)) l + (if a = x then 1 else 0) := by
      simp [List.countP_cons]
    have cl : List.countP (fun y => decide (y < x)) (a :: l) =
        List.countP (fun y => decide (y < x)) l + (if a < x then 1 else 0) := by
      simp [List.countP_cons]
    rw [hpos, ce, cl]
    rcases lt_trichotomy a x with h | h | h
    · have hne : a ≠ x := ne_of_lt h
      rw [if_neg hne, if_neg hne, if_pos h]
      refine ⟨ihlen, ?_⟩
      rw [ihsum]
      ring
    · subst h
      have hl0 : l.countP (fun y => decide (y < a)) = 0 := by
        rw [List.countP_eq_zero]
        intro b hb
        simpa using hs2.1 b hb
      rw [if_pos rfl, if_pos rfl, if_neg (lt_irrefl a), hl0]
      refine ⟨by simp [ihlen], ?_⟩
      rw [List.sum_cons, Nat.mul_add, ihsum, hl0]
      ring
    · have hne : a ≠ x := ne_of_gt h
      have he0 : l.countP (fun y => decide (y = x)) = 0 := by
        rw [List.countP_eq_zero]
        intro b hb
        have := hs2.1 b hb
        simpa using ne_of_gt (lt_of_lt_of_le h this)
      rw [if_neg hne, if_neg hne, if_neg (not_lt_of_gt h)]
      refine ⟨ihlen, ?_⟩
      rw [ihsum, he0]
      ring

/-- The rank by tied blocks of an element of the list is its fractional
rank. -/
theorem tiedBlockRank_eq_fractionalRank [LinearOrderedField α] (l : List α) (x : α)
    (hx : x ∈ l) : tiedBlockRank l x = fractionalRank l x := by
  unfold tiedBlockRank fractionalRank
  simp only
  obtain ⟨hlen, hsum⟩ := positionsOf_sum_sorted x (l.insertionSort (fun a b => a ≤ b)) 0
    (List.sorted_insertionSort _ l)
  have hp := List.perm_insertionSort (fun a b : α => a ≤ b) l
  rw [hp.countP_eq, hp.countP_eq] at hsum
  rw [hp.countP_eq] at hlen
  have hc : 0 < l.countP (fun y => decide (y = x)) := by
    rw [List.countP_pos_iff]
    exact ⟨x, hx, by simp⟩
  have hc0 : ((l.countP (fun y => decide (y = x)) : Nat) : α) ≠ 0 := by
    have : l.countP (fun y => decide (y = x)) ≠ 0 := by omega
    exact_mod_cast this
  have hsumα : (2 : α) * (((positionsOf (l.insertionSort (fun a b => a ≤ b)) (0 + 1) x).sum
      : Nat) : α) =
      ((l.countP (fun y => decide (y = x)) : Nat) : α)
        * (2 * ((l.countP (fun y => decide (y < x)) : Nat) : α)
          + ((l.countP (fun y => decide (y = x)) : Nat) : α) + 1) := by
    have := congrArg (fun n : Nat => (n : α)) hsum
    simp only [Nat.cast_mul, Nat.cast_add, Nat.cast_ofNat, Nat.cast_one, Nat.cast_zero,
      zero_add] at this
    simpa using this
  rw [hlen]
  rw [div_eq_iff hc0]
  have h2 : (2 : α) ≠ 0 := two_ne_zero
  have : (((positionsOf (l.insertionSort (fun a b => a ≤ b)) 1 x).sum : Nat) : α) =
      ((l.countP (fun y => decide (y = x)) : Nat) : α)
        * (2 * ((l.countP (fun y => decide (y < x)) : Nat) : α)
          + ((l.countP (fun y => decide (y = x)) : Nat) : α) + 1) / 2 := by
    rw [eq_div_iff h2, mul_comm]
    exact hsumα
  rw [this]
  ring

theorem mem_columnBlock (a : Nat → Nat → α) (rb re j i : Nat) (h1 : rb ≤ i) (h2 : i ≤ re) :
    a i j ∈ columnBlock a rb re j := by
  unfold columnBlock
  rw [List.mem_map]
  exact ⟨i, by rw [List.mem_range'_1]; omega, rfl⟩

/-- Claim C29: with a ranking kernel that ranks by tied blocks,
TableOfReal_rankColumns returns a table with the dimensions and labels of T
in which each cell (i,j) is the fractional rank of the cell (i,j) of T
within column j: the number of cells of the column strictly smaller than it,
plus half of the number of cells of the column equal to it plus 1.  The
routine ranks a copy; T is not an output. -/
theorem TableOfReal_rankColumns_spec [LinearOrderedField α] (K : RankKernels α)
    (hK : K.RanksByTiedBlocks) (T : TableOfReal α) :
    (TableOfReal_rankColumns K T).numberOfRows = T.numberOfRows ∧
    (TableOfReal_rankColumns K T).numberOfColumns = T.numberOfColumns ∧
    (TableOfReal_rankColumns K T).rowLabels = T.rowLabels ∧
    (TableOfReal_rankColumns K T).columnLabels = T.columnLabels ∧
    ∀ i j, 1 ≤ i → i ≤ T.numberOfRows → 1 ≤ j → j ≤ T.numberOfColumns →
      (TableOfReal_rankColumns K T).data i j
        = fractionalRank (columnBlock T.data 1 T.numberOfRows j) (T.data i j) := by
  refine ⟨rfl, rfl, rfl, rfl, ?_⟩
  intro i j i1 i2 j1 j2
  show K.NUMrankColumns T.data 1 T.numberOfRows 1 T.numberOfColumns i j = _
  rw [hK T.data 1 T.numberOfRows 1 T.numberOfColumns i j i1 i2 j1 j2]
  exact tiedBlockRank_eq_fractionalRank _ _ (mem_columnBlock T.data 1 T.numberOfRows j i i1 i2)

/-- The exact kernel ranks by tied blocks. -/
theorem exactRank_ranksByTiedBlocks : exactRank.RanksByTiedBlocks := by
  intro a rb re cb ce i j i1 i2 j1 j2
  show ite _ _ _ = _
  rw [if_pos ⟨i1, i2, j1, j2⟩]

/-- Witness of claim C29: the column 3, 1, 3, 2 becomes 7/2, 1, 7/2, 2. -/
theorem TableOfReal_rankColumns_spec_witness :
    ((TableOfReal_rankColumns exactRank tiedTable).numberOfRows = tiedTable.numberOfRows ∧
    (TableOfReal_rankColumns exactRank tiedTable).numberOfColumns
      = tiedTable.numberOfColumns ∧
    (TableOfReal_rankColumns exactRank tiedTable).rowLabels = tiedTable.rowLabels ∧
    (TableOfReal_rankColumns exactRank tiedTable).columnLabels = tiedTable.columnLabels ∧
    ∀ i j, 1 ≤ i → i ≤ tiedTable.numberOfRows → 1 ≤ j → j ≤ tiedTable.numberOfColumns →
      (TableOfReal_rankColumns exactRank tiedTable).data i j
        = fractionalRank (columnBlock tiedTable.data 1 tiedTable.numberOfRows j)
          (tiedTable.data i j)) ∧
    tableRows (TableOfReal_rankColumns exactRank tiedTable)
      = [(some "p", [7/2]), (some "q", [1]), (some "r", [7/2]), (some "s", [2])] ∧
    tableRows tiedTable
      = [(some "p", [3]), (some "q", [1]), (some "r", [3]), (some "s", [2])] :=
  ⟨TableOfReal_rankColumns_spec exactRank exactRank_ranksByTiedBlocks tiedTable,
    by decide!, by decide!⟩

/-- With a kernel that subtracts the column means, centring the band of the
rows `rb..re` subtracts from the cells of these rows the mean of their
column over the band, and leaves the other rows as they are. -/
theorem centreHorizontalBand_eq [Zero α] [Add α] [Sub α] [Div α] [NatCast α]
    (K : MatrixKernels α) (hK : K.CentresColumns) (nc : Nat) (d : Nat → Nat → α)
    (rb re : Nat) (hrb : 1 ≤ rb) :
    centreHorizontalBand K nc d rb re = fun r c =>
      if rb ≤ r ∧ r ≤ re ∧ 1 ≤ c ∧ c ≤ nc then d r c - runMean d rb re c else d r c := by
  unfold centreHorizontalBand
  funext r c
  by_cases h : rb ≤ r ∧ r ≤ re ∧ 1 ≤ c ∧ c ≤ nc
  · rw [if_pos h, if_pos h,
      hK (re + 1 - rb) nc (fun r c => d (rb + r - 1) c) (r + 1 - rb) c (by omega) (by omega)
        h.2.2.1 h.2.2.2]
    have e : rb + (r + 1 - rb) - 1 = r := by omega
    show d (rb + (r + 1 - rb) - 1) c - _ = _
    rw [e]
    rfl
  · rw [if_neg h, if_neg h]

theorem runMean_congr [Zero α] [Add α] [Div α] [NatCast α] (d1 d2 : Nat → Nat → α)
    (s e j : Nat) (hs : 1 ≤ s) (h : ∀ r, s ≤ r → r ≤ e → d1 r j = d2 r j) :
    runMean d1 s e j = runMean d2 s e j := by
  unfold runMean columnMean
  rw [sumRange_congr (e + 1 - s) (fun i => d1 (s + i - 1) j) (fun i => d2 (s + i - 1) j)
    (fun i i1 i2 => h (s + i - 1) (by omega) (by omega))]

/-- Two maximal runs of equal labels that share a row are the same run. -/
theorem IsRun_unique (L : Nat → Option String) (n s e s1 e1 r : Nat)
    (h : IsRun L n s e) (h1 : IsRun L n s1 e1) (hr : s ≤ r ∧ r ≤ e) (hr1 : s1 ≤ r ∧ r ≤ e1) :
    s = s1 ∧ e = e1 := by
  obtain ⟨a1, a2, a3, a4, a5, a6⟩ := h
  obtain ⟨b1, b2, b3, b4, b5, b6⟩ := h1
  have hLr : labelText (L s) = labelText (L s1) := by
    rw [← a4 r hr.1 hr.2, ← b4 r hr1.1 hr1.2]
  constructor
  · rcases Nat.lt_trichotomy s s1 with hlt | heq | hgt
    · exfalso
      rcases b5 with b5 | b5
      · omega
      · apply b5
        rw [a4 (s1 - 1) (by omega) (by omega)]
        exact hLr
    · exact heq
    · exfalso
      rcases a5 with a5 | a5
      · omega
      · apply a5
        rw [b4 (s - 1) (by omega) (by omega)]
        exact hLr.symm
  · rcases Nat.lt_trichotomy e e1 with hlt | heq | hgt
    · exfalso
      rcases a6 with a6 | a6
      · omega
      · apply a6
        rw [b4 (e + 1) (by omega) (by omega)]
        exact hLr.symm
    · exact heq
    · exfalso
      rcases b6 with b6 | b6
      · omega
      · apply b6
        rw [a4 (e1 + 1) (by omega) (by omega)]
        exact hLr

/-- The cells after TableOfReal_centreColumns_byRowLabel: every row lies in
a maximal run of equal row labels, and its cells are the old cells minus the
means of their columns over that run. -/
theorem centreColumns_byRowLabel_cells [Zero α] [Add α] [Sub α] [Div α] [NatCast α]
    (K : MatrixKernels α) (hK : K.CentresColumns) (T : TableOfReal α) :
    ∀ i, 1 ≤ i → i ≤ T.numberOfRows →
      ∃ s e, IsRun T.rowLabels.elems T.numberOfRows s e ∧ s ≤ i ∧ i ≤ e ∧
        ∀ j, 1 ≤ j → j ≤ T.numberOfColumns →
          (TableOfReal_centreColumns_byRowLabel K T).data i j
            = T.data i j - runMean T.data s e j := by
  intro i i1 i2
  have hn : 1 ≤ T.numberOfRows := by omega
  have hinv := forLoop_induct
    (fun k (st : CentreScan α) =>
      (1 ≤ st.index ∧ st.index + 1 ≤ k) ∧
      labelText st.label = labelText (T.rowLabels.elems st.index) ∧
      (∀ r, st.index ≤ r → r < k →
        labelText (T.rowLabels.elems r) = labelText (T.rowLabels.elems st.index)) ∧
      (st.index = 1 ∨ labelText (T.rowLabels.elems (st.index - 1))
        ≠ labelText (T.rowLabels.elems st.index)) ∧
      (∀ r c, st.index ≤ r → st.data r c = T.data r c) ∧
      (∀ r, 1 ≤ r → r < st.index →
        ∃ s e, IsRun T.rowLabels.elems T.numberOfRows s e ∧ s ≤ r ∧ r ≤ e ∧
          ∀ c, 1 ≤ c → c ≤ T.numberOfColumns →
            st.data r c = T.data r c - runMean T.data s e c))
    2 T.numberOfRows
    (fun i (s : CentreScan α) =>
      if ! Melder_equ (T.rowLabels.elems i) s.label then
        { data := centreHorizontalBand K T.numberOfColumns s.data s.index (i - 1)
          label := T.rowLabels.elems i
          index := i }
      else s)
    { data := T.data, label := T.rowLabels.elems 1, index := 1 } (by omega)
    (by
      dsimp only
      refine ⟨⟨le_refl _, le_refl _⟩, rfl, ?_, Or.inl rfl, fun _ _ _ => rfl, ?_⟩
      · intro r r1 r2
        have : r = 1 := by omega
        rw [this]
      · intro r r1 r2
        omega)
    (by
      intro k st k1 k2 ⟨⟨p1, p1b⟩, p2, p3, p4, p5, p6⟩
      by_cases hsame : labelText (T.rowLabels.elems k) = labelText st.label
      · have hm : (! Melder_equ (T.rowLabels.elems k) st.label) = false := by
          unfold Melder_equ
          simp [hsame]
        simp only [hm, Bool.false_eq_true, if_false]
        refine ⟨⟨p1, by omega⟩, p2, ?_, p4, p5, p6⟩
        intro r r1 r2
        by_cases hrk : r = k
        · rw [hrk, hsame, p2]
        · exact p3 r r1 (by omega)
      · have hm : (! Melder_equ (T.rowLabels.elems k) st.label) = true := by
          unfold Melder_equ
          simp [hsame]
        simp only [hm, if_true]
        have hrun : IsRun T.rowLabels.elems T.numberOfRows st.index (k - 1) := by
          refine ⟨p1, by omega, by omega, fun r r1 r2 => p3 r r1 (by omega), p4, Or.inr ?_⟩
          have e : k - 1 + 1 = k := by omega
          rw [e, ← p2]
          exact hsame
        rw [centreHorizontalBand_eq K hK T.numberOfColumns st.data st.index (k - 1) p1]
        dsimp only
        refine ⟨⟨by omega, le_refl _⟩, trivial, ?_, Or.inr ?_, ?_, ?_⟩
        · intro r r1 r2
          have : r = k := by omega
          rw [this]
        · show labelText (T.rowLabels.elems (k - 1)) ≠ labelText (T.rowLabels.elems k)
          rw [p3 (k - 1) (by omega) (by omega), ← p2]
          exact fun h => hsame h.symm
        · intro r c hr
          have hr : k ≤ r := hr
          show ite _ _ _ = _
          rw [if_neg (by omega)]
          exact p5 r c (by omega)
        · intro r r1 r2
          have r2 : r < k := r2
          by_cases hr : r < st.index
          · obtain ⟨s, e, hse, s1, e1, hc⟩ := p6 r r1 hr
            refine ⟨s, e, hse, s1, e1, fun c c1 c2 => ?_⟩
            show ite _ _ _ = _
            rw [if_neg (by omega)]
            exact hc c c1 c2
          · refine ⟨st.index, k - 1, hrun, by omega, by omega, fun c c1 c2 => ?_⟩
            show ite _ _ _ = _
            rw [if_pos ⟨by omega, by omega, c1, c2⟩, p5 r c (by omega),
              runMean_congr st.data T.data st.index (k - 1) c p1 (fun x x1 _ => p5 x c x1)])
  obtain ⟨⟨p1, p1b⟩, p2, p3, p4, p5, p6⟩ := hinv
  unfold TableOfReal_centreColumns_byRowLabel
  simp only
  rw [centreHorizontalBand_eq K hK T.numberOfColumns _ _ T.numberOfRows p1]
  by_cases hr : i < (forLoop 2 T.numberOfRows
      (fun i (s : CentreScan α) =>
        if ! Melder_equ (T.rowLabels.elems i) s.label then
          { data := centreHorizontalBand K T.numberOfColumns s.data s.index (i - 1)
            label := T.rowLabels.elems i
            index := i }
        else s)
      { data := T.data, label := T.rowLabels.elems 1, index := 1 }).index
  · obtain ⟨s, e, hse, s1, e1, hc⟩ := p6 i i1 hr
    refine ⟨s, e, hse, s1, e1, fun c c1 c2 => ?_⟩
    show ite _ _ _ = _
    rw [if_neg (by omega)]
    exact hc c c1 c2
  · refine ⟨_, T.numberOfRows,
      ⟨p1, by omega, le_refl _, fun r r1 r2 => p3 r r1 (by omega), p4, Or.inl rfl⟩,
      by omega, i2, fun c c1 c2 => ?_⟩
    show ite _ _ _ = _
    rw [if_pos ⟨by omega, i2, c1, c2⟩, p5 i c (by omega),
      runMean_congr _ T.data _ T.numberOfRows c p1 (fun x x1 _ => p5 x c x1)]

/-- Claim C21: with a kernel that subtracts the column means, in exact
arithmetic, after TableOfReal_centreColumns_byRowLabel each cell (i,j) is
its old value minus the mean of the old values of column j over the maximal
run of consecutive rows that contains row i and whose row labels equal the
label of row i (as texts); hence the mean of every column over every such
run is 0; the dimensions and the row and column labels are as before. -/
theorem TableOfReal_centreColumns_byRowLabel_spec [Field α] [CharZero α]
    (K : MatrixKernels α) (hK : K.CentresColumns) (T : TableOfReal α) :
    (∀ i, 1 ≤ i → i ≤ T.numberOfRows →
      ∃ s e, IsRun T.rowLabels.elems T.numberOfRows s e ∧ s ≤ i ∧ i ≤ e ∧
        ∀ j, 1 ≤ j → j ≤ T.numberOfColumns →
          (TableOfReal_centreColumns_byRowLabel K T).data i j
            = T.data i j - runMean T.data s e j) ∧
    (∀ s e, IsRun T.rowLabels.elems T.numberOfRows s e →
      ∀ j, 1 ≤ j → j ≤ T.numberOfColumns →
        runMean (TableOfReal_centreColumns_byRowLabel K T).data s e j = 0) ∧
    (TableOfReal_centreColumns_byRowLabel K T).numberOfRows = T.numberOfRows ∧
    (TableOfReal_centreColumns_byRowLabel K T).numberOfColumns = T.numberOfColumns ∧
    (TableOfReal_centreColumns_byRowLabel K T).rowLabels = T.rowLabels ∧
    (TableOfReal_centreColumns_byRowLabel K T).columnLabels = T.columnLabels := by
  refine ⟨centreColumns_byRowLabel_cells K hK T, ?_, rfl, rfl, rfl, rfl⟩
  intro s e hrun j j1 j2
  unfold runMean
  refine columnMean_centred (e + 1 - s) (fun r c => T.data (s + r - 1) c) _ j ?_
  intro i i1 i2
  have hrun2 := hrun
  obtain ⟨a1, a2, a3, -⟩ := hrun2
  obtain ⟨s1, e1, hrun1, b1, b2, hc⟩ :=
    centreColumns_byRowLabel_cells K hK T (s + i - 1) (by omega) (by omega)
  obtain ⟨rfl, rfl⟩ := IsRun_unique _ _ s e s1 e1 (s + i - 1) hrun hrun1
    ⟨by omega, by omega⟩ ⟨b1, b2⟩
  exact hc j j1 j2

/-- Witness of claim C21: the rows a -> [1,1], a -> [3,3], b -> [10,10]
become a -> [-1,-1], a -> [1,1], b -> [0,0]. -/
theorem TableOfReal_centreColumns_byRowLabel_spec_witness :
    ((∀ i, 1 ≤ i → i ≤ groupTable.numberOfRows →
      ∃ s e, IsRun groupTable.rowLabels.elems groupTable.numberOfRows s e ∧ s ≤ i ∧ i ≤ e ∧
        ∀ j, 1 ≤ j → j ≤ groupTable.numberOfColumns →
          (TableOfReal_centreColumns_byRowLabel exactMatrix groupTable).data i j
            = groupTable.data i j - runMean groupTable.data s e j) ∧
    (∀ s e, IsRun groupTable.rowLabels.elems groupTable.numberOfRows s e →
      ∀ j, 1 ≤ j → j ≤ groupTable.numberOfColumns →
        runMean (TableOfReal_centreColumns_byRowLabel exactMatrix groupTable).data s e j
          = 0) ∧
    (TableOfReal_centreColumns_byRowLabel exactMatrix groupTable).numberOfRows
      = groupTable.numberOfRows ∧
    (TableOfReal_centreColumns_byRowLabel exactMatrix groupTable).numberOfColumns
      = groupTable.numberOfColumns ∧
    (TableOfReal_centreColumns_byRowLabel exactMatrix groupTable).rowLabels
      = groupTable.rowLabels ∧
    (TableOfReal_centreColumns_byRowLabel exactMatrix groupTable).columnLabels
      = groupTable.columnLabels) ∧
    tableRows (TableOfReal_centreColumns_byRowLabel exactMatrix groupTable)
      = [(some "a", [-1, -1]), (some "a", [1, 1]), (some "b", [0, 0])] :=
  ⟨TableOfReal_centreColumns_byRowLabel_spec exactMatrix exactMatrix_centresColumns groupTable,
    by decide!⟩

/-- The scan of TableOfReal_getColumnIndexAtMaximumInRow over the elements
`2..n` of a row `v`, started at `(v 1, 1)`: the index it ends with is the
first one at which the row attains its maximum. -/
theorem indexAtMaximum_scan [LinearOrder α] (v : Nat → α) (n : Nat) (hn : 1 ≤ n) :
    let s := forLoop 2 n (fun icol (s : α × Nat) =>
      if v icol > s.1 then (v icol, icol) else s) (v 1, 1)
    1 ≤ s.2 ∧ s.2 ≤ n ∧ (∀ j, 1 ≤ j → j ≤ n → v j ≤ v s.2) ∧
      ∀ j, 1 ≤ j → j < s.2 → v j < v s.2 := by
  dsimp only
  have := forLoop_induct
    (fun k (s : α × Nat) =>
      1 ≤ s.2 ∧ s.2 < k ∧ s.1 = v s.2 ∧ (∀ j, 1 ≤ j → j < k → v j ≤ s.1) ∧
        ∀ j, 1 ≤ j → j < s.2 → v j < s.1)
    2 n (fun icol (s : α × Nat) => if v icol > s.1 then (v icol, icol) else s) (v 1, 1)
    (by omega)
    ⟨le_refl _, (by show 1 < 2; omega), rfl,
      fun j j1 j2 => by
        have : j = 1 := by omega
        rw [this],
      fun j j1 j2 => by
        have j2 : j < 1 := j2
        omega⟩
    (by
      intro k t k1 k2 ⟨a1, a2, a3, a4, a5⟩
      by_cases h : v k > t.1
      · simp only [h, if_true]
        refine ⟨by omega, by omega, trivial, ?_, ?_⟩
        · intro j j1 j2
          by_cases hjk : j = k
          · rw [hjk]
          · exact le_of_lt (lt_of_le_of_lt (a4 j j1 (by omega)) h)
        · intro j j1 j2
          exact lt_of_le_of_lt (a4 j j1 j2) h
      · simp only [h, if_false]
        refine ⟨a1, by omega, a3, ?_, a5⟩
        intro j j1 j2
        by_cases hjk : j = k
        · rw [hjk]
          exact le_of_not_lt h
        · exact a4 j j1 (by omega))
  obtain ⟨a1, a2, a3, a4, a5⟩ := this
  refine ⟨a1, by omega, ?_, ?_⟩
  · intro j j1 j2
    rw [← a3]
    exact a4 j j1 (by omega)
  · intro j j1 j2
    rw [← a3]
    exact a5 j j1 j2

/-- Claim C33: for every square table T, the matrix that
TableOfReal_choleskyDecomposition hands to the factorization kernel equals T
on and above the diagonal and is 0 strictly below it when `upper` is true,
and equals T on and below the diagonal and is 0 strictly above it when
`upper` is false; the kernel runs on a copy that has the dimensions and the
labels of T, and what the routine returns is that copy with the matrix as
the kernels leave it.  T is not an output. -/
theorem TableOfReal_choleskyDecomposition_zeroes_triangle [Zero α] (T : TableOfReal α)
    (upper : Bool) (hsq : T.numberOfColumns = T.numberOfRows) :
    (∀ r c, 1 ≤ r → r ≤ T.numberOfRows → 1 ≤ c → c ≤ T.numberOfColumns →
      zeroOppositeTriangle upper T.numberOfColumns T.data r c =
        if upper then (if c < r then 0 else T.data r c)
        else (if r < c then 0 else T.data r c)) ∧
    (∀ (K : LapackKernels α) (inverse : Bool),
      TableOfReal_choleskyDecomposition K T upper inverse =
        if ¬ ((K.NUMlapack_dpotf2 (if upper then 'L' else 'U') T.numberOfColumns
            (zeroOppositeTriangle upper T.numberOfColumns T.data) T.numberOfRows).2 = 0) then
          .error .dpotf2Fails
        else if inverse = true then
          (if ¬ ((K.NUMlapack_dtrtri (if upper then 'L' else 'U') 'N' T.numberOfColumns
              (K.NUMlapack_dpotf2 (if upper then 'L' else 'U') T.numberOfColumns
                (zeroOppositeTriangle upper T.numberOfColumns T.data) T.numberOfRows).1
              T.numberOfRows).2 = 0) then .error .dtrtriFails
            else .ok { T with data := (K.NUMlapack_dtrtri (if upper then 'L' else 'U') 'N'
              T.numberOfColumns
              (K.NUMlapack_dpotf2 (if upper then 'L' else 'U') T.numberOfColumns
                (zeroOppositeTriangle upper T.numberOfColumns T.data) T.numberOfRows).1
              T.numberOfRows).1 })
        else .ok { T with data := (K.NUMlapack_dpotf2 (if upper then 'L' else 'U')
          T.numberOfColumns
          (zeroOppositeTriangle upper T.numberOfColumns T.data) T.numberOfRows).1 }) := by
  constructor
  · intro r c r1 r2 c1 c2
    rw [zeroOppositeTriangle_eq]
    cases upper
    · simp only [Bool.false_eq_true, if_false]
      by_cases h : r < c
      · rw [if_pos h, if_pos (by omega)]
      · rw [if_neg h, if_neg (by omega)]
    · simp only [if_true]
      by_cases h : c < r
      · rw [if_pos h, if_pos (by omega)]
      · rw [if_neg h, if_neg (by omega)]
  · intro K inverse
    unfold TableOfReal_choleskyDecomposition Data_copy
    simp only
    rw [if_neg (not_not.mpr hsq)]

/-- Witness of claim C33: with a kernel that leaves the matrix as it is, the
table with the rows [4, 1], [2, 3] comes back as [4, 1], [0, 3] with `upper`
and as [4, 0], [2, 3] without, with its labels. -/
theorem TableOfReal_choleskyDecomposition_zeroes_triangle_witness :
    (∀ r c, 1 ≤ r → r ≤ squareTable.numberOfRows → 1 ≤ c → c ≤ squareTable.numberOfColumns →
      zeroOppositeTriangle true squareTable.numberOfColumns squareTable.data r c =
        if true then (if c < r then 0 else squareTable.data r c)
        else (if r < c then 0 else squareTable.data r c)) ∧
    (∃ R, TableOfReal_choleskyDecomposition diagonalLapack squareTable true false = .ok R ∧
      tableRows R = [(some "r1", [4, 1]), (some "r2", [0, 3])] ∧
      labelList R.columnLabels = [some "c1", some "c2"]) ∧
    (∃ R, TableOfReal_choleskyDecomposition diagonalLapack squareTable false false = .ok R ∧
      tableRows R = [(some "r1", [4, 0]), (some "r2", [2, 3])]) ∧
    tableRows squareTable = [(some "r1", [4, 1]), (some "r2", [2, 3])] :=
  ⟨(TableOfReal_choleskyDecomposition_zeroes_triangle squareTable true rfl).1,
    ⟨_, rfl, by decide!, by decide⟩, ⟨_, rfl, by decide!⟩, by decide!⟩

/-- C32 at a concrete input: for the tables with the rows b -> [1, 2],
a -> [3, 4], a -> [10, 20] and b -> [7], absent -> [8], c -> [9], which have
equal row counts, TableOfReal_appendColumns and
TableOfRealList_appendColumnsMany on the two-element list return tables with
the same dimensions, data and column labels but different row labels: the
binary routine takes the row labels of the first table, the N-ary routine
those of the last table of the list. -/
theorem TableOfRealList_appendColumnsMany_rowLabels_of_last :
    tableA.numberOfRows = tableB.numberOfRows ∧
    (∃ R k, TableOfReal_appendColumns tableA tableB = .ok (R, k) ∧
      tableRows R = [(some "b", [1, 2, 7]), (some "a", [3, 4, 8]), (some "a", [10, 20, 9])] ∧
      labelList R.columnLabels = [some "x", none, some "y"] ∧
      labelList R.rowLabels = labelList tableA.rowLabels) ∧
    (∃ R, TableOfRealList_appendColumnsMany [tableA, tableB] = .ok R ∧
      tableRows R = [(some "b", [1, 2, 7]), (none, [3, 4, 8]), (some "c", [10, 20, 9])] ∧
      labelList R.columnLabels = [some "x", none, some "y"] ∧
      labelList R.rowLabels = labelList tableB.rowLabels ∧
      labelList R.rowLabels ≠ labelList tableA.rowLabels) :=
  ⟨rfl, ⟨_, _, rfl, by decide, by decide, by decide⟩,
    ⟨_, rfl, by decide, by decide, by decide, by decide⟩⟩

theorem pastSample_succ [Zero α] (f : Nat → α) (n : Nat) (hn : 1 ≤ n) :
    pastSample f (n + 1) 1 = f n ∧ pastSample f (n + 1) 2 = pastSample f n 1 := by
  unfold pastSample
  constructor
  · rw [if_pos (by omega), Nat.add_sub_cancel]
  · by_cases h : 1 < n
    · rw [if_pos (by omega), if_pos h]
      have e : n + 1 - 2 = n - 1 := by omega
      rw [e]
    · rw [if_neg (by omega), if_neg h]

/-- The run of an AntiResonator from reset memory: the memory cells hold the
last two inputs, the coefficients stay, and every output is the FIR
combination of the last three inputs. -/
theorem antiResonator_run [Ring α] (me : structAntiResonator α) (x : Nat → α) (N : Nat) :
    (∃ s, (processSamples Filter_getOutput (Filter_resetMemory (.antiResonator me)) x N).1
        = .antiResonator s ∧
      s.a = me.a ∧ s.b = me.b ∧ s.c = me.c ∧
      s.p1 = pastSample x (N + 1) 1 ∧ s.p2 = pastSample x (N + 1) 2) ∧
    ∀ i, 1 ≤ i → i ≤ N →
      (processSamples Filter_getOutput (Filter_resetMemory (.antiResonator me)) x N).2 i
        = me.a * (x i - me.b * pastSample x i 1 - me.c * pastSample x i 2) := by
  have := forLoop_induct
    (fun k (st : Filter α × (Nat → α)) =>
      (∃ s, st.1 = .antiResonator s ∧ s.a = me.a ∧ s.b = me.b ∧ s.c = me.c ∧
        s.p1 = pastSample x k 1 ∧ s.p2 = pastSample x k 2) ∧
      ∀ i, 1 ≤ i → i < k →
        st.2 i = me.a * (x i - me.b * pastSample x i 1 - me.c * pastSample x i 2))
    1 N
    (fun i (s : Filter α × (Nat → α)) =>
      ((Filter_getOutput s.1 (x i)).2, setElem s.2 i (Filter_getOutput s.1 (x i)).1))
    (Filter_resetMemory (.antiResonator me), fun _ => 0) (by omega)
    ⟨⟨_, rfl, rfl, rfl, rfl, rfl, rfl⟩, fun i i1 i2 => by omega⟩
    (by
      intro k st k1 k2 ⟨⟨s, hs, ha, hb, hc, hp1, hp2⟩, hy⟩
      obtain ⟨e1, e2⟩ := pastSample_succ x k k1
      constructor
      · refine ⟨(s.v_getOutput (x k)).2, ?_, ha, hb, hc, ?_, ?_⟩
        · show (Filter_getOutput st.1 (x k)).2 = _
          rw [hs]
          rfl
        · show x k = _
          rw [e1]
        · show s.p1 = _
          rw [e2, hp1]
      · intro i i1 i2
        show setElem st.2 k (Filter_getOutput st.1 (x k)).1 i = _
        unfold setElem
        by_cases hik : i = k
        · rw [if_pos hik, hs, hik]
          show s.a * (x k - s.b * s.p1 - s.c * s.p2) = _
          rw [ha, hb, hc, hp1, hp2]
        · rw [if_neg hik]
          exact hy i i1 (by omega))
  obtain ⟨hst, hy⟩ := this
  exact ⟨hst, fun i i1 i2 => hy i i1 (by omega)⟩

/-- Claim C34: for all coefficients a, b, c, starting from reset memory and
for every input sequence x 1, x 2, ..., the n-th output of the AntiResonator
is a * (x n - b * x (n - 1) - c * x (n - 2)), the inputs before the first
one being 0. -/
theorem structAntiResonator_recurrence [Ring α] (me : structAntiResonator α) (x : Nat → α)
    (N n : Nat) (h1 : 1 ≤ n) (h2 : n ≤ N) :
    (processSamples Filter_getOutput (Filter_resetMemory (.antiResonator me)) x N).2 n
      = me.a * (x n - me.b * pastSample x n 1 - me.c * pastSample x n 2) :=
  (antiResonator_run me x N).2 n h1 h2

/-- Witness of claim C34: with a = 2, b = 3, c = 5 and the inputs 1, 10,
100 the outputs are 2, 14 and 2 * (100 - 30 - 5) = 130, whatever the memory
held before the reset. -/
theorem structAntiResonator_recurrence_witness :
    (processSamples Filter_getOutput (Filter_resetMemory (.antiResonator usedAntiResonator))
        sampleInput 3).2 3
      = usedAntiResonator.a * (sampleInput 3 - usedAntiResonator.b * pastSample sampleInput 3 1
        - usedAntiResonator.c * pastSample sampleInput 3 2) ∧
    (List.range' 1 3).map (processSamples Filter_getOutput
      (Filter_resetMemory (.antiResonator usedAntiResonator)) sampleInput 3).2
      = [2, 14, 130] :=
  ⟨structAntiResonator_recurrence usedAntiResonator sampleInput 3 3 (by decide) (by decide),
    by decide⟩

theorem pastSample_setElem [Zero α] (y : Nat → α) (k : Nat) (v : α) (i j : Nat)
    (hi : i ≤ k) (hj : 1 ≤ j) : pastSample (setElem y k v) i j = pastSample y i j := by
  unfold pastSample setElem
  by_cases h : j < i
  · rw [if_pos h, if_pos h, if_neg (by omega)]
  · rw [if_neg h, if_neg h]

/-- The run of a ConstantGainResonator from reset memory: the memory cells
hold the last two outputs and the last two inputs, the coefficients stay,
and every output obeys the recurrence. -/
theorem constantGainResonator_run [Ring α] (me : structConstantGainResonator α)
    (x : Nat → α) (N : Nat) :
    ∀ i, 1 ≤ i → i ≤ N →
      (processSamples Filter_getOutput (Filter_resetMemory (.constantGainResonator me)) x N).2 i
        = me.a * (x i + me.d * pastSample x i 2)
          + me.b * pastSample (processSamples Filter_getOutput
              (Filter_resetMemory (.constantGainResonator me)) x N).2 i 1
          + me.c * pastSample (processSamples Filter_getOutput
              (Filter_resetMemory (.constantGainResonator me)) x N).2 i 2 := by
  have := forLoop_induct
    (fun k (st : Filter α × (Nat → α)) =>
      (∃ s, st.1 = .constantGainResonator s ∧ s.a = me.a ∧ s.b = me.b ∧ s.c = me.c ∧
        s.d = me.d ∧ s.p1 = pastSample st.2 k 1 ∧ s.p2 = pastSample st.2 k 2 ∧
        s.p3 = pastSample x k 1 ∧ s.p4 = pastSample x k 2) ∧
      ∀ i, 1 ≤ i → i < k →
        st.2 i = me.a * (x i + me.d * pastSample x i 2)
          + me.b * pastSample st.2 i 1 + me.c * pastSample st.2 i 2)
    1 N
    (fun i (s : Filter α × (Nat → α)) =>
      ((Filter_getOutput s.1 (x i)).2, setElem s.2 i (Filter_getOutput s.1 (x i)).1))
    (Filter_resetMemory (.constantGainResonator me), fun _ => 0) (by omega)
    ⟨⟨_, rfl, rfl, rfl, rfl, rfl, rfl, rfl, rfl, rfl⟩, fun i i1 i2 => by omega⟩
    (by
      intro k st k1 k2 ⟨⟨s, hs, ha, hb, hc, hd, hp1, hp2, hp3, hp4⟩, hy⟩
      obtain ⟨e1, e2⟩ := pastSample_succ x k k1
      have hout : (Filter_getOutput st.1 (x k)).1 =
          me.a * (x k + me.d * pastSample x k 2) + me.b * pastSample st.2 k 1
            + me.c * pastSample st.2 k 2 := by
        rw [hs]
        show s.a * (x k + s.d * s.p4) + s.b * s.p1 + s.c * s.p2 = _
        rw [ha, hb, hc, hd, hp1, hp2, hp4]
      obtain ⟨f1, f2⟩ := pastSample_succ (setElem st.2 k (Filter_getOutput st.1 (x k)).1) k k1
      constructor
      · refine ⟨(s.v_getOutput (x k)).2, ?_, ha, hb, hc, hd, ?_, ?_, ?_, ?_⟩
        · show (Filter_getOutput st.1 (x k)).2 = _
          rw [hs]
          rfl
        · show s.a * (x k + s.d * s.p4) + s.b * s.p1 + s.c * s.p2 =
            pastSample (setElem st.2 k (Filter_getOutput st.1 (x k)).1) (k + 1) 1
          rw [f1]
          unfold setElem
          rw [if_pos rfl, hs]
          rfl
        · show s.p1 = pastSample (setElem st.2 k (Filter_getOutput st.1 (x k)).1) (k + 1) 2
          rw [f2, pastSample_setElem _ _ _ _ _ (le_refl _) (le_refl _), hp1]
        · show x k = _
          rw [e1]
        · show s.p3 = _
          rw [e2, hp3]
      · intro i i1 i2
        show setElem st.2 k (Filter_getOutput st.1 (x k)).1 i =
          me.a * (x i + me.d * pastSample x i 2)
            + me.b * pastSample (setElem st.2 k (Filter_getOutput st.1 (x k)).1) i 1
            + me.c * pastSample (setElem st.2 k (Filter_getOutput st.1 (x k)).1) i 2
        rw [pastSample_setElem _ _ _ _ _ (by omega) (le_refl _),
          pastSample_setElem _ _ _ _ _ (by omega) (by omega)]
        by_cases hik : i = k
        · subst hik
          unfold setElem
          rw [if_pos rfl]
          exact hout
        · have : setElem st.2 k (Filter_getOutput st.1 (x k)).1 i = st.2 i := by
            unfold setElem
            rw [if_neg hik]
          rw [this]
          exact hy i i1 (by omega))
  obtain ⟨-, hy⟩ := this
  exact fun i i1 i2 => hy i i1 (by omega)

/-- Claim C35: for all coefficients a, b, c, d, starting from reset memory
and for every input sequence x 1, x 2, ..., the n-th output of the
ConstantGainResonator is a * (x n + d * x (n - 2)) + b * y (n - 1)
+ c * y (n - 2), the inputs and outputs before the first ones being 0. -/
theorem structConstantGainResonator_recurrence [Ring α]
    (me : structConstantGainResonator α) (x : Nat → α) (N n : Nat)
    (h1 : 1 ≤ n) (h2 : n ≤ N) :
    (processSamples Filter_getOutput (Filter_resetMemory (.constantGainResonator me)) x N).2 n
      = me.a * (x n + me.d * pastSample x n 2)
        + me.b * pastSample (processSamples Filter_getOutput
            (Filter_resetMemory (.constantGainResonator me)) x N).2 n 1
        + me.c * pastSample (processSamples Filter_getOutput
            (Filter_resetMemory (.constantGainResonator me)) x N).2 n 2 :=
  constantGainResonator_run me x N n h1 h2

/-- Witness of claim C35: with a = 2, b = 3, c = 5, d = 7 and the inputs 1,
10, 100 the outputs are 2, 26 and 2 * (100 + 7) + 3 * 26 + 5 * 2 = 302,
whatever the memory held before the reset. -/
theorem structConstantGainResonator_recurrence_witness :
    (processSamples Filter_getOutput
        (Filter_resetMemory (.constantGainResonator usedConstantGainResonator))
        sampleInput 3).2 3
      = usedConstantGainResonator.a
          * (sampleInput 3 + usedConstantGainResonator.d * pastSample sampleInput 3 2)
        + usedConstantGainResonator.b * pastSample (processSamples Filter_getOutput
            (Filter_resetMemory (.constantGainResonator usedConstantGainResonator))
            sampleInput 3).2 3 1
        + usedConstantGainResonator.c * pastSample (processSamples Filter_getOutput
            (Filter_resetMemory (.constantGainResonator usedConstantGainResonator))
            sampleInput 3).2 3 2 ∧
    (List.range' 1 3).map (processSamples Filter_getOutput
      (Filter_resetMemory (.constantGainResonator usedConstantGainResonator)) sampleInput 3).2
      = [2, 26, 302] :=
  ⟨structConstantGainResonator_recurrence usedConstantGainResonator sampleInput 3 3
    (by decide) (by decide), by decide⟩

/-- The coefficients that `structAntiResonator :: v_setFB` stores for
f <= 0 and bw <= 0. -/
theorem antiResonator_setFB_allPass [LinearOrderedField α] (M : MathKernels α)
    (me : structAntiResonator α) (f bw : α) (hf : f ≤ 0) (hbw : bw ≤ 0) :
    (me.v_setFB M f bw).a = 1 ∧ (me.v_setFB M f bw).b = -2 ∧ (me.v_setFB M f bw).c = 1 := by
  unfold structAntiResonator.v_setFB
  rw [if_pos ⟨hf, hbw⟩]
  exact ⟨rfl, rfl, rfl⟩

/-- An AntiResonator set with f <= 0 and bw <= 0 doubles a constant input:
when the last three inputs are equal to `v`, the output is 2 * v. -/
theorem antiResonator_constant_input [LinearOrderedField α] (M : MathKernels α)
    (me : structAntiResonator α) (f bw : α) (hf : f ≤ 0) (hbw : bw ≤ 0) (x : Nat → α)
    (v : α) (N n : Nat) (h3 : 3 ≤ n) (hN : n ≤ N)
    (hx : x n = v ∧ x (n - 1) = v ∧ x (n - 2) = v) :
    (processSamples Filter_getOutput
      (Filter_resetMemory (Filter_setFB M (.antiResonator me) f bw)) x N).2 n = 2 * v := by
  obtain ⟨ha, hb, hc⟩ := antiResonator_setFB_allPass M me f bw hf hbw
  show (processSamples Filter_getOutput
    (Filter_resetMemory (.antiResonator (me.v_setFB M f bw))) x N).2 n = 2 * v
  rw [(antiResonator_run (me.v_setFB M f bw) x N).2 n (by omega) hN, ha, hb, hc]
  unfold pastSample
  rw [if_pos (by omega), if_pos (by omega), hx.1, hx.2.1, hx.2.2]
  ring

/-- C36 at a concrete input: an AntiResonator set with f = 0 and bw = 0 has
the coefficients a = 1, b = -2, c = 1, and on the constant input 1 its
outputs are 1, 3, 2, 2, 2: after two consecutive samples equal to 1 every
further sample equal to 1 gives the output 2, not 0. -/
theorem structAntiResonator_dc_not_blocked :
    ∀ M : MathKernels ℚ,
      (Filter_setFB M (.antiResonator (AntiResonator_create 1)) 0 0).coefficients
        = [1, -2, 1] ∧
      (List.range' 1 5).map (processSamples Filter_getOutput
        (Filter_resetMemory (Filter_setFB M (.antiResonator (AntiResonator_create 1)) 0 0))
        (fun _ => 1) 5).2 = [1, 3, 2, 2, 2] := by
  intro M
  have h : Filter_setFB M (.antiResonator (AntiResonator_create 1)) 0 0 =
      .antiResonator { a := 1, b := -2, c := 1, p1 := 0, p2 := 0, dT := 1 } := by
    show Filter.antiResonator ((AntiResonator_create (1 : ℚ)).v_setFB M 0 0) = _
    unfold structAntiResonator.v_setFB
    rw [if_pos ⟨le_refl _, le_refl _⟩]
    rfl
  rw [h]
  exact ⟨by decide!, by decide!⟩

/-- Two counted loops that start in related states and whose bodies keep the
states related end in related states. -/
theorem forLoopAux_rel {σ τ : Type} (Q : σ → τ → Prop) (f : Nat → σ → σ) (g : Nat → τ → τ)
    (hs : ∀ k s t, Q s t → Q (f k s) (g k t)) :
    ∀ (n i : Nat) (s : σ) (t : τ), Q s t → Q (forLoopAux f n i s) (forLoopAux g n i t) := by
  intro n
  induction n with
  | zero => intro i s t h; exact h
  | succ n ih => intro i s t h; exact ih (i + 1) _ _ (hs i s t h)

/-- Two filters in related states, whose outputs agree and whose states stay
related at every sample, give the same outputs on the same inputs. -/
theorem processSamples_rel [Zero α] {F G : Type} (f : F → α → α × F) (g : G → α → α × G)
    (R : F → G → Prop)
    (hstep : ∀ s t input, R s t →
      (f s input).1 = (g t input).1 ∧ R (f s input).2 (g t input).2)
    (me : F) (thee : G) (x : Nat → α) (n : Nat) (h0 : R me thee) :
    (processSamples f me x n).2 = (processSamples g thee x n).2 ∧
      R (processSamples f me x n).1 (processSamples g thee x n).1 := by
  have := forLoopAux_rel
    (fun (s : F × (Nat → α)) (t : G × (Nat → α)) => s.2 = t.2 ∧ R s.1 t.1)
    (fun i (s : F × (Nat → α)) => ((f s.1 (x i)).2, setElem s.2 i (f s.1 (x i)).1))
    (fun i (s : G × (Nat → α)) => ((g s.1 (x i)).2, setElem s.2 i (g s.1 (x i)).1))
    (by
      intro k s t ⟨h1, h2⟩
      obtain ⟨e1, e2⟩ := hstep s.1 t.1 (x k) h2
      exact ⟨by show setElem s.2 k _ = setElem t.2 k _; rw [h1, e1], e2⟩)
    (n + 1 - 1) 1 (me, fun _ => 0) (thee, fun _ => 0) ⟨rfl, h0⟩
  exact this

/-- Two Filter objects of the same class with equal coefficients and equal
memory cells give the same output on the same input, and are again such a
pair after the call. -/
theorem Filter_getOutput_rel [Ring α] (s t : Filter α) (input : α)
    (h : s.kind = t.kind ∧ s.coefficients = t.coefficients ∧ s.memory = t.memory) :
    (Filter_getOutput s input).1 = (Filter_getOutput t input).1 ∧
      ((Filter_getOutput s input).2.kind = (Filter_getOutput t input).2.kind ∧
        (Filter_getOutput s input).2.coefficients
          = (Filter_getOutput t input).2.coefficients ∧
        (Filter_getOutput s input).2.memory = (Filter_getOutput t input).2.memory) := by
  obtain ⟨hk, hc, hm⟩ := h
  cases s with
  | resonator s =>
    cases t with
    | resonator t =>
      simp only [Filter.coefficients, Filter.memory, List.cons.injEq, and_true] at hc hm
      obtain ⟨a, b, c⟩ := hc
      obtain ⟨p1, p2⟩ := hm
      simp [Filter_getOutput, structFilter.v_getOutput, Filter.kind, Filter.coefficients,
        Filter.memory, a, b, c, p1, p2]
    | antiResonator t => cases hk
    | constantGainResonator t => cases hk
  | antiResonator s =>
    cases t with
    | resonator t => cases hk
    | antiResonator t =>
      simp only [Filter.coefficients, Filter.memory, List.cons.injEq, and_true] at hc hm
      obtain ⟨a, b, c⟩ := hc
      obtain ⟨p1, p2⟩ := hm
      simp [Filter_getOutput, structAntiResonator.v_getOutput, Filter.kind,
        Filter.coefficients, Filter.memory, a, b, c, p1, p2]
    | constantGainResonator t => cases hk
  | constantGainResonator s =>
    cases t with
    | resonator t => cases hk
    | antiResonator t => cases hk
    | constantGainResonator t =>
      simp only [Filter.coefficients, Filter.memory, List.cons.injEq, and_true] at hc hm
      obtain ⟨a, b, c, d⟩ := hc
      obtain ⟨p1, p2, p3, p4⟩ := hm
      simp [Filter_getOutput, structConstantGainResonator.v_getOutput, Filter.kind,
        Filter.coefficients, Filter.memory, a, b, c, d, p1, p2, p3, p4]

/-- Processing a sample changes neither the class nor the coefficients of a
Filter object. -/
theorem Filter_getOutput_coefficients [Ring α] (s : Filter α) (input : α) :
    (Filter_getOutput s input).2.kind = s.kind ∧
      (Filter_getOutput s input).2.coefficients = s.coefficients := by
  cases s <;> exact ⟨rfl, rfl⟩

theorem processSamples_coefficients [Ring α] (me : Filter α) (x : Nat → α) (n : Nat) :
    (processSamples Filter_getOutput me x n).1.kind = me.kind ∧
      (processSamples Filter_getOutput me x n).1.coefficients = me.coefficients := by
  by_cases hn : 1 ≤ n + 1
  · exact forLoop_induct
      (fun _ (st : Filter α × (Nat → α)) =>
        st.1.kind = me.kind ∧ st.1.coefficients = me.coefficients)
      1 n
      (fun i (s : Filter α × (Nat → α)) =>
        ((Filter_getOutput s.1 (x i)).2, setElem s.2 i (Filter_getOutput s.1 (x i)).1))
      (me, fun _ => 0) hn ⟨rfl, rfl⟩
      (by
        intro k st _ _ ⟨h1, h2⟩
        obtain ⟨e1, e2⟩ := Filter_getOutput_coefficients st.1 (x k)
        exact ⟨e1.trans h1, e2.trans h2⟩)
  · omega

/-- Filter_resetMemory keeps the class and the coefficients, and leaves
memory cells that depend on the class only. -/
theorem Filter_resetMemory_eq [Zero α] (s : Filter α) :
    (Filter_resetMemory s).kind = s.kind ∧
      (Filter_resetMemory s).coefficients = s.coefficients ∧
      (Filter_resetMemory s).memory = if s.kind = 2 then [0, 0, 0, 0] else [0, 0] := by
  cases s <;> exact ⟨rfl, rfl, rfl⟩

/-- Claim C37: Filter_resetMemory erases all history, for each of the three
classes: for two Filter objects of the same class with equal coefficients,
whatever input samples each has processed before, after Filter_resetMemory
on both they give the same outputs on the same subsequent inputs; and
Filter_resetMemory changes neither the class nor a coefficient. -/
theorem Filter_resetMemory_erases_history [Ring α] (me thee : Filter α)
    (hkind : me.kind = thee.kind) (hcoef : me.coefficients = thee.coefficients)
    (u w : Nat → α) (m k : Nat) (x : Nat → α) (n : Nat) :
    (processSamples Filter_getOutput
        (Filter_resetMemory (processSamples Filter_getOutput me u m).1) x n).2
      = (processSamples Filter_getOutput
        (Filter_resetMemory (processSamples Filter_getOutput thee w k).1) x n).2 ∧
    (Filter_resetMemory (processSamples Filter_getOutput me u m).1).coefficients
      = me.coefficients ∧
    (Filter_resetMemory (processSamples Filter_getOutput me u m).1).kind = me.kind ∧
    (Filter_resetMemory me).coefficients = me.coefficients ∧
    (Filter_resetMemory me).kind = me.kind := by
  obtain ⟨a1, a2⟩ := processSamples_coefficients me u m
  obtain ⟨b1, b2⟩ := processSamples_coefficients thee w k
  obtain ⟨r1, r2, r3⟩ := Filter_resetMemory_eq (processSamples Filter_getOutput me u m).1
  obtain ⟨s1, s2, s3⟩ := Filter_resetMemory_eq (processSamples Filter_getOutput thee w k).1
  obtain ⟨t1, t2, -⟩ := Filter_resetMemory_eq me
  refine ⟨?_, r2.trans a2, r1.trans a1, t2, t1⟩
  refine (processSamples_rel Filter_getOutput Filter_getOutput
    (fun s t => s.kind = t.kind ∧ s.coefficients = t.coefficients ∧ s.memory = t.memory)
    (fun s t input h => Filter_getOutput_rel s t input h) _ _ x n ⟨?_, ?_, ?_⟩).1
  · rw [r1, s1, a1, b1, hkind]
  · rw [r2, s2, a2, b2, hcoef]
  · rw [r3, s3, a1, b1, hkind]

/-- Witness of claim C37: an AntiResonator that has processed 1, 10, 100,
1000 and one with the same coefficients that has processed nothing give,
after the reset, the same outputs on 1, 10, 100; so do a used and a fresh
ConstantGainResonator, and a Resonator. -/
theorem Filter_resetMemory_erases_history_witness :
    ((processSamples Filter_getOutput
        (Filter_resetMemory (processSamples Filter_getOutput
          (.antiResonator usedAntiResonator) sampleInput 4).1) sampleInput 3).2
      = (processSamples Filter_getOutput
        (Filter_resetMemory (processSamples Filter_getOutput
          (.antiResonator { usedAntiResonator with p1 := 0, p2 := 0 }) sampleInput 0).1)
        sampleInput 3).2 ∧
    (Filter_resetMemory (processSamples Filter_getOutput
        (.antiResonator usedAntiResonator) sampleInput 4).1).coefficients
      = (Filter.antiResonator usedAntiResonator).coefficients ∧
    (Filter_resetMemory (processSamples Filter_getOutput
        (.antiResonator usedAntiResonator) sampleInput 4).1).kind
      = (Filter.antiResonator usedAntiResonator).kind ∧
    (Filter_resetMemory (.antiResonator usedAntiResonator)).coefficients
      = (Filter.antiResonator usedAntiResonator).coefficients ∧
    (Filter_resetMemory (.antiResonator usedAntiResonator)).kind
      = (Filter.antiResonator usedAntiResonator).kind) ∧
    (List.range' 1 3).map (processSamples Filter_getOutput
      (Filter_resetMemory (processSamples Filter_getOutput
        (.constantGainResonator usedConstantGainResonator) sampleInput 4).1) sampleInput 3).2
      = [2, 26, 302] ∧
    (List.range' 1 3).map (processSamples Filter_getOutput
      (Filter_resetMemory (processSamples Filter_getOutput
        (.resonator freshResonator) sampleInput 4).1) sampleInput 3).2
      = (List.range' 1 3).map (processSamples Filter_getOutput
        (Filter_resetMemory (.resonator freshResonator)) sampleInput 3).2 :=
  ⟨Filter_resetMemory_erases_history (.antiResonator usedAntiResonator)
      (.antiResonator { usedAntiResonator with p1 := 0, p2 := 0 }) rfl rfl
      sampleInput sampleInput 4 0 sampleInput 3,
    by decide, by decide⟩

theorem sumRange_eq_sum [AddCommMonoid α] (n : Nat) (f : Nat → α) :
    sumRange n f = ∑ i in Finset.range n, f (i + 1) := by
  induction n with
  | zero => simp [sumRange_zero]
  | succ n ih => rw [sumRange_succ, Finset.sum_range_succ, ih]

/-- The inequality of Cauchy and Schwarz for the sums of this development:
two vectors whose squared norms are at most 1 have a dot product between -1
and 1. -/
theorem dot_bounded [LinearOrderedField α] (n : Nat) (a b : Nat → α)
    (ha : sumRange n (fun j => a j * a j) ≤ 1) (hb : sumRange n (fun j => b j * b j) ≤ 1) :
    -1 ≤ sumRange n (fun j => a j * b j) ∧ sumRange n (fun j => a j * b j) ≤ 1 := by
  rw [sumRange_eq_sum] at ha hb ⊢
  have hcs := Finset.sum_mul_sq_le_sq_mul_sq (Finset.range n) (fun i => a (i + 1))
    (fun i => b (i + 1))
  have ha' : ∑ i in Finset.range n, a (i + 1) ^ 2 ≤ 1 := by
    simpa [pow_two] using ha
  have hb' : ∑ i in Finset.range n, b (i + 1) ^ 2 ≤ 1 := by
    simpa [pow_two] using hb
  have ha0 : 0 ≤ ∑ i in Finset.range n, a (i + 1) ^ 2 :=
    Finset.sum_nonneg (fun i _ => sq_nonneg _)
  have hb0 : 0 ≤ ∑ i in Finset.range n, b (i + 1) ^ 2 :=
    Finset.sum_nonneg (fun i _ => sq_nonneg _)
  have hsq : (∑ i in Finset.range n, a (i + 1) * b (i + 1)) ^ 2 ≤ 1 :=
    le_trans hcs (by
      calc (∑ i in Finset.range n, a (i + 1) ^ 2) * ∑ i in Finset.range n, b (i + 1) ^ 2
          ≤ 1 * 1 := mul_le_mul ha' hb' hb0 (by norm_num)
        _ = 1 := by norm_num)
  have hmul : (∑ i in Finset.range n, a (i + 1) * b (i + 1))
      * (∑ i in Finset.range n, a (i + 1) * b (i + 1)) ≤ 1 := by
    rw [← pow_two]
    exact hsq
  exact abs_le.mp (abs_le_one_iff_mul_self_le_one.mpr hmul)

/-- A sum of squares that is 0 has only terms that are 0. -/
theorem sumRange_squares_eq_zero [LinearOrderedField α] (n : Nat) (f : Nat → α)
    (h : sumRange n (fun j => f j * f j) = 0) : ∀ j, 1 ≤ j → j ≤ n → f j = 0 := by
  rw [sumRange_eq_sum] at h
  intro j j1 j2
  have := (Finset.sum_eq_zero_iff_of_nonneg
    (fun i _ => mul_self_nonneg (f (i + 1)))).mp h (j - 1) (Finset.mem_range.mpr (by omega))
  have e : j - 1 + 1 = j := by omega
  rw [e] at this
  exact mul_self_eq_zero.mp this

/-- With a kernel that normalizes the rows of the copy of T, every row of
the normalized copy has a squared L2 norm of at most 1, and of exactly 1
when the row was not zero before the normalization. -/
theorem normalized_row_norm [LinearOrderedField α] (K : MatrixKernels α) (centre : Bool)
    (T : TableOfReal α) (hT : K.NormalizesRowsOf centre T) (i : Nat) (i1 : 1 ≤ i)
    (i2 : i ≤ T.numberOfRows) :
    sumRange T.numberOfColumns (fun j =>
      rowTransformed K centre true T i j * rowTransformed K centre true T i j) ≤ 1 ∧
    ((∃ j, 1 ≤ j ∧ j ≤ T.numberOfColumns ∧ rowTransformed K centre false T i j ≠ 0) →
      sumRange T.numberOfColumns (fun j =>
        rowTransformed K centre true T i j * rowTransformed K centre true T i j) = 1) := by
  obtain ⟨n, -, hn, hcells⟩ := hT i i1 i2
  by_cases hz : n = 0
  · have hsum : sumRange T.numberOfColumns (fun j =>
        rowTransformed K centre false T i j * rowTransformed K centre false T i j) = 0 := by
      rw [← hn, hz, mul_zero]
    have hzero := sumRange_squares_eq_zero T.numberOfColumns _ hsum
    have hout : sumRange T.numberOfColumns (fun j =>
        rowTransformed K centre true T i j * rowTransformed K centre true T i j) = 0 := by
      rw [sumRange_congr T.numberOfColumns _ (fun _ => (0 : α)) (fun j j1 j2 => by
        rw [(hcells j j1 j2).1 hz, hzero j j1 j2, mul_zero])]
      rw [sumRange_eq_sum]
      simp
    refine ⟨by rw [hout]; exact zero_le_one, ?_⟩
    rintro ⟨j, j1, j2, hj⟩
    exact absurd (hzero j j1 j2) hj
  · have hout : sumRange T.numberOfColumns (fun j =>
        rowTransformed K centre true T i j * rowTransformed K centre true T i j) = 1 := by
      rw [sumRange_congr T.numberOfColumns _ (fun j =>
        rowTransformed K centre false T i j * rowTransformed K centre false T i j / (n * n))
        (fun j j1 j2 => by
          rw [(hcells j j1 j2).2 hz, div_mul_div_comm])]
      rw [sumRange_div, ← hn]
      exact div_self (mul_self_ne_zero.mpr hz)
    exact ⟨le_of_eq hout, fun _ => hout⟩

/-- Claim C39, amended: in exact arithmetic (nothing is rounded: the
accumulator has the type of the cells), with a kernel that divides every row
of the working copies of A and B by its L2 norm, for tables with equal
column counts and both values of `centre`, every cell of
TableOfReal_TableOfReal_rowCorrelations with normalize = true lies between
-1 and 1; and with B = A every diagonal cell (i,i) whose row i of the
(centred) copy is not zero equals 1. -/
theorem TableOfReal_TableOfReal_rowCorrelations_bounded [LinearOrderedField α]
    (K : MatrixKernels α) (A B : TableOfReal α) (centre : Bool)
    (hcols : A.numberOfColumns = B.numberOfColumns)
    (hA : K.NormalizesRowsOf centre A) (hB : K.NormalizesRowsOf centre B) :
    (∃ R, TableOfReal_TableOfReal_rowCorrelations Accumulator.exact K A B centre true = .ok R ∧
      ∀ i k, 1 ≤ i → i ≤ A.numberOfRows → 1 ≤ k → k ≤ B.numberOfRows →
        -1 ≤ R.data i k ∧ R.data i k ≤ 1) ∧
    (∃ R, TableOfReal_TableOfReal_rowCorrelations Accumulator.exact K A A centre true = .ok R ∧
      ∀ i, 1 ≤ i → i ≤ A.numberOfRows →
        (∃ j, 1 ≤ j ∧ j ≤ A.numberOfColumns ∧ rowTransformed K centre false A i j ≠ 0) →
        R.data i i = 1) := by
  constructor
  · refine ⟨_, rowCorrelations_eq Accumulator.exact K A B centre true hcols, ?_⟩
    intro i k i1 i2 k1 k2
    show -1 ≤ ite _ _ _ ∧ ite _ _ _ ≤ 1
    rw [if_pos ⟨i1, i2, k1, k2⟩]
    exact dot_bounded A.numberOfColumns _ _ (normalized_row_norm K centre A hA i i1 i2).1
      (by rw [hcols]; exact (normalized_row_norm K centre B hB k k1 k2).1)
  · refine ⟨_, rowCorrelations_eq Accumulator.exact K A A centre true rfl, ?_⟩
    intro i i1 i2 hnz
    show ite _ _ _ = 1
    rw [if_pos ⟨i1, i2, i1, i2⟩]
    exact (normalized_row_norm K centre A hA i i1 i2).2 hnz

/-- The exact kernel normalizes the rows [3, 4], [6, 8] and the row [4, 3],
whose norms 5, 10 and 5 are rational. -/
theorem exactMatrix_normalizes_corrTables :
    exactMatrix.NormalizesRowsOf false corrTableA ∧
      exactMatrix.NormalizesRowsOf false corrTableB := by
  constructor
  · intro i i1 i2
    have h2 : i ≤ 2 := i2
    have : i = 1 ∨ i = 2 := by omega
    rcases this with rfl | rfl
    · refine ⟨5, by norm_num, by decide!, ?_⟩
      intro j j1 j2
      have h2 : j ≤ 2 := j2
      have : j = 1 ∨ j = 2 := by omega
      rcases this with rfl | rfl
      · exact ⟨fun h => absurd h (by norm_num), fun _ => by decide!⟩
      · exact ⟨fun h => absurd h (by norm_num), fun _ => by decide!⟩
    · refine ⟨10, by norm_num, by decide!, ?_⟩
      intro j j1 j2
      have h2 : j ≤ 2 := j2
      have : j = 1 ∨ j = 2 := by omega
      rcases this with rfl | rfl
      · exact ⟨fun h => absurd h (by norm_num), fun _ => by decide!⟩
      · exact ⟨fun h => absurd h (by norm_num), fun _ => by decide!⟩
  · intro i i1 i2
    have h2 : i ≤ 1 := i2
    have : i = 1 := by omega
    subst this
    refine ⟨5, by norm_num, by decide!, ?_⟩
    intro j j1 j2
    have h2 : j ≤ 2 := j2
    have : j = 1 ∨ j = 2 := by omega
    rcases this with rfl | rfl
    · exact ⟨fun h => absurd h (by norm_num), fun _ => by decide!⟩
    · exact ⟨fun h => absurd h (by norm_num), fun _ => by decide!⟩

/-- Witness of claim C39: in exact arithmetic the normalized rows [3, 4],
[6, 8] against [4, 3] give 24/25 twice, and against themselves a table of
ones. -/
theorem TableOfReal_TableOfReal_rowCorrelations_bounded_witness :
    ((∃ R, TableOfReal_TableOfReal_rowCorrelations Accumulator.exact exactMatrix
        corrTableA corrTableB false true = .ok R ∧
      ∀ i k, 1 ≤ i → i ≤ corrTableA.numberOfRows → 1 ≤ k → k ≤ corrTableB.numberOfRows →
        -1 ≤ R.data i k ∧ R.data i k ≤ 1) ∧
    (∃ R, TableOfReal_TableOfReal_rowCorrelations Accumulator.exact exactMatrix
        corrTableA corrTableA false true = .ok R ∧
      ∀ i, 1 ≤ i → i ≤ corrTableA.numberOfRows →
        (∃ j, 1 ≤ j ∧ j ≤ corrTableA.numberOfColumns ∧
          rowTransformed exactMatrix false false corrTableA i j ≠ 0) →
        R.data i i = 1)) ∧
    (∃ R, TableOfReal_TableOfReal_rowCorrelations Accumulator.exact exactMatrix
        corrTableA corrTableA false true = .ok R ∧
      tableRows R = [(some "a1", [1, 1]), (some "a2", [1, 1])]) :=
  ⟨TableOfReal_TableOfReal_rowCorrelations_bounded exactMatrix corrTableA corrTableB false rfl
      exactMatrix_normalizes_corrTables.1 exactMatrix_normalizes_corrTables.2,
    ⟨_, rfl, by decide!⟩⟩

/-- Claim C39, counterexample: in the arithmetic of the types
`double` and `longdouble`, the table with the rows [3, 4] and [6, 8],
correlated with itself with normalize = true, has the cell (1,1)
1 + 2^-52, which is greater than 1.  The norm of the row [3, 4] is 5; the
row is multiplied by the `double` nearest to 1/5, which gives the `double`s
next above 3/5 and nearest to 4/5; their squares, rounded to `double`, add
up to 1 + 2^-52 in the accumulator, and this sum is a `double`. -/
theorem TableOfReal_TableOfReal_rowCorrelations_exceeds_one :
    ∃ R, TableOfReal_TableOfReal_rowCorrelations ieeeAccumulator doubleMatrix
        doubleTableA doubleTableA false true = .ok R ∧
      (rowTransformed doubleMatrix false true doubleTableA 1 1).val
        = 5404319552844596 / 2 ^ 53 ∧
      (rowTransformed doubleMatrix false true doubleTableA 1 2).val
        = 3602879701896397 / 2 ^ 52 ∧
      (R.data 1 1).val = 1 + 1 / 2 ^ 52 ∧ ¬ ((R.data 1 1).val ≤ 1) :=
  ⟨_, rfl, by decide!, by decide!, by decide!, by decide!⟩

theorem Cell.num_lt_num [LT α] (x y : α) : (Cell.num x < Cell.num y) ↔ x < y := Iff.rfl

theorem Cell.num_le_num [LE α] (x y : α) : (Cell.num x ≤ Cell.num y) ↔ x ≤ y := Iff.rfl

theorem Cell.not_nan_lt [LT α] (b : Cell α) : ¬ (Cell.nan < b) := fun h => h

theorem Cell.not_lt_nan [LT α] (a : Cell α) : ¬ (a < Cell.nan) := by
  cases a <;> exact fun h => h

theorem Cell.not_nan_le [LE α] (b : Cell α) : ¬ (Cell.nan ≤ b) := fun h => h

theorem Cell.not_le_nan [LE α] (a : Cell α) : ¬ (a ≤ Cell.nan) := by
  cases a <;> exact fun h => h

/-- A counted loop commutes with a map of the state that its body commutes
with at every counter value of the loop. -/
theorem forLoopAux_map {σ τ : Type} (g : σ → τ) (f : Nat → σ → σ) (f1 : Nat → τ → τ) :
    ∀ (n i : Nat) (s : σ), (∀ k t, i ≤ k → k < i + n → f1 k (g t) = g (f k t)) →
      forLoopAux f1 n i (g s) = g (forLoopAux f n i s) := by
  intro n
  induction n with
  | zero => intro i s _; rfl
  | succ n ih =>
    intro i s h
    show forLoopAux f1 n (i + 1) (f1 i (g s)) = g (forLoopAux f n (i + 1) (f i s))
    rw [h i s (le_refl _) (by omega)]
    exact ih (i + 1) (f i s) (fun k t k1 k2 => h k t (by omega) (by omega))

theorem forLoop_map {σ τ : Type} (g : σ → τ) (lo hi : Nat) (f : Nat → σ → σ)
    (f1 : Nat → τ → τ) (s : σ)
    (h : ∀ k t, lo ≤ k → k ≤ hi → f1 k (g t) = g (f k t)) :
    forLoop lo hi f1 (g s) = g (forLoop lo hi f s) := by
  unfold forLoop
  exact forLoopAux_map g f f1 _ lo s (fun k t k1 k2 => h k t k1 (by omega))

/-- A row or column of cells of which none is NaN in `1..n` is, there, a row
or column of numbers. -/
theorem Cell.numbers_of_no_nan (v : Nat → Cell α) (n : Nat) (hn : 1 ≤ n)
    (h : ∀ j, 1 ≤ j → j ≤ n → v j ≠ .nan) :
    ∃ w : Nat → α, ∀ j, 1 ≤ j → j ≤ n → v j = .num (w j) := by
  have h1 := h 1 (le_refl _) hn
  cases e : v 1 with
  | nan => exact absurd e h1
  | num x0 =>
    refine ⟨fun j => match v j with | .num x => x | .nan => x0, ?_⟩
    intro j j1 j2
    have hj := h j j1 j2
    cases ej : v j with
    | nan => exact absurd ej hj
    | num x => simp only [ej]

/-- The scan of TableOfReal_getColumnIndexAtMaximumInRow over a row of cells
of which none is NaN: the index it ends with is the first one at which the
row attains its maximum. -/
theorem indexAtMaximum_scan_cells [LinearOrder α] (v : Nat → Cell α) (n : Nat) (hn : 1 ≤ n)
    (h : ∀ j, 1 ≤ j → j ≤ n → v j ≠ .nan) :
    let s := forLoop 2 n (fun icol (s : Cell α × Nat) =>
      if v icol > s.1 then (v icol, icol) else s) (v 1, 1)
    1 ≤ s.2 ∧ s.2 ≤ n ∧ (∀ j, 1 ≤ j → j ≤ n → v j ≤ v s.2) ∧
      ∀ j, 1 ≤ j → j < s.2 → v j < v s.2 := by
  dsimp only
  obtain ⟨w, hw⟩ := Cell.numbers_of_no_nan v n hn h
  have hmap := forLoop_map (fun (s : α × Nat) => ((Cell.num s.1, s.2) : Cell α × Nat)) 2 n
    (fun icol (s : α × Nat) => if w icol > s.1 then (w icol, icol) else s)
    (fun icol (s : Cell α × Nat) => if v icol > s.1 then (v icol, icol) else s) (w 1, 1)
    (by
      intro k t k1 k2
      dsimp only
      rw [hw k (by omega) k2]
      by_cases hc : w k > t.1
      · rw [if_pos hc, if_pos ((Cell.num_lt_num _ _).mpr hc)]
      · rw [if_neg hc, if_neg (fun hh => hc ((Cell.num_lt_num _ _).mp hh))])
  rw [hw 1 (le_refl _) hn, hmap]
  obtain ⟨a1, a2, a3, a4⟩ := indexAtMaximum_scan w n hn
  refine ⟨a1, a2, ?_, ?_⟩
  · intro j j1 j2
    show v j ≤ v _
    rw [hw j j1 j2, hw _ a1 a2]
    exact (Cell.num_le_num _ _).mpr (a3 j j1 j2)
  · intro j j1 j2
    have j2 : j < (forLoop 2 n (fun icol (s : α × Nat) =>
      if w icol > s.1 then (w icol, icol) else s) (w 1, 1)).2 := j2
    show v j < v _
    rw [hw j j1 (by omega), hw _ a1 a2]
    exact (Cell.num_lt_num _ _).mpr (a4 j j1 j2)
/-- The scan of TableOfReal_getColumnExtrema over a column of cells of which
none is NaN: both results occur in the column and bound it. -/
theorem extrema_scan_cells [LinearOrder α] (v : Nat → Cell α) (n : Nat) (hn : 1 ≤ n)
    (h : ∀ j, 1 ≤ j → j ≤ n → v j ≠ .nan) :
    let mm := forLoop 2 n (fun i (mm : Cell α × Cell α) =>
      if v i > mm.2 then (mm.1, v i)
      else if v i < mm.1 then (v i, mm.2)
      else mm) (v 1, v 1)
    (∃ i, 1 ≤ i ∧ i ≤ n ∧ v i = mm.1) ∧ (∃ i, 1 ≤ i ∧ i ≤ n ∧ v i = mm.2) ∧
      ∀ i, 1 ≤ i → i ≤ n → mm.1 ≤ v i ∧ v i ≤ mm.2 := by
  dsimp only
  obtain ⟨w, hw⟩ := Cell.numbers_of_no_nan v n hn h
  have hmap := forLoop_map
    (fun (s : α × α) => ((Cell.num s.1, Cell.num s.2) : Cell α × Cell α)) 2 n
    (fun i (mm : α × α) =>
      if w i > mm.2 then (mm.1, w i)
      else if w i < mm.1 then (w i, mm.2)
      else mm)
    (fun i (mm : Cell α × Cell α) =>
      if v i > mm.2 then (mm.1, v i)
      else if v i < mm.1 then (v i, mm.2)
      else mm) (w 1, w 1)
    (by
      intro k t k1 k2
      dsimp only
      rw [hw k (by omega) k2]
      by_cases hc : w k > t.2
      · rw [if_pos hc, if_pos ((Cell.num_lt_num _ _).mpr hc)]
      · rw [if_neg hc, if_neg (fun hh => hc ((Cell.num_lt_num _ _).mp hh))]
        by_cases hd : w k < t.1
        · rw [if_pos hd, if_pos ((Cell.num_lt_num _ _).mpr hd)]
        · rw [if_neg hd, if_neg (fun hh => hd ((Cell.num_lt_num _ _).mp hh))])
  rw [hw 1 (le_refl _) hn, hmap]
  obtain ⟨⟨a, a1, a2, a3⟩, ⟨b, b1, b2, b3⟩, hb⟩ := extrema_scan w n hn
  refine ⟨⟨a, a1, a2, ?_⟩, ⟨b, b1, b2, ?_⟩, ?_⟩
  · rw [hw a a1 a2, a3]
  · rw [hw b b1 b2, b3]
  · intro i i1 i2
    rw [hw i i1 i2]
    exact ⟨(Cell.num_le_num _ _).mpr (hb i i1 i2).1, (Cell.num_le_num _ _).mpr (hb i i1 i2).2⟩

/-- Both results of the scan of TableOfReal_getColumnExtrema are cells of the
column, whatever the comparison does. -/
theorem extrema_scan_occur [LT α] [∀ a b : α, Decidable (a < b)] (v : Nat → α) (n : Nat)
    (hn : 1 ≤ n) :
    let mm := forLoop 2 n (fun i (mm : α × α) =>
      if v i > mm.2 then (mm.1, v i)
      else if v i < mm.1 then (v i, mm.2)
      else mm) (v 1, v 1)
    (∃ i, 1 ≤ i ∧ i ≤ n ∧ v i = mm.1) ∧ (∃ i, 1 ≤ i ∧ i ≤ n ∧ v i = mm.2) := by
  dsimp only
  have := forLoop_induct
    (fun k (mm : α × α) =>
      (∃ i, 1 ≤ i ∧ i < k ∧ v i = mm.1) ∧ (∃ i, 1 ≤ i ∧ i < k ∧ v i = mm.2))
    2 n
    (fun i (mm : α × α) =>
      if v i > mm.2 then (mm.1, v i)
      else if v i < mm.1 then (v i, mm.2)
      else mm) (v 1, v 1) (by omega)
    ⟨⟨1, le_refl _, by omega, rfl⟩, ⟨1, le_refl _, by omega, rfl⟩⟩
    (by
      intro k t k1 k2 ⟨⟨a, a1, a2, a3⟩, ⟨b, b1, b2, b3⟩⟩
      show (∃ i, _ ∧ _ ∧ v i = (ite _ _ _ : α × α).1) ∧
        (∃ i, _ ∧ _ ∧ v i = (ite _ _ _ : α × α).2)
      by_cases h1 : v k > t.2
      · rw [if_pos h1]
        exact ⟨⟨a, a1, by omega, a3⟩, ⟨k, by omega, by omega, rfl⟩⟩
      · rw [if_neg h1]
        by_cases h2 : v k < t.1
        · rw [if_pos h2]
          exact ⟨⟨k, by omega, by omega, rfl⟩, ⟨b, b1, by omega, b3⟩⟩
        · rw [if_neg h2]
          exact ⟨⟨a, a1, by omega, a3⟩, ⟨b, b1, by omega, b3⟩⟩)
  obtain ⟨⟨a, a1, a2, a3⟩, ⟨b, b1, b2, b3⟩⟩ := this
  exact ⟨⟨a, a1, by omega, a3⟩, ⟨b, b1, by omega, b3⟩⟩

/-- The index that the scan of TableOfReal_getColumnIndexAtMaximumInRow ends
with is a column of the row, whatever the comparison does. -/
theorem indexAtMaximum_scan_range [LT α] [∀ a b : α, Decidable (a < b)] (v : Nat → α)
    (n : Nat) (hn : 1 ≤ n) :
    let s := forLoop 2 n (fun icol (s : α × Nat) =>
      if v icol > s.1 then (v icol, icol) else s) (v 1, 1)
    1 ≤ s.2 ∧ s.2 ≤ n := by
  dsimp only
  have := forLoop_induct (fun k (s : α × Nat) => 1 ≤ s.2 ∧ s.2 < k) 2 n
    (fun icol (s : α × Nat) => if v icol > s.1 then (v icol, icol) else s) (v 1, 1)
    (by omega) ⟨le_refl _, (by show 1 < 2; omega)⟩
    (by
      intro k t k1 k2 ⟨a1, a2⟩
      show 1 ≤ (ite _ _ _ : α × Nat).2 ∧ (ite _ _ _ : α × Nat).2 < k + 1
      by_cases hc : v k > t.1
      · rw [if_pos hc]
        show 1 ≤ k ∧ k < k + 1
        omega
      · rw [if_neg hc]
        exact ⟨a1, by omega⟩)
  exact ⟨this.1, by have := this.2; omega⟩

/-- Claim C24, amended: TableOfReal_getColumnExtrema fails, with the error
of an invalid column number, if and only if `col` is outside
1..numberOfColumns; otherwise, on a table with at least one row, the minimum
and the maximum it returns both occur in column `col`, and if no cell of the
column is NaN, every cell of the column lies between them. -/
theorem TableOfReal_getColumnExtrema_spec [LinearOrder α] (T : TableOfReal (Cell α))
    (col : Nat) (hrows : 1 ≤ T.numberOfRows) :
    ((∃ e, TableOfReal_getColumnExtrema T col = .error e) ↔
      ¬ (1 ≤ col ∧ col ≤ T.numberOfColumns)) ∧
    (¬ (1 ≤ col ∧ col ≤ T.numberOfColumns) →
      TableOfReal_getColumnExtrema T col = .error .invalidColumnNumber) ∧
    (1 ≤ col ∧ col ≤ T.numberOfColumns →
      ∃ min max, TableOfReal_getColumnExtrema T col = .ok (min, max) ∧
        (∃ i, 1 ≤ i ∧ i ≤ T.numberOfRows ∧ T.data i col = min) ∧
        (∃ i, 1 ≤ i ∧ i ≤ T.numberOfRows ∧ T.data i col = max) ∧
        ((∀ i, 1 ≤ i → i ≤ T.numberOfRows → T.data i col ≠ .nan) →
          ∀ i, 1 ≤ i → i ≤ T.numberOfRows → min ≤ T.data i col ∧ T.data i col ≤ max)) := by
  have herr : ¬ (1 ≤ col ∧ col ≤ T.numberOfColumns) →
      TableOfReal_getColumnExtrema T col = .error .invalidColumnNumber := by
    intro h
    unfold TableOfReal_getColumnExtrema
    rw [if_pos (fun hc => h ⟨hc.1, hc.2⟩)]
  have hok : 1 ≤ col ∧ col ≤ T.numberOfColumns →
      ∃ min max, TableOfReal_getColumnExtrema T col = .ok (min, max) ∧
        (∃ i, 1 ≤ i ∧ i ≤ T.numberOfRows ∧ T.data i col = min) ∧
        (∃ i, 1 ≤ i ∧ i ≤ T.numberOfRows ∧ T.data i col = max) ∧
        ((∀ i, 1 ≤ i → i ≤ T.numberOfRows → T.data i col ≠ .nan) →
          ∀ i, 1 ≤ i → i ≤ T.numberOfRows → min ≤ T.data i col ∧ T.data i col ≤ max) := by
    intro h
    have ho := extrema_scan_occur (fun i => T.data i col) T.numberOfRows hrows
    refine ⟨_, _, ?_, ho.1, ho.2, fun hnum =>
      (extrema_scan_cells (fun i => T.data i col) T.numberOfRows hrows hnum).2.2⟩
    unfold TableOfReal_getColumnExtrema
    rw [if_neg (not_not.mpr ⟨h.1, h.2⟩)]
  refine ⟨⟨?_, fun h => ⟨_, herr h⟩⟩, herr, hok⟩
  intro ⟨e, he⟩ hin
  obtain ⟨mn, mx, hr, -⟩ := hok hin
  rw [hr] at he
  cases he

/-- Witness of claim C24: the second column 2, 4, 20 of the table of numbers
has no NaN and the extrema 2 and 20, which bound it; column 3 does not
exist. -/
theorem TableOfReal_getColumnExtrema_spec_witness :
    TableOfReal_getColumnExtrema numberTable 2 = .ok (.num 2, .num 20) ∧
    (∀ i, 1 ≤ i → i ≤ numberTable.numberOfRows → numberTable.data i 2 ≠ .nan) ∧
    (∃ min max, TableOfReal_getColumnExtrema numberTable 2 = .ok (min, max) ∧
      (∃ i, 1 ≤ i ∧ i ≤ numberTable.numberOfRows ∧ numberTable.data i 2 = min) ∧
      (∃ i, 1 ≤ i ∧ i ≤ numberTable.numberOfRows ∧ numberTable.data i 2 = max) ∧
      ∀ i, 1 ≤ i → i ≤ numberTable.numberOfRows →
        min ≤ numberTable.data i 2 ∧ numberTable.data i 2 ≤ max) ∧
    TableOfReal_getColumnExtrema numberTable 3 = .error .invalidColumnNumber :=
  ⟨rfl, by decide,
    ((TableOfReal_getColumnExtrema_spec numberTable 2 (by decide)).2.2 (by decide)).imp
      (fun _ h => h.imp (fun _ h => ⟨h.1, h.2.1, h.2.2.1, h.2.2.2 (by decide)⟩)),
    (TableOfReal_getColumnExtrema_spec numberTable 3 (by decide)).2.1 (by decide)⟩

/-- Claim C24, counterexample: on the column NaN, 5, 3 the scan starts both
extrema at NaN, no comparison with NaN holds, and the routine returns NaN as
minimum and as maximum; they do not bound the cell 5 of the column. -/
theorem TableOfReal_getColumnExtrema_nan :
    TableOfReal_getColumnExtrema nanColumnTable 1 = .ok (.nan, .nan) ∧
    nanColumnTable.data 2 1 = .num 5 ∧
    ¬ ((Cell.nan : Cell Int) ≤ nanColumnTable.data 2 1) ∧
    ¬ (nanColumnTable.data 2 1 ≤ (Cell.nan : Cell Int)) :=
  ⟨rfl, rfl, by decide, by decide⟩

/-- Claim C38, amended: on a table with at least one column,
TableOfReal_getColumnIndexAtMaximumInRow returns 0 if and only if the row
number is outside 1..numberOfRows; otherwise it returns a column index, and
if no cell of the row is NaN, the cell at that index is at least every cell
of the row and strictly greater than every cell to its left: the smallest
index at which the row attains its maximum. -/
theorem TableOfReal_getColumnIndexAtMaximumInRow_spec [LinearOrder α]
    (T : TableOfReal (Cell α)) (rowNumber : Nat) (hcols : 1 ≤ T.numberOfColumns) :
    (TableOfReal_getColumnIndexAtMaximumInRow T rowNumber = 0 ↔
      ¬ (1 ≤ rowNumber ∧ rowNumber ≤ T.numberOfRows)) ∧
    (1 ≤ rowNumber ∧ rowNumber ≤ T.numberOfRows →
      1 ≤ TableOfReal_getColumnIndexAtMaximumInRow T rowNumber ∧
      TableOfReal_getColumnIndexAtMaximumInRow T rowNumber ≤ T.numberOfColumns ∧
      ((∀ j, 1 ≤ j → j ≤ T.numberOfColumns → T.data rowNumber j ≠ .nan) →
        (∀ j, 1 ≤ j → j ≤ T.numberOfColumns →
          T.data rowNumber j
            ≤ T.data rowNumber (TableOfReal_getColumnIndexAtMaximumInRow T rowNumber)) ∧
        ∀ j, 1 ≤ j → j < TableOfReal_getColumnIndexAtMaximumInRow T rowNumber →
          T.data rowNumber j
            < T.data rowNumber (TableOfReal_getColumnIndexAtMaximumInRow T rowNumber))) := by
  have hrange : 1 ≤ rowNumber ∧ rowNumber ≤ T.numberOfRows →
      1 ≤ TableOfReal_getColumnIndexAtMaximumInRow T rowNumber ∧
      TableOfReal_getColumnIndexAtMaximumInRow T rowNumber ≤ T.numberOfColumns := by
    intro h
    have hs := indexAtMaximum_scan_range (fun j => T.data rowNumber j) T.numberOfColumns hcols
    simp only at hs
    unfold TableOfReal_getColumnIndexAtMaximumInRow
    simp only
    rw [if_pos ⟨h.1, h.2⟩]
    exact hs
  refine ⟨⟨?_, ?_⟩, ?_⟩
  · intro h0 hc
    have := (hrange hc).1
    omega
  · intro h
    unfold TableOfReal_getColumnIndexAtMaximumInRow
    simp only
    rw [if_neg (fun hc => h ⟨hc.1, hc.2⟩)]
  · intro h
    refine ⟨(hrange h).1, (hrange h).2, ?_⟩
    intro hnum
    have hs := indexAtMaximum_scan_cells (fun j => T.data rowNumber j) T.numberOfColumns
      hcols hnum
    simp only at hs
    unfold TableOfReal_getColumnIndexAtMaximumInRow
    simp only
    rw [if_pos ⟨h.1, h.2⟩]
    exact hs.2.2

/-- Witness of claim C38: the row 5, 9, 9, 2 has no NaN and its maximum is
first attained in column 2; row 0 and row 2 of the 1-row table give 0. -/
theorem TableOfReal_getColumnIndexAtMaximumInRow_spec_witness :
    TableOfReal_getColumnIndexAtMaximumInRow numberRowTable 1 = 2 ∧
    TableOfReal_getColumnIndexAtMaximumInRow numberRowTable 2 = 0 ∧
    TableOfReal_getColumnIndexAtMaximumInRow numberRowTable 0 = 0 ∧
    (∀ j, 1 ≤ j → j ≤ numberRowTable.numberOfColumns → numberRowTable.data 1 j ≠ .nan) ∧
    ((∀ j, 1 ≤ j → j ≤ numberRowTable.numberOfColumns →
        numberRowTable.data 1 j
          ≤ numberRowTable.data 1
            (TableOfReal_getColumnIndexAtMaximumInRow numberRowTable 1)) ∧
      ∀ j, 1 ≤ j → j < TableOfReal_getColumnIndexAtMaximumInRow numberRowTable 1 →
        numberRowTable.data 1 j
          < numberRowTable.data 1
            (TableOfReal_getColumnIndexAtMaximumInRow numberRowTable 1)) :=
  ⟨by decide,
    (TableOfReal_getColumnIndexAtMaximumInRow_spec numberRowTable 2 (by decide)).1.mpr
      (by decide),
    by decide, by decide,
    ((TableOfReal_getColumnIndexAtMaximumInRow_spec numberRowTable 1 (by decide)).2
      (by decide)).2.2 (by decide)⟩

/-- Claim C38, counterexample: on the row NaN, 5, 3 the scan
starts its maximum at NaN, no cell compares greater than NaN, and the
routine returns column 1, whose cell is not at least the cell 5 of
column 2. -/
theorem TableOfReal_getColumnIndexAtMaximumInRow_nan :
    TableOfReal_getColumnIndexAtMaximumInRow nanRowTable 1 = 1 ∧
    nanRowTable.data 1 1 = .nan ∧ nanRowTable.data 1 2 = .num 5 ∧
    ¬ (nanRowTable.data 1 2
      ≤ nanRowTable.data 1 (TableOfReal_getColumnIndexAtMaximumInRow nanRowTable 1)) :=
  ⟨by decide, rfl, rfl, by decide⟩

/-- The routine TableOfReal_checkNonNegativity is true if and only if no
cell of the table compares less than 0; nothing is used of the comparison. -/
theorem checkNonNegativity_iff_no_cell_negative [Zero α] [LT α]
    [∀ a b : α, Decidable (a < b)] (T : TableOfReal α) :
    TableOfReal_checkNonNegativity T = true ↔
      ∀ i j, 1 ≤ i → i ≤ T.numberOfRows → 1 ≤ j → j ≤ T.numberOfColumns →
        ¬ (T.data i j < 0) := by
  classical
  have hbody : (fun i (u : Unit) =>
      forLoopM 1 T.numberOfColumns (fun j (u : Unit) =>
        if T.data i j < 0 then Except.error false else Except.ok u) u) =
      fun i (u : Unit) =>
        if (∃ j, 1 ≤ j ∧ j ≤ T.numberOfColumns ∧ T.data i j < 0)
        then Except.error false else Except.ok u := by
    funext i u
    rcases forLoopM_search_cases (fun j => T.data i j < 0) (fun _ => false) 1
      T.numberOfColumns with ⟨hnone, hrun⟩ | ⟨k0, k1, k2, hb, -, hrun⟩
    · rw [hrun, if_neg (fun ⟨j, j1, j2, hj⟩ => hnone j j1 j2 hj)]
    · rw [hrun, if_pos ⟨k0, k1, k2, hb⟩]
  unfold TableOfReal_checkNonNegativity
  rw [hbody]
  rcases forLoopM_search_cases
    (fun i => ∃ j, 1 ≤ j ∧ j ≤ T.numberOfColumns ∧ T.data i j < 0) (fun _ => false) 1
    T.numberOfRows with ⟨hnone, hrun⟩ | ⟨k0, k1, k2, ⟨j, j1, j2, hj⟩, -, hrun⟩
  · rw [hrun]
    refine ⟨fun _ i j i1 i2 j1 j2 => ?_, fun _ => rfl⟩
    exact fun h => hnone i i1 i2 ⟨j, j1, j2, h⟩
  · rw [hrun]
    refine ⟨fun h => (by cases h), fun h => ?_⟩
    exact absurd hj (h k0 j k1 k2 j1 j2)

/-- Claim C31, amended: TableOfReal_checkNonNegativity is true if and only
if every cell of the table is NaN or at least 0, that is, if and only if no
cell is less than 0.  The routine only reads the table. -/
theorem TableOfReal_checkNonNegativity_iff [Zero α] [LinearOrder α] (T : TableOfReal (Cell α)) :
    TableOfReal_checkNonNegativity T = true ↔
      ∀ i j, 1 ≤ i → i ≤ T.numberOfRows → 1 ≤ j → j ≤ T.numberOfColumns →
        T.data i j = .nan ∨ 0 ≤ T.data i j := by
  rw [checkNonNegativity_iff_no_cell_negative]
  constructor
  · intro h i j i1 i2 j1 j2
    have := h i j i1 i2 j1 j2
    cases e : T.data i j with
    | nan => exact Or.inl rfl
    | num x =>
      rw [e] at this
      exact Or.inr ((Cell.num_le_num 0 x).mpr (le_of_not_lt (fun hx =>
        this ((Cell.num_lt_num x 0).mpr hx))))
  · intro h i j i1 i2 j1 j2
    rcases h i j i1 i2 j1 j2 with e | e
    · rw [e]
      exact Cell.not_nan_lt _
    · cases e1 : T.data i j with
      | nan => exact Cell.not_nan_lt _
      | num x =>
        rw [e1] at e
        exact fun hx => not_lt_of_le ((Cell.num_le_num 0 x).mp e) ((Cell.num_lt_num x 0).mp hx)

/-- Claim C31, counterexample: the row NaN, 5, 3 has a cell that
is not at least 0, the NaN, and TableOfReal_checkNonNegativity is true of
it, because NaN does not compare less than 0 either. -/
theorem TableOfReal_checkNonNegativity_nan :
    TableOfReal_checkNonNegativity nanRowTable = true ∧
    nanRowTable.data 1 1 = .nan ∧ ¬ (0 ≤ nanRowTable.data 1 1) :=
  ⟨by decide, rfl, by decide⟩

/-- The scan of TableOfReal_meansByRowLabels over a sorted table whose row
labels all have the empty text closes no group: it ends in the state in
which it starts. -/
theorem meansScan_one_group (N : Numerics α) (nc : Nat) (expand useMedians : Bool)
    (S : TableOfReal α) (n : Nat) (hn : 1 ≤ n)
    (hempty : ∀ i, 1 ≤ i → i ≤ n → labelText (S.rowLabels.elems i) = "") :
    forLoopM 2 n (meansScanBody N nc expand useMedians)
        { sorted := S, indexi := 1, indexr := 0, label := S.rowLabels.elems 1 }
      = .ok { sorted := S, indexi := 1, indexr := 0, label := S.rowLabels.elems 1 } := by
  refine forLoopM_closed
    (fun _ => ({ sorted := S, indexi := 1, indexr := 0, label := S.rowLabels.elems 1 } :
      MeansScan α)) 2 n _ _ (by omega) rfl ?_
  intro k k1 k2
  unfold meansScanBody
  simp only
  rw [if_neg]
  intro h
  exact (Melder_cmp_ne_zero_iff _ _).mp h
    (by rw [hempty k (by omega) k2, hempty 1 (le_refl _) hn])

/-- A counted loop with one iteration whose body does not throw. -/
theorem forLoopM_single {ε σ : Type} (lo : Nat) (body : Nat → σ → Except ε σ) (s t : σ)
    (h : body lo s = .ok t) : forLoopM lo lo body s = .ok t := by
  unfold forLoopM
  have e : lo + 1 - lo = 1 := by omega
  rw [e]
  simp only [forLoopMAux, h]

/-- Claim C28, amended: for every choice of expand and useMedians,
TableOfReal_meansByRowLabels fails with the error that there are no labels
to sort, returns no table and leaves the table as it is, when the row-label
vector of the table is null (no vector at all, as after a move).  A table
with at least one row whose row-label vector has one element per row is not
refused when all its row labels are absent or empty: the call returns a
table with the columns of the table and with one row, or with as many rows
as the table when expand is true.  The index
vector that NUMindexx_s returns is assumed to be a permutation of the row
numbers. -/
theorem TableOfReal_meansByRowLabels_no_labels [Zero α] (N : Numerics α) (T : TableOfReal α)
    (expand useMedians : Bool) :
    (T.rowLabels.size = 0 →
      TableOfReal_meansByRowLabels N T expand useMedians = (T, .error .noLabelsToSort)) ∧
    (1 ≤ T.numberOfRows → T.WF →
      (∀ i, 1 ≤ i → i ≤ T.numberOfRows → labelText (T.rowLabels.elems i) = "") →
      IsPermutation T.numberOfRows (N.NUMindexx_s T.rowLabels) →
      ∃ R, (TableOfReal_meansByRowLabels N T expand useMedians).2 = .ok R ∧
        R.numberOfRows = (if expand then T.numberOfRows else 1) ∧
        R.numberOfColumns = T.numberOfColumns) := by
  constructor
  · intro hnull
    unfold TableOfReal_meansByRowLabels TableOfReal_sortRowsByIndex
    simp only
    rw [if_pos hnull]
  · intro hn hwf hempty hperm
    obtain ⟨hr, hcsz⟩ := hwf
    have hsize0 : T.rowLabels.size ≠ 0 := by rw [hr]; omega
    have hfwd := TableOfReal_sortRowsByIndex_forward T (N.NUMindexx_s T.rowLabels) hn hsize0
      hperm.1
    have hS : ∀ i, 1 ≤ i → i ≤ T.numberOfRows →
        labelText ((sortedTable T (N.NUMindexx_s T.rowLabels)).rowLabels.elems i) = "" := by
      intro i i1 i2
      show labelText (ite _ _ _) = _
      rw [if_pos ⟨i1, i2⟩]
      exact hempty _ (hperm.1 i i1 i2).1 (hperm.1 i i1 i2).2
    have hscan := meansScan_one_group N T.numberOfColumns expand useMedians
      (sortedTable T (N.NUMindexx_s T.rowLabels)) T.numberOfRows hn hS
    cases expand with
    | true =>
      obtain ⟨R, hR, b1, b2, -⟩ := TableOfReal_sortRowsByIndex_backward
        ({ sortedTable T (N.NUMindexx_s T.rowLabels) with
            data := NUMstatsColumns N (sortedTable T (N.NUMindexx_s T.rowLabels)).data 1
              T.numberOfRows 1 T.numberOfColumns useMedians
            rowLabels := T.rowLabels } : TableOfReal α) (N.NUMindexx_s T.rowLabels)
        hn hsize0 hperm.1
        (fun i j h1 h2 h3 h4 => hperm.2 i h1 h2 j h3 h4)
      refine ⟨R, ?_, b1, b2⟩
      unfold TableOfReal_meansByRowLabels
      simp only [TableOfReal_getSortedIndexFromRowLabels, hfwd]
      rw [hscan]
      simp only [if_true]
      rw [hR]
    | false =>
      have hcopy := TableOfReal_copyOneRowWithLabel_other
        ({ sortedTable T (N.NUMindexx_s T.rowLabels) with
            data := NUMstatsColumns N (sortedTable T (N.NUMindexx_s T.rowLabels)).data 1
              T.numberOfRows 1 T.numberOfColumns useMedians } : TableOfReal α)
        (TableOfReal_create 1 T.numberOfColumns) 1 1 ⟨le_refl _, hn⟩ ⟨le_refl _, le_refl _⟩ rfl
      have hres : (TableOfReal_meansByRowLabels N T false useMedians).2 = .ok
          { numberOfRows := 1
            numberOfColumns := T.numberOfColumns
            data := fun r c =>
              if r = 1 ∧ 1 ≤ c ∧ c ≤ T.numberOfColumns then
                NUMstatsColumns N (sortedTable T (N.NUMindexx_s T.rowLabels)).data 1
                  T.numberOfRows 1 T.numberOfColumns useMedians 1 c
              else 0
            rowLabels := ⟨1, fun r =>
              if r = 1 then (sortedTable T (N.NUMindexx_s T.rowLabels)).rowLabels.elems 1
              else none⟩
            columnLabels := (TableOfReal_create 1 T.numberOfColumns :
              TableOfReal α).columnLabels.copyElementsFrom
                (sortedTable T (N.NUMindexx_s T.rowLabels)).columnLabels } := by
        unfold TableOfReal_meansByRowLabels
        simp only [TableOfReal_getSortedIndexFromRowLabels, hfwd]
        rw [hscan]
        simp only [Bool.false_eq_true, if_false]
        have hsame : TableOfReal_copyOneRowWithLabel
            ({ sortedTable T (N.NUMindexx_s T.rowLabels) with
              data := NUMstatsColumns N (sortedTable T (N.NUMindexx_s T.rowLabels)).data 1
                T.numberOfRows 1 T.numberOfColumns useMedians } : TableOfReal α)
            ({ sortedTable T (N.NUMindexx_s T.rowLabels) with
              data := NUMstatsColumns N (sortedTable T (N.NUMindexx_s T.rowLabels)).data 1
                T.numberOfRows 1 T.numberOfColumns useMedians } : TableOfReal α)
            true 1 (0 + 1) = .ok
            ({ sortedTable T (N.NUMindexx_s T.rowLabels) with
              data := NUMstatsColumns N (sortedTable T (N.NUMindexx_s T.rowLabels)).data 1
                T.numberOfRows 1 T.numberOfColumns useMedians } : TableOfReal α) := by
          unfold TableOfReal_copyOneRowWithLabel
          rw [if_pos ⟨rfl, rfl⟩]
        rw [hsame]
        simp only
        have hloop : forLoopM 1 (0 + 1) (fun i (thee : TableOfReal α) =>
            TableOfReal_copyOneRowWithLabel
              ({ sortedTable T (N.NUMindexx_s T.rowLabels) with
                data := NUMstatsColumns N (sortedTable T (N.NUMindexx_s T.rowLabels)).data 1
                  T.numberOfRows 1 T.numberOfColumns useMedians } : TableOfReal α)
              thee false i i) (TableOfReal_create (0 + 1) T.numberOfColumns) = _ :=
          forLoopM_single 1 _ _ _ hcopy
        rw [hloop]
        rfl
      exact ⟨_, hres, rfl, rfl⟩

/-- Witness of claim C28: the table with the rows [1,1], [3,3], [10,10]
without a row-label vector is refused; with a row-label vector of three
absent labels it is not. -/
theorem TableOfReal_meansByRowLabels_no_labels_witness :
    TableOfReal_meansByRowLabels exactNumerics unlabelledTable true false
      = (unlabelledTable, .error .noLabelsToSort) ∧
    TableOfReal_meansByRowLabels exactNumerics unlabelledTable false true
      = (unlabelledTable, .error .noLabelsToSort) ∧
    (∃ R, (TableOfReal_meansByRowLabels exactNumerics absentLabelsTable false true).2 = .ok R ∧
      R.numberOfRows = 1 ∧ R.numberOfColumns = absentLabelsTable.numberOfColumns) ∧
    (∃ R, (TableOfReal_meansByRowLabels exactNumerics absentLabelsTable true false).2 = .ok R ∧
      R.numberOfRows = absentLabelsTable.numberOfRows ∧
      R.numberOfColumns = absentLabelsTable.numberOfColumns) :=
  ⟨(TableOfReal_meansByRowLabels_no_labels exactNumerics unlabelledTable true false).1 rfl,
    (TableOfReal_meansByRowLabels_no_labels exactNumerics unlabelledTable false true).1 rfl,
    (TableOfReal_meansByRowLabels_no_labels exactNumerics absentLabelsTable false true).2
      (by decide) (by decide) (by decide) (by decide),
    (TableOfReal_meansByRowLabels_no_labels exactNumerics absentLabelsTable true false).2
      (by decide) (by decide) (by decide) (by decide)⟩

/-- Claim C28, counterexample: the table with the rows [1,1],
[3,3], [10,10] has no row labels at all (its three row labels are absent,
as TableOfReal_create leaves them, and TableOfReal_hasRowLabels is false of
it); TableOfReal_meansByRowLabels does not fail on it.  The null test of
the label vector passes, the three rows form one group under the absent
label, and the call returns the one row of the column means, or with expand
three rows of the column medians. -/
theorem TableOfReal_meansByRowLabels_absent_labels :
    absentLabelsTable.WF ∧
    (∀ i, 1 ≤ i → i ≤ absentLabelsTable.numberOfRows →
      absentLabelsTable.rowLabels.elems i = none) ∧
    TableOfReal_hasRowLabels absentLabelsTable = false ∧
    (∃ R, (TableOfReal_meansByRowLabels exactNumerics absentLabelsTable false false).2 = .ok R ∧
      tableRows R = [(none, [14/3, 14/3])]) ∧
    (∃ R, (TableOfReal_meansByRowLabels exactNumerics absentLabelsTable true true).2 = .ok R ∧
      tableRows R = [(none, [3, 3]), (none, [3, 3]), (none, [3, 3])]) :=
  ⟨by decide, by decide, by decide, ⟨_, rfl, by decide!⟩, ⟨_, rfl, by decide!⟩⟩

end Praat
